import Mathlib

/-!
# libv4l2cam: sparse and dense stereo correspondence

A shallow embedding of `v4l2stereo/stereo.cpp` (class `svs`) and of
`trunk/v4l2stereo/stereodense.cpp` (class `stereodense`).

Conventions of the embedding

* A C `int`/`long` is an `Int`; signed overflow is undefined in C and is not
  wrapped.  An `unsigned int` is an `Int` kept in `[0, 2^32)` with an explicit
  `% 4294967296` wherever the source can leave that range.
* A C array is a total function from indices to values (`Int → Int`); a write is
  `Function.update`.  Nothing is assumed about cells the program never wrote.
* A `for` loop is a fold over the list of values its counter takes; a `break`
  is a recursion that stops.
* `stereo.h` is not part of the sources at hand: its constants and its `pixindex`
  accessor are collected in `Header` and every definition takes them as a
  parameter.
-/

namespace Stereo

/-! ## Machine arithmetic -/

/-- Conversion of a C integer to `unsigned int`. -/
def u32 (v : Int) : Int := v % 4294967296

/-- Conversion of a C integer to `unsigned char`. -/
def u8 (v : Int) : Int := v % 256

/-- Conversion of a C integer to `unsigned short`. -/
def u16 (v : Int) : Int := v % 65536

/-- Conversion of a C integer to `short int`. -/
def i16 (v : Int) : Int := (v + 32768) % 65536 - 32768

/-- Conversion of an `unsigned int` to `int`. -/
def i32 (v : Int) : Int := (v + 2147483648) % 4294967296 - 2147483648

/-- C integer division, which truncates towards zero. -/
def cdiv (a b : Int) : Int := Int.tdiv a b

/-- C `abs` on integers. -/
def cabs (a : Int) : Int := if a < 0 then -a else a

/-- Values taken by the counter of `for (i = lo; i < hi; i++)`. -/
def upto (lo hi : Int) : List Int :=
  (List.range (hi - lo).toNat).map (fun (k : Nat) => lo + (k : Int))

/-- Values taken by the counter of `for (i = hi; i > lo; i--)`. -/
def downto (hi lo : Int) : List Int :=
  (List.range (hi - lo).toNat).map (fun (k : Nat) => hi - (k : Int))

/-- Values taken by the counter of `for (i = lo; i < hi; i += step)` with a
positive `step`; a non-positive step gives no iteration here (the C loop would
not terminate). -/
def stepRange (lo hi step : Int) : List Int :=
  if step ≤ 0 then []
  else (List.range ((hi - lo + step - 1) / step).toNat).map (fun (k : Nat) => lo + (k : Int) * step)

/-- The C call `memset(a, 0, n * sizeof(a[0]))`: clears cells `0 .. n-1`. -/
def memset0 (a : Int → Int) (n : Int) : Int → Int :=
  fun i => if 0 ≤ i ∧ i < n then 0 else a i

/-! ## Constants of `stereo.h` -/

/-- Constants and accessor declared in `stereo.h`, taken as parameters. -/
structure Header where
  SVS_MAX_FEATURES : Int
  SVS_MAX_MATCHES : Int
  SVS_DESCRIPTOR_PIXELS : Nat
  SVS_VERTICAL_SAMPLING : Int
  SVS_HORIZONTAL_SAMPLING : Int
  SVS_PEAKS_HISTORY : Int
  SVS_MAX_IMAGE_WIDTH : Int
  SVS_MAX_IMAGE_HEIGHT : Int
  /-- The accessor `pixindex(xx, yy)`; its first argument is `imgWidth`. -/
  pixindex : Int → Int → Int → Int

/-- Table `pixel_offsets` of `stereo.cpp`. -/
def pixel_offsets : List Int :=
  [-2, -4, -1, -4, 1, -4, 2, -4, -5, -2, -4, -2, -3,
   -2, -2, -2, -1, -2, 0, -2, 1, -2, 2, -2, 3, -2, 4, -2, 5, -2, -5, 2,
   -4, 2, -3, 2, -2, 2, -1, 2, 0, 2, 1, 2, 2, 2, 3, 2, 4, 2, 5, 2, -2, 4,
   -1, 4, 1, 4, 2, 4]

/-- Table `BitsSetTable256` of `stereo.cpp`. -/
def BitsSetTable256 : List Nat :=
  [0, 1, 1, 2, 1, 2, 2, 3, 1, 2, 2, 3,
   2, 3, 3, 4, 1, 2, 2, 3, 2, 3, 3, 4, 2, 3, 3, 4, 3, 4, 4, 5, 1, 2, 2, 3,
   2, 3, 3, 4, 2, 3, 3, 4, 3, 4, 4, 5, 2, 3, 3, 4, 3, 4, 4, 5, 3, 4, 4, 5,
   4, 5, 5, 6, 1, 2, 2, 3, 2, 3, 3, 4, 2, 3, 3, 4, 3, 4, 4, 5, 2, 3, 3, 4,
   3, 4, 4, 5, 3, 4, 4, 5, 4, 5, 5, 6, 2, 3, 3, 4, 3, 4, 4, 5, 3, 4, 4, 5,
   4, 5, 5, 6, 3, 4, 4, 5, 4, 5, 5, 6, 4, 5, 5, 6, 5, 6, 6, 7, 1, 2, 2, 3,
   2, 3, 3, 4, 2, 3, 3, 4, 3, 4, 4, 5, 2, 3, 3, 4, 3, 4, 4, 5, 3, 4, 4, 5,
   4, 5, 5, 6, 2, 3, 3, 4, 3, 4, 4, 5, 3, 4, 4, 5, 4, 5, 5, 6, 3, 4, 4, 5,
   4, 5, 5, 6, 4, 5, 5, 6, 5, 6, 6, 7, 2, 3, 3, 4, 3, 4, 4, 5, 3, 4, 4, 5,
   4, 5, 5, 6, 3, 4, 4, 5, 4, 5, 5, 6, 4, 5, 5, 6, 5, 6, 6, 7, 3, 4, 4, 5,
   4, 5, 5, 6, 4, 5, 5, 6, 5, 6, 6, 7, 4, 5, 5, 6, 5, 6, 6, 7, 5, 6, 6, 7,
   6, 7, 7, 8]

/-! ## State of an `svs` object -/

/-- Member variables of class `svs`.  `svs_matches` is the flat array of the
source: match `i` occupies cells `4i` (probability), `4i+1` (x), `4i+2` (y)
and `4i+3` (disparity).  `imgWidth` and `imgHeight` are taken to be `unsigned int`
members, as the casts `(int) imgWidth` of the source indicate: an expression that mixes
them with an `int` is evaluated modulo `2^32`. -/
structure Svs where
  imgWidth : Int
  imgHeight : Int
  feature_x : Int → Int
  feature_y : Int → Int
  features_per_row : Int → Int
  features_per_col : Int → Int
  descriptor : Int → Nat
  mean : Int → Int
  row_sum : Int → Int
  row_peaks : Int → Int
  svs_matches : Int → Int
  valid_quadrants : Int → Int
  disparity_priors : Int → Int
  disparity_histogram : Int → Int
  peaks_history : Int → Int
  peaks_history_index : Int
  enable_peaks_filter : Int
  calibration_map : Int → Int

/-- An image buffer of `unsigned char`; a read takes the stored value modulo 256. -/
def byteAt (buf : Int → Int) (i : Int) : Int := u8 (buf i)

/-! ## `svs::update_sums` -/

/-- The summing loop of `update_sums`: `for (x = 1; x < max; x++, idx += stride)`
with `sum += buf[idx]; row_sum[x] = sum`.  The loop state is `(sum, idx, row_sum)`. -/
def update_sums_loop (buf : Int → Int) (stride : Int) (xs : List Int)
    (st : Int × Int × (Int → Int)) : Int × Int × (Int → Int) :=
  xs.foldl (fun (st : Int × Int × (Int → Int)) x =>
    let sum := st.1 + byteAt buf st.2.1
    (sum, st.2.1 + stride, Function.update st.2.2 x sum)) st

/-- The edge-response loop of `update_sums`: `for (j = 4; j < max - 4; j++)`. -/
def update_peaks_loop (row_sum : Int → Int) (max : Int) (row_peaks : Int → Int) : Int → Int :=
  (upto 4 (max - 4)).foldl (fun rp j =>
    let sum := row_sum j
    let p0 := cabs ((sum - row_sum (j - 2)) - (row_sum (j + 2) - sum))
    let p1 := cabs ((sum - row_sum (j - 4)) - (row_sum (j + 4) - sum))
    Function.update rp j (p0 + p1)) row_peaks

/-- Function `svs::update_sums`: returns the value the source calls the row mean and
the updated object. -/
def update_sums (s : Svs) (cols i : Int) (buf : Int → Int) : Int × Svs :=
  let idx := if cols = 0 then s.imgWidth * i * 3 + 2 else i * 3 + 2
  let max := if cols = 0 then s.imgWidth else s.imgHeight
  let stride := if cols = 0 then 3 else s.imgWidth * 3
  let rs0 := Function.update s.row_sum 0 (byteAt buf idx)
  let rs := (update_sums_loop buf stride (upto 1 max) (0, idx, rs0)).2.2
  let mean := cdiv (rs (max - 1)) (max * 2)
  (mean, { s with row_sum := rs, row_peaks := update_peaks_loop rs max s.row_peaks })

/-! ## `svs::non_max` -/

/-- The inner loop of `non_max`, `for (r = 1; r < inhibition_radius; r++)`, over the
remaining values `rs` of `r`; the assignment `r = inhibition_radius` ends it. -/
def non_max_inner (i v : Int) : List Int → (Int → Int) → (Int → Int)
  | [], rp => rp
  | r :: rs, rp =>
    if rp (i + r) < v then non_max_inner i v rs (Function.update rp (i + r) 0)
    else Function.update rp i 0

/-- One iteration of the outer loop of `non_max`. -/
def non_max_step (inhibition_radius av_peaks : Int) (rp : Int → Int) (i : Int) : Int → Int :=
  let rp1 := if rp i < av_peaks then Function.update rp i 0 else rp
  let v := rp1 i
  if v > 0 then non_max_inner i v (upto 1 inhibition_radius) rp1 else rp1

/-- The adaptive threshold of `non_max`: the average response over `[4, max-4)`,
scaled by `min_response / 100`, in `unsigned int` arithmetic. -/
def non_max_threshold (rp : Int → Int) (max min_response : Int) : Int :=
  let total := (upto 4 (max - 4)).foldl (fun acc i => u32 (acc + rp i)) 0
  let av := total / u32 (max - 8)
  u32 (av * u32 min_response) / 100

/-- Function `svs::non_max` on the buffer `row_peaks`, for a row or column of length `max`. -/
def non_max_peaks (rp : Int → Int) (max inhibition_radius min_response : Int) : Int → Int :=
  let av_peaks := non_max_threshold rp max min_response
  (upto 4 (max - inhibition_radius)).foldl (non_max_step inhibition_radius av_peaks) rp

/-- Function `svs::non_max`. -/
def non_max (s : Svs) (cols inhibition_radius min_response : Int) : Svs :=
  let max := if cols ≠ 0 then s.imgHeight else s.imgWidth
  { s with row_peaks := non_max_peaks s.row_peaks max inhibition_radius min_response }

/-! ## `svs::compute_descriptor` -/

/-- The sum `buf[ix+2] + buf[ix+1] + buf[ix]` read by `compute_descriptor` for the
sample number `k` of the pattern, where `ix` is itself the byte read at
`pixindex(px + pixel_offsets[2k], py + pixel_offsets[2k+1])`. -/
def descriptor_sample (hdr : Header) (imgWidth px py : Int) (buf : Int → Int) (k : Nat) : Int :=
  let ix := byteAt buf (hdr.pixindex imgWidth (px + pixel_offsets.getD (2 * k) 0)
    (py + pixel_offsets.getD (2 * k + 1) 0))
  byteAt buf (ix + 2) + byteAt buf (ix + 1) + byteAt buf ix

/-- Patch mean of `compute_descriptor`: the sum of all samples divided by
`SVS_DESCRIPTOR_PIXELS`. -/
def descriptor_meanval (hdr : Header) (imgWidth px py : Int) (buf : Int → Int) : Int :=
  cdiv ((List.range hdr.SVS_DESCRIPTOR_PIXELS).foldl
    (fun acc k => acc + descriptor_sample hdr imgWidth px py buf k) 0) hdr.SVS_DESCRIPTOR_PIXELS

/-- The binarising loop of `compute_descriptor`; the state is `(bit, desc, bit_count)`
with `desc` an `unsigned int` and `bit_count` an `unsigned char`. -/
def descriptor_binarise (hdr : Header) (imgWidth px py : Int) (buf : Int → Int) (meanval : Int) :
    Nat × Nat × Nat :=
  (List.range hdr.SVS_DESCRIPTOR_PIXELS).foldl
    (fun (st : Nat × Nat × Nat) k =>
      if descriptor_sample hdr imgWidth px py buf k > meanval then
        (st.1 * 2, (st.2.1 ||| st.1) % 4294967296, (st.2.2 + 1) % 256)
      else (st.1 * 2, st.2.1, st.2.2)) (1, 0, 0)

/-- Function `svs::compute_descriptor`: the returned status and the updated object. -/
def compute_descriptor (hdr : Header) (s : Svs) (px py : Int) (buf : Int → Int)
    (no_of_features row_mean : Int) : Int × Svs :=
  let meanval := descriptor_meanval hdr s.imgWidth px py buf
  let st := descriptor_binarise hdr s.imgWidth px py buf meanval
  let desc := st.2.1
  let bit_count : Int := st.2.2
  if bit_count > 3 ∧ bit_count < (hdr.SVS_DESCRIPTOR_PIXELS : Int) - 3 then
    let meanval := cdiv meanval 3
    let meanval := meanval - row_mean + 127
    let meanval := if meanval < 0 then 0 else meanval
    let meanval := if meanval > 255 then 255 else meanval
    (0, { s with mean := Function.update s.mean no_of_features (u8 (cdiv meanval 3)),
                 descriptor := Function.update s.descriptor no_of_features desc })
  else (-1, s)

/-! ## `svs::get_features_vertical` and `svs::get_features_horizontal` -/

/-- State of the feature loops: the object, `no_of_features`, the `unsigned short`
counter `no_of_feats` of the current row or column, and whether the feature
buffer became full (the `break` that also ends the outer loop). -/
structure FeatLoop where
  s : Svs
  no_of_features : Int
  no_of_feats : Int
  full : Bool

/-- The loop `for (x = start_x; x > 15; x--)` of `get_features_vertical` on row `y`. -/
def features_row_loop (hdr : Header) (buf : Int → Int) (y row_mean calibration_offset_x : Int) :
    List Int → FeatLoop → FeatLoop
  | [], st => st
  | x :: xs, st =>
    if st.s.row_peaks x > 0 then
      let r := compute_descriptor hdr st.s x y buf st.no_of_features row_mean
      if r.1 = 0 then
        let s0 := r.2
        let s1 := { s0 with feature_x := (Function.update s0.feature_x st.no_of_features (i16 (x + calibration_offset_x))) }
        let st1 : FeatLoop := ⟨s1, st.no_of_features + 1, u16 (st.no_of_feats + 1), false⟩
        if st1.no_of_features = hdr.SVS_MAX_FEATURES then { st1 with full := true }
        else features_row_loop hdr buf y row_mean calibration_offset_x xs st1
      else features_row_loop hdr buf y row_mean calibration_offset_x xs
        ⟨r.2, st.no_of_features, st.no_of_feats, st.full⟩
    else features_row_loop hdr buf y row_mean calibration_offset_x xs st

/-- The loop `for (y = start_y; y > 15; y--)` of `get_features_horizontal` on column `x`. -/
def features_col_loop (hdr : Header) (buf : Int → Int) (x col_mean calibration_offset_y : Int) :
    List Int → FeatLoop → FeatLoop
  | [], st => st
  | y :: ys, st =>
    if st.s.row_peaks y > 0 then
      let r := compute_descriptor hdr st.s x y buf st.no_of_features col_mean
      if r.1 = 0 then
        let s0 := r.2
        let s1 := { s0 with feature_y := (Function.update s0.feature_y st.no_of_features (i16 (y + calibration_offset_y))) }
        let st1 : FeatLoop := ⟨s1, st.no_of_features + 1, u16 (st.no_of_feats + 1), false⟩
        if st1.no_of_features = hdr.SVS_MAX_FEATURES then { st1 with full := true }
        else features_col_loop hdr buf x col_mean calibration_offset_y ys st1
      else features_col_loop hdr buf x col_mean calibration_offset_y ys
        ⟨r.2, st.no_of_features, st.no_of_feats, st.full⟩
    else features_col_loop hdr buf x col_mean calibration_offset_y ys st

/-- State of the outer feature loop: the object, `no_of_features` and `row_idx`
(`col_idx`). -/
structure FeatOuter where
  s : Svs
  no_of_features : Int
  row_idx : Int

/-- The loop `for (y = 4 + calibration_offset_y; y < imgHeight - 4; y += SVS_VERTICAL_SAMPLING)`
of `get_features_vertical` over the remaining rows; a full buffer sets `y = imgHeight`,
so the row count is recorded and the loop ends. -/
def features_vertical_loop (hdr : Header) (buf : Int → Int)
    (inhibition_radius minimum_response calibration_offset_x start_x : Int) :
    List Int → FeatOuter → FeatOuter
  | [], st => st
  | y :: ys, st =>
    let r : FeatLoop :=
      if y ≥ 4 ∧ y ≤ st.s.imgHeight - 4 then
        let us := update_sums st.s 0 y buf
        let s1 := non_max us.2 0 inhibition_radius minimum_response
        features_row_loop hdr buf y us.1 calibration_offset_x (downto start_x 15)
          ⟨s1, st.no_of_features, 0, false⟩
      else ⟨st.s, st.no_of_features, 0, false⟩
    let s1 := r.s
    let s2 := { s1 with features_per_row := (Function.update s1.features_per_row st.row_idx r.no_of_feats) }
    let st2 : FeatOuter := ⟨s2, r.no_of_features, st.row_idx + 1⟩
    if r.full then st2
    else features_vertical_loop hdr buf inhibition_radius minimum_response calibration_offset_x
      start_x ys st2

/-- Function `svs::get_features_vertical`: the returned `no_of_features` and the
updated object. -/
def get_features_vertical (hdr : Header) (s : Svs) (buf : Int → Int)
    (inhibition_radius minimum_response calibration_offset_x calibration_offset_y : Int) :
    Int × Svs :=
  let n := cdiv hdr.SVS_MAX_IMAGE_HEIGHT hdr.SVS_VERTICAL_SAMPLING
  let s0 := { s with features_per_row := memset0 s.features_per_row n }
  let start_x := if s.imgWidth - inhibition_radius - 1 < s.imgWidth - 15
    then s.imgWidth - inhibition_radius - 1 else s.imgWidth - 15
  let r := features_vertical_loop hdr buf inhibition_radius minimum_response calibration_offset_x
    start_x (stepRange (4 + calibration_offset_y) (s.imgHeight - 4) hdr.SVS_VERTICAL_SAMPLING)
    ⟨s0, 0, 0⟩
  (r.no_of_features, r.s)

/-- The loop `for (x = 4 + calibration_offset_x; x < imgWidth - 4; x += SVS_HORIZONTAL_SAMPLING)`
of `get_features_horizontal` over the remaining columns. -/
def features_horizontal_loop (hdr : Header) (buf : Int → Int)
    (inhibition_radius minimum_response calibration_offset_y start_y : Int) :
    List Int → FeatOuter → FeatOuter
  | [], st => st
  | x :: xs, st =>
    let r : FeatLoop :=
      if x ≥ 4 ∧ x ≤ st.s.imgWidth - 4 then
        let us := update_sums st.s 1 x buf
        let s1 := non_max us.2 1 inhibition_radius minimum_response
        features_col_loop hdr buf x us.1 calibration_offset_y (downto start_y 15)
          ⟨s1, st.no_of_features, 0, false⟩
      else ⟨st.s, st.no_of_features, 0, false⟩
    let s1 := r.s
    let s2 := { s1 with features_per_col := (Function.update s1.features_per_col st.row_idx r.no_of_feats) }
    let st2 : FeatOuter := ⟨s2, r.no_of_features, st.row_idx + 1⟩
    if r.full then st2
    else features_horizontal_loop hdr buf inhibition_radius minimum_response calibration_offset_y
      start_y xs st2

/-- Function `svs::get_features_horizontal`: the returned `no_of_features` and the
updated object. -/
def get_features_horizontal (hdr : Header) (s : Svs) (buf : Int → Int)
    (inhibition_radius minimum_response calibration_offset_x calibration_offset_y : Int) :
    Int × Svs :=
  let n := cdiv hdr.SVS_MAX_IMAGE_WIDTH hdr.SVS_HORIZONTAL_SAMPLING
  let s0 := { s with features_per_col := memset0 s.features_per_col n }
  let start_y := if s.imgHeight - inhibition_radius - 1 < s.imgHeight - 15
    then s.imgHeight - inhibition_radius - 1 else s.imgHeight - 15
  let r := features_horizontal_loop hdr buf inhibition_radius minimum_response calibration_offset_y
    start_y (stepRange (4 + calibration_offset_x) (s.imgWidth - 4) hdr.SVS_HORIZONTAL_SAMPLING)
    ⟨s0, 0, 0⟩
  (r.no_of_features, r.s)

/-- Number of set bits among the 32 bits of a descriptor. -/
def setBits (d : Nat) : Nat := (List.range 32).countP (fun k => d.testBit k)

/-- Every descriptor in cells `0 .. n-1` has more than 3 and fewer than
`SVS_DESCRIPTOR_PIXELS - 3` set bits. -/
def DescriptorsInRange (hdr : Header) (s : Svs) (n : Int) : Prop :=
  ∀ k : Int, 0 ≤ k → k < n →
    3 < setBits (s.descriptor k) ∧ (setBits (s.descriptor k) : Int) < hdr.SVS_DESCRIPTOR_PIXELS - 3

/-! ## Concrete inputs used to exercise the statements -/

/-- A header with the descriptor width of the 30-point pattern and `pixindex(xx, yy)`
taken as the byte offset of pixel `(xx, yy)`. -/
def exampleHeader : Header :=
  { SVS_MAX_FEATURES := 2000, SVS_MAX_MATCHES := 2000, SVS_DESCRIPTOR_PIXELS := 30,
    SVS_VERTICAL_SAMPLING := 2, SVS_HORIZONTAL_SAMPLING := 8, SVS_PEAKS_HISTORY := 10,
    SVS_MAX_IMAGE_WIDTH := 1024, SVS_MAX_IMAGE_HEIGHT := 1024,
    pixindex := fun w xx yy => (yy * w + xx) * 3 }

/-- A freshly constructed `svs(width, height)` with every buffer holding zeros. -/
def blankSvs (width height : Int) : Svs :=
  { imgWidth := width, imgHeight := height,
    feature_x := fun _ => 0, feature_y := fun _ => 0,
    features_per_row := fun _ => 0, features_per_col := fun _ => 0,
    descriptor := fun _ => 0, mean := fun _ => 0,
    row_sum := fun _ => 0, row_peaks := fun _ => 0,
    svs_matches := fun _ => 0, valid_quadrants := fun _ => 0,
    disparity_priors := fun _ => 0, disparity_histogram := fun _ => 0,
    peaks_history := fun _ => 0, peaks_history_index := 0, enable_peaks_filter := 0,
    calibration_map := fun _ => 0 }

/-- An array given by its first cells; every other cell holds 0. -/
def arrayOf (l : List Int) : Int → Int :=
  fun i => if i < 0 then 0 else l.getD i.toNat 0

/-- A synthetic image whose bytes follow a fixed pseudo-random pattern. -/
def exampleImage : Int → Int := fun i => (i * i * 7 + i * 13) % 251

/-- The row of edge responses `[0,0,0,0,10,3,12,2,0,0]` in an object for a 10-pixel wide image. -/
def nonMaxScenario : Svs :=
  { blankSvs 10 1 with row_peaks := arrayOf [0, 0, 0, 0, 10, 3, 12, 2, 0, 0] }

/-! ## `svs::filter` -/

/-- The corners `tx, ty, bx, by` of the zone examined by `filter`. -/
structure Zone where
  tx : Int
  ty : Int
  bx : Int
  bY : Int

/-- The `switch (hf)` of `filter`: the zone of hemifield `hf`, given the zone left by
the previous hemifield (cases 1 and 3 reuse `bx` and `by`). -/
def filter_zone (imgWidth imgHeight : Int) (hf : Int) (z : Zone) : Zone :=
  if hf = 0 then ⟨0, 0, imgWidth / 2, imgHeight⟩
  else if hf = 1 then ⟨z.bx, z.ty, imgWidth, z.bY⟩
  else if hf = 2 then ⟨0, 0, imgWidth, imgHeight / 2⟩
  else if hf = 3 then ⟨z.tx, z.bY, z.bx, imgHeight⟩
  else z

/-- The test `(x > tx) && (x < bx)` and `(y > ty) && (y < by)` on match `i`. -/
def in_zone (m : Int → Int) (z : Zone) (i : Int) : Prop :=
  (m (i * 4 + 1) > z.tx ∧ m (i * 4 + 1) < z.bx) ∧ (m (i * 4 + 2) > z.ty ∧ m (i * 4 + 2) < z.bY)

instance (m : Int → Int) (z : Zone) (i : Int) : Decidable (in_zone m z i) := by
  unfold in_zone; infer_instance

/-- The histogram loop of `filter`; the state is `(disparity_histogram, hist_max)`. -/
def filter_histogram (m : Int → Int) (z : Zone) (n : Int) (hist : Int → Int) :
    (Int → Int) × Int :=
  (upto 0 n).foldl (fun (st : (Int → Int) × Int) i =>
    if in_zone m z i then
      let disp := i32 (m (i * 4 + 3))
      let h1 := Function.update st.1 disp (st.1 disp + 1)
      (h1, if h1 disp > st.2 then h1 disp else st.2)
    else st) (hist, 0)

/-- Running values of the peak search of `filter`. -/
structure PeakAcc where
  mass : Int
  disp2 : Int
  hist_mean : Int
  hist_mean_hits : Int

/-- The loop `for (d = 3; d < max_disparity_pixels - 1; d++)` of `filter`. -/
def filter_peak_loop (hist : Int → Int) (hist_thresh max_disparity_pixels : Int) : PeakAcc :=
  (upto 3 (max_disparity_pixels - 1)).foldl (fun (a : PeakAcc) d =>
    let a1 : PeakAcc :=
      if hist d > hist_thresh then
        let mm := hist d + hist (d - 1) + hist (d + 1)
        ⟨a.mass + mm, a.disp2 + mm * d, a.hist_mean, a.hist_mean_hits⟩
      else a
    if hist d > 0 then ⟨a1.mass, a1.disp2, a1.hist_mean + hist d, a1.hist_mean_hits + 1⟩
    else a1) ⟨0, 0, 0, 0⟩

/-- The peak search of `filter`: the pair `(disp2, hist_mean)` after the optional division. -/
def filter_peak (hist : Int → Int) (hist_max max_disparity_pixels : Int) : Int × Int :=
  let a := filter_peak_loop hist (cdiv hist_max 4) max_disparity_pixels
  if a.mass > 0 then (cdiv a.disp2 a.mass, cdiv a.hist_mean a.hist_mean_hits)
  else (a.disp2, a.hist_mean)

/-- The histogram of recent peaks of `filter`; the state is `(disparity_histogram, min, max)`. -/
def filter_peaks_histogram (hdr : Header) (peaks_history : Int → Int) (hf : Int)
    (hist : Int → Int) (max_disparity_pixels : Int) : (Int → Int) × Int × Int :=
  (upto 0 hdr.SVS_PEAKS_HISTORY).foldl (fun (st : (Int → Int) × Int × Int) p =>
    let disp2 := peaks_history (hf * hdr.SVS_PEAKS_HISTORY + p) / 5
    (Function.update st.1 disp2 (st.1 disp2 + 1),
     if disp2 < st.2.1 then disp2 else st.2.1,
     if disp2 > st.2.2 then disp2 else st.2.2)) (hist, max_disparity_pixels, 0)

/-- The loop `for (p = max; p >= min; p--)` of `filter`; the state is `(maxval, disp3)`. -/
def filter_peak_of_peaks (hist : Int → Int) (min max : Int) : Int × Int :=
  (downto max (min - 1)).foldl (fun (st : Int × Int) p =>
    if hist p > st.1 then (hist p, p) else st) (-1, 0)

/-- The averaging loop of `filter` over the ring buffer; the state is `(disp2, disp2_hits)`. -/
def filter_average_peaks (hdr : Header) (peaks_history : Int → Int) (hf disp3 : Int) : Int × Int :=
  (upto 0 hdr.SVS_PEAKS_HISTORY).foldl (fun (st : Int × Int) p =>
    if peaks_history (hf * hdr.SVS_PEAKS_HISTORY + p) / 5 = disp3 then
      (st.1 + peaks_history (hf * hdr.SVS_PEAKS_HISTORY + p), st.2 + 1)
    else st) (0, 0)

/-- The test made on match `i` in the removal loop of `filter`: inside the zone, and
either (`near == 1`) the disparity is not outside the `unsigned` window
`[disp2 - tolerance, disp2 + tolerance]`, or (`near == 0`) the disparity is at most 2. -/
def filter_accepts (m : Int → Int) (z : Zone) (near disp2 tolerance : Int) (i : Int) : Prop :=
  in_zone m z i ∧
    (if near = 1 then ¬ (m (i * 4 + 3) < u32 (disp2 - tolerance) ∨ m (i * 4 + 3) > u32 (disp2 + tolerance))
     else m (i * 4 + 3) ≤ 2)

instance (m : Int → Int) (z : Zone) (near disp2 tolerance i : Int) :
    Decidable (filter_accepts m z near disp2 tolerance i) := by
  unfold filter_accepts; infer_instance

/-- The removal loop of `filter` for one hemifield: `valid_quadrants[i]++` (an
`unsigned char`) for every accepted match. -/
def filter_mark (m : Int → Int) (z : Zone) (near disp2 tolerance n : Int) (valid : Int → Int) :
    Int → Int :=
  (upto 0 n).foldl (fun v i =>
    if filter_accepts m z near disp2 tolerance i then Function.update v i (u8 (v i + 1)) else v) valid

/-- What `filter` has after a hemifield: the object, the zone, and the `near` flag and
peak `disp2` used by that hemifield's removal loop. -/
structure FilterState where
  s : Svs
  z : Zone
  near : Int
  disp2 : Int

/-- The body of the loop `for (hf = 0; hf < 4; hf++)` of `filter`. -/
def filter_hemifield (hdr : Header) (no_of_possible_matches max_disparity_pixels tolerance
    enable_secondary : Int) (st : FilterState) (hf : Int) : FilterState :=
  let s := st.s
  let z := filter_zone s.imgWidth s.imgHeight hf st.z
  let h := filter_histogram s.svs_matches z no_of_possible_matches
    (memset0 s.disparity_histogram max_disparity_pixels)
  let pk := filter_peak h.1 h.2 max_disparity_pixels
  let near : Int := if pk.2 * 4 > h.1 0 then 0 else 1
  if enable_secondary ≠ 0 then
    let ph := Function.update s.peaks_history (hf * hdr.SVS_PEAKS_HISTORY + s.peaks_history_index)
      (u16 pk.1)
    if s.enable_peaks_filter ≠ 0 then
      let h2 := filter_peaks_histogram hdr ph hf (memset0 h.1 max_disparity_pixels)
        max_disparity_pixels
      let disp3 := (filter_peak_of_peaks h2.1 h2.2.1 h2.2.2).2
      let av := filter_average_peaks hdr ph hf disp3
      let disp2 := if av.2 > 0 then cdiv av.1 av.2 else av.1
      let valid := filter_mark s.svs_matches z near disp2 tolerance no_of_possible_matches
        s.valid_quadrants
      ⟨{ s with disparity_histogram := h2.1, peaks_history := ph, valid_quadrants := valid },
        z, near, disp2⟩
    else
      let valid := filter_mark s.svs_matches z near pk.1 tolerance no_of_possible_matches
        s.valid_quadrants
      ⟨{ s with disparity_histogram := h.1, peaks_history := ph, valid_quadrants := valid },
        z, near, pk.1⟩
  else
    let valid := filter_mark s.svs_matches z near pk.1 tolerance no_of_possible_matches
      s.valid_quadrants
    ⟨{ s with disparity_histogram := h.1, valid_quadrants := valid }, z, near, pk.1⟩

/-- The state in which `filter` enters its hemifield loop. -/
def filter_init (s : Svs) (no_of_possible_matches : Int) : FilterState :=
  ⟨{ s with valid_quadrants := memset0 s.valid_quadrants no_of_possible_matches },
    ⟨0, 0, 0, 0⟩, 0, 0⟩

/-- The state of `filter` after the hemifields `0 .. k-1`. -/
def filter_after (hdr : Header) (s : Svs) (no_of_possible_matches max_disparity_pixels tolerance
    enable_secondary : Int) (k : Nat) : FilterState :=
  ((List.range k).map (fun (j : Nat) => (j : Int))).foldl
    (filter_hemifield hdr no_of_possible_matches max_disparity_pixels tolerance enable_secondary)
    (filter_init s no_of_possible_matches)

/-- The last loop of `filter`: the probability of a match no hemifield accepted is set to 0. -/
def filter_remove (valid : Int → Int) (n : Int) (m : Int → Int) : Int → Int :=
  (upto 0 n).foldl (fun mm i => if valid i = 0 then Function.update mm (i * 4) 0 else mm) m

/-- Function `svs::filter`. -/
def filter (hdr : Header) (s : Svs) (no_of_possible_matches max_disparity_pixels tolerance
    enable_secondary : Int) : Svs :=
  let s4 := (filter_after hdr s no_of_possible_matches max_disparity_pixels tolerance
    enable_secondary 4).s
  let s5 := { s4 with svs_matches :=
    (filter_remove s4.valid_quadrants no_of_possible_matches s4.svs_matches) }
  if enable_secondary ≠ 0 then
    if s5.peaks_history_index + 1 ≥ hdr.SVS_PEAKS_HISTORY then
      { s5 with peaks_history_index := 0, enable_peaks_filter := 1 }
    else { s5 with peaks_history_index := s5.peaks_history_index + 1 }
  else s5

/-- Hemifield `hf` of a call of `filter` accepts match `i`: the removal loop of that
hemifield, with the zone, `near` flag and peak it computed, increments
`valid_quadrants[i]`. -/
def filter_accepted_by (hdr : Header) (s : Svs) (no_of_possible_matches max_disparity_pixels
    tolerance enable_secondary : Int) (hf : Nat) (i : Int) : Prop :=
  filter_accepts s.svs_matches
    (filter_after hdr s no_of_possible_matches max_disparity_pixels tolerance enable_secondary
      (hf + 1)).z
    (filter_after hdr s no_of_possible_matches max_disparity_pixels tolerance enable_secondary
      (hf + 1)).near
    (filter_after hdr s no_of_possible_matches max_disparity_pixels tolerance enable_secondary
      (hf + 1)).disp2
    tolerance i

instance (hdr : Header) (s : Svs) (n maxd tol en : Int) (hf : Nat) (i : Int) :
    Decidable (filter_accepted_by hdr s n maxd tol en hf i) := by
  unfold filter_accepted_by; infer_instance

/-- Three matches in the upper left of a 100 x 100 image: two of disparity 10 and one
of disparity 1, each with probability 500. -/
def filterScenario : Svs :=
  { blankSvs 100 100 with
    svs_matches := arrayOf [500, 10, 10, 10, 500, 20, 20, 10, 500, 30, 30, 1] }

/-! ## `stereodense::despeckle_disparity_map` -/

/-- The cells `yy * width + xx` visited by the two nested neighbour loops around
`(x, y)`, in the order of the source (the centre included). -/
def despeckle_window (width x y : Int) : List Int :=
  (upto (y - 1) (y + 2)).flatMap (fun yy => (upto (x - 1) (x + 2)).map (fun xx => yy * width + xx))

/-- The neighbour loops of `despeckle_disparity_map` over the remaining cells: `hits`
counts the cells whose `unsigned` difference from the centre exceeds `min_diff`, and
the loops are left as soon as `hits > hits_threshold` (5). -/
def despeckle_hits (dm : Int → Int) (centre_disparity min_diff : Int) : List Int → Int → Int
  | [], hits => hits
  | c :: cs, hits =>
    if u32 (centre_disparity - dm (c * 2 + 1)) > min_diff then
      if hits + 1 > 5 then hits + 1
      else despeckle_hits dm centre_disparity min_diff cs (hits + 1)
    else despeckle_hits dm centre_disparity min_diff cs hits

/-- The interior cells `(y, x)` in the order of the first loop nest of
`despeckle_disparity_map`. -/
def despeckle_cells (width height : Int) : List (Int × Int) :=
  (upto 1 (height - 1)).flatMap (fun y => (upto 1 (width - 1)).map (fun x => (y, x)))

/-- The body of the first loop nest of `despeckle_disparity_map` at cell `(y, x)`. -/
def despeckle_step (width max_disparity_pixels : Int) (dm : Int → Int) (yx : Int × Int) :
    Int → Int :=
  let threshold := u32 (cdiv (max_disparity_pixels * 70) 100)
  let min_diff := u32 (cdiv (max_disparity_pixels * 5) 100)
  let n_map := (yx.1 * width + yx.2) * 2
  if dm (n_map + 1) > threshold then
    let hits := despeckle_hits dm (dm (n_map + 1)) min_diff (despeckle_window width yx.2 yx.1) 0
    if hits > 5 then Function.update dm n_map 0 else dm
  else dm

/-- The condition under which the first loop nest of `despeckle_disparity_map` zeroes
the confidence of cell `(y, x)`: its disparity exceeds the threshold and the neighbour
loops end with more than 5 hits. -/
def despeckle_cond (width max_disparity_pixels : Int) (dm : Int → Int) (yx : Int × Int) : Prop :=
  dm ((yx.1 * width + yx.2) * 2 + 1) > u32 (cdiv (max_disparity_pixels * 70) 100) ∧
  despeckle_hits dm (dm ((yx.1 * width + yx.2) * 2 + 1)) (u32 (cdiv (max_disparity_pixels * 5) 100))
    (despeckle_window width yx.2 yx.1) 0 > 5

instance (width max_disparity_pixels : Int) (dm : Int → Int) (yx : Int × Int) :
    Decidable (despeckle_cond width max_disparity_pixels dm yx) := by
  unfold despeckle_cond; infer_instance

/-- The last loop of `despeckle_disparity_map`,
`for (i = width*height*2 - 2; i >= 0; i -= 2)`, written over `k = i / 2`. -/
def despeckle_clear (width height : Int) (dm : Int → Int) : Int → Int :=
  (downto (width * height - 1) (-1)).foldl
    (fun d k => if d (k * 2) = 0 then Function.update d (k * 2 + 1) 0 else d) dm

/-- Function `stereodense::despeckle_disparity_map`; cell `n` of the map holds its
confidence at `2n` and its disparity at `2n + 1`. -/
def despeckle_disparity_map (disparity_map_width disparity_map_height : Int)
    (disparity_map : Int → Int) (max_disparity_pixels : Int) : Int → Int :=
  despeckle_clear disparity_map_width disparity_map_height
    ((despeckle_cells disparity_map_width disparity_map_height).foldl
      (despeckle_step disparity_map_width max_disparity_pixels) disparity_map)

/-- A 5 x 5 disparity map (maximum disparity 100) whose cells are empty except for a
T-shaped group of four cells of confidence 1 and disparity 100 at (1,2), (2,2), (3,2)
and (2,3). -/
def despeckleScenario : Int → Int :=
  arrayOf [0,0, 0,0, 0,0, 0,0, 0,0,
           0,0, 0,0, 0,0, 0,0, 0,0,
           0,0, 1,100, 1,100, 1,100, 0,0,
           0,0, 0,0, 1,100, 0,0, 0,0,
           0,0, 0,0, 0,0, 0,0, 0,0]

/-- A 5 x 5 disparity map (maximum disparity 100) whose nine interior cells all have
confidence 1 and disparity 100. -/
def despeckleSolid : Int → Int :=
  arrayOf [0,0, 0,0, 0,0, 0,0, 0,0,
           0,0, 1,100, 1,100, 1,100, 0,0,
           0,0, 1,100, 1,100, 1,100, 0,0,
           0,0, 1,100, 1,100, 1,100, 0,0,
           0,0, 0,0, 0,0, 0,0, 0,0]

/-! ## `svs::make_map_int` and `svs::rectify` -/

/-- The integer square root loop of `make_map_int`,
`for (r = 0; v >= 2*r + 1; v -= (2 * r++) + 1);`, run for at most `fuel` iterations;
it returns the final `(r, v)`. -/
def isqrt_loop : Nat → Int → Int → Int × Int
  | 0, r, v => (r, v)
  | fuel + 1, r, v => if v ≥ 2 * r + 1 then isqrt_loop fuel (r + 1) (v - (2 * r + 1)) else (r, v)

/-- The value of `radial_dist_rectified` after the square root loop started with `v`;
every iteration lowers `v` by at least 1, so `v + 1` iterations are enough. -/
def int_sqrt (v : Int) : Int := (isqrt_loop (v.toNat + 1) 0 v).1

/-- The loop `while (j != 0) { powr *= radial_dist_rectified; j--; }` started with
`powr = 1` and `j = i`. -/
def make_map_powr (radial_dist_rectified : Int) : Nat → Int
  | 0 => 1
  | j + 1 => make_map_powr radial_dist_rectified j * radial_dist_rectified

/-- The loop `for (i = 0; i < 4; i++)` of `make_map_int`: the distortion polynomial at
`radial_dist_rectified`. -/
def make_map_poly (coeff : Int → Int) (radial_dist_rectified : Int) : Int :=
  (List.range 4).foldl
    (fun acc (i : Nat) => acc + coeff (i : Int) * make_map_powr radial_dist_rectified i) 0

/-- The body of the two loops of `make_map_int` at destination pixel `(x, y)`.
`SVS_MULT` is 1 and `SVS_MULT_COEFF` is 10000000. -/
def make_map_int_step (ww hh centre_of_distortion_x centre_of_distortion_y : Int)
    (coeff : Int → Int) (scale_num scale_denom : Int) (cmap : Int → Int) (xy : Int × Int) :
    Int → Int :=
  let x := xy.1
  let y := xy.2
  let half_width := cdiv ww 2
  let half_height := cdiv hh 2
  let dx := x * 1 - centre_of_distortion_x
  let dy := y * 1 - centre_of_distortion_y
  let radial_dist_rectified := int_sqrt (dx * dx + dy * dy)
  if radial_dist_rectified ≥ 0 then
    let radial_dist_original := make_map_poly coeff radial_dist_rectified
    if radial_dist_original > 0 then
      let radial_dist_original := cdiv radial_dist_original 10000000
      let x2 := centre_of_distortion_x + cdiv (dx * radial_dist_original) radial_dist_rectified
      let x2 := cdiv ((x2 - half_width * 1) * scale_num) scale_denom
      let y2 := centre_of_distortion_y + cdiv (dy * radial_dist_original) radial_dist_rectified
      let y2 := cdiv ((y2 - half_height * 1) * scale_num) scale_denom
      let x2 := x2 + half_width
      let y2 := y2 + half_height
      if x2 > -1 ∧ x2 < ww ∧ y2 > -1 ∧ y2 < hh then
        Function.update cmap (y * ww + x) (y2 * ww + x2)
      else cmap
    else cmap
  else cmap

/-- The destination pixels `(x, y)` in the order of the loops of `make_map_int`
(`x` outermost). -/
def make_map_pixels (ww hh : Int) : List (Int × Int) :=
  (upto 0 ww).flatMap (fun x => (upto 0 hh).map (fun y => (x, y)))

/-- Function `svs::make_map_int`.  `fresh` is the content of the array returned by
`new int[imgWidth * imgHeight]`, which the function does not initialise. -/
def make_map_int (s : Svs) (fresh : Int → Int) (centre_of_distortion_x centre_of_distortion_y : Int)
    (coeff : Int → Int) (scale_num scale_denom : Int) : Svs :=
  let cmap := (make_map_pixels s.imgWidth s.imgHeight).foldl
    (make_map_int_step s.imgWidth s.imgHeight centre_of_distortion_x centre_of_distortion_y
      coeff scale_num (scale_denom * 1)) fresh
  { s with calibration_map := cmap }

/-- The coefficients `[0, 10000000, 0, 0]` of the identity polynomial. -/
def identityCoeff : Int → Int := arrayOf [0, 10000000, 0, 0]

/-! ## `stereodense::cross_check_pixel` and `disparity_map_from_disparity_space` -/

/-- Constant `STEREO_DENSE_SMOOTH_VERTICAL` of `stereodense.h`. -/
def STEREO_DENSE_SMOOTH_VERTICAL : Int := 1

/-- Two colour images and the geometry shared by the dense-stereo functions. -/
structure DenseParams where
  img_left : Int → Int
  img_right : Int → Int
  img_width : Int
  img_height : Int
  offset_x : Int
  offset_y : Int
  smoothing_radius : Int
  vertical_sampling : Int

/-- The sum of absolute channel differences of the pixels at byte offsets `n_left`
and `n_right`. -/
def pixel_difference (p : DenseParams) (n_left n_right : Int) : Int :=
  cabs (byteAt p.img_left n_left - byteAt p.img_right n_right) +
  cabs (byteAt p.img_left (n_left + 1) - byteAt p.img_right (n_right + 1)) +
  cabs (byteAt p.img_left (n_left + 2) - byteAt p.img_right (n_right + 2))

/-- The loop `for (samples = 0; samples < 3; samples++)` of `cross_check_pixel` over its
remaining iterations; the last argument is the current `check_ok`. -/
def cross_check_samples (p : DenseParams) (similarity_threshold stride : Int) :
    List Int → Int → Int → Bool → Bool
  | [], _, _, check_ok => check_ok
  | _ :: rest, n_left, n_right, _ =>
    let check_ok : Bool :=
      if pixel_difference p n_left n_right < similarity_threshold then
        if pixel_difference p (n_left - stride) (n_right - stride) < similarity_threshold then
          if pixel_difference p (n_left + stride) (n_right + stride) < similarity_threshold then
            true
          else false
        else false
      else false
    if !check_ok then false
    else cross_check_samples p similarity_threshold stride rest (n_left + 3) (n_right + 3) check_ok

/-- Function `stereodense::cross_check_pixel`. -/
def cross_check_pixel (p : DenseParams) (x y disparity similarity_threshold : Int) : Bool :=
  let y_left := y * STEREO_DENSE_SMOOTH_VERTICAL * p.vertical_sampling
  let y_right := y * STEREO_DENSE_SMOOTH_VERTICAL * p.vertical_sampling - p.offset_y
  let x_left := x * p.smoothing_radius
  let x_right := x_left - disparity - p.offset_x
  let stride := p.img_width * 3 * 2
  if x_right > 2 ∧ x_right < p.img_width - 2 ∧ y_left < p.img_height - 2 ∧
      y_right < p.img_height - 2 then
    cross_check_samples p similarity_threshold stride (upto 0 3)
      ((y_left * p.img_width + x_left) * 3) ((y_right * p.img_width + x_right) * 3) false
  else false

/-- The combined correlation `local_correlation` of hypothesis `disparity_index` at map
pixel `(x, y)`: four times the 3 x 3 sum of the fine grid plus the 3 x 3 sum of the
coarse grid, in `unsigned int` arithmetic. -/
def local_correlation (disparity_space : Int → Int)
    (disparity_space_width disparity_space_height disparity_index x y : Int) : Int :=
  let disparity_space_pixels := disparity_space_width * disparity_space_height
  let disparity_space_width2 := cdiv disparity_space_width 2
  let disparity_space_offset := disparity_index * disparity_space_pixels * 2
  let n_space_inner := disparity_space_offset + y * disparity_space_width + x
  let n_space_outer := disparity_space_pixels + disparity_space_offset
    + cdiv y 2 * disparity_space_width2 + cdiv x 2
  let local_correlation_inner := u32 (
    disparity_space n_space_inner +
    disparity_space (n_space_inner - 1) +
    disparity_space (n_space_inner + 1) +
    disparity_space (n_space_inner - disparity_space_width) +
    disparity_space (n_space_inner + disparity_space_width) +
    disparity_space (n_space_inner + disparity_space_width - 1) +
    disparity_space (n_space_inner + disparity_space_width + 1) +
    disparity_space (n_space_inner - disparity_space_width - 1) +
    disparity_space (n_space_inner - disparity_space_width + 1))
  let local_correlation_outer := u32 (
    disparity_space n_space_outer +
    disparity_space (n_space_outer - 1) +
    disparity_space (n_space_outer + 1) +
    disparity_space (n_space_outer - disparity_space_width2) +
    disparity_space (n_space_outer + disparity_space_width2) +
    disparity_space (n_space_outer + disparity_space_width2 - 1) +
    disparity_space (n_space_outer + disparity_space_width2 + 1) +
    disparity_space (n_space_outer - disparity_space_width2 - 1) +
    disparity_space (n_space_outer - disparity_space_width2 + 1))
  u32 (local_correlation_inner * 4 + local_correlation_outer)

/-- The loop `for (tries = 0; tries < 8; tries++)` over its remaining iterations: the
first candidate disparity `disparity_index * disparity_step + tries` that passes
`cross_check_pixel` on rows `y`, `y + 1` and `y - 1`, if there is one. -/
def first_cross_checked (p : DenseParams) (similarity_threshold base x y : Int) :
    List Int → Option Int
  | [] => none
  | tries :: rest =>
    let disparity := base + tries
    if cross_check_pixel p x y disparity similarity_threshold = true then
      if cross_check_pixel p x (y + 1) disparity similarity_threshold = true then
        if cross_check_pixel p x (y - 1) disparity similarity_threshold = true then
          some disparity
        else first_cross_checked p similarity_threshold base x y rest
      else first_cross_checked p similarity_threshold base x y rest
    else first_cross_checked p similarity_threshold base x y rest

/-- Sizes and parameters of the disparity space handed to
`disparity_map_from_disparity_space`. -/
structure SpaceParams where
  disparity_space : Int → Int
  disparity_space_width : Int
  disparity_space_height : Int
  disparity_step : Int
  no_of_disparities : Int
  similarity_threshold : Int

/-- The update of the stored pair `(confidence, disparity)` of map pixel `(x, y)` by
hypothesis `disparity_index`. -/
def update_pair (p : DenseParams) (q : SpaceParams) (x y : Int) (cell : Int × Int)
    (disparity_index : Int) : Int × Int :=
  let lc := local_correlation q.disparity_space q.disparity_space_width q.disparity_space_height
    disparity_index x y
  if lc > 0 ∧ (cell.1 = 0 ∨ cell.1 < lc) then
    match first_cross_checked p q.similarity_threshold (disparity_index * q.disparity_step) x y
        (upto 0 8) with
    | some disparity => (lc, u32 disparity)
    | none => cell
  else cell

/-- The body of the pixel loops of `disparity_map_from_disparity_space` for hypothesis
`disparity_index` at map pixel `yx = (y, x)`; `n_map = (y * width + x) * 2`. -/
def disparity_map_step (p : DenseParams) (q : SpaceParams) (disparity_index : Int)
    (disparity_map : Int → Int) (yx : Int × Int) : Int → Int :=
  let n_map := (yx.1 * q.disparity_space_width + yx.2) * 2
  let lc := local_correlation q.disparity_space q.disparity_space_width q.disparity_space_height
    disparity_index yx.2 yx.1
  if lc > 0 ∧ (disparity_map n_map = 0 ∨ disparity_map n_map < lc) then
    match first_cross_checked p q.similarity_threshold (disparity_index * q.disparity_step)
        yx.2 yx.1 (upto 0 8) with
    | some disparity =>
      Function.update (Function.update disparity_map n_map lc) (n_map + 1) (u32 disparity)
    | none => disparity_map
  else disparity_map

/-- The interior pixels `(y, x)` of the disparity map in the order of the loops
`for (y = 1; y < height-1; y++) for (x = 1; x < width-1; x++)`. -/
def interior_pixels (width height : Int) : List (Int × Int) :=
  (upto 1 (height - 1)).flatMap (fun y => (upto 1 (width - 1)).map (fun x => (y, x)))

/-- The loop over `disparity_index` of `disparity_map_from_disparity_space` on the
hypotheses in `ks`, each followed by its two pixel loops. -/
def disparity_map_loop (p : DenseParams) (q : SpaceParams) (ks : List Int)
    (disparity_map : Int → Int) : Int → Int :=
  ks.foldl (fun dm k =>
    (interior_pixels q.disparity_space_width q.disparity_space_height).foldl
      (disparity_map_step p q k) dm) disparity_map

/-- Function `stereodense::disparity_map_from_disparity_space`. -/
def disparity_map_from_disparity_space (p : DenseParams) (q : SpaceParams)
    (disparity_map : Int → Int) : Int → Int :=
  disparity_map_loop p q (upto 0 q.no_of_disparities)
    (memset0 disparity_map (q.disparity_space_width * q.disparity_space_height * 2))

/-- The pair stored for a pixel after the hypotheses `ks` have updated `cell` in turn. -/
def update_pairs (p : DenseParams) (q : SpaceParams) (x y : Int) (ks : List Int)
    (cell : Int × Int) : Int × Int :=
  ks.foldl (update_pair p q x y) cell

/-- Hypothesis `disparity_index` passes at map pixel `(x, y)`: its combined score is
positive and one of its 8 candidate disparities passes the three-row cross-check. -/
def hypothesis_passes (p : DenseParams) (q : SpaceParams) (x y disparity_index : Int) : Prop :=
  local_correlation q.disparity_space q.disparity_space_width q.disparity_space_height
      disparity_index x y > 0 ∧
  (first_cross_checked p q.similarity_threshold (disparity_index * q.disparity_step) x y
      (upto 0 8)).isSome = true

instance (p : DenseParams) (q : SpaceParams) (x y k : Int) :
    Decidable (hypothesis_passes p q x y k) := by
  unfold hypothesis_passes; infer_instance

/-- Two uniform 32 x 32 images: every pixel comparison of `cross_check_pixel` gives 0. -/
def uniformImages : DenseParams :=
  { img_left := fun _ => 0, img_right := fun _ => 0, img_width := 32, img_height := 32,
    offset_x := 0, offset_y := 0, smoothing_radius := 8, vertical_sampling := 2 }

/-- A 3 x 3 disparity space with two hypotheses whose combined scores at the centre
pixel (1, 1) are 100 and 200. -/
def twoHypotheses : SpaceParams :=
  { disparity_space := fun i => if i = 4 then 25 else if i = 22 then 50 else 0,
    disparity_space_width := 3, disparity_space_height := 3, disparity_step := 1,
    no_of_disparities := 2, similarity_threshold := 1 }

/-- A 3 x 3 disparity space with three hypotheses whose combined scores at the centre
pixel (1, 1) are 300, 100 and 200. -/
def threeHypotheses : SpaceParams :=
  { disparity_space := fun i => if i = 4 then 75 else if i = 22 then 25 else if i = 40 then 50
      else 0,
    disparity_space_width := 3, disparity_space_height := 3, disparity_step := 1,
    no_of_disparities := 3, similarity_threshold := 1 }

/-! ## `svs::match`: the primary stage -/

/-- The bit count of `match`: `BitsSetTable256` applied to the four bytes of `x`. -/
def bits_set (x : Nat) : Nat :=
  BitsSetTable256.getD (x &&& 255) 0 + BitsSetTable256.getD ((x >>> 8) &&& 255) 0
    + BitsSetTable256.getD ((x >>> 16) &&& 255) 0 + BitsSetTable256.getD (x >>> 24) 0

/-- The voting loops of `match` over the `count` features starting at `first`: the local
array `meandesc` (of `short`) after `memset` and the two nested loops. -/
def meandesc_votes (hdr : Header) (descriptor : Int → Nat) (first count : Int) : Int → Int :=
  (upto 0 count).foldl (fun (meandesc : Int → Int) L =>
    (List.range hdr.SVS_DESCRIPTOR_PIXELS).foldl (fun (md : Int → Int) (bit : Nat) =>
      if descriptor (first + L) &&& (2 ^ bit % 4294967296) ≠ 0 then
        Function.update md bit (i16 (md bit + 1))
      else Function.update md bit (i16 (md bit - 1))) meandesc) (fun _ => 0)

/-- The loop building `meandescL`: bit `bit` is set when `meandesc[bit] >= 0`. -/
def eigendescriptor_left (hdr : Header) (meandesc : Int → Int) : Nat :=
  (List.range hdr.SVS_DESCRIPTOR_PIXELS).foldl (fun (acc : Nat) (bit : Nat) =>
    if meandesc bit ≥ 0 then acc ||| (2 ^ bit % 4294967296) else acc) 0

/-- The loop building `meandescR`: bit `bit` is set when `meandesc[bit] > 0`. -/
def eigendescriptor_right (hdr : Header) (meandesc : Int → Int) : Nat :=
  (List.range hdr.SVS_DESCRIPTOR_PIXELS).foldl (fun (acc : Nat) (bit : Nat) =>
    if meandesc bit > 0 then acc ||| (2 ^ bit % 4294967296) else acc) 0

/-- The bit reversal loop of `match`; the state is `(descLanti, n)`. -/
def anti_descriptor (hdr : Header) (descL : Nat) : Nat :=
  ((List.range hdr.SVS_DESCRIPTOR_PIXELS).foldl (fun (st : Nat × Nat) (_ : Nat) =>
    (((st.1 <<< 1) % 4294967296) ||| (st.2 &&& 1), st.2 >>> 1)) (0, descL)).1

/-- The arguments of `match` other than the two cameras. -/
structure MatchParams where
  ideal_no_of_matches : Int
  max_disparity_percent : Int
  descriptor_match_threshold : Int
  learnDesc : Int
  learnLuma : Int
  learnDisp : Int
  learnPrior : Int
  use_priors : Int

/-- The value `max_disp = max_disp_pixels = max_disparity_percent * imgWidth / 100`, an
`unsigned int` expression (`imgWidth` is unsigned) stored in an `int`. -/
def max_disp_pixels (s : Svs) (a : MatchParams) : Int :=
  i32 (u32 (a.max_disparity_percent * s.imgWidth) / 100)

/-- The index `(row * imgWidth + x) / 16` of the prior grid, an `unsigned int`
expression (`imgWidth` is unsigned) converted to `int`. -/
def prior_index (s : Svs) (row x : Int) : Int :=
  i32 (u32 (row * s.imgWidth + x) / 16)

/-- The value `priors_length = imgWidth * imgHeight / (16 * SVS_VERTICAL_SAMPLING)`. -/
def priors_length (hdr : Header) (s : Svs) : Int :=
  i32 (u32 (s.imgWidth * s.imgHeight) / u32 (16 * hdr.SVS_VERTICAL_SAMPLING))

/-- What the scoring loop of `match` needs about the left feature at hand. -/
structure LeftFeature where
  xL : Int
  meanL : Int
  descL : Nat
  descLanti : Nat
  disp_prior : Int

/-- The value stored in `row_peaks[R]` for the right feature of index `fR + R`: the
matching score inside the disparity window `[min_disp, max_disp)`, the decaying value
just outside it, and 0 otherwise (`min_disp` is -10). -/
def match_score (hdr : Header) (other : Svs) (a : MatchParams) (max_disp : Int) (meandescR : Nat)
    (lf : LeftFeature) (fR R : Int) : Int :=
  let xR := other.feature_x (fR + R)
  let disp := lf.xL - xR
  if disp ≥ -10 ∧ disp < max_disp then
    let disp := if disp < 0 then 0 else disp
    let meanR := other.mean (fR + R)
    let luma_diff := meanR - lf.meanL
    let descR := other.descriptor (fR + R) &&& meandescR
    let correlation : Int := bits_set (lf.descL &&& descR)
    if correlation ≥ a.descriptor_match_threshold then
      let anticorrelation : Int := bits_set (lf.descLanti &&& descR)
      let luma_diff := if luma_diff < 0 then -luma_diff else luma_diff
      let score := 10000 + max_disp * a.learnDisp
        + (correlation + ((hdr.SVS_DESCRIPTOR_PIXELS : Int) - anticorrelation)) * a.learnDesc
        - luma_diff * a.learnLuma - disp * a.learnDisp
      let score :=
        if a.use_priors ≠ 0 then
          let disp_diff := disp - lf.disp_prior
          let disp_diff := if disp_diff < 0 then -disp_diff else disp_diff
          score - disp_diff * a.learnPrior
        else score
      let score := if score < 0 then 0 else score
      u32 score
    else 0
  else if disp < -10 ∧ disp > -max_disp then u32 ((max_disp - disp) * a.learnDisp)
  else 0

/-- The scoring loop of `match` over the right features of the row; the state is
`(row_peaks, total)` with `total` an `unsigned int`. -/
def match_scores (hdr : Header) (other : Svs) (a : MatchParams) (max_disp : Int) (meandescR : Nat)
    (lf : LeftFeature) (fR no_of_feats_right : Int) (row_peaks : Int → Int) :
    (Int → Int) × Int :=
  (upto 0 no_of_feats_right).foldl (fun (st : (Int → Int) × Int) R =>
    let v := match_score hdr other a max_disp meandescR lf fR R
    (Function.update st.1 R v, u32 (st.2 + v))) (row_peaks, 0)

/-- The probability `row_peaks[R] * 1000 / total` in `unsigned int` arithmetic. -/
def match_prob (row_peaks : Int → Int) (total R : Int) : Int :=
  u32 (row_peaks R * 1000) / total

/-- The selection loop of `match` over the right features; the state is
`(best_prob, bestR)`, `bestR` keeping its earlier value until a probability exceeds
`best_prob`. -/
def match_best (row_peaks : Int → Int) (total no_of_feats_right bestR : Int) : Int × Int :=
  (upto 0 no_of_feats_right).foldl (fun (st : Int × Int) R =>
    if row_peaks R > 0 then
      if match_prob row_peaks total R > st.1 then (match_prob row_peaks total R, R) else st
    else st) (0, bestR)

/-- Loop state of the primary stage: the object (its `row_peaks` and `svs_matches`),
`bestR` and `no_of_possible_matches`. -/
structure Primary where
  s : Svs
  bestR : Int
  no_of_possible_matches : Int

/-- The left feature number `L` of the row starting at `fL`, as `match` reads it. -/
def left_feature (hdr : Header) (s : Svs) (a : MatchParams) (meandescL : Nat)
    (row fL L disp_prior : Int) : LeftFeature :=
  let xL := s.feature_x (fL + L)
  let descL := s.descriptor (fL + L) &&& meandescL
  { xL := xL, meanL := s.mean (fL + L), descL := descL,
    descLanti := anti_descriptor hdr descL,
    disp_prior := if a.use_priors ≠ 0 then s.disparity_priors (prior_index s row xL)
                  else disp_prior }

/-- The body of the loop over the left features of a row of `match`. The last
component of the state is the local `disp_prior`. -/
def match_left (hdr : Header) (other : Svs) (a : MatchParams) (y row fL fR : Int)
    (no_of_feats_right : Int) (meandescL meandescR : Nat) (st : Primary × Int) (L : Int) :
    Primary × Int :=
  let s := st.1.s
  let max_disp := max_disp_pixels s a
  let lf := left_feature hdr s a meandescL row fL L st.2
  let sc := match_scores hdr other a max_disp meandescR lf fR no_of_feats_right s.row_peaks
  let s1 := { s with row_peaks := sc.1 }
  if sc.2 > 0 then
    let best := match_best sc.1 sc.2 no_of_feats_right st.1.bestR
    if best.1 > 0 ∧ best.1 < 1000 ∧ st.1.no_of_possible_matches < hdr.SVS_MAX_FEATURES then
      let xR := other.feature_x (fR + best.2)
      let disp := lf.xL - xR
      if disp ≥ -10 then
        let disp := if disp < 0 then 0 else disp
        let n := st.1.no_of_possible_matches
        let m := Function.update (Function.update (Function.update (Function.update
          s1.svs_matches (n * 4) best.1) (n * 4 + 1) (u32 lf.xL)) (n * 4 + 2) (u32 y))
          (n * 4 + 3) (u32 disp)
        (⟨{ s1 with svs_matches := m }, best.2, n + 1⟩, lf.disp_prior)
      else (⟨s1, best.2, st.1.no_of_possible_matches⟩, lf.disp_prior)
    else (⟨s1, best.2, st.1.no_of_possible_matches⟩, lf.disp_prior)
  else (⟨s1, st.1.bestR, st.1.no_of_possible_matches⟩, lf.disp_prior)

/-- Loop state of the row loop of `match`: the primary state, `disp_prior`, `row`, `fL`
and `fR`. -/
structure RowState where
  pr : Primary
  disp_prior : Int
  row : Int
  fL : Int
  fR : Int

/-- The body of the row loop `for (y = 4; y < imgHeight - 4; y += SVS_VERTICAL_SAMPLING, row++)`
of `match`. -/
def match_row (hdr : Header) (other : Svs) (a : MatchParams) (st : RowState) (y : Int) :
    RowState :=
  let s := st.pr.s
  let no_of_feats_left := s.features_per_row st.row
  let no_of_feats_right := other.features_per_row st.row
  let meandescL := eigendescriptor_left hdr
    (meandesc_votes hdr s.descriptor st.fL no_of_feats_left)
  let meandescR := eigendescriptor_right hdr
    (meandesc_votes hdr other.descriptor st.fR no_of_feats_right)
  let r := (upto 0 no_of_feats_left).foldl
    (match_left hdr other a y st.row st.fL st.fR no_of_feats_right meandescL meandescR)
    (st.pr, st.disp_prior)
  ⟨r.1, r.2, st.row + 1, st.fL + no_of_feats_left, st.fR + no_of_feats_right⟩

/-- The primary stage of `match`: all rows, starting with `bestR = 0`, `disp_prior = 0`
and no possible match. -/
def match_primary (hdr : Header) (s other : Svs) (a : MatchParams) : Primary :=
  ((stepRange 4 (s.imgHeight - 4) hdr.SVS_VERTICAL_SAMPLING).foldl (match_row hdr other a)
    ⟨⟨s, 0, 0⟩, 0, 0, 0, 0⟩).pr

/-! ## `svs::match`: selection of the best matches -/

/-- The search loop `while (search_idx < max)` of the selection; positions are match
numbers (`search_idx / 4`) and the state is `(match_prob, winner)` with `winner = -1`
for `winner_idx = -1`. -/
def select_search (m : Int → Int) (curr n : Int) : Int × Int :=
  (upto (curr + 1) n).foldl (fun (st : Int × Int) j =>
    if m (j * 4) > st.1 then (m (j * 4), j) else st) (m (curr * 4), -1)

/-- The exchange of the matches number `curr` and `winner` in `svs_matches`. -/
def select_swap (m : Int → Int) (curr winner : Int) : Int → Int :=
  let best_prob := m (winner * 4)
  let xL := i32 (m (winner * 4 + 1))
  let y := i32 (m (winner * 4 + 2))
  let disp := i32 (m (winner * 4 + 3))
  let m1 := Function.update m (winner * 4) (m (curr * 4))
  let m2 := Function.update m1 (winner * 4 + 1) (m1 (curr * 4 + 1))
  let m3 := Function.update m2 (winner * 4 + 2) (m2 (curr * 4 + 2))
  let m4 := Function.update m3 (winner * 4 + 3) (m3 (curr * 4 + 3))
  let m5 := Function.update m4 (curr * 4) best_prob
  let m6 := Function.update m5 (curr * 4 + 1) (u32 xL)
  let m7 := Function.update m6 (curr * 4 + 2) (u32 y)
  Function.update m7 (curr * 4 + 3) (u32 disp)

/-- The cells `(row_offset, col_offset)` of the 7 x 3 neighbourhood in the order of the
two loops that update the priors. -/
def prior_offsets : List (Int × Int) :=
  (upto (-3) 4).flatMap (fun row_offset => (upto (-1) 2).map (fun col_offset =>
    (row_offset, col_offset)))

/-- The index `(((row + row_offset) * imgWidth + x) / 16) + col_offset`, an `unsigned`
expression stored in the `int idx`. -/
def prior_cell (s : Svs) (row x : Int) (rc : Int × Int) : Int :=
  i32 (u32 (u32 ((row + rc.1) * s.imgWidth + x) / 16 + rc.2))

/-- The update of the priors after an exchange in the selection loop. -/
def select_update_priors (hdr : Header) (s : Svs) (y xL disp : Int) (priors : Int → Int) :
    Int → Int :=
  let row := cdiv y hdr.SVS_VERTICAL_SAMPLING
  prior_offsets.foldl (fun (pr : Int → Int) rc =>
    let idx := prior_cell s row xL rc
    if idx > -1 ∧ idx < priors_length hdr s then
      if pr idx = 0 then Function.update pr idx disp
      else Function.update pr idx (cdiv (disp + pr idx) 2)
    else pr) priors

/-- One iteration of the selection loop at position `curr` (before the test that may
leave the loop). -/
def select_step (hdr : Header) (n : Int) (s : Svs) (curr : Int) : Svs :=
  let w := select_search s.svs_matches curr n
  if w.2 > -1 then
    let xL := i32 (s.svs_matches (w.2 * 4 + 1))
    let y := i32 (s.svs_matches (w.2 * 4 + 2))
    let disp := i32 (s.svs_matches (w.2 * 4 + 3))
    let m := select_swap s.svs_matches curr w.2
    let pri := select_update_priors hdr s y xL disp s.disparity_priors
    { s with svs_matches := m, disparity_priors := pri }
  else s

/-- The selection loop `for (matches = 0; matches < ideal_no_of_matches; matches++)` over
its remaining positions; it returns the object and the final `matches`. -/
def select_loop (hdr : Header) (n : Int) : List Int → Svs → Int → Svs × Int
  | [], s, matchCount => (s, matchCount)
  | curr :: rest, s, _ =>
    let s1 := select_step hdr n s curr
    if s1.svs_matches (curr * 4) = 0 then (s1, curr)
    else select_loop hdr n rest s1 (curr + 1)

/-- The part of `match` from the clearing of the priors to the end of the selection
loop, entered when `no_of_possible_matches > 20`. -/
def match_select (hdr : Header) (s : Svs) (a : MatchParams) (no_of_possible_matches : Int) :
    Svs × Int :=
  let s1 := { s with disparity_priors := memset0 s.disparity_priors (priors_length hdr s) }
  let s2 := filter hdr s1 no_of_possible_matches (max_disp_pixels s a) 3 a.use_priors
  let ideal := if no_of_possible_matches < a.ideal_no_of_matches then no_of_possible_matches
    else a.ideal_no_of_matches
  select_loop hdr no_of_possible_matches (upto 0 ideal) s2 0

/-! ## `svs::match`: disparities for the orthogonal features -/

/-- The update of the priors after a disparity has been assigned to an orthogonal
feature: only cells holding 0 are written. -/
def assign_update_priors (hdr : Header) (s : Svs) (row x disp_prior : Int)
    (priors : Int → Int) : Int → Int :=
  prior_offsets.foldl (fun (pr : Int → Int) rc =>
    let idx := prior_cell s row x rc
    if idx > -1 ∧ idx < priors_length hdr s then
      if pr idx = 0 then Function.update pr idx disp_prior else pr
    else pr) priors

/-- The body of the loop over the features of column `x` (first feature `fL`); the
state is the object and `matches`. -/
def assign_feature (hdr : Header) (x fL : Int) (st : Svs × Int) (L : Int) : Svs × Int :=
  let s := st.1
  if s.valid_quadrants (fL + L) = 0 then
    let y := s.feature_y (fL + L)
    let row := cdiv y hdr.SVS_VERTICAL_SAMPLING
    let disp_prior := s.disparity_priors (prior_index s row x)
    if disp_prior > 0 ∧ st.2 < hdr.SVS_MAX_MATCHES then
      let c := st.2 * 4
      let m := Function.update (Function.update (Function.update (Function.update
        s.svs_matches c 1000) (c + 1) (u32 x)) (c + 2) (u32 y)) (c + 3) (u32 disp_prior)
      let pri := assign_update_priors hdr s row x disp_prior s.disparity_priors
      let vq := Function.update s.valid_quadrants (fL + L) 1
      ({ s with svs_matches := m, disparity_priors := pri, valid_quadrants := vq }, st.2 + 1)
    else st
  else st

/-- The body of the loop over the columns; the state is the object, `matches`, `fL` and
`col`. -/
def assign_column (hdr : Header) (st : (Svs × Int) × Int × Int) (x : Int) :
    (Svs × Int) × Int × Int :=
  let no_of_feats := st.1.1.features_per_col st.2.2
  let r := (upto 0 no_of_feats).foldl (assign_feature hdr x st.2.1) st.1
  (r, st.2.1 + no_of_feats, st.2.2 + 1)

/-- One pass `itt` over all the columns. -/
def assign_pass (hdr : Header) (st : Svs × Int) : Svs × Int :=
  ((stepRange 4 (st.1.imgWidth - 4) hdr.SVS_HORIZONTAL_SAMPLING).foldl (assign_column hdr)
    (st, 0, 0)).1

/-- The loop `for (itt = 0; itt < 10; itt++)` with `fuel` passes left: it stops after a
pass that adds no match. -/
def assign_loop (hdr : Header) : Nat → Svs × Int → Svs × Int
  | 0, st => st
  | fuel + 1, st =>
    let st1 := assign_pass hdr st
    if st.2 = st1.2 then st1 else assign_loop hdr fuel st1

/-- Function `svs::match`: the returned `matches` and the updated object. -/
def svs_match (hdr : Header) (s other : Svs) (a : MatchParams) : Int × Svs :=
  let pr := match_primary hdr s other a
  if pr.no_of_possible_matches > 20 then
    let sel := match_select hdr pr.s a pr.no_of_possible_matches
    let s1 := sel.1
    let s2 := { s1 with valid_quadrants := memset0 s1.valid_quadrants hdr.SVS_MAX_MATCHES }
    let r := assign_loop hdr 10 (s2, sel.2)
    (r.2, r.1)
  else (0, pr.s)

/-- The four cells of match number `i`: probability, x, y and disparity. -/
def match_record (m : Int → Int) (i : Int) : Int × Int × Int × Int :=
  (m (i * 4), m (i * 4 + 1), m (i * 4 + 2), m (i * 4 + 3))

/-- The matches number `0 .. n-1` of the array, in order. -/
def match_records (m : Int → Int) (n : Int) : List (Int × Int × Int × Int) :=
  (upto 0 n).map (match_record m)

/-- Every cell of the array holds an `unsigned int` value. -/
def IsU32Array (m : Int → Int) : Prop := ∀ j, 0 ≤ m j ∧ m j < 4294967296

/-- The selected prefix: the first `k` matches have non-zero probabilities, and each of
them has a probability no smaller than that of every later match among the first `n`. -/
def SelectedPrefix (m : Int → Int) (n k : Int) : Prop :=
  ∀ i, 0 ≤ i → i < k → m (i * 4) ≠ 0 ∧ ∀ j, i < j → j < n → m (j * 4) ≤ m (i * 4)

/-- The candidates as `filter` leaves them inside `match`, before the selection loop. -/
def match_filtered (hdr : Header) (s : Svs) (a : MatchParams) (no_of_possible_matches : Int) :
    Svs :=
  let s1 := { s with disparity_priors := memset0 s.disparity_priors (priors_length hdr s) }
  filter hdr s1 no_of_possible_matches (max_disp_pixels s a) 3 a.use_priors

/-- The parameters used in `main.cpp`: 400 matches, 40 percent, and the weights 90, 35
and 1, with a threshold of 0 bits and no priors. -/
def exampleParams : MatchParams :=
  { ideal_no_of_matches := 400, max_disparity_percent := 40, descriptor_match_threshold := 0,
    learnDesc := 90, learnLuma := 35, learnDisp := 1, learnPrior := 0, use_priors := 0 }

/-- The scores `(row_peaks, total)` that `match` computes for the left feature number `L`
of a row, in the state `st` of the primary stage. -/
def candidate_scores (hdr : Header) (other : Svs) (a : MatchParams) (row fL fR : Int)
    (no_of_feats_right : Int) (meandescL meandescR : Nat) (st : Primary × Int) (L : Int) :
    (Int → Int) × Int :=
  match_scores hdr other a (max_disp_pixels st.1.s a) meandescR
    (left_feature hdr st.1.s a meandescL row fL L st.2) fR no_of_feats_right st.1.s.row_peaks

/-- The pair `(best_prob, bestR)` that `match` computes for the left feature number `L`
of a row. -/
def candidate_best (hdr : Header) (other : Svs) (a : MatchParams) (row fL fR : Int)
    (no_of_feats_right : Int) (meandescL meandescR : Nat) (st : Primary × Int) (L : Int) :
    Int × Int :=
  match_best
    (candidate_scores hdr other a row fL fR no_of_feats_right meandescL meandescR st L).1
    (candidate_scores hdr other a row fL fR no_of_feats_right meandescL meandescR st L).2
    no_of_feats_right st.1.bestR

/-- The disparity `xL - xR` of the left feature number `L` and the right feature `bestR`. -/
def candidate_disp (hdr : Header) (other : Svs) (a : MatchParams) (row fL fR : Int)
    (no_of_feats_right : Int) (meandescL meandescR : Nat) (st : Primary × Int) (L : Int) : Int :=
  (left_feature hdr st.1.s a meandescL row fL L st.2).xL - other.feature_x (fR +
    (candidate_best hdr other a row fL fR no_of_feats_right meandescL meandescR st L).2)

/-- The condition under which `match` records a candidate for the left feature. -/
def candidate_recorded (hdr : Header) (other : Svs) (a : MatchParams) (row fL fR : Int)
    (no_of_feats_right : Int) (meandescL meandescR : Nat) (st : Primary × Int) (L : Int) : Prop :=
  (candidate_scores hdr other a row fL fR no_of_feats_right meandescL meandescR st L).2 > 0 ∧
  ((candidate_best hdr other a row fL fR no_of_feats_right meandescL meandescR st L).1 > 0 ∧
   (candidate_best hdr other a row fL fR no_of_feats_right meandescL meandescR st L).1 < 1000 ∧
   st.1.no_of_possible_matches < hdr.SVS_MAX_FEATURES) ∧
  candidate_disp hdr other a row fL fR no_of_feats_right meandescL meandescR st L ≥ -10

instance (hdr : Header) (other : Svs) (a : MatchParams) (row fL fR nR : Int) (mL mR : Nat)
    (st : Primary × Int) (L : Int) :
    Decidable (candidate_recorded hdr other a row fL fR nR mL mR st L) := by
  unfold candidate_recorded; infer_instance

/-- A left camera with a single feature, at x = 20 on the first sampled row of a
32 x 10 image. -/
def singleLeft : Svs :=
  { blankSvs 32 10 with features_per_row := arrayOf [1], feature_x := arrayOf [20] }

/-- A right camera with a single feature, at x = 15 on the first sampled row. -/
def singleRight : Svs :=
  { blankSvs 32 10 with features_per_row := arrayOf [1], feature_x := arrayOf [15] }

/-- Parameters with a descriptor weight of 200000. -/
def heavyParams : MatchParams :=
  { ideal_no_of_matches := 400, max_disparity_percent := 40, descriptor_match_threshold := 0,
    learnDesc := 200000, learnLuma := 0, learnDisp := 0, learnPrior := 0, use_priors := 0 }

/-- The left camera `singleLeft` in a running session: every prior is 5, every recorded
peak is 7, the history index is 3 and the temporal filter is enabled. -/
def usedSingleLeft : Svs :=
  { singleLeft with
    disparity_priors := fun _ => 5, peaks_history := fun _ => 7,
    peaks_history_index := 3, enable_peaks_filter := 1, valid_quadrants := fun _ => 1 }

/-- The parameters `heavyParams` with the priors enabled. -/
def heavyPriorParams : MatchParams := { heavyParams with use_priors := 1 }

/-! ## Scenarios for the whole of `svs::match` -/

/-- The orthogonal features of one sampled column `x`, added to the pairs collected so
far; the state also carries the counters `fL` and `col` of the pass. -/
def orthogonal_column (s : Svs) (acc : List (Int × Int) × Int × Int) (x : Int) :
    List (Int × Int) × Int × Int :=
  (acc.1 ++ (upto 0 (s.features_per_col acc.2.2)).map (fun L => (x, acc.2.1 + L)),
   acc.2.1 + s.features_per_col acc.2.2, acc.2.2 + 1)

/-- The pairs `(x, f)` of a sampled column `x` and the index `f` of one of its orthogonal
features, in the order in which the passes of `match` visit them. -/
def orthogonal_features (hdr : Header) (s : Svs) : List (Int × Int) :=
  ((stepRange 4 (s.imgWidth - 4) hdr.SVS_HORIZONTAL_SAMPLING).foldl
    (orthogonal_column s) ([], 0, 0)).1

/-- The prior cell read for the orthogonal feature `f` of column `x` lies inside the
grid cleared at the start of the pass. -/
def prior_in_grid (hdr : Header) (s : Svs) (p : Int × Int) : Prop :=
  0 ≤ prior_index s (cdiv (s.feature_y p.2) hdr.SVS_VERTICAL_SAMPLING) p.1 ∧
  prior_index s (cdiv (s.feature_y p.2) hdr.SVS_VERTICAL_SAMPLING) p.1 < priors_length hdr s

/-- A left camera for a 32 x 14 image: seven features at x = 20 .. 26 on each of the
three sampled rows, and one orthogonal feature at y = 14 in the first sampled column.
Cell 14 of the prior buffer, just past the 14 cells of the prior grid, holds 9999. -/
def strayLeft : Svs :=
  { blankSvs 32 14 with
    features_per_row := arrayOf [7, 7, 7],
    feature_x := arrayOf [20, 21, 22, 23, 24, 25, 26, 20, 21, 22, 23, 24, 25, 26,
                          20, 21, 22, 23, 24, 25, 26],
    features_per_col := arrayOf [1],
    feature_y := arrayOf [14],
    disparity_priors := fun i => if i = 14 then 9999 else 0 }

/-- A right camera for a 32 x 14 image: two features at x = 15 and x = 16 on each of the
three sampled rows. -/
def strayRight : Svs :=
  { blankSvs 32 14 with
    features_per_row := arrayOf [2, 2, 2],
    feature_x := arrayOf [15, 16, 15, 16, 15, 16] }

/-- The parameters of `main.cpp` with no match requested from the selection. -/
def strayParams : MatchParams :=
  { ideal_no_of_matches := 0, max_disparity_percent := 40, descriptor_match_threshold := 0,
    learnDesc := 90, learnLuma := 35, learnDisp := 1, learnPrior := 0, use_priors := 0 }

/-- A left camera for a 32 x 14 image in a session whose peak history is full: seven
features at x = 20 .. 26 on each of the three sampled rows, every recorded peak equal
to 4 and the temporal filter enabled. -/
def latchedLeft : Svs :=
  { blankSvs 32 14 with
    features_per_row := arrayOf [7, 7, 7],
    feature_x := arrayOf [20, 21, 22, 23, 24, 25, 26, 20, 21, 22, 23, 24, 25, 26,
                          20, 21, 22, 23, 24, 25, 26],
    peaks_history := fun _ => 4,
    enable_peaks_filter := 1 }

/-- A right camera for a 32 x 14 image: two features at x = 27 and x = 28 on each of the
three sampled rows. -/
def latchedRight : Svs :=
  { blankSvs 32 14 with
    features_per_row := arrayOf [2, 2, 2],
    feature_x := arrayOf [27, 28, 27, 28, 27, 28] }

/-- The weights of `main.cpp` with a maximum disparity of 0 percent, priors enabled and
one match requested. -/
def zeroPercentParams : MatchParams :=
  { ideal_no_of_matches := 1, max_disparity_percent := 0, descriptor_match_threshold := 0,
    learnDesc := 90, learnLuma := 35, learnDisp := 1, learnPrior := 0, use_priors := 1 }

/-- The object `t` has the image size and the orthogonal features of `s`. -/
def SameFeatures (s t : Svs) : Prop :=
  t.imgWidth = s.imgWidth ∧ t.imgHeight = s.imgHeight ∧
  t.features_per_col = s.features_per_col ∧ t.feature_y = s.feature_y

/-- The disparities of the matches number `0 .. n-1` lie in `[0, bound)`. -/
def DispInRange (bound : Int) (m : Int → Int) (n : Int) : Prop :=
  ∀ i, 0 ≤ i → i < n → 0 ≤ m (i * 4 + 3) ∧ m (i * 4 + 3) < bound

/-- The cells `0 .. length-1` of the prior grid lie in `[0, bound)`. -/
def PriorsInRange (bound length : Int) (priors : Int → Int) : Prop :=
  ∀ idx, 0 ≤ idx → idx < length → 0 ≤ priors idx ∧ priors idx < bound

/-- What the primary stage of `match` keeps true from one left feature to the next:
the image size, the orthogonal features, the priors and the peak history are those of
the object `s` the call started with, and the disparities recorded so far lie in
`[0, max(max_disp_pixels, 1))`. -/
def PrimaryInv (s : Svs) (a : MatchParams) (pr : Primary) : Prop :=
  SameFeatures s pr.s ∧ pr.s.disparity_priors = s.disparity_priors ∧
  pr.s.peaks_history = s.peaks_history ∧
  0 ≤ pr.no_of_possible_matches ∧
  DispInRange (max (max_disp_pixels s a) 1) pr.s.svs_matches pr.no_of_possible_matches

/-- What the later stages of `match` keep true: the image size and the orthogonal
features are those of `s`, the disparities of the first `n` matches lie in
`[0, max(max_disp_pixels, 1))`, and so do the cells of the prior grid. -/
def MatchInv (hdr : Header) (s : Svs) (a : MatchParams) (t : Svs) (n : Int) : Prop :=
  SameFeatures s t ∧
  DispInRange (max (max_disp_pixels s a) 1) t.svs_matches n ∧
  PriorsInRange (max (max_disp_pixels s a) 1) (priors_length hdr s) t.disparity_priors

instance (hdr : Header) (s : Svs) (p : Int × Int) : Decidable (prior_in_grid hdr s p) := by
  unfold prior_in_grid; infer_instance

/-- The left camera `strayLeft` with its orthogonal feature moved to y = 4, inside the
image; its prior cell is cell 4 of the grid. -/
def gridLeft : Svs :=
  { strayLeft with feature_y := arrayOf [4] }

/-- A right camera for a 32 x 14 image: two features at x = 17 and x = 18 on each of the
three sampled rows, so that the left features at x = 20 get the disparity 2. -/
def nearRight : Svs :=
  { blankSvs 32 14 with
    features_per_row := arrayOf [2, 2, 2],
    feature_x := arrayOf [17, 18, 17, 18, 17, 18] }

/-! ## Prior updates of the selection loop -/

/-- The value written to a prior cell by the selection loop of `match`: `disp` when the
cell holds 0, and `(disp + old) / 2` otherwise. -/
def prior_update (disp old : Int) : Int :=
  if old = 0 then disp else cdiv (disp + old) 2

/-- Two candidates of a 64 x 32 image already in descending order of probability:
`(x, y, disp) = (40, 8, 5)` with probability 900 and `(20, 4, 3)` with probability 500. -/
def sortedPair : Svs :=
  { blankSvs 64 32 with svs_matches := arrayOf [900, 40, 8, 5, 500, 20, 4, 3] }

/-- Two candidates of a 16 x 32 image in ascending order of probability; the second is
`(x, y, disp) = (8, 8, 2)`, and cell 4 of the prior grid holds 10. -/
def narrowPair : Svs :=
  { blankSvs 16 32 with
    svs_matches := arrayOf [500, 4, 4, 3, 900, 8, 8, 2],
    disparity_priors := fun i => if i = 4 then 10 else 0 }

/-- Three candidates of a 64 x 32 image; the last one, `(40, 8, 5)`, has the highest
probability. -/
def unsortedTriple : Svs :=
  { blankSvs 64 32 with svs_matches := arrayOf [500, 20, 4, 3, 700, 30, 6, 4, 900, 40, 8, 5] }

/-! ## Eigendescriptors of a row -/

/-- The descriptors of a row of two features: the first has only bit 0 set, the second
has no bit set, so bit 0 is set in as many features as it is clear in. -/
def tiedDescriptors : Int → Nat := fun i => if i = 0 then 1 else 0

/-! ## Scores outside the disparity window -/

/-- The histogram `(disparity_histogram, hist_max)` that hemifield `hf` of a call of
`filter` builds from the matches of its zone. -/
def hemifield_histogram (hdr : Header) (s : Svs) (no_of_possible_matches max_disparity_pixels
    tolerance enable_secondary : Int) (hf : Nat) : (Int → Int) × Int :=
  let st := filter_after hdr s no_of_possible_matches max_disparity_pixels tolerance
    enable_secondary hf
  filter_histogram st.s.svs_matches (filter_zone st.s.imgWidth st.s.imgHeight hf st.z)
    no_of_possible_matches (memset0 st.s.disparity_histogram max_disparity_pixels)

/-- The value of `hist_mean` when hemifield `hf` classifies its zone: the sum of the
non-empty bins `3 .. max_disparity_pixels - 2`, divided by their number when a bin
above the threshold was found (`mass > 0`). -/
def hemifield_mean (hdr : Header) (s : Svs) (no_of_possible_matches max_disparity_pixels
    tolerance enable_secondary : Int) (hf : Nat) : Int :=
  (filter_peak
    (hemifield_histogram hdr s no_of_possible_matches max_disparity_pixels tolerance
      enable_secondary hf).1
    (hemifield_histogram hdr s no_of_possible_matches max_disparity_pixels tolerance
      enable_secondary hf).2 max_disparity_pixels).2

/-- Twelve matches in the upper left of a 100 x 100 image: eight of disparity 0, three
of disparity 10 and one of disparity 5. -/
def zeroHeavyScenario : Svs :=
  { blankSvs 100 100 with
    svs_matches := arrayOf [500, 10, 10, 0, 500, 11, 11, 0, 500, 12, 12, 0, 500, 13, 13, 0,
      500, 14, 14, 0, 500, 15, 15, 0, 500, 16, 16, 0, 500, 17, 17, 0,
      500, 20, 20, 10, 500, 21, 21, 10, 500, 22, 22, 10, 500, 30, 30, 5] }

/-! ## Cells zeroed by despeckling -/

/-- The eight immediate neighbours of cell `(x, y)` of a map `width` cells wide. -/
def despeckle_neighbours (width x y : Int) : List Int :=
  [(y - 1) * width + (x - 1), (y - 1) * width + x, (y - 1) * width + (x + 1),
   y * width + (x - 1), y * width + (x + 1),
   (y + 1) * width + (x - 1), (y + 1) * width + x, (y + 1) * width + (x + 1)]

/-- The test `diff > min_diff` of `despeckle_disparity_map` on cell `c`, with `diff`
the `unsigned` difference `centre_disparity - disparity_map[2c + 1]`. -/
def despeckle_differs (dm : Int → Int) (centre_disparity min_diff : Int) (c : Int) : Bool :=
  decide (u32 (centre_disparity - dm (c * 2 + 1)) > min_diff)

/-- A 3 x 3 disparity map (maximum disparity 100): the centre cell has disparity 80 and
its eight neighbours have disparity 81, all with confidence 1. -/
def despeckleRing : Int → Int :=
  arrayOf [1,81, 1,81, 1,81,
           1,81, 1,80, 1,81,
           1,81, 1,81, 1,81]

/-! ## Colour correction -/

/-- The six values returned by `mean_row_reflectance` through its reference arguments. -/
structure RowReflectance where
  mean_r : Int
  mean_g : Int
  mean_b : Int
  mean_r_deviation : Int
  mean_g_deviation : Int
  mean_b_deviation : Int

/-- The first loop of `mean_row_reflectance`: the sums `(mean_r, mean_g, mean_b)` of the
bytes at `n + 2`, `n + 1` and `n`, with `n = y*img_width*3 + 3*x`. -/
def row_sums (img : Int → Int) (img_width y : Int) : Int × Int × Int :=
  (upto 0 img_width).foldl (fun (st : Int × Int × Int) x =>
    let n := y * img_width * 3 + x * 3
    (st.1 + byteAt img (n + 2), st.2.1 + byteAt img (n + 1), st.2.2 + byteAt img n)) (0, 0, 0)

/-- The second loop of `mean_row_reflectance`: the sums of the absolute differences from
the means `(mean_r, mean_g, mean_b)`. -/
def row_deviations (img : Int → Int) (img_width y : Int) (mean : Int × Int × Int) :
    Int × Int × Int :=
  (upto 0 img_width).foldl (fun (st : Int × Int × Int) x =>
    let n := y * img_width * 3 + x * 3
    (st.1 + cabs (byteAt img (n + 2) - mean.1), st.2.1 + cabs (byteAt img (n + 1) - mean.2.1),
     st.2.2 + cabs (byteAt img n - mean.2.2))) (0, 0, 0)

/-- Function `stereodense::mean_row_reflectance`. -/
def mean_row_reflectance (img : Int → Int) (img_width y : Int) : RowReflectance :=
  let s := row_sums img img_width y
  let mean := (cdiv s.1 img_width, cdiv s.2.1 img_width, cdiv s.2.2 img_width)
  let d := row_deviations img img_width y mean
  { mean_r := mean.1, mean_g := mean.2.1, mean_b := mean.2.2,
    mean_r_deviation := cdiv d.1 img_width, mean_g_deviation := cdiv d.2.1 img_width,
    mean_b_deviation := cdiv d.2.2 img_width }

/-- The byte stored by `colour_correction` for a right value `v`:
`(unsigned char)(mean_left + ((v - mean_right) * deviation_left / deviation_right))`. -/
def corrected_value (mean_left deviation_left mean_right deviation_right v : Int) : Int :=
  u8 (mean_left + cdiv ((v - mean_right) * deviation_left) deviation_right)

/-- The three assignments of the innermost loop of `colour_correction` at the pixel
whose first byte is `n`, with `l` and `r` the reflectances of the left and right row. -/
def correct_pixel (l r : RowReflectance) (img : Int → Int) (n : Int) : Int → Int :=
  let img1 := Function.update img (n + 2)
    (corrected_value l.mean_r l.mean_r_deviation r.mean_r r.mean_r_deviation (byteAt img (n + 2)))
  let img2 := Function.update img1 (n + 1)
    (corrected_value l.mean_g l.mean_g_deviation r.mean_g r.mean_g_deviation (byteAt img1 (n + 1)))
  Function.update img2 n
    (corrected_value l.mean_b l.mean_b_deviation r.mean_b r.mean_b_deviation (byteAt img2 n))

/-- The innermost loop of `colour_correction` over the pixels of the right row
`y_right`. -/
def correct_row (l r : RowReflectance) (img_width y_right : Int) (img_right : Int → Int) :
    Int → Int :=
  (upto 0 img_width).foldl (fun (img : Int → Int) x =>
    correct_pixel l r img (y_right * img_width * 3 + x * 3)) img_right

/-- The mean of the channel stored at byte offset `c` of a pixel: blue at 0, green at
1, red at 2. -/
def channel_mean (r : RowReflectance) (c : Int) : Int :=
  if c = 2 then r.mean_r else if c = 1 then r.mean_g else r.mean_b

/-- The deviation of the channel stored at byte offset `c` of a pixel. -/
def channel_deviation (r : RowReflectance) (c : Int) : Int :=
  if c = 2 then r.mean_r_deviation else if c = 1 then r.mean_g_deviation
  else r.mean_b_deviation

/-- The body of the loop of `colour_correction` over the left rows. -/
def colour_correction_row (img_left : Int → Int) (img_width img_height offset_y : Int)
    (img_right : Int → Int) (y_left : Int) : Int → Int :=
  let y_right := y_left - offset_y
  if y_right > -1 ∧ y_right < img_height then
    let l := mean_row_reflectance img_left img_width y_left
    let r := mean_row_reflectance img_right img_width y_right
    if r.mean_r_deviation ≠ 0 ∧ r.mean_g_deviation ≠ 0 ∧ r.mean_b_deviation ≠ 0 then
      correct_row l r img_width y_right img_right
    else img_right
  else img_right

/-- Function `stereodense::colour_correction`, the rows taken in increasing order; the
result is the right image, the only buffer written. -/
def colour_correction (img_left img_right : Int → Int) (img_width img_height offset_y : Int) :
    Int → Int :=
  (upto 0 img_height).foldl (colour_correction_row img_left img_width img_height offset_y)
    img_right

/-- A grey left row of three pixels with values 0, 255 and 255. -/
def brightLeft : Int → Int := arrayOf [0, 0, 0, 255, 255, 255, 255, 255, 255]

/-- A grey right row of three pixels with values 0, 0 and 30. -/
def dimRight : Int → Int := arrayOf [0, 0, 0, 0, 0, 0, 30, 30, 30]

/-! ## Sum of absolute differences -/

/-- The bounds test made by `SAD` before it reads any pixel. -/
def SAD_in_bounds (p : DenseParams) (x_left y_left x_right y_right radius : Int) : Prop :=
  (x_left - radius > -1 ∧ x_right - radius > -1) ∧
  (x_left + radius < p.img_width - 1 ∧ x_right + radius < p.img_width - 1) ∧
  (y_left - radius > -1 ∧ y_right - radius > -1) ∧
  (y_left + radius < p.img_height - 1 ∧ y_right + radius < p.img_height - 1)

instance (p : DenseParams) (x_left y_left x_right y_right radius : Int) :
    Decidable (SAD_in_bounds p x_left y_left x_right y_right radius) := by
  unfold SAD_in_bounds; infer_instance

/-- The loop `for (dx = -radius; dx <= radius; dx++, n_left += 3, n_right += 3)` of
`SAD`; the state is `(sad, n_left, n_right)`. -/
def SAD_row (p : DenseParams) (radius : Int) (st : Int × Int × Int) : Int × Int × Int :=
  (upto (-radius) (radius + 1)).foldl (fun (st : Int × Int × Int) _ =>
    (st.1 + pixel_difference p st.2.1 st.2.2, st.2.1 + 3, st.2.2 + 3)) st

/-- Function `stereodense::SAD`. -/
def SAD (p : DenseParams) (x_left y_left x_right y_right radius : Int) : Int :=
  if SAD_in_bounds p x_left y_left x_right y_right radius then
    (upto (-radius) (radius + 1)).foldl (fun sad dy =>
      (SAD_row p radius (sad, ((y_left + dy) * p.img_width + x_left - radius) * 3,
        ((y_right + dy) * p.img_width + x_right - radius) * 3)).1) 0
  else -1

/-- The pairs `(n_left, n_right)` at which the inner loop of `SAD` reads three bytes of
each image, in the order of the loop. -/
def SAD_row_reads (radius n_left n_right : Int) : List (Int × Int) :=
  ((upto (-radius) (radius + 1)).foldl (fun (st : List (Int × Int) × Int × Int) _ =>
    (st.1 ++ [(st.2.1, st.2.2)], st.2.1 + 3, st.2.2 + 3)) ([], n_left, n_right)).1

/-- The pairs `(n_left, n_right)` at which a call of `SAD` reads three bytes of each
image. -/
def SAD_reads (p : DenseParams) (x_left y_left x_right y_right radius : Int) :
    List (Int × Int) :=
  if SAD_in_bounds p x_left y_left x_right y_right radius then
    (upto (-radius) (radius + 1)).flatMap (fun dy =>
      SAD_row_reads radius (((y_left + dy) * p.img_width + x_left - radius) * 3)
        (((y_right + dy) * p.img_width + x_right - radius) * 3))
  else []

/-- Every pixel of the patch of radius `radius` centred on `(x, y)` lies inside the
`img_width` x `img_height` image. -/
def patch_inside (p : DenseParams) (x y radius : Int) : Prop :=
  ∀ dx dy : Int, (-radius ≤ dx ∧ dx ≤ radius) → (-radius ≤ dy ∧ dy ≤ radius) →
    (0 ≤ x + dx ∧ x + dx < p.img_width) ∧ (0 ≤ y + dy ∧ y + dy < p.img_height)

/-- The sum of absolute channel differences over the patch, pixel by pixel: the pixel
at offset `(dx, dy)` of the left patch against the one at the same offset of the right
patch. -/
def patch_difference_sum (p : DenseParams) (x_left y_left x_right y_right radius : Int) : Int :=
  ((upto (-radius) (radius + 1)).map (fun dy =>
    ((upto (-radius) (radius + 1)).map (fun dx =>
      pixel_difference p (((y_left + dy) * p.img_width + (x_left + dx)) * 3)
        (((y_right + dy) * p.img_width + (x_right + dx)) * 3))).sum)).sum

/-- The value `v = max_patch_value - (unsigned int)sad` that `update_disparity_space`
adds to the disparity space, with
`max_patch_value = (unsigned int)(3*255*patch_pixels)` and
`patch_pixels = (correlation_radius*2+1)^2`. -/
def patch_confidence (correlation_radius sad : Int) : Int :=
  let patch_pixels := correlation_radius * 2 + 1
  let patch_pixels := patch_pixels * patch_pixels
  let max_patch_value := u32 (3 * 255 * patch_pixels)
  u32 (max_patch_value - u32 sad)

/-- A 6 x 6 pair of images with pseudo-random bytes and no calibration offsets. -/
def patchImages : DenseParams :=
  { img_left := exampleImage, img_right := fun i => exampleImage (i + 5),
    img_width := 6, img_height := 6, offset_x := 0, offset_y := 0,
    smoothing_radius := 1, vertical_sampling := 1 }

/-! ## Bytes read by the cross-check -/

/-- The pairs `(n_left, n_right)` of byte offsets at which the loop over `samples` of
`cross_check_pixel` reads three bytes of each image, in the order of the nested tests:
the rows one `stride` above and below are read only when the earlier tests pass. -/
def cross_check_sample_reads (p : DenseParams) (similarity_threshold stride : Int) :
    List Int → Int → Int → List (Int × Int)
  | [], _, _ => []
  | _ :: rest, n_left, n_right =>
    if pixel_difference p n_left n_right < similarity_threshold then
      if pixel_difference p (n_left - stride) (n_right - stride) < similarity_threshold then
        if pixel_difference p (n_left + stride) (n_right + stride) < similarity_threshold then
          (n_left, n_right) :: (n_left - stride, n_right - stride)
            :: (n_left + stride, n_right + stride)
            :: cross_check_sample_reads p similarity_threshold stride rest (n_left + 3)
                (n_right + 3)
        else [(n_left, n_right), (n_left - stride, n_right - stride),
              (n_left + stride, n_right + stride)]
      else [(n_left, n_right), (n_left - stride, n_right - stride)]
    else [(n_left, n_right)]

/-- The pairs `(n_left, n_right)` of byte offsets read by a call of
`cross_check_pixel`. -/
def cross_check_reads (p : DenseParams) (x y disparity similarity_threshold : Int) :
    List (Int × Int) :=
  let y_left := y * STEREO_DENSE_SMOOTH_VERTICAL * p.vertical_sampling
  let y_right := y * STEREO_DENSE_SMOOTH_VERTICAL * p.vertical_sampling - p.offset_y
  let x_left := x * p.smoothing_radius
  let x_right := x_left - disparity - p.offset_x
  let stride := p.img_width * 3 * 2
  if x_right > 2 ∧ x_right < p.img_width - 2 ∧ y_left < p.img_height - 2 ∧
      y_right < p.img_height - 2 then
    cross_check_sample_reads p similarity_threshold stride (upto 0 3)
      ((y_left * p.img_width + x_left) * 3) ((y_right * p.img_width + x_right) * 3)
  else []

/-! ## Rectification -/

/-- The body of the loop of `rectify` for destination pixel `n`, whose bytes start at
`i = 3n`: the three bytes at `idx = calibration_map[n] * 3` of the raw image are
copied. -/
def rectify_pixel (calibration_map raw_image : Int → Int) (rectified_frame_buf : Int → Int)
    (n : Int) : Int → Int :=
  let i := n * 3
  let idx := calibration_map n * 3
  Function.update (Function.update (Function.update rectified_frame_buf i (byteAt raw_image idx))
    (i + 1) (byteAt raw_image (idx + 1))) (i + 2) (byteAt raw_image (idx + 2))

/-- The number of iterations of `for (i = 0; i < max; i += 3, n++)` with
`max = imgWidth * imgHeight * 3`, an `unsigned int` product stored in an `int`. -/
def rectify_pixels (s : Svs) : Int :=
  (i32 (u32 (s.imgWidth * s.imgHeight * 3)) + 2) / 3

/-- Function `svs::rectify`, written over the pixel counter `n` (`i = 3n`); the map is
`none` when `calibration_map` is `NULL`. The result is `rectified_frame_buf`. -/
def rectify (s : Svs) (calibration_map : Option (Int → Int))
    (raw_image rectified_frame_buf : Int → Int) : Int → Int :=
  match calibration_map with
  | some cmap => (upto 0 (rectify_pixels s)).foldl (rectify_pixel cmap raw_image)
      rectified_frame_buf
  | none => rectified_frame_buf

/-- A raw 2 x 1 image whose bytes are 10 .. 15, with the bytes 7, 8, 9 stored just
before the buffer. -/
def rawPair : Int → Int :=
  fun i => if i = -3 then 7 else if i = -2 then 8 else if i = -1 then 9
    else arrayOf [10, 11, 12, 13, 14, 15] i

/-- A calibration map for a 2 x 1 image: pixel 0 has the entry -1 and pixel 1 the
entry 0. -/
def skipMap : Int → Int := fun n => if n = 0 then -1 else 0

/-! ## Entries written by make_map_int -/

/-- The identity polynomial with a constant term: the coefficients `[1, 10000000, 0, 0]`. -/
def biasedCoeff : Int → Int := arrayOf [1, 10000000, 0, 0]

/-! ## Feature counts of get_features -/

/-- What the loop over a row or column keeps true: the features counted on the row are
the features found since its start, and the buffer is full exactly when the flag says
so. -/
def FeatLoopInv (hdr : Header) (base : Int) (st : FeatLoop) : Prop :=
  st.no_of_features = base + st.no_of_feats ∧ 0 ≤ st.no_of_feats ∧
  (st.full = false → st.no_of_features < hdr.SVS_MAX_FEATURES) ∧
  (st.full = true → st.no_of_features = hdr.SVS_MAX_FEATURES)

/-- What the loop over the rows or columns leaves: `row_idx` counts recorded whose sum is
`no_of_features`, at most `SVS_MAX_FEATURES`. -/
def FeatOuterInv (hdr : Header) (counts : Svs → Int → Int) (st : FeatOuter) : Prop :=
  0 ≤ st.row_idx ∧ 0 ≤ st.no_of_features ∧ st.no_of_features ≤ hdr.SVS_MAX_FEATURES ∧
  ((upto 0 st.row_idx).map (counts st.s)).sum = st.no_of_features

/-- What is known when the loop over the rows or columns ends, `len` rows after the state
`st`: the counts recorded add up to `no_of_features`, and either the buffer is full or
every row was visited. -/
def FeatOuterDone (hdr : Header) (counts : Svs → Int → Int) (st : FeatOuter) (len : Int)
    (r : FeatOuter) : Prop :=
  FeatOuterInv hdr counts r ∧ r.row_idx ≤ st.row_idx + len ∧
  (r.no_of_features = hdr.SVS_MAX_FEATURES ∨ r.row_idx = st.row_idx + len)

/-! ## The peak history of filter -/

/-- One call of `filter` in a session: the candidates found by the primary stage of
`match` since the previous call, and the arguments of the call. -/
structure FilterCall where
  svs_matches : Int → Int
  no_of_possible_matches : Int
  max_disparity_pixels : Int
  tolerance : Int
  enable_secondary : Int

/-- A session: the calls of `filter` made one after the other on the same object. -/
def filter_run (hdr : Header) (s : Svs) (calls : List FilterCall) : Svs :=
  calls.foldl (fun (t : Svs) (c : FilterCall) =>
    filter hdr { t with svs_matches := c.svs_matches } c.no_of_possible_matches
      c.max_disparity_pixels c.tolerance c.enable_secondary) s

/-- The number of calls of a session made with temporal smoothing enabled. -/
def enabled_count (calls : List FilterCall) : Int :=
  (calls.countP (fun c => decide (c.enable_secondary ≠ 0)) : Nat)

/-- The peak `disp2` that hemifield `hf` of a call of `filter` finds in its histogram,
before any temporal smoothing. -/
def hemifield_peak (hdr : Header) (s : Svs) (no_of_possible_matches max_disparity_pixels
    tolerance enable_secondary : Int) (hf : Nat) : Int :=
  (filter_peak
    (hemifield_histogram hdr s no_of_possible_matches max_disparity_pixels tolerance
      enable_secondary hf).1
    (hemifield_histogram hdr s no_of_possible_matches max_disparity_pixels tolerance
      enable_secondary hf).2 max_disparity_pixels).1

/-- A call of `filter` on three candidates with temporal smoothing enabled. -/
def smoothedCall : FilterCall :=
  { svs_matches := filterScenario.svs_matches, no_of_possible_matches := 3,
    max_disparity_pixels := 20, tolerance := 3, enable_secondary := 1 }

/-- After `k` enabled calls the ring index is `k` modulo `SVS_PEAKS_HISTORY` and the latch
is set exactly when the ring has gone round at least once. -/
def LatchInv (hdr : Header) (k : Int) (s : Svs) : Prop :=
  ∃ q : Int, 0 ≤ q ∧ k = q * hdr.SVS_PEAKS_HISTORY + s.peaks_history_index ∧
    (0 ≤ s.peaks_history_index ∧ s.peaks_history_index < hdr.SVS_PEAKS_HISTORY) ∧
    s.enable_peaks_filter = (if 1 ≤ q then 1 else 0)

/-! ## stereodense::update_disparity_space -/

/-- The arguments of `update_disparity_space` other than the images and their
geometry. -/
structure UpdateParams where
  max_disparity_percent : Int
  correlation_radius : Int
  disparity_step : Int
  disparity_space_width : Int
  disparity_space_height : Int

/-- The pairs `(y, y2)` taken by the loop
`for (y = ty; y < by; y += vertical_sampling, y2++)` of `update_disparity_space`; a
non-positive step gives no iteration here (the C loop would not end). -/
def space_rows (p : DenseParams) : List (Int × Int) :=
  let ty := if p.offset_y ≥ 0 then 0 else -p.offset_y
  let bY := if p.offset_y ≥ 0 then p.img_height - p.offset_y else p.img_height
  if p.vertical_sampling ≤ 0 then []
  else (List.range ((bY - ty + p.vertical_sampling - 1) / p.vertical_sampling).toNat).map
    (fun (k : Nat) => (ty + (k : Int) * p.vertical_sampling, (k : Int)))

/-- The index `n_inner` of the fine cell `(yy, xx_inner)` of hypothesis
`disparity_index`, as `update_disparity_space` computes it. -/
def fine_index_written (p : DenseParams) (u : UpdateParams) (disparity_index yy xx_inner : Int) :
    Int :=
  let width2 := cdiv p.img_width p.smoothing_radius
  let disparity_space_pixels := u.disparity_space_width * u.disparity_space_height
  let disparity_space_offset := disparity_index * disparity_space_pixels * 2
  (yy * width2 + xx_inner) + disparity_space_offset

/-- The index `n_outer` of the coarse cell `(yy/2, xx_inner/2)` of hypothesis
`disparity_index`, as `update_disparity_space` computes it. -/
def coarse_index_written (p : DenseParams) (u : UpdateParams) (disparity_index yy xx_inner : Int) :
    Int :=
  let width3 := cdiv p.img_width (p.smoothing_radius * 2)
  let disparity_space_pixels := u.disparity_space_width * u.disparity_space_height
  let disparity_space_offset := disparity_index * disparity_space_pixels * 2
  let yy2 := cdiv yy 2
  (yy2 * width3 + cdiv xx_inner 2) + disparity_space_offset + disparity_space_pixels

/-- The triples `(n_inner, n_outer, v)` of the accumulations
`disparity_space[n_inner] += v; disparity_space[n_outer] += v` that
`update_disparity_space` makes for hypothesis `disparity_index`, in the order of its
loops over `y` and `x_left`. The value `v` depends on the images only. -/
def hypothesis_cells (p : DenseParams) (u : UpdateParams) (disparity_index : Int) :
    List (Int × Int × Int) :=
  let patch_pixels := u.correlation_radius * 2 + 1
  let patch_pixels := patch_pixels * patch_pixels
  let max_patch_value := u32 (3 * 255 * patch_pixels)
  let img_height2 := cdiv p.img_height p.vertical_sampling
  let width2 := cdiv p.img_width p.smoothing_radius
  let height2 := cdiv img_height2 STEREO_DENSE_SMOOTH_VERTICAL
  let disparity := disparity_index * u.disparity_step
  (space_rows p).flatMap (fun (row : Int × Int) =>
    let y := row.1
    let yy := cdiv row.2 STEREO_DENSE_SMOOTH_VERTICAL
    if yy > 1 ∧ yy < height2 - 2 then
      (upto 0 (p.img_width - p.offset_x)).flatMap (fun x_left =>
        let x_right := -p.offset_x - disparity + x_left
        if x_left - u.correlation_radius > -1 ∧ x_left + u.correlation_radius < p.img_width ∧
            x_right - u.correlation_radius > -1 ∧ x_right + u.correlation_radius < p.img_width then
          let sad := SAD p x_left y x_right (y - p.offset_y) u.correlation_radius
          if sad > -1 then
            let xx_inner := cdiv x_left p.smoothing_radius
            if xx_inner > 1 ∧ xx_inner < width2 - 2 then
              [(fine_index_written p u disparity_index yy xx_inner,
                coarse_index_written p u disparity_index yy xx_inner,
                u32 (max_patch_value - u32 sad))]
            else []
          else []
        else [])
    else [])

/-- The two accumulations `disparity_space[n_inner] += v; disparity_space[n_outer] += v`
on the `unsigned int` array. -/
def space_add (disparity_space : Int → Int) (c : Int × Int × Int) : Int → Int :=
  let s1 := Function.update disparity_space c.1 (u32 (disparity_space c.1 + c.2.2))
  Function.update s1 c.2.1 (u32 (s1 c.2.1 + c.2.2))

/-- The body of the loop over `disparity_index` of `update_disparity_space`. -/
def update_hypothesis (p : DenseParams) (u : UpdateParams) (disparity_space : Int → Int)
    (disparity_index : Int) : Int → Int :=
  (hypothesis_cells p u disparity_index).foldl space_add disparity_space

/-- The number of hypotheses `no_of_disparities = max_disparity / disparity_step`. -/
def update_no_of_disparities (p : DenseParams) (u : UpdateParams) : Int :=
  cdiv (cdiv (u.max_disparity_percent * p.img_width) 100) u.disparity_step

/-- Function `stereodense::update_disparity_space` with the hypotheses processed in the
order `order`: the space is cleared and each hypothesis adds its values. -/
def update_disparity_space_in (p : DenseParams) (u : UpdateParams) (disparity_space : Int → Int)
    (order : List Int) : Int → Int :=
  order.foldl (update_hypothesis p u)
    (memset0 disparity_space
      (update_no_of_disparities p u * (u.disparity_space_width * u.disparity_space_height) * 2))

/-- Function `stereodense::update_disparity_space`, the hypotheses taken in increasing
order. -/
def update_disparity_space (p : DenseParams) (u : UpdateParams) (disparity_space : Int → Int) :
    Int → Int :=
  update_disparity_space_in p u disparity_space (upto 0 (update_no_of_disparities p u))

/-- The value left in cell `i` by `space_add` when it held `v`. -/
def cell_add (c : Int × Int × Int) (i v : Int) : Int :=
  let v1 := if i = c.1 then u32 (v + c.2.2) else v
  if i = c.2.1 then u32 (v1 + c.2.2) else v1

/-- The value left in cell `i` by the accumulations of hypothesis `k` when it held `v`. -/
def hypothesis_add (p : DenseParams) (u : UpdateParams) (i : Int) (v k : Int) : Int :=
  (hypothesis_cells p u k).foldl (fun w c => cell_add c i w) v

/-- Cell `i` lies in the slab `[2kP, 2(k+1)P)` of hypothesis `k`, where `P` is the number
of cells `disparity_space_width * disparity_space_height` of the fine grid. -/
def in_slab (u : UpdateParams) (k i : Int) : Prop :=
  2 * k * (u.disparity_space_width * u.disparity_space_height) ≤ i ∧
    i < 2 * (k + 1) * (u.disparity_space_width * u.disparity_space_height)

/-- A model with two hypotheses over 12 x 6 images: fine grid 6 x 6, radius 1. -/
def slabImages : DenseParams :=
  { img_left := exampleImage, img_right := fun i => exampleImage (i + 5),
    img_width := 12, img_height := 6, offset_x := 0, offset_y := 0,
    smoothing_radius := 2, vertical_sampling := 1 }

/-- The parameters of `update_disparity_space` for `slabImages`: two hypotheses. -/
def slabParams : UpdateParams :=
  { max_disparity_percent := 20, correlation_radius := 1, disparity_step := 1,
    disparity_space_width := 6, disparity_space_height := 6 }

/-- The index `n_space_outer` of the coarse cell that
`disparity_map_from_disparity_space` reads for hypothesis `disparity_index` at map pixel
`(x, y)`. -/
def coarse_index_read (disparity_space_width disparity_space_height disparity_index x y : Int) :
    Int :=
  let disparity_space_pixels := disparity_space_width * disparity_space_height
  let disparity_space_width2 := cdiv disparity_space_width 2
  let disparity_space_offset := disparity_index * disparity_space_pixels * 2
  disparity_space_pixels + disparity_space_offset + cdiv y 2 * disparity_space_width2 + cdiv x 2

/-! ## The zones of filter -/

/-- Three matches of disparity 10 in a 100 x 100 image, the last one at the centre
`(50, 50)`, each with probability 500. -/
def centreScenario : Svs :=
  { blankSvs 100 100 with
    svs_matches := arrayOf [500, 10, 10, 10, 500, 20, 20, 10, 500, 50, 50, 10] }

/-! ## Non-maximal suppression -/

/-- What the outer loop of `non_max` has established when its counter is `k`, for the
input responses `rp`, the threshold `av` and the current buffer `cur`: every cell is 0 or
unchanged; a non-zero cell below `k` passed the threshold and beat the `R - 1` cells after
it, which are 0; and from `k` on the changed cells form a run of zeros starting at `k`. -/
def NonMaxInv (rp : Int → Int) (av R k : Int) (cur : Int → Int) : Prop :=
  (∀ j, cur j = 0 ∨ cur j = rp j) ∧
  (∀ i, 4 ≤ i → i < k → cur i ≠ 0 →
    av ≤ rp i ∧ ∀ r, 1 ≤ r → r < R → rp (i + r) < rp i ∧ cur (i + r) = 0) ∧
  (∀ j, k ≤ j → cur j = rp j ∨ ∀ m, k ≤ m → m ≤ j → cur m = 0)

/-! ## Cells of the disparity map -/

/-- Two 32 x 32 images: the left one black, the right one black in the columns 5, 6
and 7 and white elsewhere, so that a pixel comparison succeeds only against these
columns. -/
def lateImages : DenseParams :=
  { img_left := fun _ => 0,
    img_right := fun i => if 5 ≤ (i / 3) % 32 ∧ (i / 3) % 32 ≤ 7 then 0 else 255,
    img_width := 32, img_height := 32, offset_x := 0, offset_y := 0,
    smoothing_radius := 8, vertical_sampling := 2 }

/-- A 4 x 16 disparity space holding 1 everywhere, with the two hypotheses that
`update_disparity_map` derives from `max_disparity_pixels = 25 * 32 / 100 = 8` and
`disparity_step = 4`. -/
def flatSpace : SpaceParams :=
  { disparity_space := fun _ => 1, disparity_space_width := 4, disparity_space_height := 16,
    disparity_step := 4, no_of_disparities := cdiv (cdiv (25 * 32) 100) 4,
    similarity_threshold := 1 }

/-- A pair `(confidence, disparity)` is empty or comes from one of the hypotheses
`0 .. no_of_disparities - 1`: its confidence is the positive combined score of that
hypothesis at `(x, y)` and its disparity one of the 8 candidates of that hypothesis. -/
def PairFromHypothesis (q : SpaceParams) (x y : Int) (cell : Int × Int) : Prop :=
  cell = (0, 0) ∨
  (0 < cell.1 ∧ ∃ k, (0 ≤ k ∧ k < q.no_of_disparities) ∧
    local_correlation q.disparity_space q.disparity_space_width q.disparity_space_height
      k x y = cell.1 ∧
    k * q.disparity_step ≤ cell.2 ∧ cell.2 ≤ k * q.disparity_step + 7)

/-! ## match with few candidates -/

/-- The fields of the object that the primary stage of `match` never writes: they are
those of `s`. -/
def PrimaryFrame (s t : Svs) : Prop :=
  t.peaks_history_index = s.peaks_history_index ∧
  t.enable_peaks_filter = s.enable_peaks_filter ∧
  t.valid_quadrants = s.valid_quadrants ∧
  t.disparity_histogram = s.disparity_histogram

set_option maxRecDepth 100000

/-! ## Feature descriptors -/

theorem countP_range_guard (p : Nat → Bool) (N : Nat) :
    ∀ m, N ≤ m → (List.range m).countP (fun j => decide (j < N) && p j) = (List.range N).countP p := by
  intro m hm
  induction m, hm using Nat.le_induction with
  | base =>
    apply List.countP_congr
    intro j hj
    simp at hj
    simp [hj]
  | succ m hm ih =>
    rw [List.range_succ, List.countP_append, ih]
    have : ¬ m < N := by omega
    simp [this]

theorem binarise_fold (p : Nat → Bool) (n : Nat) (hn : n ≤ 32) :
    ((List.range n).foldl (fun (st : Nat × Nat × Nat) k =>
      if p k then (st.1 * 2, (st.2.1 ||| st.1) % 4294967296, (st.2.2 + 1) % 256)
      else (st.1 * 2, st.2.1, st.2.2)) (1, 0, 0)).1 = 2 ^ n ∧
    (∀ j, ((List.range n).foldl (fun (st : Nat × Nat × Nat) k =>
      if p k then (st.1 * 2, (st.2.1 ||| st.1) % 4294967296, (st.2.2 + 1) % 256)
      else (st.1 * 2, st.2.1, st.2.2)) (1, 0, 0)).2.1.testBit j = (decide (j < n) && p j)) ∧
    ((List.range n).foldl (fun (st : Nat × Nat × Nat) k =>
      if p k then (st.1 * 2, (st.2.1 ||| st.1) % 4294967296, (st.2.2 + 1) % 256)
      else (st.1 * 2, st.2.1, st.2.2)) (1, 0, 0)).2.2 = (List.range n).countP p := by
  induction n with
  | zero => simp
  | succ n ih =>
    obtain ⟨h1, h2, h3⟩ := ih (by omega)
    rw [List.range_succ, List.foldl_append]
    simp only [List.foldl_cons, List.foldl_nil, List.countP_append]
    generalize ((List.range n).foldl (fun (st : Nat × Nat × Nat) k =>
      if p k then (st.1 * 2, (st.2.1 ||| st.1) % 4294967296, (st.2.2 + 1) % 256)
      else (st.1 * 2, st.2.1, st.2.2)) (1, 0, 0)) = st at h1 h2 h3
    have hcnt : (List.range n).countP p ≤ n := by
      simpa using List.countP_le_length (p := p) (l := List.range n)
    by_cases hp : p n = true
    · simp only [hp, if_true]
      refine ⟨by rw [h1, pow_succ], ?_, ?_⟩
      · intro j
        have hlt : st.2.1 ||| st.1 < 4294967296 := by
          have : st.2.1 < 2 ^ 32 := by
            apply Nat.lt_pow_two_of_testBit
            intro i hi
            rw [h2]; simp; omega
          have h5 : st.1 < 2 ^ 32 := by rw [h1]; exact Nat.pow_lt_pow_right (by norm_num) (by omega)
          exact Nat.or_lt_two_pow this h5
        rw [Nat.mod_eq_of_lt hlt, Nat.testBit_or, h2, h1, Nat.testBit_two_pow]
        by_cases hj : j < n
        · have : n ≠ j := by omega
          simp [hj, this]; omega
        · by_cases hjn : n = j
          · subst hjn; simp [hp]
          · have : ¬ j < n + 1 := by omega
            simp [hj, hjn, this]
      · rw [h3]; simp [hp]; omega
    · have hp2 : p n = false := by simpa using hp
      simp only [hp2, Bool.false_eq_true, if_false]
      refine ⟨by rw [h1, pow_succ], ?_, ?_⟩
      · intro j
        rw [h2]
        by_cases hj : j < n
        · have : j < n + 1 := by omega
          simp [hj, this]
        · by_cases hjn : n = j
          · subst hjn; simp [hp2]
          · have : ¬ j < n + 1 := by omega
            simp [hj, this]
      · rw [h3]; simp [hp2]


theorem binarise_bit_count (hdr : Header) (hN : hdr.SVS_DESCRIPTOR_PIXELS ≤ 30)
    (w px py : Int) (buf : Int → Int) (mv : Int) :
    (descriptor_binarise hdr w px py buf mv).2.2
      = setBits (descriptor_binarise hdr w px py buf mv).2.1 := by
  have h := binarise_fold (fun k => decide (descriptor_sample hdr w px py buf k > mv))
    hdr.SVS_DESCRIPTOR_PIXELS (by omega)
  simp only [decide_eq_true_eq] at h
  obtain ⟨-, h2, h3⟩ := h
  unfold descriptor_binarise setBits
  rw [h3]
  rw [← countP_range_guard _ hdr.SVS_DESCRIPTOR_PIXELS 32 (by omega)]
  apply List.countP_congr
  intro j _
  rw [h2 j]

theorem compute_descriptor_cases (hdr : Header) (hN : hdr.SVS_DESCRIPTOR_PIXELS ≤ 30)
    (s : Svs) (px py : Int) (buf : Int → Int) (no_of_features row_mean : Int) :
    let desc := (descriptor_binarise hdr s.imgWidth px py buf
      (descriptor_meanval hdr s.imgWidth px py buf)).2.1
    let r := compute_descriptor hdr s px py buf no_of_features row_mean
    ((3 < setBits desc ∧ (setBits desc : Int) < hdr.SVS_DESCRIPTOR_PIXELS - 3) →
      r.1 = 0 ∧ r.2.descriptor = Function.update s.descriptor no_of_features desc) ∧
    (¬ (3 < setBits desc ∧ (setBits desc : Int) < hdr.SVS_DESCRIPTOR_PIXELS - 3) →
      r = (-1, s)) := by
  intro desc r
  have hb := binarise_bit_count hdr hN s.imgWidth px py buf
    (descriptor_meanval hdr s.imgWidth px py buf)
  constructor
  · intro hg
    have hc : (((descriptor_binarise hdr s.imgWidth px py buf
        (descriptor_meanval hdr s.imgWidth px py buf)).2.2 : Nat) : Int) > 3 ∧
        (((descriptor_binarise hdr s.imgWidth px py buf
        (descriptor_meanval hdr s.imgWidth px py buf)).2.2 : Nat) : Int)
          < (hdr.SVS_DESCRIPTOR_PIXELS : Int) - 3 := by
      rw [hb]; exact ⟨by exact_mod_cast hg.1, hg.2⟩
    simp only [r, compute_descriptor, hc, and_self, if_true]
  · intro hg
    have hc : ¬ ((((descriptor_binarise hdr s.imgWidth px py buf
        (descriptor_meanval hdr s.imgWidth px py buf)).2.2 : Nat) : Int) > 3 ∧
        (((descriptor_binarise hdr s.imgWidth px py buf
        (descriptor_meanval hdr s.imgWidth px py buf)).2.2 : Nat) : Int)
          < (hdr.SVS_DESCRIPTOR_PIXELS : Int) - 3) := by
      rw [hb]; intro h; exact hg ⟨by exact_mod_cast h.1, h.2⟩
    simp only [r, compute_descriptor, hc, if_false]

theorem compute_descriptor_keeps (hdr : Header) (hN : hdr.SVS_DESCRIPTOR_PIXELS ≤ 30)
    (s : Svs) (px py : Int) (buf : Int → Int) (n row_mean : Int)
    (h : DescriptorsInRange hdr s n) :
    let r := compute_descriptor hdr s px py buf n row_mean
    (r.1 = 0 → DescriptorsInRange hdr r.2 (n + 1)) ∧ (r.1 ≠ 0 → r.2 = s) := by
  intro r
  have hc := compute_descriptor_cases hdr hN s px py buf n row_mean
  by_cases hg : 3 < setBits (descriptor_binarise hdr s.imgWidth px py buf
      (descriptor_meanval hdr s.imgWidth px py buf)).2.1 ∧
      (setBits (descriptor_binarise hdr s.imgWidth px py buf
      (descriptor_meanval hdr s.imgWidth px py buf)).2.1 : Int) < hdr.SVS_DESCRIPTOR_PIXELS - 3
  · obtain ⟨h0, hd⟩ := hc.1 hg
    refine ⟨fun _ => ?_, fun hne => absurd h0 hne⟩
    intro k hk0 hk
    show 3 < setBits (r.2.descriptor k) ∧ _
    rw [hd, Function.update_apply]
    by_cases hkn : k = n
    · simp only [hkn, if_true]; exact hg
    · simp only [hkn, if_false]; exact h k hk0 (by omega)
  · have := hc.2 hg
    refine ⟨fun h0 => ?_, fun _ => ?_⟩
    · rw [show r = (-1, s) from this] at h0; simp at h0
    · rw [show r = (-1, s) from this]


theorem descriptorsInRange_of_eq (hdr : Header) (s t : Svs) (n : Int)
    (h : t.descriptor = s.descriptor) (hs : DescriptorsInRange hdr s n) :
    DescriptorsInRange hdr t n := by
  intro k hk0 hk
  rw [h]; exact hs k hk0 hk

theorem features_row_loop_keeps (hdr : Header) (hN : hdr.SVS_DESCRIPTOR_PIXELS ≤ 30)
    (buf : Int → Int) (y row_mean ox : Int) :
    ∀ (xs : List Int) (st : FeatLoop), DescriptorsInRange hdr st.s st.no_of_features →
      DescriptorsInRange hdr (features_row_loop hdr buf y row_mean ox xs st).s
        (features_row_loop hdr buf y row_mean ox xs st).no_of_features := by
  intro xs
  induction xs with
  | nil => intro st h; exact h
  | cons x xs ih =>
    intro st h
    have hk := compute_descriptor_keeps hdr hN st.s x y buf st.no_of_features row_mean h
    simp only [features_row_loop]
    split_ifs with h1 h2 h3
    · exact descriptorsInRange_of_eq hdr _ _ _ rfl (hk.1 h2)
    · exact ih _ (descriptorsInRange_of_eq hdr _ _ _ rfl (hk.1 h2))
    · apply ih
      show DescriptorsInRange hdr (compute_descriptor hdr st.s x y buf st.no_of_features row_mean).2 _
      rw [hk.2 h2]; exact h
    · exact ih _ h

theorem features_col_loop_keeps (hdr : Header) (hN : hdr.SVS_DESCRIPTOR_PIXELS ≤ 30)
    (buf : Int → Int) (x col_mean oy : Int) :
    ∀ (ys : List Int) (st : FeatLoop), DescriptorsInRange hdr st.s st.no_of_features →
      DescriptorsInRange hdr (features_col_loop hdr buf x col_mean oy ys st).s
        (features_col_loop hdr buf x col_mean oy ys st).no_of_features := by
  intro ys
  induction ys with
  | nil => intro st h; exact h
  | cons y ys ih =>
    intro st h
    have hk := compute_descriptor_keeps hdr hN st.s x y buf st.no_of_features col_mean h
    simp only [features_col_loop]
    split_ifs with h1 h2 h3
    · exact descriptorsInRange_of_eq hdr _ _ _ rfl (hk.1 h2)
    · exact ih _ (descriptorsInRange_of_eq hdr _ _ _ rfl (hk.1 h2))
    · apply ih
      show DescriptorsInRange hdr (compute_descriptor hdr st.s x y buf st.no_of_features col_mean).2 _
      rw [hk.2 h2]; exact h
    · exact ih _ h

theorem features_vertical_loop_keeps (hdr : Header) (hN : hdr.SVS_DESCRIPTOR_PIXELS ≤ 30)
    (buf : Int → Int) (ir mr ox start_x : Int) :
    ∀ (ys : List Int) (st : FeatOuter), DescriptorsInRange hdr st.s st.no_of_features →
      DescriptorsInRange hdr (features_vertical_loop hdr buf ir mr ox start_x ys st).s
        (features_vertical_loop hdr buf ir mr ox start_x ys st).no_of_features := by
  intro ys
  induction ys with
  | nil => intro st h; exact h
  | cons y ys ih =>
    intro st h
    simp only [features_vertical_loop]
    have key : ∀ r : FeatLoop, DescriptorsInRange hdr r.s r.no_of_features →
        DescriptorsInRange hdr
          (if r.full then
            (⟨{ r.s with features_per_row :=
                (Function.update r.s.features_per_row st.row_idx r.no_of_feats) },
              r.no_of_features, st.row_idx + 1⟩ : FeatOuter)
          else features_vertical_loop hdr buf ir mr ox start_x ys
            ⟨{ r.s with features_per_row :=
                (Function.update r.s.features_per_row st.row_idx r.no_of_feats) },
              r.no_of_features, st.row_idx + 1⟩).s
          (if r.full then
            (⟨{ r.s with features_per_row :=
                (Function.update r.s.features_per_row st.row_idx r.no_of_feats) },
              r.no_of_features, st.row_idx + 1⟩ : FeatOuter)
          else features_vertical_loop hdr buf ir mr ox start_x ys
            ⟨{ r.s with features_per_row :=
                (Function.update r.s.features_per_row st.row_idx r.no_of_feats) },
              r.no_of_features, st.row_idx + 1⟩).no_of_features := by
      intro r hr
      split_ifs
      · exact hr
      · exact ih _ hr
    apply key
    split_ifs
    · apply features_row_loop_keeps hdr hN
      exact h
    · exact h

theorem features_horizontal_loop_keeps (hdr : Header) (hN : hdr.SVS_DESCRIPTOR_PIXELS ≤ 30)
    (buf : Int → Int) (ir mr oy start_y : Int) :
    ∀ (xs : List Int) (st : FeatOuter), DescriptorsInRange hdr st.s st.no_of_features →
      DescriptorsInRange hdr (features_horizontal_loop hdr buf ir mr oy start_y xs st).s
        (features_horizontal_loop hdr buf ir mr oy start_y xs st).no_of_features := by
  intro xs
  induction xs with
  | nil => intro st h; exact h
  | cons x xs ih =>
    intro st h
    simp only [features_horizontal_loop]
    have key : ∀ r : FeatLoop, DescriptorsInRange hdr r.s r.no_of_features →
        DescriptorsInRange hdr
          (if r.full then
            (⟨{ r.s with features_per_col :=
                (Function.update r.s.features_per_col st.row_idx r.no_of_feats) },
              r.no_of_features, st.row_idx + 1⟩ : FeatOuter)
          else features_horizontal_loop hdr buf ir mr oy start_y xs
            ⟨{ r.s with features_per_col :=
                (Function.update r.s.features_per_col st.row_idx r.no_of_feats) },
              r.no_of_features, st.row_idx + 1⟩).s
          (if r.full then
            (⟨{ r.s with features_per_col :=
                (Function.update r.s.features_per_col st.row_idx r.no_of_feats) },
              r.no_of_features, st.row_idx + 1⟩ : FeatOuter)
          else features_horizontal_loop hdr buf ir mr oy start_y xs
            ⟨{ r.s with features_per_col :=
                (Function.update r.s.features_per_col st.row_idx r.no_of_feats) },
              r.no_of_features, st.row_idx + 1⟩).no_of_features := by
      intro r hr
      split_ifs
      · exact hr
      · exact ih _ hr
    apply key
    split_ifs
    · apply features_col_loop_keeps hdr hN
      exact h
    · exact h

/-- C1: `compute_descriptor` returns 0 and stores the descriptor exactly when the
number of set bits of that descriptor is strictly between 3 and
`SVS_DESCRIPTOR_PIXELS - 3`; otherwise it returns -1 and leaves the object as it
was.  Hence every descriptor recorded by `get_features_vertical` and by
`get_features_horizontal` has its number of set bits strictly between those bounds.
The descriptor width is at most the 30 points of `pixel_offsets`. -/
theorem compute_descriptor_popcount_contract (hdr : Header) (s : Svs) (px py : Int)
    (buf : Int → Int) (no_of_features row_mean : Int)
    (inhibition_radius minimum_response calibration_offset_x calibration_offset_y : Int)
    (hN : hdr.SVS_DESCRIPTOR_PIXELS ≤ 30) :
    ((compute_descriptor hdr s px py buf no_of_features row_mean).1 = 0 ↔
      (3 < setBits (descriptor_binarise hdr s.imgWidth px py buf
          (descriptor_meanval hdr s.imgWidth px py buf)).2.1 ∧
       (setBits (descriptor_binarise hdr s.imgWidth px py buf
          (descriptor_meanval hdr s.imgWidth px py buf)).2.1 : Int)
          < hdr.SVS_DESCRIPTOR_PIXELS - 3)) ∧
    ((compute_descriptor hdr s px py buf no_of_features row_mean).1 = 0 →
      (compute_descriptor hdr s px py buf no_of_features row_mean).2.descriptor
        = Function.update s.descriptor no_of_features
            (descriptor_binarise hdr s.imgWidth px py buf
              (descriptor_meanval hdr s.imgWidth px py buf)).2.1) ∧
    ((compute_descriptor hdr s px py buf no_of_features row_mean).1 ≠ 0 →
      compute_descriptor hdr s px py buf no_of_features row_mean = (-1, s)) ∧
    DescriptorsInRange hdr
      (get_features_vertical hdr s buf inhibition_radius minimum_response
        calibration_offset_x calibration_offset_y).2
      (get_features_vertical hdr s buf inhibition_radius minimum_response
        calibration_offset_x calibration_offset_y).1 ∧
    DescriptorsInRange hdr
      (get_features_horizontal hdr s buf inhibition_radius minimum_response
        calibration_offset_x calibration_offset_y).2
      (get_features_horizontal hdr s buf inhibition_radius minimum_response
        calibration_offset_x calibration_offset_y).1 := by
  have hc := compute_descriptor_cases hdr hN s px py buf no_of_features row_mean
  simp only at hc
  refine ⟨⟨fun h0 => ?_, fun hg => (hc.1 hg).1⟩, fun h0 => ?_, fun hne => ?_, ?_, ?_⟩
  · by_contra hg
    rw [hc.2 hg] at h0
    simp at h0
  · by_cases hg : (3 < setBits (descriptor_binarise hdr s.imgWidth px py buf
          (descriptor_meanval hdr s.imgWidth px py buf)).2.1 ∧
       (setBits (descriptor_binarise hdr s.imgWidth px py buf
          (descriptor_meanval hdr s.imgWidth px py buf)).2.1 : Int)
          < hdr.SVS_DESCRIPTOR_PIXELS - 3)
    · exact (hc.1 hg).2
    · rw [hc.2 hg] at h0
      simp at h0
  · by_cases hg : (3 < setBits (descriptor_binarise hdr s.imgWidth px py buf
          (descriptor_meanval hdr s.imgWidth px py buf)).2.1 ∧
       (setBits (descriptor_binarise hdr s.imgWidth px py buf
          (descriptor_meanval hdr s.imgWidth px py buf)).2.1 : Int)
          < hdr.SVS_DESCRIPTOR_PIXELS - 3)
    · exact absurd (hc.1 hg).1 hne
    · exact hc.2 hg
  · apply features_vertical_loop_keeps hdr hN
    intro k hk0 hk
    exact absurd hk (by show ¬ k < 0; omega)
  · apply features_horizontal_loop_keeps hdr hN
    intro k hk0 hk
    exact absurd hk (by show ¬ k < 0; omega)

/-- Instance of `compute_descriptor_popcount_contract` on a 40 x 40 synthetic image. -/
theorem compute_descriptor_popcount_contract_witness :
    exampleHeader.SVS_DESCRIPTOR_PIXELS ≤ 30 ∧
    DescriptorsInRange exampleHeader
      (get_features_vertical exampleHeader (blankSvs 40 40) exampleImage 6 0 0 0).2
      (get_features_vertical exampleHeader (blankSvs 40 40) exampleImage 6 0 0 0).1 :=
  ⟨by decide,
   (compute_descriptor_popcount_contract exampleHeader (blankSvs 40 40) 20 20 exampleImage
      0 0 6 0 0 0 (by decide)).2.2.2.1⟩

/-! ## Non-maximal suppression -/

/-- C6 (as stated, refuted): on the responses `[0,0,0,0,10,3,12,2,0,0]` with
inhibition radius 2 and `min_response = 0`, `non_max` does not zero index 4. -/
theorem non_max_scenario_index4_survives :
    ¬ ((non_max nonMaxScenario 0 2 0).row_peaks 6 = 12 ∧
       (non_max nonMaxScenario 0 2 0).row_peaks 4 = 0 ∧
       (non_max nonMaxScenario 0 2 0).row_peaks 5 = 0 ∧
       (non_max nonMaxScenario 0 2 0).row_peaks 7 = 0) := by
  decide

/-- C6 (amended): on the responses `[0,0,0,0,10,3,12,2,0,0]` with inhibition radius 2
and `min_response = 0`, `non_max` leaves index 6 with value 12 and index 4 with value
10 and zeroes indices 5 and 7; every other cell keeps its zero. With radius 2 a
point is compared with its right-hand neighbour only, so index 6 does not suppress
index 4. -/
theorem non_max_scenario_radius2 :
    (upto 0 10).map (non_max nonMaxScenario 0 2 0).row_peaks
      = [0, 0, 0, 0, 10, 0, 12, 0, 0, 0] := by
  decide

/-! ## Histogram filter -/

theorem mem_upto (lo hi j : Int) : j ∈ upto lo hi ↔ lo ≤ j ∧ j < hi := by
  unfold upto
  simp only [List.mem_map, List.mem_range]
  constructor
  · rintro ⟨k, hk, rfl⟩
    omega
  · intro h
    exact ⟨(j - lo).toNat, by omega, by omega⟩

theorem nodup_upto (lo hi : Int) : (upto lo hi).Nodup := by
  unfold upto
  apply List.Nodup.map _ (List.nodup_range _)
  intro a b h
  simp only at h
  omega

/-- A loop that rewrites cell `φ i` at iteration `i`, for pairwise distinct cells. -/
theorem foldl_update_apply (φ : Int → Int) (c : Int → Prop) [DecidablePred c]
    (g : Int → Int → Int) (hφ : Function.Injective φ) :
    ∀ (l : List Int), l.Nodup → ∀ (a : Int → Int) (j : Int),
      (l.foldl (fun v i => if c i then Function.update v (φ i) (g i (v (φ i))) else v) a) (φ j)
        = if j ∈ l ∧ c j then g j (a (φ j)) else a (φ j) := by
  intro l
  induction l with
  | nil => intro _ a j; simp
  | cons i l ih =>
    intro hnd a j
    rw [List.nodup_cons] at hnd
    rw [List.foldl_cons, ih hnd.2]
    by_cases hji : j = i
    · subst hji
      by_cases hc : c j
      · simp [hc, hnd.1]
      · simp [hc, hnd.1]
    · have hne : φ j ≠ φ i := fun h => hji (hφ h)
      by_cases hc : c i
      · simp [hc, hji, Function.update_noteq hne]
      · simp [hc, hji]

theorem foldl_update_other (φ : Int → Int) (c : Int → Prop) [DecidablePred c]
    (g : Int → Int → Int) :
    ∀ (l : List Int) (a : Int → Int) (x : Int), (∀ i ∈ l, φ i ≠ x) →
      (l.foldl (fun v i => if c i then Function.update v (φ i) (g i (v (φ i))) else v) a) x
        = a x := by
  intro l
  induction l with
  | nil => intro a x _; rfl
  | cons i l ih =>
    intro a x h
    rw [List.foldl_cons, ih _ _ (fun k hk => h k (List.mem_cons_of_mem _ hk))]
    have : x ≠ φ i := fun e => h i (List.mem_cons_self _ _) e.symm
    by_cases hc : c i
    · simp [hc, Function.update_noteq this]
    · simp [hc]

theorem filter_mark_apply (m : Int → Int) (z : Zone) (near disp2 tolerance n : Int)
    (valid : Int → Int) (j : Int) :
    filter_mark m z near disp2 tolerance n valid j
      = if (0 ≤ j ∧ j < n) ∧ filter_accepts m z near disp2 tolerance j then u8 (valid j + 1)
        else valid j := by
  have h := foldl_update_apply (fun i => i) (fun i => filter_accepts m z near disp2 tolerance i)
    (fun _ v => u8 (v + 1)) (fun _ _ h => h) (upto 0 n) (nodup_upto 0 n) valid j
  simp only [mem_upto] at h
  exact h

theorem filter_remove_apply (valid : Int → Int) (n : Int) (m : Int → Int) (i : Int) :
    filter_remove valid n m (i * 4)
      = if (0 ≤ i ∧ i < n) ∧ valid i = 0 then 0 else m (i * 4) := by
  have h := foldl_update_apply (fun i => i * 4) (fun i => valid i = 0)
    (fun _ _ => 0) (fun a b h => by simp only at h; omega) (upto 0 n) (nodup_upto 0 n) m i
  simp only [mem_upto] at h
  exact h

theorem filter_remove_other (valid : Int → Int) (n : Int) (m : Int → Int) (x : Int)
    (hx : ∀ i, x ≠ i * 4) : filter_remove valid n m x = m x :=
  foldl_update_other (fun i => i * 4) (fun i => valid i = 0)
    (fun _ _ => 0) (upto 0 n) m x (fun i _ e => hx i e.symm)


theorem filter_hemifield_frame (hdr : Header) (n maxd tol en : Int) (st : FilterState) (hf : Int) :
    (filter_hemifield hdr n maxd tol en st hf).s.svs_matches = st.s.svs_matches ∧
    (filter_hemifield hdr n maxd tol en st hf).s.valid_quadrants
      = filter_mark st.s.svs_matches (filter_hemifield hdr n maxd tol en st hf).z
          (filter_hemifield hdr n maxd tol en st hf).near
          (filter_hemifield hdr n maxd tol en st hf).disp2 tol n st.s.valid_quadrants := by
  unfold filter_hemifield
  simp only
  split_ifs <;> exact ⟨rfl, rfl⟩

theorem filter_after_succ (hdr : Header) (s : Svs) (n maxd tol en : Int) (k : Nat) :
    filter_after hdr s n maxd tol en (k + 1)
      = filter_hemifield hdr n maxd tol en (filter_after hdr s n maxd tol en k) k := by
  unfold filter_after
  rw [List.range_succ, List.map_append, List.foldl_append]
  rfl

theorem filter_after_matches (hdr : Header) (s : Svs) (n maxd tol en : Int) (k : Nat) :
    (filter_after hdr s n maxd tol en k).s.svs_matches = s.svs_matches := by
  induction k with
  | zero => rfl
  | succ k ih => rw [filter_after_succ, (filter_hemifield_frame _ _ _ _ _ _ _).1, ih]

theorem filter_after_valid (hdr : Header) (s : Svs) (n maxd tol en : Int) (i : Int)
    (hi : 0 ≤ i ∧ i < n) (k : Nat) (hk : k ≤ 4) :
    (0 ≤ (filter_after hdr s n maxd tol en k).s.valid_quadrants i ∧
      (filter_after hdr s n maxd tol en k).s.valid_quadrants i ≤ k) ∧
    ((filter_after hdr s n maxd tol en k).s.valid_quadrants i = 0 ↔
      ∀ hf, hf < k → ¬ filter_accepted_by hdr s n maxd tol en hf i) := by
  induction k with
  | zero =>
    have h0 : (filter_after hdr s n maxd tol en 0).s.valid_quadrants i = 0 := by
      show memset0 s.valid_quadrants n i = 0
      unfold memset0
      rw [if_pos hi]
    rw [h0]
    simp
  | succ k ih =>
    obtain ⟨⟨ih1, ih2⟩, ih3⟩ := ih (by omega)
    have hv : (filter_after hdr s n maxd tol en (k + 1)).s.valid_quadrants i
        = if filter_accepted_by hdr s n maxd tol en k i
          then u8 ((filter_after hdr s n maxd tol en k).s.valid_quadrants i + 1)
          else (filter_after hdr s n maxd tol en k).s.valid_quadrants i := by
      rw [filter_after_succ, (filter_hemifield_frame _ _ _ _ _ _ _).2, filter_mark_apply,
        filter_after_matches, ← filter_after_succ]
      unfold filter_accepted_by
      simp only [hi, and_self, true_and]
    rw [hv]
    by_cases hc : filter_accepted_by hdr s n maxd tol en k i
    · rw [if_pos hc]
      have hu : u8 ((filter_after hdr s n maxd tol en k).s.valid_quadrants i + 1)
          = (filter_after hdr s n maxd tol en k).s.valid_quadrants i + 1 := by
        unfold u8; omega
      rw [hu]
      refine ⟨⟨by omega, by push_cast; omega⟩, ?_⟩
      constructor
      · intro h; omega
      · intro h; exact absurd hc (h k (by omega))
    · rw [if_neg hc]
      refine ⟨⟨ih1, by push_cast; omega⟩, ?_⟩
      rw [ih3]
      constructor
      · intro h hf hlt
        by_cases e : hf = k
        · subst e; exact hc
        · exact h hf (by omega)
      · intro h hf hlt
        exact h hf (by omega)

theorem filter_matches (hdr : Header) (s : Svs) (n maxd tol en : Int) :
    (filter hdr s n maxd tol en).svs_matches
      = filter_remove (filter_after hdr s n maxd tol en 4).s.valid_quadrants n s.svs_matches := by
  unfold filter
  simp only
  rw [filter_after_matches]
  split_ifs <;> rfl

/-- What `filter` does to the probability cell of match `i`. -/
theorem filter_probability (hdr : Header) (s : Svs) (n maxd tol en : Int) (i : Int) :
    ((0 ≤ i ∧ i < n) ∧ (∀ hf, hf < 4 → ¬ filter_accepted_by hdr s n maxd tol en hf i) →
      (filter hdr s n maxd tol en).svs_matches (i * 4) = 0) ∧
    (¬ ((0 ≤ i ∧ i < n) ∧ (∀ hf, hf < 4 → ¬ filter_accepted_by hdr s n maxd tol en hf i)) →
      (filter hdr s n maxd tol en).svs_matches (i * 4) = s.svs_matches (i * 4)) := by
  rw [filter_matches, filter_remove_apply]
  constructor
  · rintro ⟨hi, h⟩
    rw [if_pos ⟨hi, ((filter_after_valid hdr s n maxd tol en i hi 4 (by omega)).2).2 h⟩]
  · intro h
    rw [if_neg]
    rintro ⟨hi, hv⟩
    exact h ⟨hi, ((filter_after_valid hdr s n maxd tol en i hi 4 (by omega)).2).1 hv⟩

theorem filter_other_cells (hdr : Header) (s : Svs) (n maxd tol en : Int) (x : Int)
    (hx : ∀ i, x ≠ i * 4) :
    (filter hdr s n maxd tol en).svs_matches x = s.svs_matches x := by
  rw [filter_matches, filter_remove_other _ _ _ _ hx]

/-- C8: `filter` changes the match list only by zeroing probabilities. The x, y and
disparity cells of every match keep their values; the probability of a match is
unchanged when at least one of the four hemifields contains it and accepts its
disparity, and the probability of a match `i < no_of_possible_matches` that no
hemifield accepts becomes 0. -/
theorem filter_only_zeroes_probabilities (hdr : Header) (s : Svs)
    (no_of_possible_matches max_disparity_pixels tolerance enable_secondary : Int) (i : Int) :
    ((filter hdr s no_of_possible_matches max_disparity_pixels tolerance
        enable_secondary).svs_matches (i * 4 + 1) = s.svs_matches (i * 4 + 1) ∧
     (filter hdr s no_of_possible_matches max_disparity_pixels tolerance
        enable_secondary).svs_matches (i * 4 + 2) = s.svs_matches (i * 4 + 2) ∧
     (filter hdr s no_of_possible_matches max_disparity_pixels tolerance
        enable_secondary).svs_matches (i * 4 + 3) = s.svs_matches (i * 4 + 3)) ∧
    ((∃ hf, hf < 4 ∧ filter_accepted_by hdr s no_of_possible_matches max_disparity_pixels
        tolerance enable_secondary hf i) →
      (filter hdr s no_of_possible_matches max_disparity_pixels tolerance
        enable_secondary).svs_matches (i * 4) = s.svs_matches (i * 4)) ∧
    ((0 ≤ i ∧ i < no_of_possible_matches) →
      (¬ ∃ hf, hf < 4 ∧ filter_accepted_by hdr s no_of_possible_matches max_disparity_pixels
        tolerance enable_secondary hf i) →
      (filter hdr s no_of_possible_matches max_disparity_pixels tolerance
        enable_secondary).svs_matches (i * 4) = 0) := by
  refine ⟨⟨?_, ?_, ?_⟩, ?_, ?_⟩
  · exact filter_other_cells _ _ _ _ _ _ _ (fun j => by omega)
  · exact filter_other_cells _ _ _ _ _ _ _ (fun j => by omega)
  · exact filter_other_cells _ _ _ _ _ _ _ (fun j => by omega)
  · rintro ⟨hf, hlt, hacc⟩
    apply (filter_probability hdr s _ _ _ _ i).2
    rintro ⟨_, h⟩
    exact h hf hlt hacc
  · intro hi hno
    apply (filter_probability hdr s _ _ _ _ i).1
    exact ⟨hi, fun hf hlt hacc => hno ⟨hf, hlt, hacc⟩⟩

/-- C4 (as stated, refuted): in `filterScenario` the match of disparity 1 keeps its
probability although every hemifield that contains it has its peak at disparity 10,
further than the tolerance 3. -/
theorem filter_survivor_far_from_peak :
    (filter exampleHeader filterScenario 3 20 3 0).svs_matches (2 * 4) ≠ 0 ∧
    ∀ hf, hf < 4 →
      ¬ (in_zone filterScenario.svs_matches
          (filter_after exampleHeader filterScenario 3 20 3 0 (hf + 1)).z 2 ∧
         cabs (filterScenario.svs_matches (2 * 4 + 3)
          - (filter_after exampleHeader filterScenario 3 20 3 0 (hf + 1)).disp2) ≤ 3) := by
  decide

/-- C4 (amended): after `filter`, every match `i < no_of_possible_matches` whose
probability is non-zero lies in the zone of at least one hemifield that accepted it:
a hemifield applying the peak window (`near == 1`), in which the disparity is neither
below `disp2 - tolerance` nor above `disp2 + tolerance` (as `unsigned int`), or a
hemifield applying the far test (`near == 0`), in which the disparity is at most 2
whatever the peak. -/
theorem filter_survivor_accepted (hdr : Header) (s : Svs)
    (no_of_possible_matches max_disparity_pixels tolerance enable_secondary : Int) (i : Int)
    (hi : 0 ≤ i ∧ i < no_of_possible_matches)
    (hp : (filter hdr s no_of_possible_matches max_disparity_pixels tolerance
        enable_secondary).svs_matches (i * 4) ≠ 0) :
    ∃ hf, hf < 4 ∧
      in_zone s.svs_matches
        (filter_after hdr s no_of_possible_matches max_disparity_pixels tolerance
          enable_secondary (hf + 1)).z i ∧
      (((filter_after hdr s no_of_possible_matches max_disparity_pixels tolerance
          enable_secondary (hf + 1)).near = 1 ∧
        u32 ((filter_after hdr s no_of_possible_matches max_disparity_pixels tolerance
          enable_secondary (hf + 1)).disp2 - tolerance) ≤ s.svs_matches (i * 4 + 3) ∧
        s.svs_matches (i * 4 + 3) ≤
          u32 ((filter_after hdr s no_of_possible_matches max_disparity_pixels tolerance
            enable_secondary (hf + 1)).disp2 + tolerance)) ∨
       ((filter_after hdr s no_of_possible_matches max_disparity_pixels tolerance
          enable_secondary (hf + 1)).near ≠ 1 ∧ s.svs_matches (i * 4 + 3) ≤ 2)) := by
  by_contra hno
  apply hp
  apply (filter_probability hdr s _ _ _ _ i).1
  refine ⟨hi, fun hf hlt hacc => hno ⟨hf, hlt, ?_⟩⟩
  unfold filter_accepted_by filter_accepts at hacc
  refine ⟨hacc.1, ?_⟩
  by_cases hn : (filter_after hdr s no_of_possible_matches max_disparity_pixels tolerance
      enable_secondary (hf + 1)).near = 1
  · have h2 := hacc.2
    rw [if_pos hn] at h2
    left
    exact ⟨hn, by omega, by omega⟩
  · have h2 := hacc.2
    rw [if_neg hn] at h2
    right
    exact ⟨hn, h2⟩

/-- Instance of `filter_survivor_accepted`: the surviving match of `filterScenario`. -/
theorem filter_survivor_accepted_witness :
    (0 ≤ (2 : Int) ∧ (2 : Int) < 3) ∧
    (filter exampleHeader filterScenario 3 20 3 0).svs_matches (2 * 4) ≠ 0 ∧
    ∃ hf, hf < 4 ∧
      in_zone filterScenario.svs_matches
        (filter_after exampleHeader filterScenario 3 20 3 0 (hf + 1)).z 2 ∧
      (((filter_after exampleHeader filterScenario 3 20 3 0 (hf + 1)).near = 1 ∧
        u32 ((filter_after exampleHeader filterScenario 3 20 3 0 (hf + 1)).disp2 - 3)
          ≤ filterScenario.svs_matches (2 * 4 + 3) ∧
        filterScenario.svs_matches (2 * 4 + 3) ≤
          u32 ((filter_after exampleHeader filterScenario 3 20 3 0 (hf + 1)).disp2 + 3)) ∨
       ((filter_after exampleHeader filterScenario 3 20 3 0 (hf + 1)).near ≠ 1 ∧
        filterScenario.svs_matches (2 * 4 + 3) ≤ 2)) :=
  ⟨by decide, by decide,
   filter_survivor_accepted exampleHeader filterScenario 3 20 3 0 2 (by decide) (by decide)⟩

/-! ## Despeckling -/

theorem mem_downto (hi lo j : Int) : j ∈ downto hi lo ↔ lo < j ∧ j ≤ hi := by
  unfold downto
  simp only [List.mem_map, List.mem_range]
  constructor
  · rintro ⟨k, hk, rfl⟩
    omega
  · intro h
    exact ⟨(hi - j).toNat, by omega, by omega⟩

theorem nodup_downto (hi lo : Int) : (downto hi lo).Nodup := by
  unfold downto
  apply List.Nodup.map _ (List.nodup_range _)
  intro a b h
  simp only at h
  omega

/-- A loop whose every step leaves a cell alone or zeroes it. -/
theorem foldl_zeroing {β : Type} (step : (Int → Int) → β → (Int → Int))
    (hstep : ∀ a x j, step a x j = a j ∨ step a x j = 0) :
    ∀ (l : List β) (a : Int → Int) (j : Int), l.foldl step a j = a j ∨ l.foldl step a j = 0 := by
  intro l
  induction l with
  | nil => intro a j; exact Or.inl rfl
  | cons x l ih =>
    intro a j
    rw [List.foldl_cons]
    rcases ih (step a x) j with h | h
    · rcases hstep a x j with h2 | h2
      · exact Or.inl (h.trans h2)
      · exact Or.inr (h.trans h2)
    · exact Or.inr h

theorem despeckle_step_eq (w maxd : Int) (dm : Int → Int) (yx : Int × Int) :
    despeckle_step w maxd dm yx
      = if despeckle_cond w maxd dm yx then Function.update dm ((yx.1 * w + yx.2) * 2) 0
        else dm := by
  unfold despeckle_step despeckle_cond
  simp only
  by_cases h1 : dm ((yx.1 * w + yx.2) * 2 + 1) > u32 (cdiv (maxd * 70) 100)
  · by_cases h2 : despeckle_hits dm (dm ((yx.1 * w + yx.2) * 2 + 1))
        (u32 (cdiv (maxd * 5) 100)) (despeckle_window w yx.2 yx.1) 0 > 5
    · simp [h1, h2]
    · simp [h1, h2]
  · simp [h1]

theorem despeckle_step_zeroing (w maxd : Int) (a : Int → Int) (yx : Int × Int) (j : Int) :
    despeckle_step w maxd a yx j = a j ∨ despeckle_step w maxd a yx j = 0 := by
  rw [despeckle_step_eq]
  split_ifs
  · rw [Function.update_apply]
    split_ifs
    · exact Or.inr rfl
    · exact Or.inl rfl
  · exact Or.inl rfl

theorem despeckle_clear_zeroing (w h : Int) (a : Int → Int) (j : Int) :
    despeckle_clear w h a j = a j ∨ despeckle_clear w h a j = 0 := by
  unfold despeckle_clear
  apply foldl_zeroing
  intro d k x
  split_ifs
  · rw [Function.update_apply]
    split_ifs
    · exact Or.inr rfl
    · exact Or.inl rfl
  · exact Or.inl rfl

theorem despeckle_zeroing (w h maxd : Int) (m : Int → Int) (j : Int) :
    despeckle_disparity_map w h m maxd j = m j ∨ despeckle_disparity_map w h m maxd j = 0 := by
  unfold despeckle_disparity_map
  rcases despeckle_clear_zeroing w h
    ((despeckle_cells w h).foldl (despeckle_step w maxd) m) j with h1 | h1
  · rcases foldl_zeroing (despeckle_step w maxd) (despeckle_step_zeroing w maxd)
      (despeckle_cells w h) m j with h2 | h2
    · exact Or.inl (h1.trans h2)
    · exact Or.inr (h1.trans h2)
  · exact Or.inr h1

theorem despeckle_hits_congr (a b : Int → Int) (hab : ∀ j, a (j * 2 + 1) = b (j * 2 + 1))
    (cd md : Int) : ∀ (l : List Int) (hits : Int),
      despeckle_hits a cd md l hits = despeckle_hits b cd md l hits := by
  intro l
  induction l with
  | nil => intro hits; rfl
  | cons c cs ih =>
    intro hits
    simp only [despeckle_hits, hab c, ih]

theorem despeckle_cond_congr (w maxd : Int) (a b : Int → Int)
    (hab : ∀ j, a (j * 2 + 1) = b (j * 2 + 1)) (yx : Int × Int) :
    despeckle_cond w maxd a yx ↔ despeckle_cond w maxd b yx := by
  unfold despeckle_cond
  rw [hab, despeckle_hits_congr a b hab]

theorem despeckle_step_odd (w maxd : Int) (a : Int → Int) (yx : Int × Int) (j : Int) :
    despeckle_step w maxd a yx (j * 2 + 1) = a (j * 2 + 1) := by
  rw [despeckle_step_eq]
  split_ifs
  · rw [Function.update_noteq]
    omega
  · rfl

theorem despeckle_fold_odd (w maxd : Int) : ∀ (l : List (Int × Int)) (a : Int → Int) (j : Int),
    l.foldl (despeckle_step w maxd) a (j * 2 + 1) = a (j * 2 + 1) := by
  intro l
  induction l with
  | nil => intro a j; rfl
  | cons x l ih => intro a j; rw [List.foldl_cons, ih, despeckle_step_odd]

theorem despeckle_fold_zero (w maxd : Int) (yx : Int × Int) :
    ∀ (l : List (Int × Int)) (a : Int → Int), yx ∈ l → despeckle_cond w maxd a yx →
      l.foldl (despeckle_step w maxd) a ((yx.1 * w + yx.2) * 2) = 0 := by
  intro l
  induction l with
  | nil => intro a h; simp at h
  | cons z l ih =>
    intro a hmem hc
    rw [List.foldl_cons]
    rcases List.mem_cons.1 hmem with e | hin
    · subst e
      have h0 : despeckle_step w maxd a yx ((yx.1 * w + yx.2) * 2) = 0 := by
        rw [despeckle_step_eq, if_pos hc, Function.update_same]
      rcases foldl_zeroing (despeckle_step w maxd) (despeckle_step_zeroing w maxd) l
        (despeckle_step w maxd a yx) ((yx.1 * w + yx.2) * 2) with h | h
      · rw [h, h0]
      · exact h
    · apply ih _ hin
      exact (despeckle_cond_congr w maxd _ _ (despeckle_step_odd w maxd a z) yx).2 hc

theorem despeckle_clear_even (w h : Int) (a : Int → Int) (k : Int) :
    despeckle_clear w h a (k * 2) = a (k * 2) := by
  unfold despeckle_clear
  generalize downto (w * h - 1) (-1) = l
  induction l generalizing a with
  | nil => rfl
  | cons x l ih =>
    rw [List.foldl_cons, ih]
    split_ifs
    · rw [Function.update_noteq]; omega
    · rfl

theorem despeckle_clear_eq (w h : Int) (a : Int → Int) :
    despeckle_clear w h a = (downto (w * h - 1) (-1)).foldl
      (fun d k => if a (k * 2) = 0 then Function.update d (k * 2 + 1) ((fun _ _ => 0) k (d (k * 2 + 1))) else d) a := by
  unfold despeckle_clear
  generalize downto (w * h - 1) (-1) = l
  suffices hs : ∀ d : Int → Int, (∀ k, d (k * 2) = a (k * 2)) →
      l.foldl (fun d k => if d (k * 2) = 0 then Function.update d (k * 2 + 1) 0 else d) d
        = l.foldl (fun d k => if a (k * 2) = 0 then Function.update d (k * 2 + 1) ((fun _ _ => 0) k (d (k * 2 + 1))) else d) d from
    hs a (fun _ => rfl)
  induction l with
  | nil => intro d _; rfl
  | cons x l ih =>
    intro d hd
    rw [List.foldl_cons, List.foldl_cons, hd x]
    apply ih
    intro k
    split_ifs
    · rw [Function.update_noteq (by omega)]; exact hd k
    · exact hd k

theorem despeckle_clear_odd (w h : Int) (a : Int → Int) (j : Int) :
    despeckle_clear w h a (j * 2 + 1)
      = if (-1 < j ∧ j ≤ w * h - 1) ∧ a (j * 2) = 0 then 0 else a (j * 2 + 1) := by
  rw [despeckle_clear_eq]
  have h := foldl_update_apply (fun k => k * 2 + 1) (fun k => a (k * 2) = 0) (fun _ _ => 0)
    (fun x y hxy => by simp only at hxy; omega) (downto (w * h - 1) (-1)) (nodup_downto _ _) a j
  simp only [mem_downto] at h
  exact h


theorem despeckle_fixed (w h maxd : Int) (m : Int → Int)
    (hkeep : ∀ k, despeckle_disparity_map w h m maxd (k * 2 + 1) = m (k * 2 + 1)) :
    despeckle_disparity_map w h (despeckle_disparity_map w h m maxd) maxd
      = despeckle_disparity_map w h m maxd := by
  -- the first loop nest finds every cell it would zero already zeroed
  have hfirst : ∀ l : List (Int × Int), (∀ yx ∈ l, yx ∈ despeckle_cells w h) →
      l.foldl (despeckle_step w maxd) (despeckle_disparity_map w h m maxd)
        = despeckle_disparity_map w h m maxd := by
    intro l
    induction l with
    | nil => intro _; rfl
    | cons yx l ih =>
      intro hl
      rw [List.foldl_cons]
      have hstep : despeckle_step w maxd (despeckle_disparity_map w h m maxd) yx
          = despeckle_disparity_map w h m maxd := by
        rw [despeckle_step_eq]
        split_ifs with hc
        · have hc2 : despeckle_cond w maxd m yx :=
            (despeckle_cond_congr w maxd _ _ hkeep yx).1 hc
          have hz : despeckle_disparity_map w h m maxd ((yx.1 * w + yx.2) * 2) = 0 := by
            unfold despeckle_disparity_map
            rw [despeckle_clear_even]
            exact despeckle_fold_zero w maxd yx _ m (hl yx (List.mem_cons_self _ _)) hc2
          rw [← hz, Function.update_eq_self]
        · rfl
      rw [hstep]
      exact ih (fun yx hyx => hl yx (List.mem_cons_of_mem _ hyx))
  -- the last loop finds every disparity it would zero already zeroed
  have hclear : despeckle_clear w h (despeckle_disparity_map w h m maxd)
      = despeckle_disparity_map w h m maxd := by
    funext x
    have hx : x = (x / 2) * 2 ∨ x = (x / 2) * 2 + 1 := by omega
    rcases hx with hx | hx
    · rw [hx, despeckle_clear_even]
    · rw [hx, despeckle_clear_odd]
      split_ifs with hc
      · unfold despeckle_disparity_map
        rw [despeckle_clear_odd, if_pos]
        refine ⟨hc.1, ?_⟩
        have := hc.2
        unfold despeckle_disparity_map at this
        rw [despeckle_clear_even] at this
        exact this
      · rfl
  show despeckle_clear w h ((despeckle_cells w h).foldl (despeckle_step w maxd)
    (despeckle_disparity_map w h m maxd)) = _
  rw [hfirst _ (fun _ h => h), hclear]

theorem arrayOf_outside (l : List Int) (i : Int) (hi : i < 0 ∨ (l.length : Int) ≤ i) :
    arrayOf l i = 0 := by
  unfold arrayOf
  split_ifs
  · rfl
  · apply List.getD_eq_default
    omega


/-- C3 (as stated, refuted): on `despeckleScenario` a second application of
`despeckle_disparity_map` changes the map left by the first one. -/
theorem despeckle_not_idempotent :
    despeckle_disparity_map 5 5 (despeckle_disparity_map 5 5 despeckleScenario 100) 100
      ≠ despeckle_disparity_map 5 5 despeckleScenario 100 := by
  intro h
  have h24 := congrFun h 24
  revert h24
  decide

/-- C3 (amended): applying `despeckle_disparity_map` to an already despeckled map
can only zero further cells (every cell keeps its value or becomes 0), and it changes
no cell at all when the first application left every disparity of the map as it was. -/
theorem despeckle_twice (width height max_disparity_pixels : Int) (m : Int → Int) :
    (∀ j, despeckle_disparity_map width height
            (despeckle_disparity_map width height m max_disparity_pixels) max_disparity_pixels j
          = despeckle_disparity_map width height m max_disparity_pixels j ∨
          despeckle_disparity_map width height
            (despeckle_disparity_map width height m max_disparity_pixels) max_disparity_pixels j
          = 0) ∧
    ((∀ k, despeckle_disparity_map width height m max_disparity_pixels (k * 2 + 1)
            = m (k * 2 + 1)) →
      despeckle_disparity_map width height
          (despeckle_disparity_map width height m max_disparity_pixels) max_disparity_pixels
        = despeckle_disparity_map width height m max_disparity_pixels) :=
  ⟨fun j => despeckle_zeroing width height max_disparity_pixels _ j,
   despeckle_fixed width height max_disparity_pixels m⟩

/-- Instance of `despeckle_twice`: the solid block of `despeckleSolid` loses no
disparity, so despeckling it twice is despeckling it once. -/
theorem despeckle_twice_witness :
    (∀ k, despeckle_disparity_map 5 5 despeckleSolid 100 (k * 2 + 1)
            = despeckleSolid (k * 2 + 1)) ∧
    despeckle_disparity_map 5 5 (despeckle_disparity_map 5 5 despeckleSolid 100) 100
        = despeckle_disparity_map 5 5 despeckleSolid 100 := by
  have hk : ∀ k, despeckle_disparity_map 5 5 despeckleSolid 100 (k * 2 + 1)
      = despeckleSolid (k * 2 + 1) := by
    intro k
    by_cases hr : 0 ≤ k ∧ k < 25
    · obtain ⟨h0, h1⟩ := hr
      interval_cases k <;> decide
    · rcases despeckle_zeroing 5 5 100 despeckleSolid (k * 2 + 1) with h | h
      · exact h
      · rw [h]
        symm
        apply arrayOf_outside
        simp only [List.length_cons, List.length_nil]
        omega
  exact ⟨hk, (despeckle_twice 5 5 100 despeckleSolid).2 hk⟩

/-! ## Calibration map -/

theorem isqrt_loop_ge (fuel : Nat) : ∀ r v, r ≤ (isqrt_loop fuel r v).1 := by
  induction fuel with
  | zero => intro r v; exact le_refl _
  | succ f ih =>
    intro r v
    simp only [isqrt_loop]
    split_ifs
    · have := ih (r + 1) (v - (2 * r + 1)); omega
    · exact le_refl _

theorem int_sqrt_nonneg (v : Int) : 0 ≤ int_sqrt v := isqrt_loop_ge _ 0 v

theorem int_sqrt_pos (v : Int) (hv : 1 ≤ v) : 0 < int_sqrt v := by
  unfold int_sqrt
  simp only [isqrt_loop]
  rw [if_pos (by omega)]
  have := isqrt_loop_ge v.toNat (0 + 1) (v - (2 * 0 + 1))
  omega

theorem int_sqrt_zero (v : Int) (hv : v < 1) : int_sqrt v = 0 := by
  unfold int_sqrt
  simp only [isqrt_loop]
  rw [if_neg (by omega)]

theorem make_map_poly_identity (r : Int) : make_map_poly identityCoeff r = 10000000 * r := by
  simp [make_map_poly, List.range_succ, make_map_powr, identityCoeff, arrayOf]

theorem cdiv_mul_cancel (a b : Int) (hb : b ≠ 0) : cdiv (a * b) b = a := by
  unfold cdiv
  exact Int.mul_tdiv_cancel a hb

/-- With the identity polynomial and equal scale factors a pixel off the centre is
mapped to itself and the centre is skipped. -/
theorem make_map_int_step_identity (ww hh cx cy sc : Int) (hsc : sc ≠ 0) (cmap : Int → Int)
    (xy : Int × Int) (hx : 0 ≤ xy.1 ∧ xy.1 < ww) (hy : 0 ≤ xy.2 ∧ xy.2 < hh) :
    make_map_int_step ww hh cx cy identityCoeff sc (sc * 1) cmap xy
      = if xy.1 ≠ cx ∨ xy.2 ≠ cy
        then Function.update cmap (xy.2 * ww + xy.1) (xy.2 * ww + xy.1) else cmap := by
  unfold make_map_int_step
  simp only [make_map_poly_identity, mul_one]
  rw [if_pos (int_sqrt_nonneg _)]
  by_cases hc : xy.1 ≠ cx ∨ xy.2 ≠ cy
  · have hv : 1 ≤ (xy.1 - cx) * (xy.1 - cx) + (xy.2 - cy) * (xy.2 - cy) := by
      rcases hc with h | h
      · have h1 : xy.1 - cx ≠ 0 := sub_ne_zero.2 h
        have := mul_self_nonneg (xy.2 - cy)
        have : 0 < (xy.1 - cx) * (xy.1 - cx) := mul_self_pos.2 h1
        omega
      · have h1 : xy.2 - cy ≠ 0 := sub_ne_zero.2 h
        have := mul_self_nonneg (xy.1 - cx)
        have : 0 < (xy.2 - cy) * (xy.2 - cy) := mul_self_pos.2 h1
        omega
    have hr := int_sqrt_pos _ hv
    have hr0 : int_sqrt ((xy.1 - cx) * (xy.1 - cx) + (xy.2 - cy) * (xy.2 - cy)) ≠ 0 := by omega
    rw [if_pos (by omega), if_pos hc]
    have e1 : cdiv (10000000 * int_sqrt ((xy.1 - cx) * (xy.1 - cx) + (xy.2 - cy) * (xy.2 - cy)))
        10000000 = int_sqrt ((xy.1 - cx) * (xy.1 - cx) + (xy.2 - cy) * (xy.2 - cy)) := by
      rw [mul_comm]; exact cdiv_mul_cancel _ _ (by norm_num)
    rw [e1, cdiv_mul_cancel _ _ hr0, cdiv_mul_cancel _ _ hr0, cdiv_mul_cancel _ _ hsc,
      cdiv_mul_cancel _ _ hsc]
    have ex : cx + (xy.1 - cx) - cdiv ww 2 + cdiv ww 2 = xy.1 := by ring
    have ey : cy + (xy.2 - cy) - cdiv hh 2 + cdiv hh 2 = xy.2 := by ring
    rw [ex, ey, if_pos ⟨by omega, hx.2, by omega, hy.2⟩]
  · have hx0 : xy.1 = cx := by by_contra h; exact hc (Or.inl h)
    have hy0 : xy.2 = cy := by by_contra h; exact hc (Or.inr h)
    have hv : (xy.1 - cx) * (xy.1 - cx) + (xy.2 - cy) * (xy.2 - cy) < 1 := by
      rw [hx0, hy0]; simp
    rw [int_sqrt_zero _ hv, if_neg (by omega), if_neg hc]


/-- A loop whose steps write, at chosen cells, the index of the cell itself. -/
theorem foldl_identity_writes {β : Type} (φ : β → Int) (c : β → Prop) [DecidablePred c]
    (step : (Int → Int) → β → (Int → Int)) :
    ∀ (l : List β) (a : Int → Int),
      (∀ p ∈ l, ∀ m, step m p = if c p then Function.update m (φ p) (φ p) else m) →
      ∀ n, ((∃ p ∈ l, c p ∧ φ p = n) → l.foldl step a n = n) ∧
           ((¬ ∃ p ∈ l, c p ∧ φ p = n) → l.foldl step a n = a n) := by
  intro l
  induction l with
  | nil =>
    intro a _ n
    exact ⟨fun ⟨p, hp, _⟩ => absurd hp (List.not_mem_nil p), fun _ => rfl⟩
  | cons q l ih =>
    intro a hstep n
    have hq := hstep q (List.mem_cons_self _ _) a
    have ih2 := ih (step a q) (fun p hp m => hstep p (List.mem_cons_of_mem _ hp) m) n
    rw [List.foldl_cons]
    have hqn : (c q ∧ φ q = n) → step a q n = n := by
      rintro ⟨hc, e⟩
      rw [hq, if_pos hc, ← e, Function.update_same]
    have hqn2 : ¬ (c q ∧ φ q = n) → step a q n = a n := by
      intro h
      rw [hq]
      split_ifs with hc
      · rw [Function.update_noteq]
        exact fun e => h ⟨hc, e.symm⟩
      · rfl
    constructor
    · rintro ⟨p, hp, hcp⟩
      by_cases hl : ∃ p ∈ l, c p ∧ φ p = n
      · exact ih2.1 hl
      · rw [ih2.2 hl]
        rcases List.mem_cons.1 hp with e | hin
        · subst e; exact hqn hcp
        · exact absurd ⟨p, hin, hcp⟩ hl
    · intro hno
      have hl : ¬ ∃ p ∈ l, c p ∧ φ p = n :=
        fun ⟨p, hp, hcp⟩ => hno ⟨p, List.mem_cons_of_mem _ hp, hcp⟩
      rw [ih2.2 hl]
      exact hqn2 (fun h => hno ⟨q, List.mem_cons_self _ _, h⟩)

theorem mem_make_map_pixels (ww hh : Int) (p : Int × Int) :
    p ∈ make_map_pixels ww hh ↔ (0 ≤ p.1 ∧ p.1 < ww) ∧ (0 ≤ p.2 ∧ p.2 < hh) := by
  unfold make_map_pixels
  simp only [List.mem_flatMap, List.mem_map, mem_upto]
  constructor
  · rintro ⟨x, hx, y, hy, rfl⟩
    exact ⟨hx, hy⟩
  · rintro ⟨hx, hy⟩
    exact ⟨p.1, hx, p.2, hy, rfl⟩

theorem pixel_index_injective (ww x y x2 y2 : Int) (hx : 0 ≤ x ∧ x < ww) (hx2 : 0 ≤ x2 ∧ x2 < ww)
    (h : y * ww + x = y2 * ww + x2) : x = x2 ∧ y = y2 := by
  have hy : y = y2 := by
    by_contra hne
    rcases lt_or_gt_of_ne hne with hlt | hgt
    · have h1 : (y2 - y) * ww ≥ ww := by nlinarith
      have h2 : (y2 - y) * ww = y2 * ww - y * ww := by ring
      omega
    · have h1 : (y - y2) * ww ≥ ww := by nlinarith
      have h2 : (y - y2) * ww = y * ww - y2 * ww := by ring
      omega
  subst hy
  exact ⟨by omega, rfl⟩

theorem make_map_int_identity_cells (s : Svs) (fresh : Int → Int) (cx cy sc : Int)
    (hsc : sc ≠ 0) (x y : Int) (hx : 0 ≤ x ∧ x < s.imgWidth) (hy : 0 ≤ y ∧ y < s.imgHeight) :
    ((x ≠ cx ∨ y ≠ cy) →
      (make_map_int s fresh cx cy identityCoeff sc sc).calibration_map (y * s.imgWidth + x)
        = y * s.imgWidth + x) ∧
    ((x = cx ∧ y = cy) →
      (make_map_int s fresh cx cy identityCoeff sc sc).calibration_map (y * s.imgWidth + x)
        = fresh (y * s.imgWidth + x)) := by
  have key := foldl_identity_writes (fun p : Int × Int => p.2 * s.imgWidth + p.1)
    (fun p => p.1 ≠ cx ∨ p.2 ≠ cy)
    (make_map_int_step s.imgWidth s.imgHeight cx cy identityCoeff sc (sc * 1))
    (make_map_pixels s.imgWidth s.imgHeight) fresh
    (fun p hp m => by
      have hm := (mem_make_map_pixels _ _ p).1 hp
      exact make_map_int_step_identity _ _ cx cy sc hsc m p hm.1 hm.2)
    (y * s.imgWidth + x)
  constructor
  · intro hc
    exact key.1 ⟨(x, y), (mem_make_map_pixels _ _ _).2 ⟨hx, hy⟩, hc, rfl⟩
  · rintro ⟨ex, ey⟩
    apply key.2
    rintro ⟨p, hp, hc, he⟩
    have hm := (mem_make_map_pixels _ _ p).1 hp
    have := pixel_index_injective s.imgWidth p.1 p.2 x y hm.1 hx he
    rcases hc with h | h
    · exact h (this.1.trans ex)
    · exact h (this.2.trans ey)

/-- C7 (as stated, refuted): for a 3 x 3 image with the centre of distortion at pixel
(1, 1), the identity polynomial and scale 1/1, `make_map_int` leaves entry 4 (the
centre pixel) as allocated, here 0, not 4. -/
theorem make_map_int_centre_unmapped :
    (make_map_int (blankSvs 3 3) (fun _ => 0) 1 1 identityCoeff 1 1).calibration_map 4 ≠ 4 := by
  decide

/-- C7 (amended): with the identity polynomial `[0, 10000000, 0, 0]` and equal
non-zero scale numerator and denominator, `make_map_int` maps every pixel `(x, y)` of
the image other than the centre of distortion to itself,
`calibration_map[y * imgWidth + x] = y * imgWidth + x`; the entry of the centre of
distortion (radial distance 0) is not written and keeps the content of the fresh
allocation. -/
theorem make_map_int_identity (s : Svs) (fresh : Int → Int)
    (centre_of_distortion_x centre_of_distortion_y scale : Int) (x y : Int)
    (hscale : scale ≠ 0) (hx : 0 ≤ x ∧ x < s.imgWidth) (hy : 0 ≤ y ∧ y < s.imgHeight) :
    ((x ≠ centre_of_distortion_x ∨ y ≠ centre_of_distortion_y) →
      (make_map_int s fresh centre_of_distortion_x centre_of_distortion_y identityCoeff
        scale scale).calibration_map (y * s.imgWidth + x) = y * s.imgWidth + x) ∧
    ((x = centre_of_distortion_x ∧ y = centre_of_distortion_y) →
      (make_map_int s fresh centre_of_distortion_x centre_of_distortion_y identityCoeff
        scale scale).calibration_map (y * s.imgWidth + x) = fresh (y * s.imgWidth + x)) :=
  make_map_int_identity_cells s fresh centre_of_distortion_x centre_of_distortion_y scale
    hscale x y hx hy

/-- Instance of `make_map_int_identity`: pixel (2, 1) of a 3 x 3 image with the centre
of distortion at (1, 1). -/
theorem make_map_int_identity_witness :
    ((1 : Int) ≠ 0 ∧ (0 ≤ (2 : Int) ∧ (2 : Int) < (blankSvs 3 3).imgWidth) ∧
      (0 ≤ (1 : Int) ∧ (1 : Int) < (blankSvs 3 3).imgHeight)) ∧
    (make_map_int (blankSvs 3 3) (fun _ => 0) 1 1 identityCoeff 1 1).calibration_map
      (1 * (blankSvs 3 3).imgWidth + 2) = 1 * (blankSvs 3 3).imgWidth + 2 :=
  ⟨by decide,
   (make_map_int_identity (blankSvs 3 3) (fun _ => 0) 1 1 1 2 1 (by decide) (by decide)
      (by decide)).1 (by decide)⟩

/-! ## Disparity map from the disparity space -/

/-- The pair a passing hypothesis writes: its score and its first cross-checked disparity. -/
theorem update_pair_of_lt (p : DenseParams) (q : SpaceParams) (x y : Int) (cell : Int × Int)
    (k : Int) (hp : hypothesis_passes p q x y k)
    (hlt : cell.1 < local_correlation q.disparity_space q.disparity_space_width
      q.disparity_space_height k x y) :
    ∃ d, first_cross_checked p q.similarity_threshold (k * q.disparity_step) x y (upto 0 8)
          = some d ∧
      update_pair p q x y cell k
        = (local_correlation q.disparity_space q.disparity_space_width
            q.disparity_space_height k x y, u32 d) := by
  obtain ⟨hpos, hsome⟩ := hp
  obtain ⟨d, hd⟩ := Option.isSome_iff_exists.1 hsome
  refine ⟨d, hd, ?_⟩
  unfold update_pair
  simp only
  rw [if_pos ⟨hpos, Or.inr hlt⟩, hd]

theorem update_pair_unchanged (p : DenseParams) (q : SpaceParams) (x y : Int) (cell : Int × Int)
    (k : Int)
    (h : local_correlation q.disparity_space q.disparity_space_width
          q.disparity_space_height k x y ≤ cell.1 ∨
        first_cross_checked p q.similarity_threshold (k * q.disparity_step) x y (upto 0 8)
          = none) :
    update_pair p q x y cell k = cell := by
  unfold update_pair
  simp only
  split_ifs with hc
  · rcases h with h | h
    · exfalso
      rcases hc.2 with h0 | h1
      · omega
      · omega
    · rw [h]
  · rfl

theorem update_pair_unchanged_of_not_passes (p : DenseParams) (q : SpaceParams) (x y : Int)
    (cell : Int × Int) (k : Int) (h : ¬ hypothesis_passes p q x y k) :
    update_pair p q x y cell k = cell := by
  by_cases hpos : local_correlation q.disparity_space q.disparity_space_width
      q.disparity_space_height k x y > 0
  · apply update_pair_unchanged
    right
    cases hf : first_cross_checked p q.similarity_threshold (k * q.disparity_step) x y (upto 0 8)
    · rfl
    · exact absurd ⟨hpos, by rw [hf]; rfl⟩ h
  · unfold update_pair
    simp only
    rw [if_neg (fun hc => hpos hc.1)]

/-- Hypotheses whose passing scores do not exceed the stored score change nothing. -/
theorem update_pairs_unchanged (p : DenseParams) (q : SpaceParams) (x y : Int) :
    ∀ (ks : List Int) (cell : Int × Int),
      (∀ k ∈ ks, hypothesis_passes p q x y k →
        local_correlation q.disparity_space q.disparity_space_width
          q.disparity_space_height k x y ≤ cell.1) →
      update_pairs p q x y ks cell = cell := by
  intro ks
  induction ks with
  | nil => intro cell _; rfl
  | cons k ks ih =>
    intro cell h
    unfold update_pairs
    rw [List.foldl_cons]
    have hk : update_pair p q x y cell k = cell := by
      by_cases hp : hypothesis_passes p q x y k
      · exact update_pair_unchanged p q x y cell k (Or.inl (h k (List.mem_cons_self _ _) hp))
      · exact update_pair_unchanged_of_not_passes p q x y cell k hp
    rw [hk]
    exact ih cell (fun k' hk' => h k' (List.mem_cons_of_mem _ hk'))

/-- The stored score is the initial one or the score of a passing hypothesis of the list. -/
theorem update_pairs_score (p : DenseParams) (q : SpaceParams) (x y : Int) :
    ∀ (ks : List Int) (cell : Int × Int),
      (update_pairs p q x y ks cell).1 = cell.1 ∨
      ∃ k ∈ ks, hypothesis_passes p q x y k ∧
        (update_pairs p q x y ks cell).1
          = local_correlation q.disparity_space q.disparity_space_width
              q.disparity_space_height k x y := by
  intro ks
  induction ks with
  | nil => intro cell; exact Or.inl rfl
  | cons k ks ih =>
    intro cell
    have hrec : update_pairs p q x y (k :: ks) cell
        = update_pairs p q x y ks (update_pair p q x y cell k) := rfl
    rw [hrec]
    rcases ih (update_pair p q x y cell k) with h | ⟨k', hk', hp', he⟩
    · by_cases hp : hypothesis_passes p q x y k
      · by_cases hlt : cell.1 < local_correlation q.disparity_space q.disparity_space_width
            q.disparity_space_height k x y
        · obtain ⟨d, _, hu⟩ := update_pair_of_lt p q x y cell k hp hlt
          right
          refine ⟨k, List.mem_cons_self _ _, hp, ?_⟩
          rw [h, hu]
        · left
          rw [h, update_pair_unchanged p q x y cell k (Or.inl (by omega))]
      · left
        rw [h, update_pair_unchanged_of_not_passes p q x y cell k hp]
    · right
      exact ⟨k', List.mem_cons_of_mem _ hk', hp', he⟩

theorem upto_cons (lo hi : Int) (h : lo < hi) : upto lo hi = lo :: upto (lo + 1) hi := by
  unfold upto
  have e : (hi - lo).toNat = (hi - (lo + 1)).toNat + 1 := by omega
  rw [e, List.range_succ_eq_map, List.map_cons, List.map_map]
  congr 1
  · simp
  · apply List.map_congr_left
    intro a _
    simp only [Function.comp]
    push_cast
    omega

theorem upto_nil (lo hi : Int) (h : hi ≤ lo) : upto lo hi = [] := by
  unfold upto
  have e : (hi - lo).toNat = 0 := by omega
  rw [e]
  rfl

theorem upto_append (lo mid hi : Int) (h1 : lo ≤ mid) (h2 : mid ≤ hi) :
    upto lo hi = upto lo mid ++ upto mid hi := by
  obtain ⟨n, hn⟩ : ∃ n : Nat, mid - lo = n := ⟨(mid - lo).toNat, by omega⟩
  induction n generalizing lo with
  | zero =>
    have : lo = mid := by omega
    subst this
    rw [upto_nil lo lo (le_refl _)]
    rfl
  | succ n ih =>
    rw [upto_cons lo hi (by omega), upto_cons lo mid (by omega),
      ih (lo + 1) (by omega) (by push_cast at hn; omega)]
    rfl

theorem upto_split (lo mid hi : Int) (h1 : lo ≤ mid) (h2 : mid < hi) :
    upto lo hi = upto lo mid ++ mid :: upto (mid + 1) hi := by
  rw [upto_append lo mid hi h1 (by omega), upto_cons mid hi h2]

/-- First maximum wins: the final pair is that of a passing hypothesis whose score is
above every earlier passing score and not below any later one. -/
theorem update_pairs_first_max (p : DenseParams) (q : SpaceParams) (x y : Int) (n b : Int)
    (hb : 0 ≤ b ∧ b < n) (hp : hypothesis_passes p q x y b)
    (hbefore : ∀ k, 0 ≤ k → k < b → hypothesis_passes p q x y k →
      local_correlation q.disparity_space q.disparity_space_width q.disparity_space_height k x y
        < local_correlation q.disparity_space q.disparity_space_width q.disparity_space_height
            b x y)
    (hafter : ∀ k, b < k → k < n → hypothesis_passes p q x y k →
      local_correlation q.disparity_space q.disparity_space_width q.disparity_space_height k x y
        ≤ local_correlation q.disparity_space q.disparity_space_width q.disparity_space_height
            b x y) :
    ∃ d, first_cross_checked p q.similarity_threshold (b * q.disparity_step) x y (upto 0 8)
          = some d ∧
      update_pairs p q x y (upto 0 n) (0, 0)
        = (local_correlation q.disparity_space q.disparity_space_width
            q.disparity_space_height b x y, u32 d) := by
  rw [upto_split 0 b n hb.1 hb.2]
  unfold update_pairs
  rw [List.foldl_append, List.foldl_cons]
  have hlt : (List.foldl (update_pair p q x y) (0, 0) (upto 0 b)).1
      < local_correlation q.disparity_space q.disparity_space_width
          q.disparity_space_height b x y := by
    rcases update_pairs_score p q x y (upto 0 b) (0, 0) with h | ⟨k, hk, hpk, he⟩
    · have h' : (List.foldl (update_pair p q x y) (0, 0) (upto 0 b)).1 = 0 := h
      rw [h']
      exact hp.1
    · have he' : (List.foldl (update_pair p q x y) (0, 0) (upto 0 b)).1 = _ := he
      rw [he']
      have hm := (mem_upto 0 b k).1 hk
      exact hbefore k hm.1 hm.2 hpk
  obtain ⟨d, hd, hu⟩ := update_pair_of_lt p q x y _ b hp hlt
  refine ⟨d, hd, ?_⟩
  rw [hu]
  apply update_pairs_unchanged
  intro k hk hpk
  have hm := (mem_upto (b + 1) n k).1 hk
  exact hafter k (by omega) hm.2 hpk


theorem disparity_map_step_own (p : DenseParams) (q : SpaceParams) (k : Int) (dm : Int → Int)
    (yx : Int × Int) :
    (disparity_map_step p q k dm yx ((yx.1 * q.disparity_space_width + yx.2) * 2),
     disparity_map_step p q k dm yx ((yx.1 * q.disparity_space_width + yx.2) * 2 + 1))
      = update_pair p q yx.2 yx.1
          (dm ((yx.1 * q.disparity_space_width + yx.2) * 2),
           dm ((yx.1 * q.disparity_space_width + yx.2) * 2 + 1)) k := by
  unfold disparity_map_step update_pair
  simp only
  split_ifs with hc
  · cases first_cross_checked p q.similarity_threshold (k * q.disparity_step) yx.2 yx.1 (upto 0 8)
    · rfl
    · simp only
      rw [Function.update_same, Function.update_noteq (by omega), Function.update_same]
  · rfl

theorem disparity_map_step_other (p : DenseParams) (q : SpaceParams) (k : Int) (dm : Int → Int)
    (yx : Int × Int) (j : Int) (h1 : j ≠ (yx.1 * q.disparity_space_width + yx.2) * 2)
    (h2 : j ≠ (yx.1 * q.disparity_space_width + yx.2) * 2 + 1) :
    disparity_map_step p q k dm yx j = dm j := by
  unfold disparity_map_step
  split_ifs with hc
  · cases first_cross_checked p q.similarity_threshold (k * q.disparity_step) yx.2 yx.1 (upto 0 8)
    · rfl
    · simp only
      rw [Function.update_noteq h2, Function.update_noteq h1]
  · rfl

theorem mem_interior_pixels (w h : Int) (yx : Int × Int) :
    yx ∈ interior_pixels w h ↔ (1 ≤ yx.1 ∧ yx.1 < h - 1) ∧ (1 ≤ yx.2 ∧ yx.2 < w - 1) := by
  unfold interior_pixels
  simp only [List.mem_flatMap, List.mem_map, mem_upto]
  constructor
  · rintro ⟨y, hy, x, hx, rfl⟩
    exact ⟨hy, hx⟩
  · rintro ⟨hy, hx⟩
    exact ⟨yx.1, hy, yx.2, hx, rfl⟩

theorem nodup_interior_pixels (w h : Int) : (interior_pixels w h).Nodup :=
  List.Nodup.product (nodup_upto 1 (h - 1)) (nodup_upto 1 (w - 1))

/-- One hypothesis updates the pair of an interior pixel by `update_pair` and nothing
else of that pixel. -/
theorem disparity_map_layer (p : DenseParams) (q : SpaceParams) (k : Int) (x y : Int)
    (hx : 0 ≤ x ∧ x < q.disparity_space_width) :
    ∀ (l : List (Int × Int)), l.Nodup →
      (∀ yx ∈ l, 0 ≤ yx.2 ∧ yx.2 < q.disparity_space_width) →
      ∀ dm : Int → Int,
        (l.foldl (disparity_map_step p q k) dm ((y * q.disparity_space_width + x) * 2),
         l.foldl (disparity_map_step p q k) dm ((y * q.disparity_space_width + x) * 2 + 1))
          = if (y, x) ∈ l then
              update_pair p q x y (dm ((y * q.disparity_space_width + x) * 2),
                dm ((y * q.disparity_space_width + x) * 2 + 1)) k
            else (dm ((y * q.disparity_space_width + x) * 2),
                dm ((y * q.disparity_space_width + x) * 2 + 1)) := by
  intro l
  induction l with
  | nil => intro _ _ dm; rfl
  | cons z l ih =>
    intro hnd hr dm
    rw [List.nodup_cons] at hnd
    rw [List.foldl_cons, ih hnd.2 (fun yx hyx => hr yx (List.mem_cons_of_mem _ hyx))]
    by_cases hz : z = (y, x)
    · subst hz
      rw [if_neg hnd.1, if_pos (List.mem_cons_self _ _)]
      exact disparity_map_step_own p q k dm (y, x)
    · have hzr := hr z (List.mem_cons_self _ _)
      have hne : z.1 * q.disparity_space_width + z.2 ≠ y * q.disparity_space_width + x := by
        intro e
        have := pixel_index_injective q.disparity_space_width z.2 z.1 x y hzr hx e
        exact hz (Prod.ext this.2 this.1)
      rw [disparity_map_step_other p q k dm z _ (by omega) (by omega),
        disparity_map_step_other p q k dm z _ (by omega) (by omega)]
      have hmem : (y, x) ∈ z :: l ↔ (y, x) ∈ l := by
        rw [List.mem_cons]
        constructor
        · rintro (h | h)
          · exact absurd h.symm hz
          · exact h
        · exact Or.inr
      simp only [hmem]

theorem disparity_map_loop_pair (p : DenseParams) (q : SpaceParams) (x y : Int)
    (hy : 1 ≤ y ∧ y < q.disparity_space_height - 1)
    (hx : 1 ≤ x ∧ x < q.disparity_space_width - 1) :
    ∀ (ks : List Int) (dm : Int → Int),
      (disparity_map_loop p q ks dm ((y * q.disparity_space_width + x) * 2),
       disparity_map_loop p q ks dm ((y * q.disparity_space_width + x) * 2 + 1))
        = update_pairs p q x y ks (dm ((y * q.disparity_space_width + x) * 2),
            dm ((y * q.disparity_space_width + x) * 2 + 1)) := by
  intro ks
  induction ks with
  | nil => intro dm; rfl
  | cons k ks ih =>
    intro dm
    have hrec : disparity_map_loop p q (k :: ks) dm
        = disparity_map_loop p q ks
            ((interior_pixels q.disparity_space_width q.disparity_space_height).foldl
              (disparity_map_step p q k) dm) := rfl
    rw [hrec, ih]
    have hl := disparity_map_layer p q k x y ⟨by omega, by omega⟩
      (interior_pixels q.disparity_space_width q.disparity_space_height)
      (nodup_interior_pixels _ _)
      (fun yx hyx => by
        have := (mem_interior_pixels _ _ yx).1 hyx
        exact ⟨by omega, by omega⟩) dm
    rw [if_pos ((mem_interior_pixels _ _ (y, x)).2 ⟨hy, hx⟩)] at hl
    rw [hl]
    rfl

/-- The pair stored for an interior pixel by `disparity_map_from_disparity_space` is the
result of the per-pixel updates of the hypotheses in increasing order, from (0, 0). -/
theorem disparity_map_pair (p : DenseParams) (q : SpaceParams) (dm : Int → Int) (x y : Int)
    (hy : 1 ≤ y ∧ y < q.disparity_space_height - 1)
    (hx : 1 ≤ x ∧ x < q.disparity_space_width - 1) :
    (disparity_map_from_disparity_space p q dm ((y * q.disparity_space_width + x) * 2),
     disparity_map_from_disparity_space p q dm ((y * q.disparity_space_width + x) * 2 + 1))
      = update_pairs p q x y (upto 0 q.no_of_disparities) (0, 0) := by
  unfold disparity_map_from_disparity_space
  rw [disparity_map_loop_pair p q x y hy hx]
  have h1 : 0 ≤ y * q.disparity_space_width + x := by nlinarith
  have h2 : y * q.disparity_space_width + x
      < q.disparity_space_width * q.disparity_space_height := by nlinarith
  have e1 : memset0 dm (q.disparity_space_width * q.disparity_space_height * 2)
      ((y * q.disparity_space_width + x) * 2) = 0 := by
    unfold memset0; rw [if_pos ⟨by omega, by omega⟩]
  have e2 : memset0 dm (q.disparity_space_width * q.disparity_space_height * 2)
      ((y * q.disparity_space_width + x) * 2 + 1) = 0 := by
    unfold memset0; rw [if_pos ⟨by omega, by omega⟩]
  rw [e1, e2]

/-- C5 (as stated, refuted): in `threeHypotheses` hypothesis 1 (score 100) is processed
before hypothesis 2 (score 200) and both pass the cross-check at pixel (1, 1), yet the
pair finally stored there is that of hypothesis 0 (score 300, disparity 0). -/
theorem disparity_map_later_higher_not_final :
    hypothesis_passes uniformImages threeHypotheses 1 1 1 ∧
    hypothesis_passes uniformImages threeHypotheses 1 1 2 ∧
    local_correlation threeHypotheses.disparity_space 3 3 1 1 1
      < local_correlation threeHypotheses.disparity_space 3 3 2 1 1 ∧
    local_correlation threeHypotheses.disparity_space 3 3 2 1 1 = 200 ∧
    disparity_map_from_disparity_space uniformImages threeHypotheses (fun _ => 0) 8 = 300 ∧
    disparity_map_from_disparity_space uniformImages threeHypotheses (fun _ => 0) 9 = 0 := by
  decide

/-- C5 (amended): for every interior pixel `(x, y)`, if hypothesis `b` passes (positive
combined score and a cross-checked candidate), its score is strictly higher than that of
every passing hypothesis processed before it and not lower than that of any passing
hypothesis processed after it, then the pair finally stored for the pixel is `b`'s: its
score and its first cross-checked disparity. Moreover a hypothesis whose score does
not exceed the stored score, or none of whose 8 candidates passes, leaves the stored
pair of the pixel unchanged. -/
theorem disparity_map_first_max (p : DenseParams) (q : SpaceParams) (dm : Int → Int)
    (x y b : Int)
    (hy : 1 ≤ y ∧ y < q.disparity_space_height - 1)
    (hx : 1 ≤ x ∧ x < q.disparity_space_width - 1)
    (hb : 0 ≤ b ∧ b < q.no_of_disparities)
    (hp : hypothesis_passes p q x y b)
    (hbefore : ∀ k, 0 ≤ k → k < b → hypothesis_passes p q x y k →
      local_correlation q.disparity_space q.disparity_space_width q.disparity_space_height k x y
        < local_correlation q.disparity_space q.disparity_space_width q.disparity_space_height
            b x y)
    (hafter : ∀ k, b < k → k < q.no_of_disparities → hypothesis_passes p q x y k →
      local_correlation q.disparity_space q.disparity_space_width q.disparity_space_height k x y
        ≤ local_correlation q.disparity_space q.disparity_space_width q.disparity_space_height
            b x y) :
    (∃ d, first_cross_checked p q.similarity_threshold (b * q.disparity_step) x y (upto 0 8)
          = some d ∧
      disparity_map_from_disparity_space p q dm ((y * q.disparity_space_width + x) * 2)
        = local_correlation q.disparity_space q.disparity_space_width
            q.disparity_space_height b x y ∧
      disparity_map_from_disparity_space p q dm ((y * q.disparity_space_width + x) * 2 + 1)
        = u32 d) ∧
    (∀ (k : Int) (cur : Int → Int),
      (local_correlation q.disparity_space q.disparity_space_width q.disparity_space_height
          k x y ≤ cur ((y * q.disparity_space_width + x) * 2) ∨
        first_cross_checked p q.similarity_threshold (k * q.disparity_step) x y (upto 0 8)
          = none) →
      disparity_map_loop p q [k] cur ((y * q.disparity_space_width + x) * 2)
          = cur ((y * q.disparity_space_width + x) * 2) ∧
      disparity_map_loop p q [k] cur ((y * q.disparity_space_width + x) * 2 + 1)
          = cur ((y * q.disparity_space_width + x) * 2 + 1)) := by
  constructor
  · obtain ⟨d, hd, hu⟩ := update_pairs_first_max p q x y q.no_of_disparities b hb hp hbefore hafter
    have hpair := disparity_map_pair p q dm x y hy hx
    rw [hu] at hpair
    exact ⟨d, hd, congrArg Prod.fst hpair, congrArg Prod.snd hpair⟩
  · intro k cur hk
    have hpair := disparity_map_loop_pair p q x y hy hx [k] cur
    have hun := update_pair_unchanged p q x y
      (cur ((y * q.disparity_space_width + x) * 2),
       cur ((y * q.disparity_space_width + x) * 2 + 1)) k hk
    have hfold : update_pairs p q x y [k]
        (cur ((y * q.disparity_space_width + x) * 2),
         cur ((y * q.disparity_space_width + x) * 2 + 1))
        = update_pair p q x y
          (cur ((y * q.disparity_space_width + x) * 2),
           cur ((y * q.disparity_space_width + x) * 2 + 1)) k := rfl
    rw [hfold, hun] at hpair
    exact ⟨congrArg Prod.fst hpair, congrArg Prod.snd hpair⟩

/-- Instance of `disparity_map_first_max`: in `twoHypotheses` hypothesis 0 (score 100)
is followed by hypothesis 1 (score 200), both pass at pixel (1, 1), and the stored pair
ends as hypothesis 1's: score 200 and disparity 1. -/
theorem disparity_map_first_max_witness :
    hypothesis_passes uniformImages twoHypotheses 1 1 0 ∧
    hypothesis_passes uniformImages twoHypotheses 1 1 1 ∧
    local_correlation twoHypotheses.disparity_space 3 3 0 1 1 = 100 ∧
    local_correlation twoHypotheses.disparity_space 3 3 1 1 1 = 200 ∧
    disparity_map_from_disparity_space uniformImages twoHypotheses (fun _ => 0) 8 = 200 ∧
    disparity_map_from_disparity_space uniformImages twoHypotheses (fun _ => 0) 9 = 1 := by
  have h := (disparity_map_first_max uniformImages twoHypotheses (fun _ => 0) 1 1 1
    (by decide) (by decide) (by decide) (by decide)
    (fun k h0 h1 _ => by
      have hk : k = 0 := by omega
      subst hk
      decide)
    (fun k h0 h1 _ => by
      have : k < 2 := h1
      omega)).1
  obtain ⟨d, hd, h8, h9⟩ := h
  have hd1 : d = 1 := by
    have : first_cross_checked uniformImages twoHypotheses.similarity_threshold
        (1 * twoHypotheses.disparity_step) 1 1 (upto 0 8) = some 1 := by decide
    rw [this] at hd
    exact (Option.some.inj hd).symm
  subst hd1
  refine ⟨by decide, by decide, by decide, by decide, ?_, ?_⟩
  · exact h8.trans (by decide)
  · exact h9.trans (by decide)

/-! ## Selection of the best matches -/

theorem u32_i32 (v : Int) (h : 0 ≤ v ∧ v < 4294967296) : u32 (i32 v) = v := by
  unfold u32 i32; omega

/-- What the search loop returns: the largest probability from `curr` on, and the first
later position holding it when it exceeds the probability at `curr`. -/
theorem select_search_spec (m : Int → Int) (curr : Int) :
    ∀ (n : Int),
      (∀ j, curr ≤ j → j < n → m (j * 4) ≤ (select_search m curr n).1) ∧
      m (curr * 4) ≤ (select_search m curr n).1 ∧
      (((select_search m curr n).2 = -1 ∧ (select_search m curr n).1 = m (curr * 4)) ∨
       (curr < (select_search m curr n).2 ∧ (select_search m curr n).2 < n ∧
        (select_search m curr n).1 = m ((select_search m curr n).2 * 4))) := by
  intro n
  unfold select_search
  have key : ∀ (l : List Int) (st : Int × Int),
      (∀ j ∈ l, curr < j ∧ j < n) →
      m (curr * 4) ≤ st.1 →
      ((st.2 = -1 ∧ st.1 = m (curr * 4)) ∨ (curr < st.2 ∧ st.2 < n ∧ st.1 = m (st.2 * 4))) →
      (st.1 ≤ (l.foldl (fun (st : Int × Int) j =>
          if m (j * 4) > st.1 then (m (j * 4), j) else st) st).1) ∧
      (∀ j ∈ l, m (j * 4) ≤ (l.foldl (fun (st : Int × Int) j =>
          if m (j * 4) > st.1 then (m (j * 4), j) else st) st).1) ∧
      (((l.foldl (fun (st : Int × Int) j =>
          if m (j * 4) > st.1 then (m (j * 4), j) else st) st).2 = -1 ∧
        (l.foldl (fun (st : Int × Int) j =>
          if m (j * 4) > st.1 then (m (j * 4), j) else st) st).1 = m (curr * 4)) ∨
       (curr < (l.foldl (fun (st : Int × Int) j =>
          if m (j * 4) > st.1 then (m (j * 4), j) else st) st).2 ∧
        (l.foldl (fun (st : Int × Int) j =>
          if m (j * 4) > st.1 then (m (j * 4), j) else st) st).2 < n ∧
        (l.foldl (fun (st : Int × Int) j =>
          if m (j * 4) > st.1 then (m (j * 4), j) else st) st).1
          = m ((l.foldl (fun (st : Int × Int) j =>
          if m (j * 4) > st.1 then (m (j * 4), j) else st) st).2 * 4))) := by
    intro l
    induction l with
    | nil => intro st _ h1 h2; exact ⟨le_refl _, fun j hj => absurd hj (List.not_mem_nil j), h2⟩
    | cons x l ih =>
      intro st hl h1 h2
      rw [List.foldl_cons]
      have hx := hl x (List.mem_cons_self _ _)
      have hl' : ∀ j ∈ l, curr < j ∧ j < n := fun j hj => hl j (List.mem_cons_of_mem _ hj)
      by_cases hgt : m (x * 4) > st.1
      · rw [if_pos hgt]
        obtain ⟨a, b, c⟩ := ih (m (x * 4), x) hl' (by simp only; omega)
          (Or.inr ⟨hx.1, hx.2, rfl⟩)
        refine ⟨by simp only at a; omega, ?_, c⟩
        intro j hj
        rcases List.mem_cons.1 hj with e | hin
        · subst e; exact a
        · exact b j hin
      · rw [if_neg hgt]
        obtain ⟨a, b, c⟩ := ih st hl' h1 h2
        refine ⟨a, ?_, c⟩
        intro j hj
        rcases List.mem_cons.1 hj with e | hin
        · subst e; omega
        · exact b j hin
  obtain ⟨a, b, c⟩ := key (upto (curr + 1) n) (m (curr * 4), -1)
    (fun j hj => by have := (mem_upto _ _ j).1 hj; omega) (le_refl _) (Or.inl ⟨rfl, rfl⟩)
  refine ⟨?_, a, c⟩
  intro j h1 h2
  by_cases e : j = curr
  · subst e; exact a
  · exact b j ((mem_upto _ _ j).2 ⟨by omega, h2⟩)


theorem select_swap_eq (m : Int → Int) (curr w : Int) :
    select_swap m curr w
      = Function.update (Function.update (Function.update (Function.update
          (Function.update (Function.update (Function.update (Function.update m
            (w * 4) (m (curr * 4))) (w * 4 + 1) (m (curr * 4 + 1)))
            (w * 4 + 2) (m (curr * 4 + 2))) (w * 4 + 3) (m (curr * 4 + 3)))
          (curr * 4) (m (w * 4))) (curr * 4 + 1) (u32 (i32 (m (w * 4 + 1)))))
          (curr * 4 + 2) (u32 (i32 (m (w * 4 + 2))))) (curr * 4 + 3) (u32 (i32 (m (w * 4 + 3)))) := by
  have f1 : ∀ a, Function.update m (w * 4) a (curr * 4 + 1) = m (curr * 4 + 1) :=
    fun a => Function.update_noteq (by omega) _ _
  have f2 : ∀ a b, Function.update (Function.update m (w * 4) a) (w * 4 + 1) b (curr * 4 + 2)
      = m (curr * 4 + 2) := fun a b => by
    rw [Function.update_noteq (by omega), Function.update_noteq (by omega)]
  have f3 : ∀ a b c, Function.update (Function.update (Function.update m (w * 4) a)
      (w * 4 + 1) b) (w * 4 + 2) c (curr * 4 + 3) = m (curr * 4 + 3) := fun a b c => by
    rw [Function.update_noteq (by omega), Function.update_noteq (by omega),
      Function.update_noteq (by omega)]
  unfold select_swap
  simp only [f1, f2, f3]

theorem select_swap_apply (m : Int → Int) (curr w : Int) (j : Int) :
    select_swap m curr w j
      = if j = curr * 4 + 3 then u32 (i32 (m (w * 4 + 3)))
        else if j = curr * 4 + 2 then u32 (i32 (m (w * 4 + 2)))
        else if j = curr * 4 + 1 then u32 (i32 (m (w * 4 + 1)))
        else if j = curr * 4 then m (w * 4)
        else if j = w * 4 + 3 then m (curr * 4 + 3)
        else if j = w * 4 + 2 then m (curr * 4 + 2)
        else if j = w * 4 + 1 then m (curr * 4 + 1)
        else if j = w * 4 then m (curr * 4)
        else m j := by
  rw [select_swap_eq]
  simp only [Function.update_apply]

theorem select_swap_at_curr (m : Int → Int) (curr w : Int) :
    select_swap m curr w (curr * 4) = m (w * 4) ∧
    select_swap m curr w (curr * 4 + 1) = u32 (i32 (m (w * 4 + 1))) ∧
    select_swap m curr w (curr * 4 + 2) = u32 (i32 (m (w * 4 + 2))) ∧
    select_swap m curr w (curr * 4 + 3) = u32 (i32 (m (w * 4 + 3))) := by
  refine ⟨?_, ?_, ?_, ?_⟩
  · rw [select_swap_apply]; (iterate 3 rw [if_neg (by omega)]); rw [if_pos rfl]
  · rw [select_swap_apply]; (iterate 2 rw [if_neg (by omega)]); rw [if_pos rfl]
  · rw [select_swap_apply]; (iterate 1 rw [if_neg (by omega)]); rw [if_pos rfl]
  · rw [select_swap_apply, if_pos rfl]

theorem select_swap_at_winner (m : Int → Int) (curr w : Int) (hne : curr ≠ w) :
    select_swap m curr w (w * 4) = m (curr * 4) ∧
    select_swap m curr w (w * 4 + 1) = m (curr * 4 + 1) ∧
    select_swap m curr w (w * 4 + 2) = m (curr * 4 + 2) ∧
    select_swap m curr w (w * 4 + 3) = m (curr * 4 + 3) := by
  refine ⟨?_, ?_, ?_, ?_⟩
  · rw [select_swap_apply]; (iterate 7 rw [if_neg (by omega)]); rw [if_pos rfl]
  · rw [select_swap_apply]; (iterate 6 rw [if_neg (by omega)]); rw [if_pos rfl]
  · rw [select_swap_apply]; (iterate 5 rw [if_neg (by omega)]); rw [if_pos rfl]
  · rw [select_swap_apply]; (iterate 4 rw [if_neg (by omega)]); rw [if_pos rfl]

theorem select_swap_elsewhere (m : Int → Int) (curr w : Int) (j : Int)
    (h1 : j < curr * 4 ∨ curr * 4 + 3 < j) (h2 : j < w * 4 ∨ w * 4 + 3 < j) :
    select_swap m curr w j = m j := by
  rw [select_swap_apply]; (iterate 8 rw [if_neg (by omega)])

theorem select_swap_record (m : Int → Int) (curr w : Int) (hne : curr ≠ w)
    (hm : IsU32Array m) (i : Int) :
    match_record (select_swap m curr w) i
      = match_record m (if i = curr then w else if i = w then curr else i) := by
  have h1 := u32_i32 _ (hm (w * 4 + 1))
  have h2 := u32_i32 _ (hm (w * 4 + 2))
  have h3 := u32_i32 _ (hm (w * 4 + 3))
  unfold match_record
  by_cases hic : i = curr
  · subst hic
    obtain ⟨a0, a1, a2, a3⟩ := select_swap_at_curr m i w
    rw [if_pos rfl, a0, a1, a2, a3, h1, h2, h3]
  · by_cases hiw : i = w
    · subst hiw
      obtain ⟨a0, a1, a2, a3⟩ := select_swap_at_winner m curr i hne
      rw [if_neg hic, if_pos rfl, a0, a1, a2, a3]
    · rw [if_neg hic, if_neg hiw,
        select_swap_elsewhere m curr w _ (by omega) (by omega),
        select_swap_elsewhere m curr w _ (by omega) (by omega),
        select_swap_elsewhere m curr w _ (by omega) (by omega),
        select_swap_elsewhere m curr w _ (by omega) (by omega)]

theorem select_swap_u32 (m : Int → Int) (curr w : Int) (hm : IsU32Array m) :
    IsU32Array (select_swap m curr w) := by
  intro j
  rw [select_swap_apply]
  have hu : ∀ v, 0 ≤ u32 v ∧ u32 v < 4294967296 := fun v => by unfold u32; omega
  split_ifs
  all_goals first | exact hu _ | exact hm _

/-- Exchanging two matches of the first `n` permutes the list of their records. -/
theorem select_swap_perm (m : Int → Int) (n curr w : Int) (hc : 0 ≤ curr ∧ curr < n)
    (hw : 0 ≤ w ∧ w < n) (hne : curr ≠ w) (hm : IsU32Array m) :
    (match_records (select_swap m curr w) n).Perm (match_records m n) := by
  unfold match_records
  have e : (upto 0 n).map (match_record (select_swap m curr w))
      = ((upto 0 n).map (Equiv.swap curr w)).map (match_record m) := by
    rw [List.map_map]
    apply List.map_congr_left
    intro i _
    simp only [Function.comp, select_swap_record m curr w hne hm i, Equiv.swap_apply_def]
  rw [e]
  apply List.Perm.map
  rw [List.perm_ext_iff_of_nodup ((nodup_upto 0 n).map (Equiv.swap curr w).injective)
    (nodup_upto 0 n)]
  intro a
  simp only [List.mem_map, mem_upto]
  constructor
  · rintro ⟨i, hi, rfl⟩
    rw [Equiv.swap_apply_def]
    split_ifs <;> omega
  · intro ha
    refine ⟨Equiv.swap curr w a, ?_, Equiv.swap_apply_self _ _ _⟩
    rw [Equiv.swap_apply_def]
    split_ifs <;> omega


/-- One iteration of the selection loop exchanges position `curr` with the position `w`
of the largest probability from `curr` on (`w = curr` when nothing is exchanged). -/
theorem select_step_spec (hdr : Header) (n : Int) (s : Svs) (curr : Int)
    (hc : 0 ≤ curr ∧ curr < n) (hm : IsU32Array s.svs_matches) :
    ∃ w, (curr ≤ w ∧ w < n) ∧
      (∀ i, match_record (select_step hdr n s curr).svs_matches i
          = match_record s.svs_matches (if i = curr then w else if i = w then curr else i)) ∧
      (∀ j, curr ≤ j → j < n → s.svs_matches (j * 4) ≤ s.svs_matches (w * 4)) ∧
      IsU32Array (select_step hdr n s curr).svs_matches ∧
      (match_records (select_step hdr n s curr).svs_matches n).Perm
        (match_records s.svs_matches n) := by
  obtain ⟨hmax, hge, hcase⟩ := select_search_spec s.svs_matches curr n
  unfold select_step
  simp only
  rcases hcase with ⟨hw, hv⟩ | ⟨hw1, hw2, hv⟩
  · rw [if_neg (by omega)]
    refine ⟨curr, ⟨le_refl _, hc.2⟩, ?_, ?_, hm, List.Perm.refl _⟩
    · intro i
      by_cases h : i = curr
      · rw [if_pos h, h]
      · rw [if_neg h, if_neg h]
    · intro j h1 h2
      rw [← hv]
      exact hmax j h1 h2
  · rw [if_pos (by omega)]
    refine ⟨(select_search s.svs_matches curr n).2, ⟨by omega, hw2⟩, ?_, ?_, ?_, ?_⟩
    · intro i
      exact select_swap_record s.svs_matches curr _ (by omega) hm i
    · intro j h1 h2
      rw [← hv]
      exact hmax j h1 h2
    · exact select_swap_u32 s.svs_matches curr _ hm
    · exact select_swap_perm s.svs_matches n curr _ hc ⟨by omega, hw2⟩ (by omega) hm

theorem select_loop_spec (hdr : Header) (n ideal : Int) (hideal : ideal ≤ n) :
    ∀ (d : Nat) (k : Int) (s : Svs), (ideal - k).toNat = d → 0 ≤ k →
      IsU32Array s.svs_matches → SelectedPrefix s.svs_matches n k →
      (k ≤ (select_loop hdr n (upto k ideal) s k).2 ∧
        (select_loop hdr n (upto k ideal) s k).2 ≤ max k ideal) ∧
      SelectedPrefix (select_loop hdr n (upto k ideal) s k).1.svs_matches n
        (select_loop hdr n (upto k ideal) s k).2 ∧
      (match_records (select_loop hdr n (upto k ideal) s k).1.svs_matches n).Perm
        (match_records s.svs_matches n) ∧
      IsU32Array (select_loop hdr n (upto k ideal) s k).1.svs_matches := by
  intro d
  induction d with
  | zero =>
    intro k s hd hk hm hsel
    rw [upto_nil k ideal (by omega)]
    simp only [select_loop]
    exact ⟨⟨le_refl _, le_max_left _ _⟩, hsel, List.Perm.refl _, hm⟩
  | succ d ih =>
    intro k s hd hk hm hsel
    have hlt : k < ideal := by omega
    rw [upto_cons k ideal hlt]
    simp only [select_loop]
    obtain ⟨w, hw, hrec, hmax, hm1, hperm⟩ := select_step_spec hdr n s k ⟨hk, by omega⟩ hm
    -- probabilities after the step, read through the exchange
    have hprob : ∀ i, (select_step hdr n s k).svs_matches (i * 4)
        = s.svs_matches ((if i = k then w else if i = w then k else i) * 4) := by
      intro i
      have := congrArg Prod.fst (hrec i)
      exact this
    have hsel1 : SelectedPrefix (select_step hdr n s k).svs_matches n k := by
      intro i hi0 hik
      have hi := hsel i hi0 hik
      have hi_eq : (select_step hdr n s k).svs_matches (i * 4) = s.svs_matches (i * 4) := by
        rw [hprob i, if_neg (by omega), if_neg (by omega)]
      rw [hi_eq]
      refine ⟨hi.1, ?_⟩
      intro j hj1 hj2
      rw [hprob j]
      split_ifs
      · exact hi.2 w (by omega) hw.2
      · exact hi.2 k (by omega) (by omega)
      · exact hi.2 j hj1 hj2
    have hcurr : ∀ j, k < j → j < n →
        (select_step hdr n s k).svs_matches (j * 4)
          ≤ (select_step hdr n s k).svs_matches (k * 4) := by
      intro j hj1 hj2
      rw [hprob j, hprob k, if_pos rfl]
      split_ifs
      · omega
      · exact hmax k (le_refl _) (by omega)
      · exact hmax j (by omega) hj2
    split_ifs with hz
    · exact ⟨⟨le_refl _, le_max_left _ _⟩, hsel1, hperm, hm1⟩
    · have hsel2 : SelectedPrefix (select_step hdr n s k).svs_matches n (k + 1) := by
        intro i hi0 hik
        by_cases e : i = k
        · subst e
          exact ⟨hz, hcurr⟩
        · exact hsel1 i hi0 (by omega)
      obtain ⟨⟨a1, a2⟩, b, c, e⟩ := ih (k + 1) (select_step hdr n s k) (by omega) (by omega)
        hm1 hsel2
      refine ⟨⟨by omega, ?_⟩, b, c.trans hperm, e⟩
      have : max (k + 1) ideal = max k ideal := by
        rw [max_eq_right (by omega), max_eq_right (by omega)]
      omega


theorem filter_remove_zeroing (valid : Int → Int) (n : Int) (m : Int → Int) (x : Int) :
    filter_remove valid n m x = m x ∨ filter_remove valid n m x = 0 := by
  unfold filter_remove
  apply foldl_zeroing
  intro d k j
  split_ifs
  · rw [Function.update_apply]
    split_ifs
    · exact Or.inr rfl
    · exact Or.inl rfl
  · exact Or.inl rfl

theorem filter_u32 (hdr : Header) (s : Svs) (n maxd tol en : Int)
    (hm : IsU32Array s.svs_matches) : IsU32Array (filter hdr s n maxd tol en).svs_matches := by
  intro j
  rw [filter_matches]
  rcases filter_remove_zeroing (filter_after hdr s n maxd tol en 4).s.valid_quadrants n
    s.svs_matches j with h | h
  · rw [h]; exact hm j
  · rw [h]; exact ⟨le_refl _, by norm_num⟩

theorem match_select_eq (hdr : Header) (s : Svs) (a : MatchParams) (n : Int) :
    match_select hdr s a n
      = select_loop hdr n (upto 0 (if n < a.ideal_no_of_matches then n
          else a.ideal_no_of_matches)) (match_filtered hdr s a n) 0 := rfl

/-- C9: when the selection loop of `match` ends, the first `no_of_possible_matches`
matches are a permutation of the filtered candidates; the `m` selected ones
(`m <= ideal_no_of_matches`, and `m = 0` for a negative `ideal_no_of_matches`) occupy
positions `0 .. m-1` with non-zero probabilities in non-increasing order, and every
candidate at a position `>= m` has a probability no greater than each selected one.
The match array holds `unsigned int` values. -/
theorem selection_sorted_permutation (hdr : Header) (s : Svs) (a : MatchParams)
    (no_of_possible_matches : Int) (htyped : IsU32Array s.svs_matches) :
    (match_records (match_select hdr s a no_of_possible_matches).1.svs_matches
        no_of_possible_matches).Perm
      (match_records (match_filtered hdr s a no_of_possible_matches).svs_matches
        no_of_possible_matches) ∧
    (0 ≤ (match_select hdr s a no_of_possible_matches).2 ∧
      (match_select hdr s a no_of_possible_matches).2 ≤ max 0 a.ideal_no_of_matches ∧
      (match_select hdr s a no_of_possible_matches).2 ≤ max 0 no_of_possible_matches) ∧
    (∀ i, 0 ≤ i → i < (match_select hdr s a no_of_possible_matches).2 →
      (match_select hdr s a no_of_possible_matches).1.svs_matches (i * 4) ≠ 0) ∧
    (∀ i j, 0 ≤ i → i < j → j < (match_select hdr s a no_of_possible_matches).2 →
      (match_select hdr s a no_of_possible_matches).1.svs_matches (j * 4)
        ≤ (match_select hdr s a no_of_possible_matches).1.svs_matches (i * 4)) ∧
    (∀ i j, 0 ≤ i → i < (match_select hdr s a no_of_possible_matches).2 →
      (match_select hdr s a no_of_possible_matches).2 ≤ j → j < no_of_possible_matches →
      (match_select hdr s a no_of_possible_matches).1.svs_matches (j * 4)
        ≤ (match_select hdr s a no_of_possible_matches).1.svs_matches (i * 4)) := by
  have hf : IsU32Array (match_filtered hdr s a no_of_possible_matches).svs_matches :=
    filter_u32 hdr _ _ _ _ _ htyped
  have hideal : (if no_of_possible_matches < a.ideal_no_of_matches then no_of_possible_matches
      else a.ideal_no_of_matches) ≤ no_of_possible_matches := by
    split_ifs <;> omega
  obtain ⟨⟨h1, h2⟩, hsel, hperm, _⟩ := select_loop_spec hdr no_of_possible_matches _ hideal _ 0
    (match_filtered hdr s a no_of_possible_matches) rfl (le_refl _) hf
    (fun i h0 h1 => absurd h1 (by omega))
  rw [match_select_eq]
  refine ⟨hperm, ⟨h1, ?_, ?_⟩, ?_, ?_, ?_⟩
  · refine le_trans h2 ?_
    split_ifs with h
    · exact max_le (le_max_left _ _) (le_trans (le_of_lt h) (le_max_right _ _))
    · exact le_refl _
  · refine le_trans h2 ?_
    split_ifs with h
    · exact le_refl _
    · exact max_le (le_max_left _ _) (le_trans (not_lt.1 h) (le_max_right _ _))
  · intro i h0 hi
    exact (hsel i h0 hi).1
  · intro i j h0 hij hj
    have hjn : j < no_of_possible_matches := by
      have : (select_loop hdr no_of_possible_matches (upto 0 (if no_of_possible_matches
          < a.ideal_no_of_matches then no_of_possible_matches else a.ideal_no_of_matches))
          (match_filtered hdr s a no_of_possible_matches) 0).2
          ≤ max 0 no_of_possible_matches := by
        refine le_trans h2 ?_
        split_ifs with h
        · exact le_refl _
        · exact max_le (le_max_left _ _) (le_trans (not_lt.1 h) (le_max_right _ _))
      rcases le_total 0 no_of_possible_matches with hn | hn
      · rw [max_eq_right hn] at this; omega
      · rw [max_eq_left hn] at this; omega
    exact (hsel i h0 (by omega)).2 j hij hjn
  · intro i j h0 hi hj hjn
    exact (hsel i h0 hi).2 j (by omega) hjn

theorem arrayOf_u32 (l : List Int) (h : ∀ v ∈ l, 0 ≤ v ∧ v < 4294967296) :
    IsU32Array (arrayOf l) := by
  intro j
  unfold arrayOf
  split_ifs
  · exact ⟨le_refl _, by norm_num⟩
  · by_cases hj : j.toNat < l.length
    · rw [List.getD_eq_getElem _ _ hj]
      exact h _ (List.getElem_mem _)
    · rw [List.getD_eq_default _ _ (by omega)]
      exact ⟨le_refl _, by norm_num⟩

/-- Instance of `selection_sorted_permutation`: the three matches of `filterScenario`
with the parameters of `main.cpp`. -/
theorem selection_sorted_permutation_witness :
    IsU32Array filterScenario.svs_matches ∧
    (match_records (match_select exampleHeader filterScenario exampleParams 3).1.svs_matches
        3).Perm
      (match_records (match_filtered exampleHeader filterScenario exampleParams 3).svs_matches
        3) ∧
    (match_select exampleHeader filterScenario exampleParams 3).2 ≤ max 0 400 := by
  have ht : IsU32Array filterScenario.svs_matches :=
    arrayOf_u32 _ (by decide)
  have h := selection_sorted_permutation exampleHeader filterScenario exampleParams 3 ht
  exact ⟨ht, h.1, h.2.1.2.1⟩

/-! ## Primary stage of the matching -/

theorem upto_snoc (lo hi : Int) (h : lo ≤ hi) : upto lo (hi + 1) = upto lo hi ++ [hi] := by
  rw [upto_append lo hi (hi + 1) h (by omega), upto_cons hi (hi + 1) (by omega),
    upto_nil (hi + 1) (hi + 1) (le_refl _)]

theorem match_score_nonneg (hdr : Header) (other : Svs) (a : MatchParams) (max_disp : Int)
    (meandescR : Nat) (lf : LeftFeature) (fR R : Int) :
    0 ≤ match_score hdr other a max_disp meandescR lf fR R ∧
    match_score hdr other a max_disp meandescR lf fR R < 4294967296 := by
  unfold match_score
  simp only
  have hu : ∀ v, 0 ≤ u32 v ∧ u32 v < 4294967296 := fun v => by unfold u32; omega
  split_ifs
  all_goals first | exact hu _ | exact ⟨le_refl _, by norm_num⟩

/-- The scoring loop stores the score of every right feature of the row. -/
theorem match_scores_apply (hdr : Header) (other : Svs) (a : MatchParams) (max_disp : Int)
    (meandescR : Nat) (lf : LeftFeature) (fR nR : Int) (rp : Int → Int) (R : Int) :
    (match_scores hdr other a max_disp meandescR lf fR nR rp).1 R
      = if 0 ≤ R ∧ R < nR then match_score hdr other a max_disp meandescR lf fR R else rp R := by
  unfold match_scores
  have key : ∀ (l : List Int), l.Nodup → ∀ (st : (Int → Int) × Int),
      (l.foldl (fun (st : (Int → Int) × Int) R =>
        (Function.update st.1 R (match_score hdr other a max_disp meandescR lf fR R),
         u32 (st.2 + match_score hdr other a max_disp meandescR lf fR R))) st).1 R
        = if R ∈ l then match_score hdr other a max_disp meandescR lf fR R else st.1 R := by
    intro l
    induction l with
    | nil => intro _ st; simp
    | cons x l ih =>
      intro hnd st
      rw [List.nodup_cons] at hnd
      rw [List.foldl_cons, ih hnd.2]
      by_cases hx : R = x
      · subst hx
        simp [hnd.1]
      · simp [hx, Function.update_noteq hx]
  have := key (upto 0 nR) (nodup_upto 0 nR) (rp, 0)
  simp only [mem_upto] at this
  exact this

/-- The selection loop over the right features `0 .. k-1`: the best probability, and
the first feature that attains it. -/
theorem match_best_spec (rp : Int → Int) (total bestR : Int) (K : Int)
    (hrp : ∀ R, 0 ≤ R → R < K → 0 ≤ rp R) :
    ∀ (k : Nat), (k : Int) ≤ K →
      0 ≤ (match_best rp total k bestR).1 ∧
      (∀ R : Int, 0 ≤ R → R < (k : Int) →
        match_prob rp total R ≤ (match_best rp total k bestR).1) ∧
      ((match_best rp total k bestR).1 > 0 →
        (0 ≤ (match_best rp total k bestR).2 ∧ (match_best rp total k bestR).2 < k) ∧
        match_prob rp total (match_best rp total k bestR).2 = (match_best rp total k bestR).1 ∧
        ∀ R : Int, 0 ≤ R → R < (match_best rp total k bestR).2 →
          match_prob rp total R < (match_best rp total k bestR).1) := by
  have hprob0 : ∀ R, rp R = 0 → match_prob rp total R = 0 := by
    intro R h
    unfold match_prob u32
    rw [h]
    simp
  intro k
  induction k with
  | zero =>
    intro _
    have e : match_best rp total ((0 : Nat) : Int) bestR = (0, bestR) := by
      unfold match_best
      rw [upto_nil 0 _ (by simp)]
      rfl
    rw [e]
    exact ⟨le_refl _, fun R h0 h1 => by have : R < 0 := by simpa using h1
                                        omega,
      fun h => absurd h (lt_irrefl _)⟩
  | succ k ih =>
    intro hkK
    obtain ⟨h0, hmax, hpos⟩ := ih (by push_cast at hkK; omega)
    have e : match_best rp total ((k + 1 : Nat) : Int) bestR
        = (fun (st : Int × Int) (R : Int) =>
            if rp R > 0 then
              if match_prob rp total R > st.1 then (match_prob rp total R, R) else st
            else st) (match_best rp total k bestR) k := by
      unfold match_best
      push_cast
      rw [upto_snoc 0 k (by omega), List.foldl_append]
      rfl
    rw [e]
    simp only
    by_cases hk : rp k > 0
    · rw [if_pos hk]
      by_cases hgt : match_prob rp total k > (match_best rp total k bestR).1
      · rw [if_pos hgt]
        refine ⟨by simp only; omega, ?_, fun _ => ?_⟩
        · intro R hR0 hR1
          simp only
          by_cases e2 : R = k
          · rw [e2]
          · have := hmax R hR0 (by push_cast at hR1; omega)
            omega
        · refine ⟨⟨?_, ?_⟩, rfl, ?_⟩
          · show (0 : Int) ≤ (k : Int)
            omega
          · show (k : Int) < ((k + 1 : Nat) : Int)
            push_cast; omega
          · intro R hR0 hR1
            have hR2 : R < (k : Int) := hR1
            have := hmax R hR0 hR2
            show match_prob rp total R < match_prob rp total k
            omega
      · rw [if_neg hgt]
        refine ⟨h0, ?_, fun h => ?_⟩
        · intro R hR0 hR1
          by_cases e2 : R = k
          · rw [e2]; omega
          · exact hmax R hR0 (by push_cast at hR1; omega)
        · obtain ⟨a1, a2, a3⟩ := hpos h
          exact ⟨⟨a1.1, by push_cast; omega⟩, a2, a3⟩
    · rw [if_neg hk]
      have hk0 : rp k = 0 := by
        have := hrp k (by omega) (by push_cast at hkK; omega)
        omega
      refine ⟨h0, ?_, fun h => ?_⟩
      · intro R hR0 hR1
        by_cases e2 : R = k
        · rw [e2, hprob0 k hk0]; exact h0
        · exact hmax R hR0 (by push_cast at hR1; omega)
      · obtain ⟨a1, a2, a3⟩ := hpos h
        exact ⟨⟨a1.1, by push_cast; omega⟩, a2, a3⟩

theorem upto_toNat (n : Int) : upto 0 n = upto 0 (n.toNat : Int) := by
  unfold upto
  congr 2
  omega

theorem match_best_toNat (rp : Int → Int) (total n bestR : Int) :
    match_best rp total n bestR = match_best rp total (n.toNat : Int) bestR := by
  unfold match_best
  rw [upto_toNat]

/-- The first maximum among the probabilities of the right features of a row. -/
theorem match_best_first_max (rp : Int → Int) (total nR bestR : Int)
    (hrp : ∀ R, 0 ≤ R → R < nR → 0 ≤ rp R) :
    0 ≤ (match_best rp total nR bestR).1 ∧
    (∀ R : Int, 0 ≤ R → R < nR → match_prob rp total R ≤ (match_best rp total nR bestR).1) ∧
    ((match_best rp total nR bestR).1 > 0 →
      (0 ≤ (match_best rp total nR bestR).2 ∧ (match_best rp total nR bestR).2 < nR) ∧
      match_prob rp total (match_best rp total nR bestR).2 = (match_best rp total nR bestR).1 ∧
      ∀ R : Int, 0 ≤ R → R < (match_best rp total nR bestR).2 →
        match_prob rp total R < (match_best rp total nR bestR).1) := by
  rw [match_best_toNat]
  obtain ⟨a, b, c⟩ := match_best_spec rp total bestR (nR.toNat : Int)
    (fun R h0 h1 => hrp R h0 (by omega)) nR.toNat (le_refl _)
  refine ⟨a, fun R h0 h1 => b R h0 (by omega), fun h => ?_⟩
  obtain ⟨c1, c2, c3⟩ := c h
  exact ⟨⟨c1.1, by omega⟩, c2, c3⟩

/-- The total of a row on which a single right feature has a non-zero score. -/
theorem match_scores_total_single (hdr : Header) (other : Svs) (a : MatchParams) (max_disp : Int)
    (meandescR : Nat) (lf : LeftFeature) (fR nR : Int) (rp : Int → Int) (R0 : Int)
    (hR0 : 0 ≤ R0 ∧ R0 < nR)
    (hothers : ∀ R, 0 ≤ R → R < nR → R ≠ R0 →
      match_score hdr other a max_disp meandescR lf fR R = 0) :
    (match_scores hdr other a max_disp meandescR lf fR nR rp).2
      = match_score hdr other a max_disp meandescR lf fR R0 := by
  have hzero : ∀ (l : List Int), (∀ R ∈ l, match_score hdr other a max_disp meandescR lf fR R = 0) →
      ∀ (st : (Int → Int) × Int), 0 ≤ st.2 ∧ st.2 < 4294967296 →
      (l.foldl (fun (st : (Int → Int) × Int) R =>
        (Function.update st.1 R (match_score hdr other a max_disp meandescR lf fR R),
         u32 (st.2 + match_score hdr other a max_disp meandescR lf fR R))) st).2 = st.2 := by
    intro l
    induction l with
    | nil => intro _ st _; rfl
    | cons x l ih =>
      intro hl st hst
      rw [List.foldl_cons, ih (fun R hR => hl R (List.mem_cons_of_mem _ hR))]
      · simp only [hl x (List.mem_cons_self _ _)]
        unfold u32; omega
      · simp only
        unfold u32; omega
  unfold match_scores
  rw [upto_split 0 R0 nR hR0.1 hR0.2, List.foldl_append, List.foldl_cons]
  rw [hzero (upto (R0 + 1) nR)
    (fun R hR => by
      have := (mem_upto _ _ R).1 hR
      exact hothers R (by omega) this.2 (by omega))]
  · simp only
    rw [hzero (upto 0 R0)
      (fun R hR => by
        have := (mem_upto _ _ R).1 hR
        exact hothers R this.1 (by omega) (by omega)) (rp, 0) ⟨le_refl _, by norm_num⟩]
    have := match_score_nonneg hdr other a max_disp meandescR lf fR R0
    unfold u32
    omega
  · simp only
    unfold u32; omega


/-- What `match` does with the left feature at hand: it records the candidate when
`candidate_recorded` holds and leaves the list alone otherwise. -/
theorem match_left_cases (hdr : Header) (other : Svs) (a : MatchParams) (y row fL fR nR : Int)
    (mL mR : Nat) (st : Primary × Int) (L : Int) :
    (candidate_recorded hdr other a row fL fR nR mL mR st L →
      (match_left hdr other a y row fL fR nR mL mR st L).1.no_of_possible_matches
        = st.1.no_of_possible_matches + 1 ∧
      (match_left hdr other a y row fL fR nR mL mR st L).1.s.svs_matches
        = Function.update (Function.update (Function.update (Function.update
            st.1.s.svs_matches (st.1.no_of_possible_matches * 4)
              (candidate_best hdr other a row fL fR nR mL mR st L).1)
            (st.1.no_of_possible_matches * 4 + 1)
              (u32 (left_feature hdr st.1.s a mL row fL L st.2).xL))
            (st.1.no_of_possible_matches * 4 + 2) (u32 y))
            (st.1.no_of_possible_matches * 4 + 3)
            (u32 (if candidate_disp hdr other a row fL fR nR mL mR st L < 0 then 0
              else candidate_disp hdr other a row fL fR nR mL mR st L))) ∧
    (¬ candidate_recorded hdr other a row fL fR nR mL mR st L →
      (match_left hdr other a y row fL fR nR mL mR st L).1.no_of_possible_matches
        = st.1.no_of_possible_matches ∧
      (match_left hdr other a y row fL fR nR mL mR st L).1.s.svs_matches
        = st.1.s.svs_matches) := by
  unfold candidate_recorded candidate_disp candidate_best candidate_scores match_left
  simp only
  constructor
  · rintro ⟨h1, h2, h3⟩
    rw [if_pos h1, if_pos h2, if_pos h3]
    exact ⟨rfl, rfl⟩
  · intro h
    by_cases h1 : (match_scores hdr other a (max_disp_pixels st.1.s a) mR
        (left_feature hdr st.1.s a mL row fL L st.2) fR nR st.1.s.row_peaks).2 > 0
    · rw [if_pos h1]
      by_cases h2 : (match_best
          (match_scores hdr other a (max_disp_pixels st.1.s a) mR
            (left_feature hdr st.1.s a mL row fL L st.2) fR nR st.1.s.row_peaks).1
          (match_scores hdr other a (max_disp_pixels st.1.s a) mR
            (left_feature hdr st.1.s a mL row fL L st.2) fR nR st.1.s.row_peaks).2
          nR st.1.bestR).1 > 0 ∧
        (match_best
          (match_scores hdr other a (max_disp_pixels st.1.s a) mR
            (left_feature hdr st.1.s a mL row fL L st.2) fR nR st.1.s.row_peaks).1
          (match_scores hdr other a (max_disp_pixels st.1.s a) mR
            (left_feature hdr st.1.s a mL row fL L st.2) fR nR st.1.s.row_peaks).2
          nR st.1.bestR).1 < 1000 ∧
        st.1.no_of_possible_matches < hdr.SVS_MAX_FEATURES
      · rw [if_pos h2, if_neg (fun h3 => h ⟨h1, h2, h3⟩)]
        exact ⟨rfl, rfl⟩
      · rw [if_neg h2]
        exact ⟨rfl, rfl⟩
    · rw [if_neg h1]
      exact ⟨rfl, rfl⟩

theorem candidate_scores_apply (hdr : Header) (other : Svs) (a : MatchParams)
    (row fL fR nR : Int) (mL mR : Nat) (st : Primary × Int) (L : Int) (R : Int)
    (hR : 0 ≤ R ∧ R < nR) :
    (candidate_scores hdr other a row fL fR nR mL mR st L).1 R
      = match_score hdr other a (max_disp_pixels st.1.s a) mR
          (left_feature hdr st.1.s a mL row fL L st.2) fR R := by
  unfold candidate_scores
  rw [match_scores_apply, if_pos hR]

/-- C10 (amended): for every left feature, the right feature chosen by the primary stage
of `match` is the lowest-index one attaining the maximum of the probability
`score * 1000 / total` computed in `unsigned int` arithmetic; the candidate is recorded
exactly under `candidate_recorded`, which requires `1 <= p <= 999`; and a left feature
for which exactly one right feature of the row has a non-zero score yields no candidate
when that score times 1000 is below `2^32`. -/
theorem primary_candidate (hdr : Header) (other : Svs) (a : MatchParams)
    (y row fL fR no_of_feats_right : Int) (meandescL meandescR : Nat)
    (st : Primary × Int) (L : Int) :
    ((candidate_best hdr other a row fL fR no_of_feats_right meandescL meandescR st L).1 > 0 →
      (0 ≤ (candidate_best hdr other a row fL fR no_of_feats_right meandescL meandescR st L).2 ∧
        (candidate_best hdr other a row fL fR no_of_feats_right meandescL meandescR st L).2
          < no_of_feats_right) ∧
      match_prob
          (candidate_scores hdr other a row fL fR no_of_feats_right meandescL meandescR st L).1
          (candidate_scores hdr other a row fL fR no_of_feats_right meandescL meandescR st L).2
          (candidate_best hdr other a row fL fR no_of_feats_right meandescL meandescR st L).2
        = (candidate_best hdr other a row fL fR no_of_feats_right meandescL meandescR st L).1 ∧
      (∀ R : Int, 0 ≤ R → R < no_of_feats_right →
        match_prob
          (candidate_scores hdr other a row fL fR no_of_feats_right meandescL meandescR st L).1
          (candidate_scores hdr other a row fL fR no_of_feats_right meandescL meandescR st L).2 R
        ≤ (candidate_best hdr other a row fL fR no_of_feats_right meandescL meandescR st L).1) ∧
      (∀ R : Int, 0 ≤ R →
        R < (candidate_best hdr other a row fL fR no_of_feats_right meandescL meandescR st L).2 →
        match_prob
          (candidate_scores hdr other a row fL fR no_of_feats_right meandescL meandescR st L).1
          (candidate_scores hdr other a row fL fR no_of_feats_right meandescL meandescR st L).2 R
        < (candidate_best hdr other a row fL fR no_of_feats_right meandescL meandescR st L).1)) ∧
    (candidate_recorded hdr other a row fL fR no_of_feats_right meandescL meandescR st L →
      (1 ≤ (candidate_best hdr other a row fL fR no_of_feats_right meandescL meandescR st L).1 ∧
        (candidate_best hdr other a row fL fR no_of_feats_right meandescL meandescR st L).1
          ≤ 999) ∧
      (match_left hdr other a y row fL fR no_of_feats_right meandescL meandescR st
          L).1.no_of_possible_matches = st.1.no_of_possible_matches + 1 ∧
      (match_left hdr other a y row fL fR no_of_feats_right meandescL meandescR st
          L).1.s.svs_matches (st.1.no_of_possible_matches * 4)
        = (candidate_best hdr other a row fL fR no_of_feats_right meandescL meandescR st L).1 ∧
      (match_left hdr other a y row fL fR no_of_feats_right meandescL meandescR st
          L).1.s.svs_matches (st.1.no_of_possible_matches * 4 + 3)
        = u32 (if candidate_disp hdr other a row fL fR no_of_feats_right meandescL meandescR
                st L < 0 then 0
              else candidate_disp hdr other a row fL fR no_of_feats_right meandescL meandescR
                st L)) ∧
    (¬ candidate_recorded hdr other a row fL fR no_of_feats_right meandescL meandescR st L →
      (match_left hdr other a y row fL fR no_of_feats_right meandescL meandescR st
          L).1.no_of_possible_matches = st.1.no_of_possible_matches ∧
      (match_left hdr other a y row fL fR no_of_feats_right meandescL meandescR st
          L).1.s.svs_matches = st.1.s.svs_matches) ∧
    (∀ R0 : Int, 0 ≤ R0 → R0 < no_of_feats_right →
      (candidate_scores hdr other a row fL fR no_of_feats_right meandescL meandescR st L).1 R0
        ≠ 0 →
      (candidate_scores hdr other a row fL fR no_of_feats_right meandescL meandescR st L).1 R0
        * 1000 < 4294967296 →
      (∀ R : Int, 0 ≤ R → R < no_of_feats_right → R ≠ R0 →
        (candidate_scores hdr other a row fL fR no_of_feats_right meandescL meandescR st L).1 R
          = 0) →
      ¬ candidate_recorded hdr other a row fL fR no_of_feats_right meandescL meandescR st L) := by
  have hnonneg : ∀ R, 0 ≤ R → R < no_of_feats_right →
      0 ≤ (candidate_scores hdr other a row fL fR no_of_feats_right meandescL meandescR st L).1
        R := by
    intro R h0 h1
    rw [candidate_scores_apply _ _ _ _ _ _ _ _ _ _ _ _ ⟨h0, h1⟩]
    exact (match_score_nonneg _ _ _ _ _ _ _ _).1
  have hbest := match_best_first_max
    (candidate_scores hdr other a row fL fR no_of_feats_right meandescL meandescR st L).1
    (candidate_scores hdr other a row fL fR no_of_feats_right meandescL meandescR st L).2
    no_of_feats_right st.1.bestR hnonneg
  have hcases := match_left_cases hdr other a y row fL fR no_of_feats_right meandescL meandescR
    st L
  refine ⟨?_, ?_, hcases.2, ?_⟩
  · intro hpos
    obtain ⟨c1, c2, c3⟩ := hbest.2.2 hpos
    exact ⟨c1, c2, hbest.2.1, c3⟩
  · intro hrec
    obtain ⟨e1, e2⟩ := hcases.1 hrec
    refine ⟨⟨?_, ?_⟩, e1, ?_, ?_⟩
    · have := hrec.2.1.1; omega
    · have := hrec.2.1.2.1; omega
    · rw [e2, Function.update_noteq (by omega), Function.update_noteq (by omega),
        Function.update_noteq (by omega), Function.update_same]
    · rw [e2, Function.update_same]
  · intro R0 h0 h1 hne hsmall hothers hrec
    have hs := hnonneg R0 h0 h1
    have htotal : (candidate_scores hdr other a row fL fR no_of_feats_right meandescL meandescR
        st L).2
        = (candidate_scores hdr other a row fL fR no_of_feats_right meandescL meandescR st L).1
            R0 := by
      rw [candidate_scores_apply _ _ _ _ _ _ _ _ _ _ _ _ ⟨h0, h1⟩]
      unfold candidate_scores
      apply match_scores_total_single _ _ _ _ _ _ _ _ _ R0 ⟨h0, h1⟩
      intro R hR0 hR1 hRne
      have := hothers R hR0 hR1 hRne
      rw [candidate_scores_apply _ _ _ _ _ _ _ _ _ _ _ _ ⟨hR0, hR1⟩] at this
      exact this
    have hp := hbest.2.1 R0 h0 h1
    have hprob : match_prob
        (candidate_scores hdr other a row fL fR no_of_feats_right meandescL meandescR st L).1
        (candidate_scores hdr other a row fL fR no_of_feats_right meandescL meandescR st L).2 R0
        = 1000 := by
      unfold match_prob
      rw [htotal]
      have hu : u32 ((candidate_scores hdr other a row fL fR no_of_feats_right meandescL
          meandescR st L).1 R0 * 1000)
          = 1000 * (candidate_scores hdr other a row fL fR no_of_feats_right meandescL
          meandescR st L).1 R0 := by
        unfold u32; omega
      rw [hu]
      exact Int.mul_ediv_cancel _ hne
    rw [hprob] at hp
    have := hrec.2.1.2.1
    unfold candidate_best at this
    omega

/-- C10 (as stated, refuted): with a descriptor weight of 200000 the single right
feature of the row has the only non-zero score, 6010000, yet the primary stage records
a candidate for the left feature, with probability 285. -/
theorem primary_single_candidate_recorded :
    singleRight.features_per_row 0 = 1 ∧
    (match_primary exampleHeader singleLeft singleRight heavyParams).s.row_peaks 0 = 6010000 ∧
    (match_primary exampleHeader singleLeft singleRight heavyParams).no_of_possible_matches = 1 ∧
    (match_primary exampleHeader singleLeft singleRight heavyParams).s.svs_matches 0 = 285 := by
  decide

/-! ## Range of the stored disparities -/

theorem foldl_invariant {σ β : Type} (P : σ → Prop) (f : σ → β → σ) :
    ∀ (l : List β) (init : σ), P init → (∀ st x, x ∈ l → P st → P (f st x)) →
      P (l.foldl f init) := by
  intro l
  induction l with
  | nil => intro init h _; exact h
  | cons x l ih =>
    intro init h hstep
    rw [List.foldl_cons]
    exact ih _ (hstep init x (List.mem_cons_self _ _) h)
      (fun st y hy hst => hstep st y (List.mem_cons_of_mem _ hy) hst)

theorem max_disp_pixels_lt (s : Svs) (a : MatchParams) : max_disp_pixels s a < 2147483648 := by
  unfold max_disp_pixels i32
  omega

theorem max_disp_pixels_congr (s t : Svs) (a : MatchParams) (h : t.imgWidth = s.imgWidth) :
    max_disp_pixels t a = max_disp_pixels s a := by
  unfold max_disp_pixels
  rw [h]

/-- A positive score of a right feature whose disparity is at least -10 comes from the
window: the disparity is below `max_disp`. -/
theorem match_score_pos_window (hdr : Header) (other : Svs) (a : MatchParams) (max_disp : Int)
    (meandescR : Nat) (lf : LeftFeature) (fR R : Int)
    (hpos : match_score hdr other a max_disp meandescR lf fR R > 0)
    (hge : lf.xL - other.feature_x (fR + R) ≥ -10) :
    lf.xL - other.feature_x (fR + R) < max_disp := by
  by_contra hlt
  unfold match_score at hpos
  simp only at hpos
  rw [if_neg (fun h => hlt h.2), if_neg (fun h => by omega)] at hpos
  omega

theorem match_prob_zero (rp : Int → Int) (total R : Int) (h : rp R = 0) :
    match_prob rp total R = 0 := by
  unfold match_prob u32
  rw [h]
  simp

/-- The disparity of a recorded candidate lies in the window. -/
theorem candidate_disp_lt (hdr : Header) (other : Svs) (a : MatchParams)
    (row fL fR nR : Int) (mL mR : Nat) (st : Primary × Int) (L : Int)
    (hrec : candidate_recorded hdr other a row fL fR nR mL mR st L) :
    candidate_disp hdr other a row fL fR nR mL mR st L < max_disp_pixels st.1.s a := by
  have hnonneg : ∀ R, 0 ≤ R → R < nR →
      0 ≤ (candidate_scores hdr other a row fL fR nR mL mR st L).1 R := by
    intro R h0 h1
    rw [candidate_scores_apply _ _ _ _ _ _ _ _ _ _ _ _ ⟨h0, h1⟩]
    exact (match_score_nonneg _ _ _ _ _ _ _ _).1
  have hbest := match_best_first_max
    (candidate_scores hdr other a row fL fR nR mL mR st L).1
    (candidate_scores hdr other a row fL fR nR mL mR st L).2 nR st.1.bestR hnonneg
  obtain ⟨hr0, hp, _⟩ := hbest.2.2 hrec.2.1.1
  have hr : 0 ≤ (candidate_best hdr other a row fL fR nR mL mR st L).2 ∧
      (candidate_best hdr other a row fL fR nR mL mR st L).2 < nR := hr0
  have hne : (candidate_scores hdr other a row fL fR nR mL mR st L).1
      (candidate_best hdr other a row fL fR nR mL mR st L).2 ≠ 0 := by
    intro h0
    have := match_prob_zero _ (candidate_scores hdr other a row fL fR nR mL mR st L).2 _ h0
    have h1 := hrec.2.1.1
    unfold candidate_best at h1 this
    omega
  have hpos : match_score hdr other a (max_disp_pixels st.1.s a) mR
      (left_feature hdr st.1.s a mL row fL L st.2) fR
      (candidate_best hdr other a row fL fR nR mL mR st L).2 > 0 := by
    rw [← candidate_scores_apply hdr other a row fL fR nR mL mR st L _ hr]
    have := hnonneg _ hr.1 hr.2
    exact lt_of_le_of_ne this (Ne.symm hne)
  exact match_score_pos_window hdr other a _ mR _ fR _ hpos hrec.2.2

theorem match_left_frame (hdr : Header) (other : Svs) (a : MatchParams) (y row fL fR nR : Int)
    (mL mR : Nat) (st : Primary × Int) (L : Int) :
    SameFeatures st.1.s (match_left hdr other a y row fL fR nR mL mR st L).1.s ∧
    (match_left hdr other a y row fL fR nR mL mR st L).1.s.disparity_priors
      = st.1.s.disparity_priors ∧
    (match_left hdr other a y row fL fR nR mL mR st L).1.s.peaks_history
      = st.1.s.peaks_history := by
  unfold match_left SameFeatures
  simp only
  split_ifs <;> exact ⟨⟨rfl, rfl, rfl, rfl⟩, rfl, rfl⟩


theorem sameFeatures_trans (s t u : Svs) (h1 : SameFeatures s t) (h2 : SameFeatures t u) :
    SameFeatures s u :=
  ⟨h2.1.trans h1.1, h2.2.1.trans h1.2.1, h2.2.2.1.trans h1.2.2.1, h2.2.2.2.trans h1.2.2.2⟩

theorem match_left_inv (hdr : Header) (s other : Svs) (a : MatchParams) (y row fL fR nR : Int)
    (mL mR : Nat) (st : Primary × Int) (L : Int) (h : PrimaryInv s a st.1) :
    PrimaryInv s a (match_left hdr other a y row fL fR nR mL mR st L).1 := by
  obtain ⟨hsame, hpri, hhist, hn, hdisp⟩ := h
  obtain ⟨f1, f2, f3⟩ := match_left_frame hdr other a y row fL fR nR mL mR st L
  have hD : max_disp_pixels st.1.s a = max_disp_pixels s a :=
    max_disp_pixels_congr s st.1.s a hsame.1
  have hcases := match_left_cases hdr other a y row fL fR nR mL mR st L
  refine ⟨sameFeatures_trans _ _ _ hsame f1, f2.trans hpri, f3.trans hhist, ?_, ?_⟩
  · by_cases hrec : candidate_recorded hdr other a row fL fR nR mL mR st L
    · rw [(hcases.1 hrec).1]; omega
    · rw [(hcases.2 hrec).1]; exact hn
  · by_cases hrec : candidate_recorded hdr other a row fL fR nR mL mR st L
    · obtain ⟨e1, e2⟩ := hcases.1 hrec
      rw [e1, e2]
      have hlt := candidate_disp_lt hdr other a row fL fR nR mL mR st L hrec
      rw [hD] at hlt
      have hge := hrec.2.2
      have hDlt := max_disp_pixels_lt s a
      intro i hi0 hi1
      by_cases hin : i = st.1.no_of_possible_matches
      · rw [hin, Function.update_same]
        have hmax : max_disp_pixels s a ≤ max (max_disp_pixels s a) 1 := le_max_left _ _
        have hmax1 : (1 : Int) ≤ max (max_disp_pixels s a) 1 := le_max_right _ _
        split_ifs with hneg
        · unfold u32; omega
        · unfold u32; omega
      · rw [Function.update_noteq (by omega), Function.update_noteq (by omega),
          Function.update_noteq (by omega), Function.update_noteq (by omega)]
        exact hdisp i hi0 (by omega)
    · obtain ⟨e1, e2⟩ := hcases.2 hrec
      rw [e1, e2]
      exact hdisp

theorem match_row_inv (hdr : Header) (s other : Svs) (a : MatchParams) (st : RowState) (y : Int)
    (h : PrimaryInv s a st.pr) : PrimaryInv s a (match_row hdr other a st y).pr := by
  unfold match_row
  simp only
  exact foldl_invariant (fun (q : Primary × Int) => PrimaryInv s a q.1) _ _ _ h
    (fun q L _ hq => match_left_inv hdr s other a _ _ _ _ _ _ _ q L hq)

theorem match_primary_inv (hdr : Header) (s other : Svs) (a : MatchParams) :
    PrimaryInv s a (match_primary hdr s other a) := by
  unfold match_primary
  exact foldl_invariant (fun (q : RowState) => PrimaryInv s a q.pr) _ _ _
    ⟨⟨rfl, rfl, rfl, rfl⟩, rfl, rfl, le_refl _,
      fun i h0 h1 => absurd (show i < 0 from h1) (by omega)⟩
    (fun q y _ hq => match_row_inv hdr s other a q y hq)


theorem sameFeatures_refl (s : Svs) : SameFeatures s s := ⟨rfl, rfl, rfl, rfl⟩

theorem priors_length_congr (hdr : Header) (s t : Svs) (h : SameFeatures s t) :
    priors_length hdr t = priors_length hdr s := by
  unfold priors_length
  rw [h.1, h.2.1]

theorem filter_hemifield_same (hdr : Header) (n maxd tol en : Int) (st : FilterState)
    (hf : Int) :
    SameFeatures st.s (filter_hemifield hdr n maxd tol en st hf).s ∧
    (filter_hemifield hdr n maxd tol en st hf).s.disparity_priors = st.s.disparity_priors := by
  unfold filter_hemifield SameFeatures
  simp only
  split_ifs <;> exact ⟨⟨rfl, rfl, rfl, rfl⟩, rfl⟩

theorem filter_after_same (hdr : Header) (s : Svs) (n maxd tol en : Int) (k : Nat) :
    SameFeatures s (filter_after hdr s n maxd tol en k).s ∧
    (filter_after hdr s n maxd tol en k).s.disparity_priors = s.disparity_priors := by
  induction k with
  | zero => exact ⟨⟨rfl, rfl, rfl, rfl⟩, rfl⟩
  | succ k ih =>
    rw [filter_after_succ]
    obtain ⟨h1, h2⟩ := filter_hemifield_same hdr n maxd tol en
      (filter_after hdr s n maxd tol en k) k
    exact ⟨sameFeatures_trans _ _ _ ih.1 h1, h2.trans ih.2⟩

theorem filter_same (hdr : Header) (s : Svs) (n maxd tol en : Int) :
    SameFeatures s (filter hdr s n maxd tol en) ∧
    (filter hdr s n maxd tol en).disparity_priors = s.disparity_priors := by
  obtain ⟨h1, h2⟩ := filter_after_same hdr s n maxd tol en 4
  unfold filter
  simp only
  split_ifs <;> exact ⟨h1, h2⟩

theorem cdiv_two_range (a b bound : Int) (ha : 0 ≤ a ∧ a < bound) (hb : 0 ≤ b ∧ b < bound) :
    0 ≤ cdiv (a + b) 2 ∧ cdiv (a + b) 2 < bound := by
  unfold cdiv
  rw [Int.tdiv_eq_ediv (by omega) (by omega)]
  omega

theorem select_update_priors_inv (hdr : Header) (t : Svs) (y xL disp bound : Int)
    (pri : Int → Int) (hpri : PriorsInRange bound (priors_length hdr t) pri)
    (hd : 0 ≤ disp ∧ disp < bound) :
    PriorsInRange bound (priors_length hdr t) (select_update_priors hdr t y xL disp pri) := by
  unfold select_update_priors
  apply foldl_invariant (fun (p : Int → Int) => PriorsInRange bound (priors_length hdr t) p)
  · exact hpri
  · intro p rc _ hp
    simp only
    split_ifs with hin hz
    · intro idx h0 h1
      rw [Function.update_apply]
      split_ifs
      · exact hd
      · exact hp idx h0 h1
    · intro idx h0 h1
      rw [Function.update_apply]
      split_ifs
      · exact cdiv_two_range _ _ _ hd (hp _ (by omega) hin.2)
      · exact hp idx h0 h1
    · exact hp

theorem i32_small (v : Int) (h : 0 ≤ v ∧ v < 2147483648) : i32 v = v := by
  unfold i32; omega

theorem u32_small (v : Int) (h : 0 ≤ v ∧ v < 4294967296) : u32 v = v := by
  unfold u32; omega

theorem match_bound_le (s : Svs) (a : MatchParams) :
    max (max_disp_pixels s a) 1 ≤ 2147483648 :=
  max_le (le_of_lt (max_disp_pixels_lt s a)) (by norm_num)

theorem select_step_inv (hdr : Header) (s : Svs) (a : MatchParams) (n : Int) (t : Svs)
    (curr : Int) (hc : 0 ≤ curr ∧ curr < n) (h : MatchInv hdr s a t n) :
    MatchInv hdr s a (select_step hdr n t curr) n := by
  obtain ⟨hsame, hdisp, hpri⟩ := h
  obtain ⟨_, _, hcase⟩ := select_search_spec t.svs_matches curr n
  have hB := match_bound_le s a
  unfold select_step
  simp only
  rcases hcase with ⟨hw, _⟩ | ⟨hw1, hw2, _⟩
  · rw [if_neg (by omega)]
    exact ⟨hsame, hdisp, hpri⟩
  · rw [if_pos (by omega)]
    have hwd := hdisp (select_search t.svs_matches curr n).2 (by omega) hw2
    have hcd := hdisp curr hc.1 hc.2
    refine ⟨hsame, ?_, ?_⟩
    · intro i hi0 hi1
      show 0 ≤ select_swap t.svs_matches curr (select_search t.svs_matches curr n).2 (i * 4 + 3) ∧
        select_swap t.svs_matches curr (select_search t.svs_matches curr n).2 (i * 4 + 3) <
          max (max_disp_pixels s a) 1
      by_cases e1 : i = curr
      · rw [e1, (select_swap_at_curr t.svs_matches curr _).2.2.2,
          i32_small _ ⟨hwd.1, by omega⟩, u32_small _ ⟨hwd.1, by omega⟩]
        exact hwd
      · by_cases e2 : i = (select_search t.svs_matches curr n).2
        · rw [e2, (select_swap_at_winner t.svs_matches curr _ (by omega)).2.2.2]
          exact hcd
        · rw [select_swap_elsewhere t.svs_matches curr _ _ (by omega) (by omega)]
          exact hdisp i hi0 hi1
    · show PriorsInRange _ _ (select_update_priors hdr t _ _ _ t.disparity_priors)
      rw [← priors_length_congr hdr s t hsame]
      apply select_update_priors_inv
      · rw [priors_length_congr hdr s t hsame]; exact hpri
      · rw [i32_small _ ⟨hwd.1, by omega⟩]
        exact hwd

theorem select_loop_inv (hdr : Header) (s : Svs) (a : MatchParams) (n : Int) :
    ∀ (l : List Int) (t : Svs) (k : Int), (∀ c ∈ l, 0 ≤ c ∧ c < n) → (0 ≤ k ∧ k ≤ max 0 n) →
      MatchInv hdr s a t n →
      MatchInv hdr s a (select_loop hdr n l t k).1 n ∧
      (0 ≤ (select_loop hdr n l t k).2 ∧ (select_loop hdr n l t k).2 ≤ max 0 n) := by
  intro l
  induction l with
  | nil => intro t k _ hk h; exact ⟨h, hk⟩
  | cons c l ih =>
    intro t k hl hk h
    have hc := hl c (List.mem_cons_self _ _)
    have hstep := select_step_inv hdr s a n t c hc h
    simp only [select_loop]
    split_ifs
    · exact ⟨hstep, hc.1, le_trans (le_of_lt hc.2) (le_max_right _ _)⟩
    · exact ih _ (c + 1) (fun c' hc' => hl c' (List.mem_cons_of_mem _ hc'))
        ⟨by omega, le_trans (by omega : c + 1 ≤ n) (le_max_right _ _)⟩ hstep

theorem match_bound_pos (s : Svs) (a : MatchParams) : 0 < max (max_disp_pixels s a) 1 :=
  lt_of_lt_of_le (by norm_num) (le_max_right _ _)

theorem match_filtered_inv (hdr : Header) (s : Svs) (a : MatchParams) (pr : Primary)
    (h : PrimaryInv s a pr) :
    MatchInv hdr s a (match_filtered hdr pr.s a pr.no_of_possible_matches)
      pr.no_of_possible_matches := by
  obtain ⟨hsame, _, _, _, hdisp⟩ := h
  obtain ⟨h1, h2⟩ := filter_same hdr
    { pr.s with disparity_priors := memset0 pr.s.disparity_priors (priors_length hdr pr.s) }
    pr.no_of_possible_matches (max_disp_pixels pr.s a) 3 a.use_priors
  unfold match_filtered
  simp only
  refine ⟨sameFeatures_trans _ _ _ hsame h1, ?_, ?_⟩
  · intro i hi0 hi1
    rw [filter_other_cells _ _ _ _ _ _ _ (fun j => by omega)]
    exact hdisp i hi0 hi1
  · rw [h2]
    intro idx h0 h1
    show 0 ≤ memset0 pr.s.disparity_priors (priors_length hdr pr.s) idx ∧
      memset0 pr.s.disparity_priors (priors_length hdr pr.s) idx < max (max_disp_pixels s a) 1
    unfold memset0
    rw [if_pos ⟨h0, by rw [priors_length_congr hdr s pr.s hsame]; exact h1⟩]
    exact ⟨le_refl _, match_bound_pos s a⟩

theorem dispInRange_mono (bound : Int) (m : Int → Int) (n k : Int) (hk : k ≤ max 0 n)
    (h : DispInRange bound m n) : DispInRange bound m k := by
  intro i h0 h1
  have : max 0 n = n := max_eq_right (by
    rcases le_total 0 n with hn | hn
    · exact hn
    · rw [max_eq_left hn] at hk; omega)
  exact h i h0 (by omega)

theorem match_select_inv (hdr : Header) (s : Svs) (a : MatchParams) (pr : Primary)
    (h : PrimaryInv s a pr) :
    MatchInv hdr s a (match_select hdr pr.s a pr.no_of_possible_matches).1
      (match_select hdr pr.s a pr.no_of_possible_matches).2 ∧
    0 ≤ (match_select hdr pr.s a pr.no_of_possible_matches).2 := by
  rw [match_select_eq]
  obtain ⟨⟨h1, h2, h3⟩, h4⟩ := select_loop_inv hdr s a pr.no_of_possible_matches
    (upto 0 (if pr.no_of_possible_matches < a.ideal_no_of_matches
      then pr.no_of_possible_matches else a.ideal_no_of_matches))
    (match_filtered hdr pr.s a pr.no_of_possible_matches) 0
    (fun c hc => by
      rw [mem_upto] at hc
      split_ifs at hc <;> omega)
    ⟨le_refl _, le_max_left _ _⟩ (match_filtered_inv hdr s a pr h)
  exact ⟨⟨h1, dispInRange_mono _ _ _ _ h4.2 h2, h3⟩, h4.1⟩


theorem prior_index_congr (s t : Svs) (h : SameFeatures s t) (row x : Int) :
    prior_index t row x = prior_index s row x := by
  unfold prior_index
  rw [h.1]

theorem prior_cell_congr (s t : Svs) (h : SameFeatures s t) (row x : Int) (rc : Int × Int) :
    prior_cell t row x rc = prior_cell s row x rc := by
  unfold prior_cell
  rw [h.1]

theorem assign_update_priors_inv (hdr : Header) (t : Svs) (row x disp bound : Int)
    (pri : Int → Int) (hpri : PriorsInRange bound (priors_length hdr t) pri)
    (hd : 0 ≤ disp ∧ disp < bound) :
    PriorsInRange bound (priors_length hdr t) (assign_update_priors hdr t row x disp pri) := by
  unfold assign_update_priors
  apply foldl_invariant (fun (p : Int → Int) => PriorsInRange bound (priors_length hdr t) p)
  · exact hpri
  · intro p rc _ hp
    simp only
    split_ifs with hin hz
    · intro idx h0 h1
      rw [Function.update_apply]
      split_ifs
      · exact hd
      · exact hp idx h0 h1
    · exact hp
    · exact hp

/-- One orthogonal feature whose prior cell lies in the grid keeps the invariant. -/
theorem assign_feature_inv (hdr : Header) (s : Svs) (a : MatchParams) (x fL L : Int)
    (st : Svs × Int) (hgrid : prior_in_grid hdr s (x, fL + L))
    (h : MatchInv hdr s a st.1 st.2 ∧ 0 ≤ st.2) :
    MatchInv hdr s a (assign_feature hdr x fL st L).1 (assign_feature hdr x fL st L).2 ∧
      0 ≤ (assign_feature hdr x fL st L).2 := by
  obtain ⟨⟨hsame, hdisp, hpri⟩, hcount⟩ := h
  have hB := match_bound_le s a
  unfold assign_feature
  simp only
  split_ifs with hv hp
  · have hidx : prior_index st.1 (cdiv (st.1.feature_y (fL + L)) hdr.SVS_VERTICAL_SAMPLING) x
        = prior_index s (cdiv (s.feature_y (fL + L)) hdr.SVS_VERTICAL_SAMPLING) x := by
      rw [prior_index_congr s st.1 hsame, hsame.2.2.2]
    have hd := hpri _ hgrid.1 hgrid.2
    rw [← hidx] at hd
    refine ⟨⟨hsame, ?_, ?_⟩, by show 0 ≤ st.2 + 1; omega⟩
    · intro i hi0 hi1
      have hi1 : i < st.2 + 1 := hi1
      show 0 ≤ Function.update (Function.update (Function.update (Function.update
          st.1.svs_matches (st.2 * 4) 1000) (st.2 * 4 + 1) (u32 x)) (st.2 * 4 + 2)
          (u32 (st.1.feature_y (fL + L)))) (st.2 * 4 + 3) (u32 (st.1.disparity_priors
          (prior_index st.1 (cdiv (st.1.feature_y (fL + L)) hdr.SVS_VERTICAL_SAMPLING) x)))
          (i * 4 + 3) ∧
        Function.update (Function.update (Function.update (Function.update
          st.1.svs_matches (st.2 * 4) 1000) (st.2 * 4 + 1) (u32 x)) (st.2 * 4 + 2)
          (u32 (st.1.feature_y (fL + L)))) (st.2 * 4 + 3) (u32 (st.1.disparity_priors
          (prior_index st.1 (cdiv (st.1.feature_y (fL + L)) hdr.SVS_VERTICAL_SAMPLING) x)))
          (i * 4 + 3) < max (max_disp_pixels s a) 1
      by_cases e : i = st.2
      · rw [e, Function.update_same, u32_small _ ⟨hd.1, by omega⟩]
        exact hd
      · rw [Function.update_noteq (by omega), Function.update_noteq (by omega),
          Function.update_noteq (by omega), Function.update_noteq (by omega)]
        exact hdisp i hi0 (by omega)
    · show PriorsInRange _ _ (assign_update_priors hdr st.1 _ x _ st.1.disparity_priors)
      rw [← priors_length_congr hdr s st.1 hsame]
      apply assign_update_priors_inv
      · rw [priors_length_congr hdr s st.1 hsame]; exact hpri
      · exact hd
  · exact ⟨⟨hsame, hdisp, hpri⟩, hcount⟩
  · exact ⟨⟨hsame, hdisp, hpri⟩, hcount⟩


theorem orthogonal_column_mono (s : Svs) :
    ∀ (l : List Int) (acc : List (Int × Int) × Int × Int) (p : Int × Int),
      p ∈ acc.1 → p ∈ (l.foldl (orthogonal_column s) acc).1 := by
  intro l
  induction l with
  | nil => intro acc p h; exact h
  | cons x l ih =>
    intro acc p h
    rw [List.foldl_cons]
    exact ih _ p (List.mem_append_left _ h)

/-- The columns of one pass keep the invariant when every orthogonal feature they visit
reads a prior cell of the grid. -/
theorem assign_columns_inv (hdr : Header) (s : Svs) (a : MatchParams) :
    ∀ (l : List Int) (st : (Svs × Int) × Int × Int) (acc : List (Int × Int) × Int × Int),
      acc.2 = st.2 →
      (∀ p ∈ (l.foldl (orthogonal_column s) acc).1, prior_in_grid hdr s p) →
      (MatchInv hdr s a st.1.1 st.1.2 ∧ 0 ≤ st.1.2) →
      MatchInv hdr s a (l.foldl (assign_column hdr) st).1.1 (l.foldl (assign_column hdr) st).1.2 ∧
        0 ≤ (l.foldl (assign_column hdr) st).1.2 := by
  intro l
  induction l with
  | nil => intro st acc _ _ h; exact h
  | cons x l ih =>
    intro st acc hacc hgrid h
    rw [List.foldl_cons]
    rw [List.foldl_cons] at hgrid
    have hfpc : st.1.1.features_per_col = s.features_per_col := h.1.1.2.2.1
    apply ih (assign_column hdr st x) (orthogonal_column s acc x)
    · unfold assign_column orthogonal_column
      simp only
      rw [hacc, hfpc]
    · exact hgrid
    · unfold assign_column
      simp only
      apply foldl_invariant (fun (q : Svs × Int) => MatchInv hdr s a q.1 q.2 ∧ 0 ≤ q.2)
      · exact h
      · intro q L hL hq
        apply assign_feature_inv hdr s a x st.2.1 L q _ hq
        apply hgrid
        apply orthogonal_column_mono
        unfold orthogonal_column
        simp only
        apply List.mem_append_right
        rw [List.mem_map]
        refine ⟨L, ?_, ?_⟩
        · rw [hacc, ← hfpc]; exact hL
        · rw [hacc]

theorem assign_pass_inv (hdr : Header) (s : Svs) (a : MatchParams) (st : Svs × Int)
    (hgrid : ∀ p ∈ orthogonal_features hdr s, prior_in_grid hdr s p)
    (h : MatchInv hdr s a st.1 st.2 ∧ 0 ≤ st.2) :
    MatchInv hdr s a (assign_pass hdr st).1 (assign_pass hdr st).2 ∧
      0 ≤ (assign_pass hdr st).2 := by
  unfold assign_pass
  apply assign_columns_inv hdr s a _ (st, 0, 0) ([], 0, 0) rfl _ h
  rw [h.1.1.1]
  exact hgrid

theorem assign_loop_inv (hdr : Header) (s : Svs) (a : MatchParams)
    (hgrid : ∀ p ∈ orthogonal_features hdr s, prior_in_grid hdr s p) :
    ∀ (fuel : Nat) (st : Svs × Int), (MatchInv hdr s a st.1 st.2 ∧ 0 ≤ st.2) →
      MatchInv hdr s a (assign_loop hdr fuel st).1 (assign_loop hdr fuel st).2 ∧
        0 ≤ (assign_loop hdr fuel st).2 := by
  intro fuel
  induction fuel with
  | zero => intro st h; exact h
  | succ fuel ih =>
    intro st h
    have hp := assign_pass_inv hdr s a st hgrid h
    simp only [assign_loop]
    split_ifs
    · exact hp
    · exact ih _ hp

/-- C2 (amended): when every orthogonal feature of the left camera reads a prior cell
inside the grid that `match` clears, each of the `matches` entries that `match` returns
(selected or assigned from the prior grid) stores a disparity `d` with
`0 <= d < max(max_disp_pixels, 1)`; for a positive `max_disp_pixels` this is inside the
interval `[min_disp, max_disp_pixels)` with `min_disp = -10`. -/
theorem match_disparities_in_range (hdr : Header) (s other : Svs) (a : MatchParams)
    (hgrid : ∀ p ∈ orthogonal_features hdr s, prior_in_grid hdr s p) :
    ∀ i, 0 ≤ i → i < (svs_match hdr s other a).1 →
      0 ≤ (svs_match hdr s other a).2.svs_matches (i * 4 + 3) ∧
      (svs_match hdr s other a).2.svs_matches (i * 4 + 3) < max (max_disp_pixels s a) 1 := by
  have hpr := match_primary_inv hdr s other a
  unfold svs_match
  simp only
  split_ifs with h20
  · obtain ⟨⟨h1, h2, h3⟩, h4⟩ := match_select_inv hdr s a _ hpr
    refine (assign_loop_inv hdr s a hgrid 10 _ ?_).1.2.1
    exact ⟨⟨h1, h2, h3⟩, h4⟩
  · intro i h0 h1
    exact absurd h1 (by simp only; omega)

/-- Instance of `match_disparities_in_range`: with `gridLeft` and `nearRight` the call
returns four entries, three selected ones and one assigned from the prior grid, each of
disparity 2, while `max_disp_pixels` is 12. -/
theorem match_disparities_in_range_witness :
    (∀ p ∈ orthogonal_features exampleHeader gridLeft, prior_in_grid exampleHeader gridLeft p) ∧
    (svs_match exampleHeader gridLeft nearRight exampleParams).1 = 4 ∧
    (upto 0 4).map (match_record (svs_match exampleHeader gridLeft nearRight exampleParams).2.svs_matches)
      = [(500, 20, 4, 2), (500, 20, 6, 2), (500, 20, 8, 2), (1000, 4, 4, 2)] ∧
    max_disp_pixels gridLeft exampleParams = 12 ∧
    ∀ i, 0 ≤ i → i < (svs_match exampleHeader gridLeft nearRight exampleParams).1 →
      0 ≤ (svs_match exampleHeader gridLeft nearRight exampleParams).2.svs_matches (i * 4 + 3) ∧
      (svs_match exampleHeader gridLeft nearRight exampleParams).2.svs_matches (i * 4 + 3)
        < max (max_disp_pixels gridLeft exampleParams) 1 :=
  ⟨by decide, by with_unfolding_all decide, by with_unfolding_all decide, by decide,
    match_disparities_in_range exampleHeader gridLeft nearRight exampleParams (by decide)⟩


/-- C2 (as stated, refuted): two runs of `match` return one entry whose disparity is not
below `max_disp_pixels`. In the first the orthogonal feature at `y = 14` reads cell 14 of
the prior buffer, one past the 14 cells that were cleared, and the entry assigned from it
stores the disparity 9999 while `max_disp_pixels = 12`. In the second
`max_disparity_percent = 0` gives `max_disp_pixels = 0` and the selected entry stores the
disparity 0. -/
theorem match_disparity_not_below_max :
    ((svs_match exampleHeader strayLeft strayRight strayParams).1 = 1 ∧
     (svs_match exampleHeader strayLeft strayRight strayParams).2.svs_matches 3 = 9999 ∧
     priors_length exampleHeader strayLeft = 14 ∧
     max_disp_pixels strayLeft strayParams = 12) ∧
    ((svs_match exampleHeader latchedLeft latchedRight zeroPercentParams).1 = 1 ∧
     (svs_match exampleHeader latchedLeft latchedRight zeroPercentParams).2.svs_matches 3 = 0 ∧
     max_disp_pixels latchedLeft zeroPercentParams = 0) := by
  with_unfolding_all decide

/-! ## Prior updates of the selection loop -/

theorem foldl_cells_apply {β : Type} (f : β → Int) (c : Int → Prop) [DecidablePred c]
    (g : Int → Int) :
    ∀ (l : List β), (l.map f).Nodup → ∀ (a : Int → Int) (idx : Int),
      (l.foldl (fun (pr : Int → Int) rc =>
          if c (f rc) then Function.update pr (f rc) (g (pr (f rc))) else pr) a) idx
        = if idx ∈ l.map f ∧ c idx then g (a idx) else a idx := by
  intro l
  induction l with
  | nil => intro _ a idx; simp
  | cons b l ih =>
    intro hnd a idx
    rw [List.map_cons, List.nodup_cons] at hnd
    rw [List.foldl_cons, ih hnd.2]
    by_cases e : idx = f b
    · subst e
      rw [if_neg (fun h => hnd.1 h.1)]
      by_cases hc : c (f b)
      · rw [if_pos hc, Function.update_same, if_pos ⟨by simp, hc⟩]
      · rw [if_neg hc, if_neg (fun h => hc h.2)]
    · have hmem : idx ∈ List.map f (b :: l) ↔ idx ∈ List.map f l := by
        rw [List.map_cons, List.mem_cons]
        exact ⟨fun h => h.resolve_left e, Or.inr⟩
      by_cases hc : c (f b)
      · rw [if_pos hc, Function.update_noteq e]
        simp only [hmem]
      · rw [if_neg hc]
        simp only [hmem]

theorem select_update_priors_apply (hdr : Header) (s : Svs) (y xL disp : Int)
    (priors : Int → Int)
    (hnd : (prior_offsets.map
      (prior_cell s (cdiv y hdr.SVS_VERTICAL_SAMPLING) xL)).Nodup) (idx : Int) :
    select_update_priors hdr s y xL disp priors idx
      = if idx ∈ prior_offsets.map (prior_cell s (cdiv y hdr.SVS_VERTICAL_SAMPLING) xL) ∧
            (idx > -1 ∧ idx < priors_length hdr s)
        then prior_update disp (priors idx) else priors idx := by
  have h := foldl_cells_apply (prior_cell s (cdiv y hdr.SVS_VERTICAL_SAMPLING) xL)
    (fun i => i > -1 ∧ i < priors_length hdr s) (prior_update disp) prior_offsets hnd priors idx
  rw [← h]
  unfold select_update_priors
  simp only
  refine congrFun (congrArg (fun F => List.foldl F priors prior_offsets) ?_) idx
  funext pr rc
  unfold prior_update
  split_ifs <;> rfl

/-- C11 (as stated, refuted): in `sortedPair` the selection loop extracts the match
`(40, 8, 5)` at position 0 without a swap and leaves cell 18 of the prior grid, the
cell `((8/2 + 0) * 64 + 40)/16 + 0` inside the 64-cell grid, at 0 instead of 5. In
`narrowPair` the match `(8, 8, 2)` is swapped to the front, and cell 4, which is the
cell of three of the 21 offsets, goes from 10 to 3 instead of `(2 + 10)/2 = 6`. -/
theorem select_priors_not_always_updated :
    ((select_loop exampleHeader 2 (upto 0 1) sortedPair 0).2 = 1 ∧
     (upto 0 4).map (select_loop exampleHeader 2 (upto 0 1) sortedPair 0).1.svs_matches
       = [900, 40, 8, 5] ∧
     prior_cell sortedPair (cdiv 8 exampleHeader.SVS_VERTICAL_SAMPLING) 40 (0, 0) = 18 ∧
     priors_length exampleHeader sortedPair = 64 ∧
     (select_loop exampleHeader 2 (upto 0 1) sortedPair 0).1.disparity_priors 18 = 0) ∧
    ((select_loop exampleHeader 2 (upto 0 1) narrowPair 0).2 = 1 ∧
     (upto 0 4).map (select_loop exampleHeader 2 (upto 0 1) narrowPair 0).1.svs_matches
       = [900, 8, 8, 2] ∧
     prior_cell narrowPair (cdiv 8 exampleHeader.SVS_VERTICAL_SAMPLING) 8 (0, 0) = 4 ∧
     priors_length exampleHeader narrowPair = 16 ∧
     narrowPair.disparity_priors 4 = 10 ∧
     (select_loop exampleHeader 2 (upto 0 1) narrowPair 0).1.disparity_priors 4 = 3) := by
  decide

/-- C11 (amended): one pass of the selection loop of `match` at position `curr`. When
no later candidate has a higher probability (no swap), the prior grid is left as it
was. When the candidate `w` is swapped to `curr`, with `(x, y, disp)` its fields, and
the 21 indices `((y/SVS_VERTICAL_SAMPLING + r) * imgWidth + x)/16 + c` are pairwise
different, every cell among them that lies inside the grid is updated to `disp` if it
held 0 and to `(disp + old)/2` otherwise, and every other cell keeps its value. -/
theorem select_step_priors (hdr : Header) (n : Int) (s : Svs) (curr : Int) :
    ((select_search s.svs_matches curr n).2 = -1 →
      (select_step hdr n s curr).disparity_priors = s.disparity_priors) ∧
    ((select_search s.svs_matches curr n).2 > -1 →
      (prior_offsets.map (prior_cell s
        (cdiv (i32 (s.svs_matches ((select_search s.svs_matches curr n).2 * 4 + 2)))
          hdr.SVS_VERTICAL_SAMPLING)
        (i32 (s.svs_matches ((select_search s.svs_matches curr n).2 * 4 + 1))))).Nodup →
      ∀ idx, (select_step hdr n s curr).disparity_priors idx =
        if idx ∈ prior_offsets.map (prior_cell s
            (cdiv (i32 (s.svs_matches ((select_search s.svs_matches curr n).2 * 4 + 2)))
              hdr.SVS_VERTICAL_SAMPLING)
            (i32 (s.svs_matches ((select_search s.svs_matches curr n).2 * 4 + 1)))) ∧
          (idx > -1 ∧ idx < priors_length hdr s)
        then prior_update (i32 (s.svs_matches ((select_search s.svs_matches curr n).2 * 4 + 3)))
          (s.disparity_priors idx)
        else s.disparity_priors idx) := by
  constructor
  · intro h
    unfold select_step
    simp only
    rw [if_neg (by omega)]
  · intro h hnd idx
    unfold select_step
    simp only
    rw [if_pos h]
    exact select_update_priors_apply hdr s _ _ _ _ hnd idx

theorem select_step_priors_witness :
    (select_search unsortedTriple.svs_matches 0 3).2 > -1 ∧
    (prior_offsets.map (prior_cell unsortedTriple
        (cdiv (i32 (unsortedTriple.svs_matches
          ((select_search unsortedTriple.svs_matches 0 3).2 * 4 + 2)))
          exampleHeader.SVS_VERTICAL_SAMPLING)
        (i32 (unsortedTriple.svs_matches
          ((select_search unsortedTriple.svs_matches 0 3).2 * 4 + 1))))).Nodup ∧
    (select_step exampleHeader 3 unsortedTriple 0).disparity_priors 18 = 5 :=
  ⟨by decide, by decide,
    ((select_step_priors exampleHeader 3 unsortedTriple 0).2 (by decide) (by decide) 18).trans
      (by decide)⟩

/-! ## Eigendescriptors of a row -/

/-- C12 (evaluated at the failing input): for a row of two features of which one has bit
0 set and the other has it clear, the vote on bit 0 is 0; the left eigendescriptor has
bit 0 set and the right eigendescriptor has it clear. For a row with no features every
vote is 0; the left eigendescriptor has all 30 bits set and the right one is 0. -/
theorem eigendescriptor_right_tie_clear :
    (meandesc_votes exampleHeader tiedDescriptors 0 2 0 = 0 ∧
     (eigendescriptor_left exampleHeader (meandesc_votes exampleHeader tiedDescriptors 0 2)).testBit 0
       = true ∧
     (eigendescriptor_right exampleHeader (meandesc_votes exampleHeader tiedDescriptors 0 2)).testBit 0
       = false) ∧
    (eigendescriptor_left exampleHeader (meandesc_votes exampleHeader tiedDescriptors 0 0)
       = 2 ^ 30 - 1 ∧
     eigendescriptor_right exampleHeader (meandesc_votes exampleHeader tiedDescriptors 0 0) = 0) := by
  decide

/-! ## Scores outside the disparity window -/

theorem filter_hemifield_near (hdr : Header) (s : Svs) (n maxd tol en : Int) (hf : Nat) :
    (filter_after hdr s n maxd tol en (hf + 1)).near
      = if hemifield_mean hdr s n maxd tol en hf * 4
            > (hemifield_histogram hdr s n maxd tol en hf).1 0 then 0 else 1 := by
  rw [filter_after_succ]
  unfold hemifield_mean hemifield_histogram filter_hemifield
  simp only
  split_ifs <;> rfl

/-- C14 (as stated, refuted): in hemifield 0 of `filterScenario` the mean occupancy is 2
and the zero-disparity bin is empty, so 4 times the mean exceeds it; the removal loop
then applies the far test: the match of disparity 10, the peak, is not accepted and
the match of disparity 1 is. In hemifield 0 of `zeroHeavyScenario` the mean occupancy
is 2 and the zero-disparity bin holds 8, so 4 times the mean does not exceed it; the
removal loop then applies the peak window: the match of disparity 10 is accepted and
the match of disparity 0 is not. -/
theorem filter_near_far_inverted :
    (hemifield_mean exampleHeader filterScenario 3 20 3 0 0 = 2 ∧
     (hemifield_histogram exampleHeader filterScenario 3 20 3 0 0).1 0 = 0 ∧
     (filter_after exampleHeader filterScenario 3 20 3 0 1).disp2 = 10 ∧
     filterScenario.svs_matches (0 * 4 + 3) = 10 ∧
     ¬ filter_accepted_by exampleHeader filterScenario 3 20 3 0 0 0 ∧
     filterScenario.svs_matches (2 * 4 + 3) = 1 ∧
     filter_accepted_by exampleHeader filterScenario 3 20 3 0 0 2) ∧
    (hemifield_mean exampleHeader zeroHeavyScenario 12 20 3 0 0 = 2 ∧
     (hemifield_histogram exampleHeader zeroHeavyScenario 12 20 3 0 0).1 0 = 8 ∧
     (filter_after exampleHeader zeroHeavyScenario 12 20 3 0 1).disp2 = 10 ∧
     zeroHeavyScenario.svs_matches (8 * 4 + 3) = 10 ∧
     filter_accepted_by exampleHeader zeroHeavyScenario 12 20 3 0 0 8 ∧
     zeroHeavyScenario.svs_matches (0 * 4 + 3) = 0 ∧
     ¬ filter_accepted_by exampleHeader zeroHeavyScenario 12 20 3 0 0 0) := by
  decide

/-- C14 (amended): in `filter` a hemifield is classified far (`near = 0`) exactly when 4
times `hist_mean` exceeds the count in the zero-disparity bin, and near (`near = 1`)
otherwise. A far hemifield accepts the matches of its zone whose disparity is at most
2; a near hemifield accepts those whose disparity is neither below
`disp2 - tolerance` nor above `disp2 + tolerance`, both taken as `unsigned int`. -/
theorem filter_near_far (hdr : Header) (s : Svs)
    (no_of_possible_matches max_disparity_pixels tolerance enable_secondary : Int)
    (hf : Nat) (i : Int) :
    ((filter_after hdr s no_of_possible_matches max_disparity_pixels tolerance
        enable_secondary (hf + 1)).near
      = if hemifield_mean hdr s no_of_possible_matches max_disparity_pixels tolerance
            enable_secondary hf * 4
          > (hemifield_histogram hdr s no_of_possible_matches max_disparity_pixels tolerance
            enable_secondary hf).1 0 then 0 else 1) ∧
    (filter_accepted_by hdr s no_of_possible_matches max_disparity_pixels tolerance
        enable_secondary hf i ↔
      in_zone s.svs_matches
        (filter_after hdr s no_of_possible_matches max_disparity_pixels tolerance
          enable_secondary (hf + 1)).z i ∧
      (if hemifield_mean hdr s no_of_possible_matches max_disparity_pixels tolerance
            enable_secondary hf * 4
          > (hemifield_histogram hdr s no_of_possible_matches max_disparity_pixels tolerance
            enable_secondary hf).1 0
       then s.svs_matches (i * 4 + 3) ≤ 2
       else u32 ((filter_after hdr s no_of_possible_matches max_disparity_pixels tolerance
              enable_secondary (hf + 1)).disp2 - tolerance) ≤ s.svs_matches (i * 4 + 3) ∧
            s.svs_matches (i * 4 + 3) ≤
              u32 ((filter_after hdr s no_of_possible_matches max_disparity_pixels tolerance
                enable_secondary (hf + 1)).disp2 + tolerance))) := by
  have hn := filter_hemifield_near hdr s no_of_possible_matches max_disparity_pixels tolerance
    enable_secondary hf
  refine ⟨hn, ?_⟩
  unfold filter_accepted_by filter_accepts
  rw [hn]
  by_cases hc : hemifield_mean hdr s no_of_possible_matches max_disparity_pixels tolerance
      enable_secondary hf * 4
      > (hemifield_histogram hdr s no_of_possible_matches max_disparity_pixels tolerance
        enable_secondary hf).1 0
  · rw [if_pos hc, if_pos hc, if_neg (by norm_num)]
  · rw [if_neg hc, if_neg hc, if_pos rfl, not_or, not_lt, not_lt]

/-! ## Cells zeroed by despeckling -/

theorem despeckle_hits_count (dm : Int → Int) (cd md : Int) :
    ∀ (l : List Int) (hits : Int), hits ≤ 5 →
      (despeckle_hits dm cd md l hits > 5 ↔
        hits + (l.countP (despeckle_differs dm cd md) : Int) > 5) := by
  intro l
  induction l with
  | nil => intro hits _; simp [despeckle_hits]
  | cons c cs ih =>
    intro hits hh
    simp only [despeckle_hits]
    by_cases hd : u32 (cd - dm (c * 2 + 1)) > md
    · have hb : despeckle_differs dm cd md c = true := by
        unfold despeckle_differs; exact decide_eq_true hd
      rw [if_pos hd, List.countP_cons_of_pos _ _ hb]
      by_cases h6 : hits + 1 > 5
      · rw [if_pos h6]
        push_cast
        constructor
        · intro _; omega
        · intro _; omega
      · rw [if_neg h6, ih (hits + 1) (by omega)]
        push_cast
        constructor
        · intro h; omega
        · intro h; omega
    · have hb : ¬ despeckle_differs dm cd md c = true := by
        unfold despeckle_differs; simpa using hd
      rw [if_neg hd, List.countP_cons_of_neg _ _ hb, ih hits hh]

theorem upto_three (a : Int) : upto a (a + 3) = [a, a + 1, a + 2] := by
  unfold upto
  have h : (a + 3 - a).toNat = 3 := by omega
  rw [h]
  simp [List.range_succ]

theorem despeckle_window_eq (width x y : Int) :
    despeckle_window width x y =
      [(y - 1) * width + (x - 1), (y - 1) * width + x, (y - 1) * width + (x + 1),
       y * width + (x - 1), y * width + x, y * width + (x + 1),
       (y + 1) * width + (x - 1), (y + 1) * width + x, (y + 1) * width + (x + 1)] := by
  unfold despeckle_window
  have hy : y + 2 = (y - 1) + 3 := by ring
  have hx : x + 2 = (x - 1) + 3 := by ring
  rw [hy, hx, upto_three, upto_three]
  simp only [List.flatMap_cons, List.flatMap_nil, List.map_cons, List.map_nil,
    List.cons_append, List.nil_append, List.append_nil]
  have e1 : y - 1 + 1 = y := by ring
  have e2 : y - 1 + 2 = y + 1 := by ring
  have e3 : x - 1 + 1 = x := by ring
  have e4 : x - 1 + 2 = x + 1 := by ring
  rw [e1, e2, e3, e4]

/-- The neighbour loops end with more than 5 hits exactly when more than 5 of the 8
neighbours pass the test; the centre cell, at difference 0, never does. -/
theorem despeckle_hits_neighbours (dm : Int → Int) (width x y md : Int) (hmd : 0 ≤ md) :
    despeckle_hits dm (dm ((y * width + x) * 2 + 1)) md (despeckle_window width x y) 0 > 5 ↔
      5 < (despeckle_neighbours width x y).countP
        (despeckle_differs dm (dm ((y * width + x) * 2 + 1)) md) := by
  rw [despeckle_hits_count _ _ _ _ _ (by norm_num), despeckle_window_eq]
  have hc : despeckle_differs dm (dm ((y * width + x) * 2 + 1)) md (y * width + x) = false := by
    unfold despeckle_differs u32
    simp only [sub_self, Int.zero_emod, decide_eq_false_iff_not, not_lt, gt_iff_lt]
    exact hmd
  unfold despeckle_neighbours
  simp only [List.countP_cons, hc, List.countP_nil, Bool.false_eq_true, if_false]
  constructor
  · intro h; omega
  · intro h; omega

theorem mem_despeckle_cells (w h : Int) (yx : Int × Int) :
    yx ∈ despeckle_cells w h ↔ (1 ≤ yx.1 ∧ yx.1 < h - 1) ∧ (1 ≤ yx.2 ∧ yx.2 < w - 1) := by
  unfold despeckle_cells
  simp only [List.mem_flatMap, List.mem_map, mem_upto]
  constructor
  · rintro ⟨y, hy, x, hx, rfl⟩
    exact ⟨hy, hx⟩
  · rintro ⟨hy, hx⟩
    exact ⟨yx.1, hy, yx.2, hx, rfl⟩

/-- The first loop nest keeps the confidence of cell `k` when no visited cell of index
`k` meets the zeroing condition. -/
theorem despeckle_fold_even_keep (w maxd : Int) (m : Int → Int) (k : Int) :
    ∀ (l : List (Int × Int)) (a : Int → Int), (∀ j, a (j * 2 + 1) = m (j * 2 + 1)) →
      (∀ yx ∈ l, yx.1 * w + yx.2 = k → ¬ despeckle_cond w maxd m yx) →
      l.foldl (despeckle_step w maxd) a (k * 2) = a (k * 2) := by
  intro l
  induction l with
  | nil => intro a _ _; rfl
  | cons z l ih =>
    intro a ha hno
    rw [List.foldl_cons, ih _ (fun j => by rw [despeckle_step_odd, ha])
      (fun yx hyx => hno yx (List.mem_cons_of_mem _ hyx))]
    rw [despeckle_step_eq]
    split_ifs with hc
    · have hne : z.1 * w + z.2 ≠ k := fun e =>
        hno z (List.mem_cons_self _ _) e ((despeckle_cond_congr w maxd a m ha z).1 hc)
      rw [Function.update_noteq]
      omega
    · rfl

theorem despeckle_cond_iff (w maxd : Int) (m : Int → Int) (x y : Int) :
    despeckle_cond w maxd m (y, x) ↔
      m ((y * w + x) * 2 + 1) > u32 (cdiv (maxd * 70) 100) ∧
      5 < (despeckle_neighbours w x y).countP
        (despeckle_differs m (m ((y * w + x) * 2 + 1)) (u32 (cdiv (maxd * 5) 100))) := by
  unfold despeckle_cond
  simp only
  rw [despeckle_hits_neighbours m w x y _ (by unfold u32; omega)]

/-- C15 (amended): for a cell `(x, y)` of the map with non-zero confidence,
`despeckle_disparity_map` sets its confidence and its disparity to 0 when it is an
interior cell whose disparity exceeds `max_disparity_pixels*70/100` and more than 5 of
its 8 immediate neighbours have an `unsigned` difference
`centre_disparity - neighbour_disparity` above `max_disparity_pixels*5/100` (every
neighbour of higher disparity does, the subtraction wrapping round), and leaves both
unchanged otherwise. -/
theorem despeckle_cell (width height max_disparity_pixels : Int) (m : Int → Int) (x y : Int)
    (hx : 0 ≤ x ∧ x < width) (hy : 0 ≤ y ∧ y < height)
    (hconf : m ((y * width + x) * 2) ≠ 0) :
    ((((1 ≤ y ∧ y < height - 1) ∧ (1 ≤ x ∧ x < width - 1)) ∧
        m ((y * width + x) * 2 + 1) > u32 (cdiv (max_disparity_pixels * 70) 100) ∧
        5 < (despeckle_neighbours width x y).countP
          (despeckle_differs m (m ((y * width + x) * 2 + 1))
            (u32 (cdiv (max_disparity_pixels * 5) 100)))) →
      despeckle_disparity_map width height m max_disparity_pixels ((y * width + x) * 2) = 0 ∧
      despeckle_disparity_map width height m max_disparity_pixels ((y * width + x) * 2 + 1)
        = 0) ∧
    (¬ (((1 ≤ y ∧ y < height - 1) ∧ (1 ≤ x ∧ x < width - 1)) ∧
        m ((y * width + x) * 2 + 1) > u32 (cdiv (max_disparity_pixels * 70) 100) ∧
        5 < (despeckle_neighbours width x y).countP
          (despeckle_differs m (m ((y * width + x) * 2 + 1))
            (u32 (cdiv (max_disparity_pixels * 5) 100)))) →
      despeckle_disparity_map width height m max_disparity_pixels ((y * width + x) * 2)
        = m ((y * width + x) * 2) ∧
      despeckle_disparity_map width height m max_disparity_pixels ((y * width + x) * 2 + 1)
        = m ((y * width + x) * 2 + 1)) := by
  have hk : -1 < y * width + x ∧ y * width + x ≤ width * height - 1 := by
    constructor
    · nlinarith
    · nlinarith
  unfold despeckle_disparity_map
  rw [despeckle_clear_even, despeckle_clear_odd, despeckle_fold_odd]
  constructor
  · rintro ⟨hin, hc⟩
    have h0 : (despeckle_cells width height).foldl (despeckle_step width max_disparity_pixels) m
        ((y * width + x) * 2) = 0 :=
      despeckle_fold_zero width max_disparity_pixels (y, x) _ m
        ((mem_despeckle_cells width height (y, x)).2 hin)
        ((despeckle_cond_iff width max_disparity_pixels m x y).2 hc)
    rw [h0]
    exact ⟨rfl, if_pos ⟨hk, rfl⟩⟩
  · intro hno
    have hkeep : (despeckle_cells width height).foldl
        (despeckle_step width max_disparity_pixels) m ((y * width + x) * 2)
          = m ((y * width + x) * 2) := by
      apply despeckle_fold_even_keep width max_disparity_pixels m _ _ m (fun _ => rfl)
      intro yx hyx hidx hc
      have hmem := (mem_despeckle_cells width height yx).1 hyx
      obtain ⟨e1, e2⟩ := pixel_index_injective width yx.2 yx.1 x y
        ⟨by omega, by omega⟩ hx hidx
      have hyxe : yx = (y, x) := Prod.ext e2 e1
      rw [hyxe] at hc hmem
      exact hno ⟨hmem, (despeckle_cond_iff width max_disparity_pixels m x y).1 hc⟩
    rw [hkeep]
    exact ⟨rfl, if_neg (fun h => hconf h.2)⟩

/-- C15 (as stated, refuted): in `despeckleRing` the interior cell has disparity 80,
above the threshold 70, and each of its eight neighbours has disparity 81, one unit
away and so within 5 percent of the maximum 100; the cell is zeroed all the same. -/
theorem despeckle_zeroes_among_close_neighbours :
    despeckleRing ((1 * 3 + 1) * 2) = 1 ∧ despeckleRing ((1 * 3 + 1) * 2 + 1) = 80 ∧
    (∀ c ∈ despeckle_neighbours 3 1 1,
      cabs (despeckleRing ((1 * 3 + 1) * 2 + 1) - despeckleRing (c * 2 + 1)) = 1) ∧
    despeckle_disparity_map 3 3 despeckleRing 100 ((1 * 3 + 1) * 2) = 0 ∧
    despeckle_disparity_map 3 3 despeckleRing 100 ((1 * 3 + 1) * 2 + 1) = 0 := by
  decide

theorem despeckle_cell_witness :
    despeckle_disparity_map 3 3 despeckleRing 100 ((1 * 3 + 1) * 2) = 0 ∧
    despeckle_disparity_map 3 3 despeckleRing 100 ((1 * 3 + 1) * 2 + 1) = 0 :=
  (despeckle_cell 3 3 100 despeckleRing 1 1 (by decide) (by decide) (by decide)).1 (by decide)

/-! ## Colour correction -/

/-- C16 (as stated, refuted): for the one-row images `brightLeft` and `dimRight` the left
mean and deviation are 170 and 113, the right ones 10 and 13; the value 30 of the last
right pixel gives the integer `170 + (30 - 10) * 113 / 13 = 343`, outside 0..255, and
the byte stored is 87. -/
theorem colour_correction_wraps :
    (mean_row_reflectance brightLeft 3 0).mean_b = 170 ∧
    (mean_row_reflectance brightLeft 3 0).mean_b_deviation = 113 ∧
    (mean_row_reflectance dimRight 3 0).mean_b = 10 ∧
    (mean_row_reflectance dimRight 3 0).mean_b_deviation = 13 ∧
    dimRight 6 = 30 ∧
    170 + cdiv ((30 - 10) * 113) 13 = 343 ∧
    colour_correction brightLeft dimRight 3 1 0 6 = 87 := by
  decide

theorem correct_pixel_apply (l r : RowReflectance) (img : Int → Int) (n j : Int) :
    correct_pixel l r img n j
      = if n ≤ j ∧ j < n + 3 then
          corrected_value (channel_mean l (j - n)) (channel_deviation l (j - n))
            (channel_mean r (j - n)) (channel_deviation r (j - n)) (byteAt img j)
        else img j := by
  unfold correct_pixel byteAt
  by_cases h0 : j = n
  · subst h0
    rw [Function.update_same, if_pos (by omega), Function.update_noteq (by omega),
      Function.update_noteq (by omega)]
    unfold channel_mean channel_deviation
    simp
  · rw [Function.update_noteq h0]
    by_cases h1 : j = n + 1
    · subst h1
      rw [Function.update_same, if_pos (by omega), Function.update_noteq (by omega)]
      unfold channel_mean channel_deviation
      simp
    · rw [Function.update_noteq h1]
      by_cases h2 : j = n + 2
      · subst h2
        rw [Function.update_same, if_pos (by omega)]
        unfold channel_mean channel_deviation
        simp
      · rw [Function.update_noteq h2, if_neg (by omega)]

theorem correct_pixels_apply (l r : RowReflectance) (base : Int) :
    ∀ (xs : List Int), xs.Nodup → ∀ (img : Int → Int) (j : Int),
      xs.foldl (fun (im : Int → Int) x => correct_pixel l r im (base + x * 3)) img j
        = if (j - base) / 3 ∈ xs then
            corrected_value (channel_mean l ((j - base) % 3))
              (channel_deviation l ((j - base) % 3)) (channel_mean r ((j - base) % 3))
              (channel_deviation r ((j - base) % 3)) (byteAt img j)
          else img j := by
  intro xs
  induction xs with
  | nil => intro _ img j; simp
  | cons x xs ih =>
    intro hnd img j
    rw [List.nodup_cons] at hnd
    rw [List.foldl_cons, ih hnd.2]
    by_cases hx : (j - base) / 3 = x
    · have hin : base + x * 3 ≤ j ∧ j < base + x * 3 + 3 := by omega
      have hc : j - (base + x * 3) = (j - base) % 3 := by omega
      rw [if_neg (by rw [hx]; exact hnd.1), if_pos (by rw [hx]; exact List.mem_cons_self _ _),
        correct_pixel_apply, if_pos hin, hc]
    · have hout : ¬ (base + x * 3 ≤ j ∧ j < base + x * 3 + 3) := by omega
      have hstep : correct_pixel l r img (base + x * 3) j = img j := by
        rw [correct_pixel_apply, if_neg hout]
      have hmem : (j - base) / 3 ∈ x :: xs ↔ (j - base) / 3 ∈ xs := by
        rw [List.mem_cons]
        exact ⟨fun h => h.resolve_left hx, Or.inr⟩
      unfold byteAt
      by_cases hm : (j - base) / 3 ∈ xs
      · rw [if_pos hm, if_pos (hmem.2 hm), hstep]
      · rw [if_neg hm, if_neg (fun h => hm (hmem.1 h)), hstep]

/-- What the innermost loop does to byte `j`: a byte of the row is replaced by the
corrected value of its channel, and every other byte is kept. -/
theorem correct_row_apply (l r : RowReflectance) (w yr : Int) (img : Int → Int) (j : Int) :
    correct_row l r w yr img j
      = if yr * w * 3 ≤ j ∧ j < yr * w * 3 + w * 3 then
          corrected_value (channel_mean l ((j - yr * w * 3) % 3))
            (channel_deviation l ((j - yr * w * 3) % 3)) (channel_mean r ((j - yr * w * 3) % 3))
            (channel_deviation r ((j - yr * w * 3) % 3)) (byteAt img j)
        else img j := by
  unfold correct_row
  rw [correct_pixels_apply l r (yr * w * 3) _ (nodup_upto 0 w) img j]
  have hm := mem_upto 0 w ((j - yr * w * 3) / 3)
  by_cases h : yr * w * 3 ≤ j ∧ j < yr * w * 3 + w * 3
  · rw [if_pos h, if_pos (hm.2 (by omega))]
  · rw [if_neg h, if_neg (fun hin => h (by have := hm.1 hin; omega))]

theorem row_sums_congr (a b : Int → Int) (w y : Int)
    (hab : ∀ j, y * w * 3 ≤ j ∧ j < y * w * 3 + w * 3 → a j = b j) :
    row_sums a w y = row_sums b w y := by
  unfold row_sums byteAt
  apply List.foldl_ext
  intro st x hx
  rw [mem_upto] at hx
  simp only
  rw [hab _ ⟨by omega, by omega⟩, hab _ ⟨by omega, by omega⟩, hab _ ⟨by omega, by omega⟩]

theorem row_deviations_congr (a b : Int → Int) (w y : Int) (mean : Int × Int × Int)
    (hab : ∀ j, y * w * 3 ≤ j ∧ j < y * w * 3 + w * 3 → a j = b j) :
    row_deviations a w y mean = row_deviations b w y mean := by
  unfold row_deviations byteAt
  apply List.foldl_ext
  intro st x hx
  rw [mem_upto] at hx
  simp only
  rw [hab _ ⟨by omega, by omega⟩, hab _ ⟨by omega, by omega⟩, hab _ ⟨by omega, by omega⟩]

/-- The reflectance of a row depends on the bytes of that row only. -/
theorem mean_row_reflectance_congr (a b : Int → Int) (w y : Int)
    (hab : ∀ j, y * w * 3 ≤ j ∧ j < y * w * 3 + w * 3 → a j = b j) :
    mean_row_reflectance a w y = mean_row_reflectance b w y := by
  unfold mean_row_reflectance
  rw [row_sums_congr a b w y hab]
  simp only
  rw [row_deviations_congr a b w y _ hab]

theorem row_bytes_disjoint (w a b j : Int) (hw : 0 < w)
    (ha : a * w * 3 ≤ j ∧ j < a * w * 3 + w * 3) (hb : b * w * 3 ≤ j ∧ j < b * w * 3 + w * 3) :
    a = b := by
  by_contra hne
  rcases lt_or_gt_of_ne hne with h | h
  · have h1 : (b - a) * w ≥ w := by nlinarith
    have h2 : (b - a) * w = b * w - a * w := by ring
    omega
  · have h1 : (a - b) * w ≥ w := by nlinarith
    have h2 : (a - b) * w = a * w - b * w := by ring
    omega

/-- One pass of the row loop keeps every byte outside the right row it corrects. -/
theorem colour_correction_row_other (img_left : Int → Int) (w h off : Int) (img : Int → Int)
    (y j : Int)
    (hj : ¬ ((y - off > -1 ∧ y - off < h) ∧
      (y - off) * w * 3 ≤ j ∧ j < (y - off) * w * 3 + w * 3)) :
    colour_correction_row img_left w h off img y j = img j := by
  unfold colour_correction_row
  simp only
  split_ifs with h1 h2
  · rw [correct_row_apply, if_neg (fun hin => hj ⟨h1, hin⟩)]
  · rfl
  · rfl

theorem colour_correction_rows_other (img_left : Int → Int) (w h off : Int) (j : Int) :
    ∀ (l : List Int) (img : Int → Int),
      (∀ y ∈ l, ¬ ((y - off > -1 ∧ y - off < h) ∧
        (y - off) * w * 3 ≤ j ∧ j < (y - off) * w * 3 + w * 3)) →
      l.foldl (colour_correction_row img_left w h off) img j = img j := by
  intro l
  induction l with
  | nil => intro img _; rfl
  | cons y l ih =>
    intro img hl
    rw [List.foldl_cons, ih _ (fun y' hy' => hl y' (List.mem_cons_of_mem _ hy')),
      colour_correction_row_other _ _ _ _ _ _ _ (hl y (List.mem_cons_self _ _))]

/-- One pass of the row loop on a byte of the right row it looks at. -/
theorem colour_correction_row_own (img_left : Int → Int) (w h off : Int) (img : Int → Int)
    (y j : Int) (hy : y - off > -1 ∧ y - off < h)
    (hj : (y - off) * w * 3 ≤ j ∧ j < (y - off) * w * 3 + w * 3) :
    colour_correction_row img_left w h off img y j
      = if (mean_row_reflectance img w (y - off)).mean_r_deviation ≠ 0 ∧
            (mean_row_reflectance img w (y - off)).mean_g_deviation ≠ 0 ∧
            (mean_row_reflectance img w (y - off)).mean_b_deviation ≠ 0
        then corrected_value
          (channel_mean (mean_row_reflectance img_left w y) ((j - (y - off) * w * 3) % 3))
          (channel_deviation (mean_row_reflectance img_left w y) ((j - (y - off) * w * 3) % 3))
          (channel_mean (mean_row_reflectance img w (y - off)) ((j - (y - off) * w * 3) % 3))
          (channel_deviation (mean_row_reflectance img w (y - off))
            ((j - (y - off) * w * 3) % 3))
          (byteAt img j)
        else img j := by
  unfold colour_correction_row
  simp only
  rw [if_pos hy]
  split_ifs with h2
  · rw [correct_row_apply, if_pos hj]
  · rfl

/-- C16 (amended): for an image of positive width and a byte `j` of the right row `yr`
of the image, `colour_correction` replaces the value `v` of the byte by the byte
`(unsigned char)(left_mean + (v - right_mean) * left_dev / right_dev)`, the integer
taken modulo 256, with the means and deviations of its channel on the left row
`yr + offset_y` and on the right row `yr`, when that left row lies inside the image and
the three deviations of the right row are non-zero; otherwise the byte is unchanged.
Every byte outside the rows of the image is unchanged as well. The left image is only
read. -/
theorem colour_correction_cell (img_left img_right : Int → Int)
    (img_width img_height offset_y : Int) (hw : 0 < img_width) (j : Int) :
    (∀ yr, (0 ≤ yr ∧ yr < img_height) →
      (yr * img_width * 3 ≤ j ∧ j < yr * img_width * 3 + img_width * 3) →
      colour_correction img_left img_right img_width img_height offset_y j
        = if (0 ≤ yr + offset_y ∧ yr + offset_y < img_height) ∧
            ((mean_row_reflectance img_right img_width yr).mean_r_deviation ≠ 0 ∧
             (mean_row_reflectance img_right img_width yr).mean_g_deviation ≠ 0 ∧
             (mean_row_reflectance img_right img_width yr).mean_b_deviation ≠ 0)
          then corrected_value
            (channel_mean (mean_row_reflectance img_left img_width (yr + offset_y))
              ((j - yr * img_width * 3) % 3))
            (channel_deviation (mean_row_reflectance img_left img_width (yr + offset_y))
              ((j - yr * img_width * 3) % 3))
            (channel_mean (mean_row_reflectance img_right img_width yr)
              ((j - yr * img_width * 3) % 3))
            (channel_deviation (mean_row_reflectance img_right img_width yr)
              ((j - yr * img_width * 3) % 3))
            (byteAt img_right j)
          else img_right j) ∧
    ((∀ yr, (0 ≤ yr ∧ yr < img_height) →
        ¬ (yr * img_width * 3 ≤ j ∧ j < yr * img_width * 3 + img_width * 3)) →
      colour_correction img_left img_right img_width img_height offset_y j = img_right j) := by
  constructor
  · intro yr hyr hj
    unfold colour_correction
    by_cases hin : 0 ≤ yr + offset_y ∧ yr + offset_y < img_height
    · have hsplit := upto_split 0 (yr + offset_y) img_height hin.1 hin.2
      have hsub : yr + offset_y - offset_y = yr := by ring
      have hbefore : ∀ j', (yr * img_width * 3 ≤ j' ∧ j' < yr * img_width * 3 + img_width * 3) →
          (upto 0 (yr + offset_y)).foldl
            (colour_correction_row img_left img_width img_height offset_y) img_right j'
            = img_right j' := by
        intro j' hj'
        apply colour_correction_rows_other
        intro y hy hc
        rw [mem_upto] at hy
        have := row_bytes_disjoint img_width _ _ j' hw hc.2 hj'
        omega
      rw [hsplit, List.foldl_append, List.foldl_cons, colour_correction_rows_other]
      · rw [colour_correction_row_own _ _ _ _ _ _ _ (by omega) (by rw [hsub]; exact hj), hsub,
          mean_row_reflectance_congr _ img_right img_width yr hbefore]
        by_cases hdev : (mean_row_reflectance img_right img_width yr).mean_r_deviation ≠ 0 ∧
            (mean_row_reflectance img_right img_width yr).mean_g_deviation ≠ 0 ∧
            (mean_row_reflectance img_right img_width yr).mean_b_deviation ≠ 0
        · rw [if_pos hdev, if_pos ⟨hin, hdev⟩]
          unfold byteAt
          rw [hbefore j hj]
        · rw [if_neg hdev, if_neg (fun hc => hdev hc.2), hbefore j hj]
      · intro y hy hc
        rw [mem_upto] at hy
        have := row_bytes_disjoint img_width _ _ j hw hc.2 hj
        omega
    · rw [if_neg (fun hc => hin hc.1)]
      apply colour_correction_rows_other
      intro y hy hc
      rw [mem_upto] at hy
      have := row_bytes_disjoint img_width _ _ j hw hc.2 hj
      omega
  · intro hout
    unfold colour_correction
    apply colour_correction_rows_other
    intro y hy hc
    exact hout (y - offset_y) ⟨by omega, by omega⟩ hc.2

theorem colour_correction_cell_witness :
    colour_correction brightLeft dimRight 3 1 0 6
      = corrected_value 170 113 10 13 30 :=
  ((colour_correction_cell brightLeft dimRight 3 1 0 (by decide) 6).1 0 (by decide)
    (by decide)).trans (by decide)

/-! ## Sum of absolute differences -/

theorem pixel_difference_bounds (p : DenseParams) (a b : Int) :
    0 ≤ pixel_difference p a b ∧ pixel_difference p a b ≤ 765 := by
  unfold pixel_difference byteAt u8 cabs
  constructor
  · split_ifs <;> omega
  · split_ifs <;> omega

theorem SAD_row_fold (p : DenseParams) :
    ∀ (l : List Int) (st : Int × Int × Int),
      l.foldl (fun (st : Int × Int × Int) _ =>
        (st.1 + pixel_difference p st.2.1 st.2.2, st.2.1 + 3, st.2.2 + 3)) st
      = (st.1 + ((List.range l.length).map (fun (k : Nat) =>
            pixel_difference p (st.2.1 + 3 * (k : Int)) (st.2.2 + 3 * (k : Int)))).sum,
          st.2.1 + 3 * (l.length : Int), st.2.2 + 3 * (l.length : Int)) := by
  intro l
  induction l with
  | nil => intro st; simp
  | cons x l ih =>
    intro st
    rw [List.foldl_cons, ih]
    simp only [List.length_cons, List.range_succ_eq_map, List.map_cons, List.sum_cons,
      List.map_map]
    refine Prod.ext ?_ (Prod.ext ?_ ?_)
    · simp only [Nat.cast_zero, mul_zero, add_zero]
      rw [add_assoc]
      congr 2
      apply congrArg
      apply List.map_congr_left
      intro k _
      simp only [Function.comp, Nat.cast_succ]
      congr 1 <;> ring
    · simp only [Nat.cast_succ]; ring
    · simp only [Nat.cast_succ]; ring

theorem SAD_row_sum (p : DenseParams) (radius sad yl xl yr xr : Int) :
    (SAD_row p radius (sad, (yl * p.img_width + xl - radius) * 3,
        (yr * p.img_width + xr - radius) * 3)).1
      = sad + ((upto (-radius) (radius + 1)).map (fun dx =>
          pixel_difference p ((yl * p.img_width + (xl + dx)) * 3)
            ((yr * p.img_width + (xr + dx)) * 3))).sum := by
  unfold SAD_row
  rw [SAD_row_fold]
  simp only
  unfold upto
  rw [List.length_map, List.length_range, List.map_map]
  congr 2
  apply List.map_congr_left
  intro k _
  simp only [Function.comp]
  congr 1 <;> ring

theorem foldl_add_sum (g : Int → Int → Int) (hg : ∀ s d, g s d = s + g 0 d) :
    ∀ (l : List Int) (init : Int),
      l.foldl g init = init + (l.map (g 0)).sum := by
  intro l
  induction l with
  | nil => intro init; simp
  | cons d l ih =>
    intro init
    rw [List.foldl_cons, ih, hg init d, List.map_cons, List.sum_cons]
    ring

/-- The value returned by `SAD` when its bounds test passes is the sum of the absolute
channel differences over the patch. -/
theorem SAD_eq_sum (p : DenseParams) (x_left y_left x_right y_right radius : Int)
    (hb : SAD_in_bounds p x_left y_left x_right y_right radius) :
    SAD p x_left y_left x_right y_right radius
      = patch_difference_sum p x_left y_left x_right y_right radius := by
  unfold SAD patch_difference_sum
  rw [if_pos hb, foldl_add_sum _ (fun s d => by rw [SAD_row_sum, SAD_row_sum]; ring)]
  rw [zero_add]
  apply congrArg
  apply List.map_congr_left
  intro dy _
  rw [SAD_row_sum, zero_add]

theorem sum_map_bounds (g : Int → Int) (B : Int) :
    ∀ (l : List Int), (∀ x ∈ l, 0 ≤ g x ∧ g x ≤ B) →
      0 ≤ (l.map g).sum ∧ (l.map g).sum ≤ B * (l.length : Int) := by
  intro l
  induction l with
  | nil => intro _; simp
  | cons x l ih =>
    intro h
    have hx := h x (List.mem_cons_self _ _)
    have hl := ih (fun y hy => h y (List.mem_cons_of_mem _ hy))
    rw [List.map_cons, List.sum_cons, List.length_cons]
    push_cast
    constructor
    · omega
    · nlinarith

theorem upto_length (lo hi : Int) : ((upto lo hi).length : Int) = max (hi - lo) 0 := by
  unfold upto
  rw [List.length_map, List.length_range]
  omega

theorem patch_difference_sum_bounds (p : DenseParams)
    (x_left y_left x_right y_right radius : Int) :
    0 ≤ patch_difference_sum p x_left y_left x_right y_right radius ∧
    patch_difference_sum p x_left y_left x_right y_right radius
      ≤ 3 * 255 * ((2 * radius + 1) * (2 * radius + 1)) := by
  unfold patch_difference_sum
  have hrow : ∀ dy ∈ upto (-radius) (radius + 1),
      0 ≤ ((upto (-radius) (radius + 1)).map (fun dx =>
        pixel_difference p (((y_left + dy) * p.img_width + (x_left + dx)) * 3)
          (((y_right + dy) * p.img_width + (x_right + dx)) * 3))).sum ∧
      ((upto (-radius) (radius + 1)).map (fun dx =>
        pixel_difference p (((y_left + dy) * p.img_width + (x_left + dx)) * 3)
          (((y_right + dy) * p.img_width + (x_right + dx)) * 3))).sum
        ≤ 765 * ((upto (-radius) (radius + 1)).length : Int) := by
    intro dy _
    exact sum_map_bounds _ 765 _ (fun dx _ => pixel_difference_bounds p _ _)
  have hlen := upto_length (-radius) (radius + 1)
  have hall := sum_map_bounds _ (765 * ((upto (-radius) (radius + 1)).length : Int)) _ hrow
  refine ⟨hall.1, le_trans hall.2 ?_⟩
  rw [hlen]
  rcases le_total 0 (radius + 1 - -radius) with h | h
  · rw [max_eq_left h]
    have e : radius + 1 - -radius = 2 * radius + 1 := by ring
    rw [e]
    nlinarith
  · rw [max_eq_right h]
    have : 0 ≤ (2 * radius + 1) * (2 * radius + 1) := mul_self_nonneg _
    nlinarith

theorem SAD_row_reads_fold :
    ∀ (l : List Int) (st : List (Int × Int) × Int × Int),
      l.foldl (fun (st : List (Int × Int) × Int × Int) _ =>
        (st.1 ++ [(st.2.1, st.2.2)], st.2.1 + 3, st.2.2 + 3)) st
      = (st.1 ++ (List.range l.length).map (fun (k : Nat) =>
            (st.2.1 + 3 * (k : Int), st.2.2 + 3 * (k : Int))),
          st.2.1 + 3 * (l.length : Int), st.2.2 + 3 * (l.length : Int)) := by
  intro l
  induction l with
  | nil => intro st; simp
  | cons x l ih =>
    intro st
    rw [List.foldl_cons, ih]
    simp only [List.length_cons, List.range_succ_eq_map, List.map_cons, List.map_map,
      List.append_assoc, List.singleton_append]
    refine Prod.ext ?_ (Prod.ext ?_ ?_)
    · simp only [Nat.cast_zero, mul_zero, add_zero]
      congr 2
      apply List.map_congr_left
      intro k _
      simp only [Function.comp, Nat.cast_succ]
      refine Prod.ext ?_ ?_ <;> simp only <;> ring
    · simp only [Nat.cast_succ]; ring
    · simp only [Nat.cast_succ]; ring

theorem mem_SAD_row_reads (radius n_left n_right : Int) (nn : Int × Int)
    (h : nn ∈ SAD_row_reads radius n_left n_right) :
    ∃ k : Int, (0 ≤ k ∧ k < 2 * radius + 1) ∧ nn = (n_left + 3 * k, n_right + 3 * k) := by
  unfold SAD_row_reads at h
  rw [SAD_row_reads_fold] at h
  simp only [List.nil_append, List.mem_map, List.mem_range] at h
  obtain ⟨k, hk, rfl⟩ := h
  have hlen := upto_length (-radius) (radius + 1)
  refine ⟨(k : Int), ⟨by omega, ?_⟩, rfl⟩
  have : ((k : Nat) : Int) < ((upto (-radius) (radius + 1)).length : Int) := by exact_mod_cast hk
  omega

theorem pixel_offset_bounds (w h X Y : Int) (hX : 0 ≤ X ∧ X < w) (hY : 0 ≤ Y ∧ Y < h) :
    0 ≤ (Y * w + X) * 3 ∧ (Y * w + X) * 3 + 2 < 3 * (w * h) := by
  have h1 : 0 ≤ Y * w := mul_nonneg hY.1 (by omega)
  have h2 : (Y + 1) * w ≤ h * w := mul_le_mul_of_nonneg_right (by omega) (by omega)
  have h3 : (Y + 1) * w = Y * w + w := by ring
  have h4 : h * w = w * h := by ring
  constructor
  · omega
  · omega

/-- Every byte read by `SAD` lies inside the two image buffers. -/
theorem SAD_reads_inside (p : DenseParams) (x_left y_left x_right y_right radius : Int)
    (nn : Int × Int) (h : nn ∈ SAD_reads p x_left y_left x_right y_right radius) :
    (0 ≤ nn.1 ∧ nn.1 + 2 < 3 * (p.img_width * p.img_height)) ∧
    (0 ≤ nn.2 ∧ nn.2 + 2 < 3 * (p.img_width * p.img_height)) := by
  unfold SAD_reads at h
  split_ifs at h with hb
  · rw [List.mem_flatMap] at h
    obtain ⟨dy, hdy, hmem⟩ := h
    rw [mem_upto] at hdy
    obtain ⟨k, hk, rfl⟩ := mem_SAD_row_reads _ _ _ _ hmem
    obtain ⟨⟨b1, b2⟩, ⟨b3, b4⟩, ⟨b5, b6⟩, b7, b8⟩ := hb
    have e1 : ((y_left + dy) * p.img_width + x_left - radius) * 3 + 3 * k
        = ((y_left + dy) * p.img_width + (x_left - radius + k)) * 3 := by ring
    have e2 : ((y_right + dy) * p.img_width + x_right - radius) * 3 + 3 * k
        = ((y_right + dy) * p.img_width + (x_right - radius + k)) * 3 := by ring
    simp only
    rw [e1, e2]
    exact ⟨pixel_offset_bounds _ _ _ _ ⟨by omega, by omega⟩ ⟨by omega, by omega⟩,
      pixel_offset_bounds _ _ _ _ ⟨by omega, by omega⟩ ⟨by omega, by omega⟩⟩
  · simp at h

theorem SAD_in_bounds_inside (p : DenseParams) (x_left y_left x_right y_right radius : Int)
    (hb : SAD_in_bounds p x_left y_left x_right y_right radius) :
    patch_inside p x_left y_left radius ∧ patch_inside p x_right y_right radius := by
  obtain ⟨⟨b1, b2⟩, ⟨b3, b4⟩, ⟨b5, b6⟩, b7, b8⟩ := hb
  constructor
  · intro dx dy hdx hdy
    exact ⟨⟨by omega, by omega⟩, by omega, by omega⟩
  · intro dx dy hdx hdy
    exact ⟨⟨by omega, by omega⟩, by omega, by omega⟩

/-- C17: `SAD` returns -1 for every pair of patches of which one extends outside the
image. Whenever it returns another value, every byte it read lies inside the two
`3*img_width*img_height` buffers, the value is the sum of the absolute channel
differences over the patch, and `0 <= SAD <= 3*255*(2r+1)^2`; when that bound fits an
`int`, the confidence `max_patch_value - SAD` of `update_disparity_space` is that
difference exactly, not below zero. -/
theorem SAD_contract (p : DenseParams) (x_left y_left x_right y_right radius : Int) :
    (¬ (patch_inside p x_left y_left radius ∧ patch_inside p x_right y_right radius) →
      SAD p x_left y_left x_right y_right radius = -1) ∧
    (SAD p x_left y_left x_right y_right radius ≠ -1 →
      (∀ nn ∈ SAD_reads p x_left y_left x_right y_right radius,
        (0 ≤ nn.1 ∧ nn.1 + 2 < 3 * (p.img_width * p.img_height)) ∧
        (0 ≤ nn.2 ∧ nn.2 + 2 < 3 * (p.img_width * p.img_height))) ∧
      SAD p x_left y_left x_right y_right radius
        = patch_difference_sum p x_left y_left x_right y_right radius ∧
      0 ≤ SAD p x_left y_left x_right y_right radius ∧
      SAD p x_left y_left x_right y_right radius
        ≤ 3 * 255 * ((2 * radius + 1) * (2 * radius + 1)) ∧
      (3 * 255 * ((2 * radius + 1) * (2 * radius + 1)) < 2147483648 →
        patch_confidence radius (SAD p x_left y_left x_right y_right radius)
          = 3 * 255 * ((2 * radius + 1) * (2 * radius + 1))
            - SAD p x_left y_left x_right y_right radius ∧
        0 ≤ 3 * 255 * ((2 * radius + 1) * (2 * radius + 1))
            - SAD p x_left y_left x_right y_right radius)) := by
  constructor
  · intro hout
    unfold SAD
    rw [if_neg (fun hb => hout (SAD_in_bounds_inside p _ _ _ _ _ hb))]
  · intro hne
    have hb : SAD_in_bounds p x_left y_left x_right y_right radius := by
      by_contra hnb
      apply hne
      unfold SAD
      rw [if_neg hnb]
    have hs := SAD_eq_sum p x_left y_left x_right y_right radius hb
    have hbd := patch_difference_sum_bounds p x_left y_left x_right y_right radius
    rw [← hs] at hbd
    refine ⟨fun nn hnn => SAD_reads_inside p _ _ _ _ _ nn hnn, hs, hbd.1, hbd.2, ?_⟩
    intro hfit
    refine ⟨?_, by omega⟩
    unfold patch_confidence
    simp only
    have e : (radius * 2 + 1) * (radius * 2 + 1) = (2 * radius + 1) * (2 * radius + 1) := by
      ring
    have hsq : 0 ≤ (2 * radius + 1) * (2 * radius + 1) := mul_self_nonneg _
    have h1 : u32 (3 * 255 * ((2 * radius + 1) * (2 * radius + 1)))
        = 3 * 255 * ((2 * radius + 1) * (2 * radius + 1)) :=
      u32_small _ ⟨by omega, by omega⟩
    have h2 : u32 (SAD p x_left y_left x_right y_right radius)
        = SAD p x_left y_left x_right y_right radius := u32_small _ ⟨hbd.1, by omega⟩
    rw [e, h1, h2]
    exact u32_small _ ⟨by omega, by omega⟩

theorem SAD_contract_witness :
    SAD patchImages 2 2 3 2 1 ≠ -1 ∧
    SAD patchImages 2 2 3 2 1 = patch_difference_sum patchImages 2 2 3 2 1 ∧
    patch_confidence 1 (SAD patchImages 2 2 3 2 1)
      = 3 * 255 * ((2 * 1 + 1) * (2 * 1 + 1)) - SAD patchImages 2 2 3 2 1 :=
  ⟨by decide, ((SAD_contract patchImages 2 2 3 2 1).2 (by decide)).2.1,
    (((SAD_contract patchImages 2 2 3 2 1).2 (by decide)).2.2.2.2 (by decide)).1⟩

/-! ## Bytes read by the cross-check -/

/-- C18 (evaluated at the failing input): on the uniform 32 x 32 images, at map pixel
`(1, 0)` with disparity 0 and threshold 1, `cross_check_pixel` passes its bounds test,
reads the bytes at offset `24 - 192 = -168` of both images, before the start of the
buffers, and returns true. -/
theorem cross_check_reads_before_buffer :
    cross_check_reads uniformImages 1 0 0 1
      = [(24, 24), (-168, -168), (216, 216), (27, 27), (-165, -165), (219, 219),
         (30, 30), (-162, -162), (222, 222)] ∧
    cross_check_pixel uniformImages 1 0 0 1 = true := by
  decide

/-! ## Rectification -/

/-- C19 (as stated, refuted): with the entry -1 for destination pixel 0 of a 2 x 1
image, `rectify` does not keep the prior content 100, 100, 100 of the pixel: it reads
the bytes at offsets -3, -2, -1 of the raw image and stores them. -/
theorem rectify_does_not_skip :
    skipMap 0 = -1 ∧
    (upto 0 3).map (rectify (blankSvs 2 1) (some skipMap) rawPair (fun _ => 100))
      = [7, 8, 9] := by
  decide

theorem rectify_pixel_apply (cmap raw buf : Int → Int) (n j : Int) :
    rectify_pixel cmap raw buf n j
      = if n * 3 ≤ j ∧ j < n * 3 + 3 then byteAt raw (cmap n * 3 + (j - n * 3)) else buf j := by
  unfold rectify_pixel
  by_cases h2 : j = n * 3 + 2
  · subst h2
    rw [Function.update_same, if_pos (by omega)]
    congr 1; ring
  · rw [Function.update_noteq h2]
    by_cases h1 : j = n * 3 + 1
    · subst h1
      rw [Function.update_same, if_pos (by omega)]
      congr 1; ring
    · rw [Function.update_noteq h1]
      by_cases h0 : j = n * 3
      · subst h0
        rw [Function.update_same, if_pos (by omega)]
        congr 1; ring
      · rw [Function.update_noteq h0, if_neg (by omega)]

theorem rectify_pixels_apply (cmap raw : Int → Int) :
    ∀ (l : List Int) (buf : Int → Int) (j : Int),
      l.foldl (rectify_pixel cmap raw) buf j
        = if j / 3 ∈ l then byteAt raw (cmap (j / 3) * 3 + j % 3) else buf j := by
  intro l
  induction l with
  | nil => intro buf j; simp
  | cons n l ih =>
    intro buf j
    rw [List.foldl_cons, ih]
    by_cases hm : j / 3 ∈ l
    · rw [if_pos hm, if_pos (List.mem_cons_of_mem _ hm)]
    · rw [if_neg hm, rectify_pixel_apply]
      by_cases hn : j / 3 = n
      · subst hn
        have e : j - j / 3 * 3 = j % 3 := by omega
        rw [if_pos (by omega), if_pos (List.mem_cons_self _ _), e]
      · rw [if_neg (by omega), if_neg]
        rw [List.mem_cons]
        exact fun h => h.elim hn hm

/-- C19 (amended): `rectify` is a pure gather without skipping: when a map exists, byte
`c` of every destination pixel `n` of the image becomes byte `c` of the raw image at
offset `3 * calibration_map[n]`, the three bytes of source pixel `calibration_map[n]`,
whatever the entry is; no entry is tested, so no destination pixel keeps its prior
content. Bytes outside the image are not written, and without a map nothing is. -/
theorem rectify_gather (s : Svs) (cmap raw_image rectified_frame_buf : Int → Int) :
    (∀ n c, (0 ≤ n ∧ n < rectify_pixels s) → (0 ≤ c ∧ c < 3) →
      rectify s (some cmap) raw_image rectified_frame_buf (n * 3 + c)
        = byteAt raw_image (cmap n * 3 + c)) ∧
    (∀ j, (j < 0 ∨ rectify_pixels s * 3 ≤ j) →
      rectify s (some cmap) raw_image rectified_frame_buf j = rectified_frame_buf j) ∧
    rectify s none raw_image rectified_frame_buf = rectified_frame_buf := by
  refine ⟨?_, ?_, rfl⟩
  · intro n c hn hc
    show (upto 0 (rectify_pixels s)).foldl (rectify_pixel cmap raw_image)
      rectified_frame_buf (n * 3 + c) = _
    have e1 : (n * 3 + c) / 3 = n := by omega
    have e2 : (n * 3 + c) % 3 = c := by omega
    rw [rectify_pixels_apply, e1, e2, if_pos ((mem_upto _ _ _).2 hn)]
  · intro j hj
    show (upto 0 (rectify_pixels s)).foldl (rectify_pixel cmap raw_image)
      rectified_frame_buf j = _
    rw [rectify_pixels_apply, if_neg]
    rw [mem_upto]
    omega

theorem rectify_gather_witness :
    rectify (blankSvs 2 1) (some skipMap) rawPair (fun _ => 100) (1 * 3 + 2) = 12 :=
  ((rectify_gather (blankSvs 2 1) skipMap rawPair (fun _ => 100)).1 1 2 (by decide)
    (by decide)).trans (by decide)

/-! ## Entries written by make_map_int -/

/-- C20 (evaluated at the failing input): for a 3 x 3 image with the centre of
distortion at pixel (1, 1) and the coefficients `[1, 10000000, 0, 0]`, the destination
pixel (1, 1) has the integer radial distance 0 and the polynomial value 1, which passes
both guards `radial_dist_rectified >= 0` and `radial_dist_original > 0`: the block that
divides by `radial_dist_rectified` runs with the divisor 0. With the quotient of a
division by zero taken as 0, the entry of that pixel is written. -/
theorem make_map_int_zero_radius_divides :
    int_sqrt ((1 * 1 - 1) * (1 * 1 - 1) + (1 * 1 - 1) * (1 * 1 - 1)) = 0 ∧
    make_map_poly biasedCoeff 0 = 1 ∧
    (make_map_int (blankSvs 3 3) (fun _ => -1) 1 1 biasedCoeff 1 1).calibration_map (1 * 3 + 1)
      = 4 := by
  decide

theorem index_in_image (ww hh x2 y2 : Int) (hx : x2 > -1 ∧ x2 < ww) (hy : y2 > -1 ∧ y2 < hh) :
    0 ≤ y2 * ww + x2 ∧ y2 * ww + x2 < ww * hh := by
  have h1 : 0 ≤ y2 * ww := mul_nonneg (by omega) (by omega)
  have h2 : (y2 + 1) * ww ≤ hh * ww := mul_le_mul_of_nonneg_right (by omega) (by omega)
  have h3 : (y2 + 1) * ww = y2 * ww + ww := by ring
  have h4 : hh * ww = ww * hh := by ring
  constructor
  · omega
  · omega

/-- Every entry that `make_map_int` writes is a source index of the image. -/
theorem make_map_int_entries_valid (s : Svs) (fresh : Int → Int) (cx cy : Int)
    (coeff : Int → Int) (scale_num scale_denom : Int) (n : Int) :
    (make_map_int s fresh cx cy coeff scale_num scale_denom).calibration_map n = fresh n ∨
    (0 ≤ (make_map_int s fresh cx cy coeff scale_num scale_denom).calibration_map n ∧
      (make_map_int s fresh cx cy coeff scale_num scale_denom).calibration_map n
        < s.imgWidth * s.imgHeight) := by
  unfold make_map_int
  simp only
  apply foldl_invariant (fun (cmap : Int → Int) =>
    cmap n = fresh n ∨ (0 ≤ cmap n ∧ cmap n < s.imgWidth * s.imgHeight))
  · exact Or.inl rfl
  · intro cmap xy _ h
    unfold make_map_int_step
    simp only
    split_ifs with h1 h2 h3
    · rw [Function.update_apply]
      split_ifs
      · exact Or.inr (index_in_image _ _ _ _ ⟨h3.1, h3.2.1⟩ ⟨h3.2.2.1, h3.2.2.2⟩)
      · exact h
    · exact h
    · exact h
    · exact h

/-! ## Feature counts of get_features -/

theorem compute_descriptor_frame (hdr : Header) (s : Svs) (px py : Int) (buf : Int → Int)
    (n row_mean : Int) :
    (compute_descriptor hdr s px py buf n row_mean).2.features_per_row = s.features_per_row ∧
    (compute_descriptor hdr s px py buf n row_mean).2.features_per_col = s.features_per_col := by
  unfold compute_descriptor
  simp only
  split_ifs <;> exact ⟨rfl, rfl⟩

theorem features_row_loop_count (hdr : Header) (hM : hdr.SVS_MAX_FEATURES ≤ 65535)
    (buf : Int → Int) (y row_mean ox base : Int) (hbase : 0 ≤ base) :
    ∀ (xs : List Int) (st : FeatLoop), st.full = false → FeatLoopInv hdr base st →
      FeatLoopInv hdr base (features_row_loop hdr buf y row_mean ox xs st) ∧
      (features_row_loop hdr buf y row_mean ox xs st).s.features_per_row
        = st.s.features_per_row := by
  intro xs
  induction xs with
  | nil => intro st _ h; exact ⟨h, rfl⟩
  | cons x xs ih =>
    intro st hf h
    obtain ⟨h1, h2, h3, h4⟩ := h
    have hlt := h3 hf
    have hfr := (compute_descriptor_frame hdr st.s x y buf st.no_of_features row_mean).1
    have hu : u16 (st.no_of_feats + 1) = st.no_of_feats + 1 := by unfold u16; omega
    simp only [features_row_loop]
    split_ifs with c1 c2 c3
    · refine ⟨⟨?_, ?_, ?_, ?_⟩, hfr⟩
      · show st.no_of_features + 1 = base + u16 (st.no_of_feats + 1)
        rw [hu]; omega
      · show 0 ≤ u16 (st.no_of_feats + 1)
        rw [hu]; omega
      · intro hc; exact absurd hc (by simp)
      · intro _; exact c3
    · have hst : FeatLoopInv hdr base
          ⟨{ (compute_descriptor hdr st.s x y buf st.no_of_features row_mean).2 with
              feature_x := Function.update
                (compute_descriptor hdr st.s x y buf st.no_of_features row_mean).2.feature_x
                st.no_of_features (i16 (x + ox)) },
            st.no_of_features + 1, u16 (st.no_of_feats + 1), false⟩ := by
        refine ⟨?_, ?_, ?_, ?_⟩
        · show st.no_of_features + 1 = base + u16 (st.no_of_feats + 1)
          rw [hu]; omega
        · show 0 ≤ u16 (st.no_of_feats + 1)
          rw [hu]; omega
        · intro _
          have c3' : st.no_of_features + 1 ≠ hdr.SVS_MAX_FEATURES := c3
          show st.no_of_features + 1 < hdr.SVS_MAX_FEATURES
          omega
        · intro hc; exact absurd hc (by simp)
      obtain ⟨r1, r2⟩ := ih _ rfl hst
      exact ⟨r1, r2.trans hfr⟩
    · obtain ⟨r1, r2⟩ := ih
        ⟨(compute_descriptor hdr st.s x y buf st.no_of_features row_mean).2,
          st.no_of_features, st.no_of_feats, st.full⟩ hf ⟨h1, h2, h3, h4⟩
      exact ⟨r1, r2.trans hfr⟩
    · exact ih st hf ⟨h1, h2, h3, h4⟩
theorem features_col_loop_count (hdr : Header) (hM : hdr.SVS_MAX_FEATURES ≤ 65535)
    (buf : Int → Int) (x col_mean oy base : Int) (hbase : 0 ≤ base) :
    ∀ (ys : List Int) (st : FeatLoop), st.full = false → FeatLoopInv hdr base st →
      FeatLoopInv hdr base (features_col_loop hdr buf x col_mean oy ys st) ∧
      (features_col_loop hdr buf x col_mean oy ys st).s.features_per_col
        = st.s.features_per_col := by
  intro ys
  induction ys with
  | nil => intro st _ h; exact ⟨h, rfl⟩
  | cons y ys ih =>
    intro st hf h
    obtain ⟨h1, h2, h3, h4⟩ := h
    have hlt := h3 hf
    have hfr := (compute_descriptor_frame hdr st.s x y buf st.no_of_features col_mean).2
    have hu : u16 (st.no_of_feats + 1) = st.no_of_feats + 1 := by unfold u16; omega
    simp only [features_col_loop]
    split_ifs with c1 c2 c3
    · refine ⟨⟨?_, ?_, ?_, ?_⟩, hfr⟩
      · show st.no_of_features + 1 = base + u16 (st.no_of_feats + 1)
        rw [hu]; omega
      · show 0 ≤ u16 (st.no_of_feats + 1)
        rw [hu]; omega
      · intro hc; exact absurd hc (by simp)
      · intro _; exact c3
    · have hst : FeatLoopInv hdr base
          ⟨{ (compute_descriptor hdr st.s x y buf st.no_of_features col_mean).2 with
              feature_y := Function.update
                (compute_descriptor hdr st.s x y buf st.no_of_features col_mean).2.feature_y
                st.no_of_features (i16 (y + oy)) },
            st.no_of_features + 1, u16 (st.no_of_feats + 1), false⟩ := by
        refine ⟨?_, ?_, ?_, ?_⟩
        · show st.no_of_features + 1 = base + u16 (st.no_of_feats + 1)
          rw [hu]; omega
        · show 0 ≤ u16 (st.no_of_feats + 1)
          rw [hu]; omega
        · intro _
          have c3' : st.no_of_features + 1 ≠ hdr.SVS_MAX_FEATURES := c3
          show st.no_of_features + 1 < hdr.SVS_MAX_FEATURES
          omega
        · intro hc; exact absurd hc (by simp)
      obtain ⟨r1, r2⟩ := ih _ rfl hst
      exact ⟨r1, r2.trans hfr⟩
    · obtain ⟨r1, r2⟩ := ih
        ⟨(compute_descriptor hdr st.s x y buf st.no_of_features col_mean).2,
          st.no_of_features, st.no_of_feats, st.full⟩ hf ⟨h1, h2, h3, h4⟩
      exact ⟨r1, r2.trans hfr⟩
    · exact ih st hf ⟨h1, h2, h3, h4⟩

theorem sum_counts_snoc (f g : Int → Int) (k v : Int) (hk : 0 ≤ k)
    (hg : g = Function.update f k v) :
    ((upto 0 (k + 1)).map g).sum = ((upto 0 k).map f).sum + v := by
  rw [upto_snoc 0 k hk, List.map_append, List.sum_append, List.map_cons, List.map_nil,
    List.sum_cons, List.sum_nil, add_zero, hg, Function.update_same]
  congr 2
  apply List.map_congr_left
  intro j hj
  rw [mem_upto] at hj
  rw [Function.update_noteq (by omega)]

/-- Recording the count of a finished row and going on, unless the buffer is full, keeps
the sum of the recorded counts equal to the number of features. -/
theorem featOuter_step (hdr : Header) (counts : Svs → Int → Int)
    (next : FeatOuter → FeatOuter) (len : Int) (hlen : 0 ≤ len)
    (ih : ∀ st', FeatOuterInv hdr counts st' → st'.no_of_features < hdr.SVS_MAX_FEATURES →
      FeatOuterDone hdr counts st' len (next st'))
    (st : FeatOuter) (h : FeatOuterInv hdr counts st) (r : FeatLoop)
    (hr : FeatLoopInv hdr st.no_of_features r) (rec : FeatOuter)
    (h1 : rec.row_idx = st.row_idx + 1) (h2 : rec.no_of_features = r.no_of_features)
    (h3 : counts rec.s = Function.update (counts st.s) st.row_idx r.no_of_feats) :
    FeatOuterDone hdr counts st (len + 1) (if r.full = true then rec else next rec) := by
  obtain ⟨a1, a2, a3, a4⟩ := h
  obtain ⟨r1, r2, r3, r4⟩ := hr
  have hle : r.no_of_features ≤ hdr.SVS_MAX_FEATURES := by
    cases hfull : r.full with
    | true => exact le_of_eq (r4 hfull)
    | false => exact le_of_lt (r3 hfull)
  have hinv : FeatOuterInv hdr counts rec := by
    refine ⟨by omega, by omega, by omega, ?_⟩
    rw [h1, sum_counts_snoc (counts st.s) (counts rec.s) st.row_idx r.no_of_feats a1 h3, a4, h2,
      r1]
  cases hfull : r.full with
  | true =>
    rw [if_pos rfl]
    exact ⟨hinv, by omega, Or.inl (by rw [h2]; exact r4 hfull)⟩
  | false =>
    rw [if_neg (by simp)]
    obtain ⟨i1, i2, i3⟩ := ih rec hinv (by rw [h2]; exact r3 hfull)
    refine ⟨i1, by omega, ?_⟩
    rcases i3 with i3 | i3
    · exact Or.inl i3
    · exact Or.inr (by omega)

theorem features_vertical_loop_count (hdr : Header) (hM : hdr.SVS_MAX_FEATURES ≤ 65535)
    (buf : Int → Int) (ir mr ox sx : Int) :
    ∀ (ys : List Int) (st : FeatOuter), FeatOuterInv hdr (fun s => s.features_per_row) st →
      st.no_of_features < hdr.SVS_MAX_FEATURES →
      FeatOuterDone hdr (fun s => s.features_per_row) st ys.length
        (features_vertical_loop hdr buf ir mr ox sx ys st) := by
  intro ys
  induction ys with
  | nil =>
    intro st h _
    exact ⟨h, by simp [features_vertical_loop], Or.inr (by simp [features_vertical_loop])⟩
  | cons y ys ih =>
    intro st h hlt
    have hstart : ∀ s : Svs, FeatLoopInv hdr st.no_of_features ⟨s, st.no_of_features, 0, false⟩ :=
      fun s => ⟨by simp, le_refl _, fun _ => hlt, fun hc => absurd hc (by simp)⟩
    have hlen : (((y :: ys).length : Nat) : Int) = (ys.length : Int) + 1 := by
      simp only [List.length_cons]; push_cast; rfl
    rw [hlen]
    simp only [features_vertical_loop]
    by_cases hc : y ≥ 4 ∧ y ≤ st.s.imgHeight - 4
    · obtain ⟨q1, q2⟩ := features_row_loop_count hdr hM buf y (update_sums st.s 0 y buf).1 ox
        st.no_of_features h.2.1 (downto sx 15)
        ⟨non_max (update_sums st.s 0 y buf).2 0 ir mr, st.no_of_features, 0, false⟩ rfl
        (hstart _)
      rw [if_pos hc]
      exact featOuter_step hdr _ _ _ (by omega) ih st h _ q1 _ rfl rfl
        (by show Function.update _ _ _ = _; rw [q2]; rfl)
    · rw [if_neg hc]
      exact featOuter_step hdr _ _ _ (by omega) ih st h _ (hstart _) _ rfl rfl rfl
theorem features_horizontal_loop_count (hdr : Header) (hM : hdr.SVS_MAX_FEATURES ≤ 65535)
    (buf : Int → Int) (ir mr oy sy : Int) :
    ∀ (xs : List Int) (st : FeatOuter), FeatOuterInv hdr (fun s => s.features_per_col) st →
      st.no_of_features < hdr.SVS_MAX_FEATURES →
      FeatOuterDone hdr (fun s => s.features_per_col) st xs.length
        (features_horizontal_loop hdr buf ir mr oy sy xs st) := by
  intro xs
  induction xs with
  | nil =>
    intro st h _
    exact ⟨h, by simp [features_horizontal_loop], Or.inr (by simp [features_horizontal_loop])⟩
  | cons x xs ih =>
    intro st h hlt
    have hstart : ∀ s : Svs, FeatLoopInv hdr st.no_of_features ⟨s, st.no_of_features, 0, false⟩ :=
      fun s => ⟨by simp, le_refl _, fun _ => hlt, fun hc => absurd hc (by simp)⟩
    have hlen : (((x :: xs).length : Nat) : Int) = (xs.length : Int) + 1 := by
      simp only [List.length_cons]; push_cast; rfl
    rw [hlen]
    simp only [features_horizontal_loop]
    by_cases hc : x ≥ 4 ∧ x ≤ st.s.imgWidth - 4
    · obtain ⟨q1, q2⟩ := features_col_loop_count hdr hM buf x (update_sums st.s 1 x buf).1 oy
        st.no_of_features h.2.1 (downto sy 15)
        ⟨non_max (update_sums st.s 1 x buf).2 1 ir mr, st.no_of_features, 0, false⟩ rfl
        (hstart _)
      rw [if_pos hc]
      exact featOuter_step hdr _ _ _ (by omega) ih st h _ q1 _ rfl rfl
        (by show Function.update _ _ _ = _; rw [q2]; rfl)
    · rw [if_neg hc]
      exact featOuter_step hdr _ _ _ (by omega) ih st h _ (hstart _) _ rfl rfl rfl

/-- C21: with `0 < SVS_MAX_FEATURES <= 65535` and positive sampling steps (the loops of
the source end only then), the count returned by
`get_features_vertical` is at most `SVS_MAX_FEATURES` and equals the sum of the counts it
wrote to `features_per_row`, one for each of the `k` rows it visited; either every row of
the loop was visited or the buffer became full, and then the count is exactly
`SVS_MAX_FEATURES` with the count of the row at hand recorded among the `k`. The same
holds for `get_features_horizontal` and `features_per_col`. -/
theorem get_features_count (hdr : Header) (hM0 : 0 < hdr.SVS_MAX_FEATURES)
    (hM : hdr.SVS_MAX_FEATURES ≤ 65535)
    (_hstep : 0 < hdr.SVS_VERTICAL_SAMPLING ∧ 0 < hdr.SVS_HORIZONTAL_SAMPLING)
    (s : Svs) (buf : Int → Int)
    (inhibition_radius minimum_response calibration_offset_x calibration_offset_y : Int) :
    (∃ k : Int, (0 ≤ k ∧
        k ≤ (stepRange (4 + calibration_offset_y) (s.imgHeight - 4)
              hdr.SVS_VERTICAL_SAMPLING).length) ∧
      (get_features_vertical hdr s buf inhibition_radius minimum_response calibration_offset_x
          calibration_offset_y).1 ≤ hdr.SVS_MAX_FEATURES ∧
      ((upto 0 k).map (get_features_vertical hdr s buf inhibition_radius minimum_response
          calibration_offset_x calibration_offset_y).2.features_per_row).sum
        = (get_features_vertical hdr s buf inhibition_radius minimum_response
            calibration_offset_x calibration_offset_y).1 ∧
      ((get_features_vertical hdr s buf inhibition_radius minimum_response calibration_offset_x
          calibration_offset_y).1 = hdr.SVS_MAX_FEATURES ∨
        k = (stepRange (4 + calibration_offset_y) (s.imgHeight - 4)
              hdr.SVS_VERTICAL_SAMPLING).length)) ∧
    (∃ k : Int, (0 ≤ k ∧
        k ≤ (stepRange (4 + calibration_offset_x) (s.imgWidth - 4)
              hdr.SVS_HORIZONTAL_SAMPLING).length) ∧
      (get_features_horizontal hdr s buf inhibition_radius minimum_response calibration_offset_x
          calibration_offset_y).1 ≤ hdr.SVS_MAX_FEATURES ∧
      ((upto 0 k).map (get_features_horizontal hdr s buf inhibition_radius minimum_response
          calibration_offset_x calibration_offset_y).2.features_per_col).sum
        = (get_features_horizontal hdr s buf inhibition_radius minimum_response
            calibration_offset_x calibration_offset_y).1 ∧
      ((get_features_horizontal hdr s buf inhibition_radius minimum_response
          calibration_offset_x calibration_offset_y).1 = hdr.SVS_MAX_FEATURES ∨
        k = (stepRange (4 + calibration_offset_x) (s.imgWidth - 4)
              hdr.SVS_HORIZONTAL_SAMPLING).length)) := by
  have hsum0 : ∀ f : Int → Int, ((upto 0 0).map f).sum = 0 := fun f => by
    rw [upto_nil 0 0 (le_refl _)]; rfl
  constructor
  · obtain ⟨⟨i1, i2, i3, i4⟩, j1, j2⟩ := features_vertical_loop_count hdr hM buf
      inhibition_radius minimum_response calibration_offset_x
      (if s.imgWidth - inhibition_radius - 1 < s.imgWidth - 15
        then s.imgWidth - inhibition_radius - 1 else s.imgWidth - 15)
      (stepRange (4 + calibration_offset_y) (s.imgHeight - 4) hdr.SVS_VERTICAL_SAMPLING)
      ⟨{ s with features_per_row := (memset0 s.features_per_row (cdiv hdr.SVS_MAX_IMAGE_HEIGHT hdr.SVS_VERTICAL_SAMPLING)) }, 0, 0⟩
      ⟨le_refl _, le_refl _, le_of_lt hM0, hsum0 _⟩ hM0
    refine ⟨_, ⟨i1, ?_⟩, i3, i4, ?_⟩
    · have := j1; simp only [zero_add] at this; exact this
    · have := j2; simp only [zero_add] at this; exact this
  · obtain ⟨⟨i1, i2, i3, i4⟩, j1, j2⟩ := features_horizontal_loop_count hdr hM buf
      inhibition_radius minimum_response calibration_offset_y
      (if s.imgHeight - inhibition_radius - 1 < s.imgHeight - 15
        then s.imgHeight - inhibition_radius - 1 else s.imgHeight - 15)
      (stepRange (4 + calibration_offset_x) (s.imgWidth - 4) hdr.SVS_HORIZONTAL_SAMPLING)
      ⟨{ s with features_per_col := (memset0 s.features_per_col (cdiv hdr.SVS_MAX_IMAGE_WIDTH hdr.SVS_HORIZONTAL_SAMPLING)) }, 0, 0⟩
      ⟨le_refl _, le_refl _, le_of_lt hM0, hsum0 _⟩ hM0
    refine ⟨_, ⟨i1, ?_⟩, i3, i4, ?_⟩
    · have := j1; simp only [zero_add] at this; exact this
    · have := j2; simp only [zero_add] at this; exact this

theorem get_features_count_witness :
    (get_features_vertical exampleHeader (blankSvs 40 24) exampleImage 4 100 0 0).1
      ≤ exampleHeader.SVS_MAX_FEATURES :=
  (get_features_count exampleHeader (by decide) (by decide) (by decide) (blankSvs 40 24) exampleImage
    4 100 0 0).1.elim (fun _ h => h.2.1)

/-! ## The peak history of filter -/

theorem filter_hemifield_latch (hdr : Header) (n maxd tol en : Int) (st : FilterState)
    (hf : Int) :
    (filter_hemifield hdr n maxd tol en st hf).s.peaks_history_index = st.s.peaks_history_index ∧
    (filter_hemifield hdr n maxd tol en st hf).s.enable_peaks_filter = st.s.enable_peaks_filter ∧
    (filter_hemifield hdr n maxd tol en st hf).s.imgWidth = st.s.imgWidth ∧
    (filter_hemifield hdr n maxd tol en st hf).s.imgHeight = st.s.imgHeight := by
  unfold filter_hemifield
  simp only
  split_ifs <;> exact ⟨rfl, rfl, rfl, rfl⟩

theorem filter_after_latch (hdr : Header) (s : Svs) (n maxd tol en : Int) (k : Nat) :
    (filter_after hdr s n maxd tol en k).s.peaks_history_index = s.peaks_history_index ∧
    (filter_after hdr s n maxd tol en k).s.enable_peaks_filter = s.enable_peaks_filter := by
  induction k with
  | zero => exact ⟨rfl, rfl⟩
  | succ k ih =>
    rw [filter_after_succ]
    obtain ⟨h1, h2, _, _⟩ := filter_hemifield_latch hdr n maxd tol en
      (filter_after hdr s n maxd tol en k) k
    exact ⟨h1.trans ih.1, h2.trans ih.2⟩

/-- What a call of `filter` does to the ring index and to the latch. -/
theorem filter_latch (hdr : Header) (s : Svs) (n maxd tol en : Int) :
    (filter hdr s n maxd tol en).peaks_history_index
      = (if en ≠ 0 then
          (if s.peaks_history_index + 1 ≥ hdr.SVS_PEAKS_HISTORY then 0
           else s.peaks_history_index + 1)
         else s.peaks_history_index) ∧
    (filter hdr s n maxd tol en).enable_peaks_filter
      = (if en ≠ 0 ∧ s.peaks_history_index + 1 ≥ hdr.SVS_PEAKS_HISTORY then 1
         else s.enable_peaks_filter) := by
  obtain ⟨h1, h2⟩ := filter_after_latch hdr s n maxd tol en 4
  unfold filter
  simp only
  rw [h1]
  by_cases he : en ≠ 0
  · by_cases hi : s.peaks_history_index + 1 ≥ hdr.SVS_PEAKS_HISTORY
    · rw [if_pos he, if_pos hi, if_pos he, if_pos hi, if_pos ⟨he, hi⟩]
      exact ⟨rfl, rfl⟩
    · rw [if_pos he, if_neg hi, if_pos he, if_neg hi, if_neg (fun h => hi h.2)]
      exact ⟨rfl, h2⟩
  · rw [if_neg he, if_neg he, if_neg (fun h => he h.1)]
    exact ⟨rfl, h2⟩

/-- The history after hemifield `hf` of a call: with temporal smoothing enabled the slot
`hf * SVS_PEAKS_HISTORY + peaks_history_index` receives the peak of the hemifield, as an
`unsigned short`; otherwise the history is untouched. -/
theorem filter_after_history (hdr : Header) (s : Svs) (n maxd tol en : Int) (hf : Nat) :
    (filter_after hdr s n maxd tol en (hf + 1)).s.peaks_history
      = if en ≠ 0 then
          Function.update (filter_after hdr s n maxd tol en hf).s.peaks_history
            (hf * hdr.SVS_PEAKS_HISTORY + s.peaks_history_index)
            (u16 (hemifield_peak hdr s n maxd tol en hf))
        else (filter_after hdr s n maxd tol en hf).s.peaks_history := by
  rw [filter_after_succ]
  have hidx := (filter_after_latch hdr s n maxd tol en hf).1
  unfold hemifield_peak hemifield_histogram filter_hemifield
  simp only
  rw [hidx]
  split_ifs <;> rfl

theorem filter_history_disabled (hdr : Header) (s : Svs) (n maxd tol : Int) (k : Nat) :
    (filter_after hdr s n maxd tol 0 k).s.peaks_history = s.peaks_history := by
  induction k with
  | zero => rfl
  | succ k ih => rw [filter_after_history, if_neg (by simp), ih]

theorem filter_history_eq (hdr : Header) (s : Svs) (n maxd tol en : Int) :
    (filter hdr s n maxd tol en).peaks_history
      = (filter_after hdr s n maxd tol en 4).s.peaks_history := by
  unfold filter
  simp only
  split_ifs <;> rfl

/-- An enabled call writes, for each of the four hemifields, the slot at the current
ring index, and no other slot. -/
theorem filter_history_enabled (hdr : Header) (hH : 0 < hdr.SVS_PEAKS_HISTORY) (s : Svs)
    (n maxd tol en : Int) (he : en ≠ 0) :
    (∀ hf : Nat, hf < 4 →
      (filter hdr s n maxd tol en).peaks_history
          (hf * hdr.SVS_PEAKS_HISTORY + s.peaks_history_index)
        = u16 (hemifield_peak hdr s n maxd tol en hf)) ∧
    (∀ slot, (∀ hf : Nat, hf < 4 →
        slot ≠ hf * hdr.SVS_PEAKS_HISTORY + s.peaks_history_index) →
      (filter hdr s n maxd tol en).peaks_history slot = s.peaks_history slot) := by
  have hstep : ∀ k : Nat,
      (∀ hf : Nat, hf < k →
        (filter_after hdr s n maxd tol en k).s.peaks_history
            (hf * hdr.SVS_PEAKS_HISTORY + s.peaks_history_index)
          = u16 (hemifield_peak hdr s n maxd tol en hf)) ∧
      (∀ slot, (∀ hf : Nat, hf < k →
          slot ≠ hf * hdr.SVS_PEAKS_HISTORY + s.peaks_history_index) →
        (filter_after hdr s n maxd tol en k).s.peaks_history slot = s.peaks_history slot) := by
    intro k
    induction k with
    | zero =>
      exact ⟨fun hf h => absurd h (by omega), fun _ _ => rfl⟩
    | succ k ih =>
      rw [filter_after_history, if_pos he]
      constructor
      · intro hf hlt
        by_cases e : hf = k
        · subst e
          rw [Function.update_same]
        · have hne : (hf : Int) * hdr.SVS_PEAKS_HISTORY + s.peaks_history_index
              ≠ (k : Int) * hdr.SVS_PEAKS_HISTORY + s.peaks_history_index := by
            intro hc
            have h1 : ((hf : Int) - k) * hdr.SVS_PEAKS_HISTORY = 0 := by
              have : ((hf : Int) - k) * hdr.SVS_PEAKS_HISTORY
                  = (hf : Int) * hdr.SVS_PEAKS_HISTORY - (k : Int) * hdr.SVS_PEAKS_HISTORY := by
                ring
              omega
            rcases mul_eq_zero.1 h1 with h2 | h2
            · exact e (by omega)
            · omega
          rw [Function.update_noteq hne]
          exact ih.1 hf (by omega)
      · intro slot hs
        rw [Function.update_noteq (hs k (by omega))]
        exact ih.2 slot (fun hf hlt => hs hf (by omega))
  rw [filter_history_eq]
  exact hstep 4

theorem enabled_count_cons (c : FilterCall) (cs : List FilterCall) :
    enabled_count (c :: cs)
      = (if c.enable_secondary ≠ 0 then 1 else 0) + enabled_count cs := by
  unfold enabled_count
  by_cases h : c.enable_secondary ≠ 0
  · rw [List.countP_cons_of_pos _ _ (by simpa using h), if_pos h]
    push_cast; ring
  · rw [List.countP_cons_of_neg _ _ (by simpa using h), if_neg h]
    ring

theorem enabled_count_nonneg (cs : List FilterCall) : 0 ≤ enabled_count cs := by
  unfold enabled_count
  exact Int.natCast_nonneg _

theorem filter_call_inv (hdr : Header) (k : Int) (s : Svs) (c : FilterCall)
    (h : LatchInv hdr k s) :
    LatchInv hdr (k + (if c.enable_secondary ≠ 0 then 1 else 0))
      (filter hdr { s with svs_matches := c.svs_matches } c.no_of_possible_matches
        c.max_disparity_pixels c.tolerance c.enable_secondary) := by
  obtain ⟨q, hq, hk, hidx, hflag⟩ := h
  obtain ⟨l1, l2⟩ := filter_latch hdr { s with svs_matches := c.svs_matches }
    c.no_of_possible_matches c.max_disparity_pixels c.tolerance c.enable_secondary
  have e1 : ({ s with svs_matches := c.svs_matches } : Svs).peaks_history_index
      = s.peaks_history_index := rfl
  have e2 : ({ s with svs_matches := c.svs_matches } : Svs).enable_peaks_filter
      = s.enable_peaks_filter := rfl
  rw [e1] at l1 l2
  rw [e2] at l2
  unfold LatchInv
  rw [l1, l2]
  by_cases he : c.enable_secondary ≠ 0
  · by_cases hi : s.peaks_history_index + 1 ≥ hdr.SVS_PEAKS_HISTORY
    · rw [if_pos he, if_pos he, if_pos hi, if_pos ⟨he, hi⟩]
      refine ⟨q + 1, by omega, ?_, ⟨le_refl _, by omega⟩, by rw [if_pos (by omega)]⟩
      have : (q + 1) * hdr.SVS_PEAKS_HISTORY = q * hdr.SVS_PEAKS_HISTORY + hdr.SVS_PEAKS_HISTORY := by
        ring
      omega
    · rw [if_pos he, if_pos he, if_neg hi, if_neg (fun h => hi h.2)]
      exact ⟨q, hq, by omega, ⟨by omega, by omega⟩, hflag⟩
  · rw [if_neg he, if_neg he, if_neg (fun h => he h.1)]
    exact ⟨q, hq, by omega, hidx, hflag⟩

theorem filter_run_inv (hdr : Header) :
    ∀ (calls : List FilterCall) (k : Int) (s : Svs), LatchInv hdr k s →
      LatchInv hdr (k + enabled_count calls) (filter_run hdr s calls) := by
  intro calls
  induction calls with
  | nil =>
    intro k s h
    have : enabled_count [] = 0 := rfl
    rw [this, add_zero]
    exact h
  | cons c cs ih =>
    intro k s h
    have h1 := ih _ _ (filter_call_inv hdr k s c h)
    rw [enabled_count_cons, ← add_assoc]
    exact h1

theorem latchInv_values (hdr : Header) (k : Int) (s : Svs) (h : LatchInv hdr k s) :
    s.peaks_history_index = k % hdr.SVS_PEAKS_HISTORY ∧
    s.enable_peaks_filter = (if hdr.SVS_PEAKS_HISTORY ≤ k then 1 else 0) := by
  obtain ⟨q, hq, hk, hidx, hflag⟩ := h
  constructor
  · rw [hk, add_comm, Int.add_mul_emod_self, Int.emod_eq_of_lt hidx.1 hidx.2]
  · rw [hflag]
    by_cases h1 : 1 ≤ q
    · have : hdr.SVS_PEAKS_HISTORY ≤ q * hdr.SVS_PEAKS_HISTORY := by nlinarith
      rw [if_pos h1, if_pos (by omega)]
    · have hq0 : q = 0 := by omega
      rw [if_neg h1, if_neg]
      rw [hk, hq0]
      omega

/-- Among the calls of a session, the one made after exactly `p` enabled calls, for every
`p` below the number of enabled calls, is itself enabled. -/
theorem enabled_call_at :
    ∀ (calls : List FilterCall) (p : Int), 0 ≤ p → p < enabled_count calls →
      ∃ pre c post, calls = pre ++ c :: post ∧ c.enable_secondary ≠ 0 ∧
        enabled_count pre = p := by
  intro calls
  induction calls with
  | nil =>
    intro p h0 h1
    have : enabled_count [] = 0 := rfl
    omega
  | cons c cs ih =>
    intro p h0 h1
    rw [enabled_count_cons] at h1
    by_cases he : c.enable_secondary ≠ 0
    · rw [if_pos he] at h1
      by_cases hp : p = 0
      · exact ⟨[], c, cs, rfl, he, by rw [hp]; rfl⟩
      · obtain ⟨pre, c', post, e1, e2, e3⟩ := ih (p - 1) (by omega) (by omega)
        refine ⟨c :: pre, c', post, by rw [e1]; rfl, e2, ?_⟩
        rw [enabled_count_cons, if_pos he, e3]
        omega
    · rw [if_neg he] at h1
      obtain ⟨pre, c', post, e1, e2, e3⟩ := ih p h0 (by omega)
      refine ⟨c :: pre, c', post, by rw [e1]; rfl, e2, ?_⟩
      rw [enabled_count_cons, if_neg he, e3]
      omega

theorem enabled_count_append (a b : List FilterCall) :
    enabled_count (a ++ b) = enabled_count a + enabled_count b := by
  unfold enabled_count
  rw [List.countP_append]
  push_cast; rfl

theorem latchInv_fresh (hdr : Header) (hH : 0 < hdr.SVS_PEAKS_HISTORY) (s : Svs)
    (hfresh : s.peaks_history_index = 0 ∧ s.enable_peaks_filter = 0) : LatchInv hdr 0 s :=
  ⟨0, le_refl _, by rw [hfresh.1]; ring, by rw [hfresh.1]; exact ⟨le_refl _, hH⟩,
    by rw [hfresh.2, if_neg (by norm_num)]⟩

/-- C22: in a session of `filter` calls on a freshly constructed object, with
`H = SVS_PEAKS_HISTORY > 0` and `k` the number of calls made so far with temporal
smoothing enabled: `peaks_history_index` is `k mod H`, inside `[0, H)`;
`enable_peaks_filter` is 1 exactly when `k >= H`, so it is 0 until `H` enabled calls have
completed and stays 1 afterwards; when it is 1, for every slot `p < H` some enabled call
of the session ran with the ring index at `p`, and an enabled call writes slot `p` of
each of the four hemifields and no other slot; a call with temporal smoothing disabled
changes neither the index, the flag nor the history. -/
theorem peaks_history_latched (hdr : Header) (hH : 0 < hdr.SVS_PEAKS_HISTORY) (s : Svs)
    (hfresh : s.peaks_history_index = 0 ∧ s.enable_peaks_filter = 0)
    (calls : List FilterCall) :
    ((filter_run hdr s calls).peaks_history_index
        = enabled_count calls % hdr.SVS_PEAKS_HISTORY ∧
      0 ≤ (filter_run hdr s calls).peaks_history_index ∧
      (filter_run hdr s calls).peaks_history_index < hdr.SVS_PEAKS_HISTORY) ∧
    (filter_run hdr s calls).enable_peaks_filter
      = (if hdr.SVS_PEAKS_HISTORY ≤ enabled_count calls then 1 else 0) ∧
    (∀ pre post, calls = pre ++ post → (filter_run hdr s pre).enable_peaks_filter = 1 →
      (filter_run hdr s calls).enable_peaks_filter = 1) ∧
    ((filter_run hdr s calls).enable_peaks_filter = 1 →
      ∀ p, 0 ≤ p → p < hdr.SVS_PEAKS_HISTORY →
        ∃ pre c post, calls = pre ++ c :: post ∧ c.enable_secondary ≠ 0 ∧
          (filter_run hdr s pre).peaks_history_index = p) ∧
    (∀ (t : Svs) (n maxd tol en : Int), en ≠ 0 →
      (∀ hf : Nat, hf < 4 →
        (filter hdr t n maxd tol en).peaks_history
            (hf * hdr.SVS_PEAKS_HISTORY + t.peaks_history_index)
          = u16 (hemifield_peak hdr t n maxd tol en hf)) ∧
      (∀ slot, (∀ hf : Nat, hf < 4 →
          slot ≠ hf * hdr.SVS_PEAKS_HISTORY + t.peaks_history_index) →
        (filter hdr t n maxd tol en).peaks_history slot = t.peaks_history slot)) ∧
    (∀ (t : Svs) (n maxd tol : Int),
      (filter hdr t n maxd tol 0).peaks_history_index = t.peaks_history_index ∧
      (filter hdr t n maxd tol 0).enable_peaks_filter = t.enable_peaks_filter ∧
      (filter hdr t n maxd tol 0).peaks_history = t.peaks_history) := by
  have h0 := latchInv_fresh hdr hH s hfresh
  have hrun : ∀ cs, LatchInv hdr (enabled_count cs) (filter_run hdr s cs) := fun cs => by
    have := filter_run_inv hdr cs 0 s h0
    rw [zero_add] at this
    exact this
  have hval := fun cs => latchInv_values hdr _ _ (hrun cs)
  have hflag : ∀ cs, (filter_run hdr s cs).enable_peaks_filter = 1 →
      hdr.SVS_PEAKS_HISTORY ≤ enabled_count cs := by
    intro cs h1
    by_contra hc
    rw [(hval cs).2, if_neg hc] at h1
    exact absurd h1 (by norm_num)
  refine ⟨⟨(hval calls).1, ?_, ?_⟩, (hval calls).2, ?_, ?_, ?_, ?_⟩
  · obtain ⟨q, _, _, hidx, _⟩ := hrun calls
    exact hidx.1
  · obtain ⟨q, _, _, hidx, _⟩ := hrun calls
    exact hidx.2
  · intro pre post hc h1
    have hp := hflag pre h1
    have hn := enabled_count_nonneg post
    rw [(hval calls).2, if_pos]
    rw [hc, enabled_count_append]
    omega
  · intro h1 p hp0 hp1
    obtain ⟨pre, c, post, e1, e2, e3⟩ := enabled_call_at calls p hp0
      (lt_of_lt_of_le hp1 (hflag calls h1))
    refine ⟨pre, c, post, e1, e2, ?_⟩
    rw [(hval pre).1, e3, Int.emod_eq_of_lt hp0 hp1]
  · intro t n maxd tol en he
    exact filter_history_enabled hdr hH t n maxd tol en he
  · intro t n maxd tol
    obtain ⟨l1, l2⟩ := filter_latch hdr t n maxd tol 0
    rw [if_neg (by simp)] at l1
    rw [if_neg (by simp)] at l2
    refine ⟨l1, l2, ?_⟩
    rw [filter_history_eq, filter_history_disabled]

theorem peaks_history_latched_witness :
    (filter_run exampleHeader (blankSvs 100 100) [smoothedCall, smoothedCall]).peaks_history_index
      = 2 :=
  ((peaks_history_latched exampleHeader (by decide) (blankSvs 100 100) ⟨rfl, rfl⟩
    [smoothedCall, smoothedCall]).1.1).trans (by decide)

/-! ## stereodense::update_disparity_space -/

theorem space_add_apply (s : Int → Int) (c : Int × Int × Int) (i : Int) :
    space_add s c i = cell_add c i (s i) := by
  unfold space_add cell_add
  simp only [Function.update_apply]
  by_cases h1 : i = c.2.1
  · by_cases h2 : i = c.1
    · rw [if_pos h1, if_pos h1, if_pos h2, ← h1, if_pos h2, ← h2]
    · rw [if_pos h1, if_pos h1, if_neg h2, ← h1, if_neg h2]
  · by_cases h2 : i = c.1
    · rw [if_neg h1, if_neg h1, if_pos h2, if_pos h2, ← h2]
    · rw [if_neg h1, if_neg h1, if_neg h2, if_neg h2]

theorem foldl_space_add_apply (i : Int) :
    ∀ (cells : List (Int × Int × Int)) (s : Int → Int),
      (cells.foldl space_add s) i = cells.foldl (fun w c => cell_add c i w) (s i) := by
  intro cells
  induction cells with
  | nil => intro s; rfl
  | cons c cells ih =>
    intro s
    rw [List.foldl_cons, List.foldl_cons, ih, space_add_apply]

theorem update_hypothesis_apply (p : DenseParams) (u : UpdateParams) (s : Int → Int)
    (k i : Int) : update_hypothesis p u s k i = hypothesis_add p u i (s i) k := by
  unfold update_hypothesis hypothesis_add
  exact foldl_space_add_apply i _ s

theorem foldl_update_hypothesis_apply (p : DenseParams) (u : UpdateParams) (i : Int) :
    ∀ (order : List Int) (s : Int → Int),
      (order.foldl (update_hypothesis p u) s) i = order.foldl (hypothesis_add p u i) (s i) := by
  intro order
  induction order with
  | nil => intro s; rfl
  | cons k order ih =>
    intro s
    rw [List.foldl_cons, List.foldl_cons, ih, update_hypothesis_apply]

theorem mem_space_rows (p : DenseParams) (row : Int × Int) (h : row ∈ space_rows p) :
    0 ≤ row.2 := by
  unfold space_rows at h
  simp only at h
  split at h
  · simp at h
  · rw [List.mem_map] at h
    obtain ⟨k, _, rfl⟩ := h
    exact Int.ofNat_nonneg k

/-- Every accumulation of hypothesis `k` comes from a fine cell `(yy, xx)` inside the
margins of the grid. -/
theorem mem_hypothesis_cells (p : DenseParams) (u : UpdateParams) (k : Int)
    (c : Int × Int × Int) (h : c ∈ hypothesis_cells p u k) :
    ∃ yy xx x_left : Int, 0 ≤ x_left ∧ xx = cdiv x_left p.smoothing_radius ∧
      (1 < yy ∧ yy < cdiv (cdiv p.img_height p.vertical_sampling) STEREO_DENSE_SMOOTH_VERTICAL - 2) ∧
      (1 < xx ∧ xx < cdiv p.img_width p.smoothing_radius - 2) ∧
      c.1 = fine_index_written p u k yy xx ∧ c.2.1 = coarse_index_written p u k yy xx := by
  unfold hypothesis_cells at h
  simp only [List.mem_flatMap] at h
  obtain ⟨row, _, h⟩ := h
  split at h
  · rename_i hy
    simp only [List.mem_flatMap] at h
    obtain ⟨x_left, hx, h⟩ := h
    rw [mem_upto] at hx
    split at h
    · split at h
      · split at h
        · rename_i hxx
          rw [List.mem_singleton] at h
          subst h
          exact ⟨_, _, x_left, hx.1, rfl, ⟨hy.1, hy.2⟩, ⟨hxx.1, hxx.2⟩, rfl, rfl⟩
        · simp at h
      · simp at h
    · simp at h
  · simp at h

theorem cdiv_eq_ediv (a b : Int) (ha : 0 ≤ a) (hb : 0 ≤ b) : cdiv a b = a / b := by
  unfold cdiv
  exact Int.tdiv_eq_ediv ha hb

/-- The two ways of halving the stride agree for a non-negative width and a positive
radius. -/
theorem coarse_stride_eq (img_width smoothing_radius : Int) (hw : 0 ≤ img_width)
    (hr : 0 < smoothing_radius) :
    cdiv img_width (smoothing_radius * 2) = cdiv (cdiv img_width smoothing_radius) 2 := by
  rw [cdiv_eq_ediv _ _ hw (by omega), cdiv_eq_ediv _ _ hw (by omega),
    cdiv_eq_ediv _ _ (Int.ediv_nonneg hw (by omega)) (by omega)]
  lift img_width to ℕ using hw
  lift smoothing_radius to ℕ using (le_of_lt hr)
  norm_cast
  exact (Nat.div_div_eq_div_mul _ _ _).symm

theorem cdiv_pos_args (a b : Int) (ha : 0 ≤ a) (h : 0 < cdiv a b) : 0 < b := by
  by_contra hb
  have := Int.tdiv_nonpos ha (show b ≤ 0 by omega)
  unfold cdiv at h
  omega

theorem cdiv_pos_num (a b : Int) (hb : 0 < b) (h : 0 < cdiv a b) : 0 < a := by
  by_contra ha
  have h1 := Int.tdiv_nonneg (show 0 ≤ -a by omega) (show 0 ≤ b by omega)
  rw [Int.neg_tdiv] at h1
  unfold cdiv at h
  omega

/-- The fine and the coarse index of a cell inside the margins lie in the first and in
the second half of the slab of the hypothesis. -/
theorem slab_bounds (p : DenseParams) (u : UpdateParams)
    (hw : u.disparity_space_width = cdiv p.img_width p.smoothing_radius)
    (hh : u.disparity_space_height =
      cdiv (cdiv p.img_height p.vertical_sampling) STEREO_DENSE_SMOOTH_VERTICAL)
    (k yy xx x_left : Int) (hx : 0 ≤ x_left) (hxx : xx = cdiv x_left p.smoothing_radius)
    (hy : 1 < yy ∧ yy < cdiv (cdiv p.img_height p.vertical_sampling) STEREO_DENSE_SMOOTH_VERTICAL - 2)
    (hx2 : 1 < xx ∧ xx < cdiv p.img_width p.smoothing_radius - 2) :
    (2 * k * (u.disparity_space_width * u.disparity_space_height) ≤ fine_index_written p u k yy xx ∧
      fine_index_written p u k yy xx <
        2 * k * (u.disparity_space_width * u.disparity_space_height) +
          u.disparity_space_width * u.disparity_space_height) ∧
    (2 * k * (u.disparity_space_width * u.disparity_space_height) +
        u.disparity_space_width * u.disparity_space_height ≤ coarse_index_written p u k yy xx ∧
      coarse_index_written p u k yy xx <
        2 * (k + 1) * (u.disparity_space_width * u.disparity_space_height)) := by
  have hr : 0 < p.smoothing_radius := cdiv_pos_args x_left _ hx (by omega)
  have hiw : 0 < p.img_width := cdiv_pos_num _ _ hr (by omega)
  have h3 := coarse_stride_eq p.img_width p.smoothing_radius (by omega) hr
  unfold fine_index_written coarse_index_written
  simp only []
  rw [h3, hw, hh]
  generalize cdiv p.img_width p.smoothing_radius = W at *
  generalize cdiv (cdiv p.img_height p.vertical_sampling) STEREO_DENSE_SMOOTH_VERTICAL = H at *
  rw [cdiv_eq_ediv W 2 (by omega) (by omega), cdiv_eq_ediv yy 2 (by omega) (by omega),
    cdiv_eq_ediv xx 2 (by omega) (by omega)]
  have e1 : yy * W ≤ (H - 3) * W := Int.mul_le_mul_of_nonneg_right (by omega) (by omega)
  have e2 : 0 ≤ yy * W := Int.mul_nonneg (by omega) (by omega)
  have e3 : yy / 2 * (W / 2) ≤ yy * W :=
    Int.mul_le_mul (by omega) (by omega) (by omega) (by omega)
  have e4 : 0 ≤ yy / 2 * (W / 2) := Int.mul_nonneg (by omega) (by omega)
  have e5 : (H - 3) * W = W * H - 3 * W := by ring
  have e6 : k * (W * H) * 2 = 2 * k * (W * H) := by ring
  have e7 : 2 * (k + 1) * (W * H) = 2 * k * (W * H) + 2 * (W * H) := by ring
  rw [e6, e7]
  refine ⟨⟨by omega, by omega⟩, by omega, by omega⟩

theorem slab_disjoint (u : UpdateParams) (k j i : Int) (hk : in_slab u k i)
    (hj : in_slab u j i) : k = j := by
  unfold in_slab at hk hj
  generalize u.disparity_space_width * u.disparity_space_height = P at hk hj
  have hP : 0 < P := by
    by_contra hP
    have : 2 * (k + 1) * P = 2 * k * P + 2 * P := by ring
    omega
  rcases lt_trichotomy k j with h | h | h
  · exfalso
    have h1 : 2 * (k + 1) * P ≤ 2 * j * P :=
      Int.mul_le_mul_of_nonneg_right (by omega) (by omega)
    omega
  · exact h
  · exfalso
    have h1 : 2 * (j + 1) * P ≤ 2 * k * P :=
      Int.mul_le_mul_of_nonneg_right (by omega) (by omega)
    omega

theorem hypothesis_cells_in_slab (p : DenseParams) (u : UpdateParams)
    (hw : u.disparity_space_width = cdiv p.img_width p.smoothing_radius)
    (hh : u.disparity_space_height =
      cdiv (cdiv p.img_height p.vertical_sampling) STEREO_DENSE_SMOOTH_VERTICAL)
    (k : Int) (c : Int × Int × Int) (h : c ∈ hypothesis_cells p u k) :
    (2 * k * (u.disparity_space_width * u.disparity_space_height) ≤ c.1 ∧
      c.1 < 2 * k * (u.disparity_space_width * u.disparity_space_height) +
        u.disparity_space_width * u.disparity_space_height) ∧
    (2 * k * (u.disparity_space_width * u.disparity_space_height) +
        u.disparity_space_width * u.disparity_space_height ≤ c.2.1 ∧
      c.2.1 < 2 * (k + 1) * (u.disparity_space_width * u.disparity_space_height)) := by
  obtain ⟨yy, xx, x_left, hx, hxx, hy, hx2, e1, e2⟩ := mem_hypothesis_cells p u k c h
  rw [e1, e2]
  exact slab_bounds p u hw hh k yy xx x_left hx hxx hy hx2

/-- Hypothesis `k` leaves every cell outside its slab as it was. -/
theorem hypothesis_add_outside (p : DenseParams) (u : UpdateParams)
    (hw : u.disparity_space_width = cdiv p.img_width p.smoothing_radius)
    (hh : u.disparity_space_height =
      cdiv (cdiv p.img_height p.vertical_sampling) STEREO_DENSE_SMOOTH_VERTICAL)
    (k i v : Int) (hi : ¬ in_slab u k i) : hypothesis_add p u i v k = v := by
  unfold hypothesis_add
  refine foldl_invariant (fun w => w = v) _ _ v rfl ?_
  intro w c hc hwv
  have hb := hypothesis_cells_in_slab p u hw hh k c hc
  have e : 2 * (k + 1) * (u.disparity_space_width * u.disparity_space_height) =
      2 * k * (u.disparity_space_width * u.disparity_space_height) +
        2 * (u.disparity_space_width * u.disparity_space_height) := by ring
  unfold in_slab at hi
  rw [e] at hi hb
  show cell_add c i w = v
  unfold cell_add
  simp only []
  rw [if_neg (by omega), if_neg (by omega)]
  exact hwv

/-- With the hypotheses of `order` all different, a cell of the slab of one of them ends
with the value this hypothesis alone gives it, and any other cell is left as it was. -/
theorem foldl_hypothesis_add (p : DenseParams) (u : UpdateParams)
    (hw : u.disparity_space_width = cdiv p.img_width p.smoothing_radius)
    (hh : u.disparity_space_height =
      cdiv (cdiv p.img_height p.vertical_sampling) STEREO_DENSE_SMOOTH_VERTICAL) (i : Int) :
    ∀ (order : List Int) (v : Int), order.Nodup →
      (∀ k ∈ order, in_slab u k i → order.foldl (hypothesis_add p u i) v = hypothesis_add p u i v k) ∧
      ((∀ k ∈ order, ¬ in_slab u k i) → order.foldl (hypothesis_add p u i) v = v) := by
  intro order
  induction order with
  | nil =>
    intro v _
    exact ⟨fun k hk => absurd hk (List.not_mem_nil k), fun _ => rfl⟩
  | cons j order ih =>
    intro v hnd
    rw [List.nodup_cons] at hnd
    constructor
    · intro k hk hs
      rw [List.foldl_cons]
      rcases List.mem_cons.mp hk with hkj | hko
      · rw [← hkj]
        refine (ih _ hnd.2).2 ?_
        intro m hm hms
        have hkm := slab_disjoint u k m i hs hms
        rw [← hkm, hkj] at hm
        exact hnd.1 hm
      · have hj : ¬ in_slab u j i := by
          intro hjs
          have hkj := slab_disjoint u k j i hs hjs
          rw [hkj] at hko
          exact hnd.1 hko
        rw [hypothesis_add_outside p u hw hh j i v hj]
        exact (ih v hnd.2).1 k hko hs
    · intro hall
      rw [List.foldl_cons, hypothesis_add_outside p u hw hh j i v (hall j (List.mem_cons_self _ _))]
      exact (ih v hnd.2).2 (fun k hk => hall k (List.mem_cons_of_mem _ hk))

/-- C23: when the grid dimensions are those `update_disparity_space` derives from the
image, every accumulation of hypothesis `k` writes its fine cell in the first half
`[2kP, 2kP + P)` and its coarse cell in the second half `[2kP + P, 2(k+1)P)` of the slab
of `k`; hence, for every order of the hypotheses `0 .. no_of_disparities - 1`, each cell
of the slab of `k` ends with the value that hypothesis `k` alone gives it from the
cleared space, and the resulting space is that of the increasing order. -/
theorem disparity_space_slabs (p : DenseParams) (u : UpdateParams)
    (hw : u.disparity_space_width = cdiv p.img_width p.smoothing_radius)
    (hh : u.disparity_space_height =
      cdiv (cdiv p.img_height p.vertical_sampling) STEREO_DENSE_SMOOTH_VERTICAL)
    (disparity_space : Int → Int) :
    (∀ (k : Int) (c : Int × Int × Int), c ∈ hypothesis_cells p u k →
      (2 * k * (u.disparity_space_width * u.disparity_space_height) ≤ c.1 ∧
        c.1 < 2 * k * (u.disparity_space_width * u.disparity_space_height) +
          u.disparity_space_width * u.disparity_space_height) ∧
      (2 * k * (u.disparity_space_width * u.disparity_space_height) +
          u.disparity_space_width * u.disparity_space_height ≤ c.2.1 ∧
        c.2.1 < 2 * (k + 1) * (u.disparity_space_width * u.disparity_space_height))) ∧
    (∀ order : List Int, order.Perm (upto 0 (update_no_of_disparities p u)) →
      (∀ k ∈ order, ∀ i : Int, in_slab u k i →
        update_disparity_space_in p u disparity_space order i =
          update_hypothesis p u (memset0 disparity_space (update_no_of_disparities p u *
            (u.disparity_space_width * u.disparity_space_height) * 2)) k i) ∧
      update_disparity_space_in p u disparity_space order =
        update_disparity_space p u disparity_space) := by
  refine ⟨hypothesis_cells_in_slab p u hw hh, ?_⟩
  have key : ∀ order : List Int, order.Perm (upto 0 (update_no_of_disparities p u)) →
      ∀ i : Int, (∀ k ∈ order, in_slab u k i →
        update_disparity_space_in p u disparity_space order i =
          update_hypothesis p u (memset0 disparity_space (update_no_of_disparities p u *
            (u.disparity_space_width * u.disparity_space_height) * 2)) k i) ∧
        ((∀ k ∈ order, ¬ in_slab u k i) →
          update_disparity_space_in p u disparity_space order i =
            memset0 disparity_space (update_no_of_disparities p u *
              (u.disparity_space_width * u.disparity_space_height) * 2) i) := by
    intro order hperm i
    have hnd : order.Nodup := hperm.nodup_iff.mpr (nodup_upto _ _)
    have h := foldl_hypothesis_add p u hw hh i order
      (memset0 disparity_space (update_no_of_disparities p u *
        (u.disparity_space_width * u.disparity_space_height) * 2) i) hnd
    unfold update_disparity_space_in
    rw [foldl_update_hypothesis_apply]
    refine ⟨fun k hk hs => ?_, h.2⟩
    rw [update_hypothesis_apply]
    exact h.1 k hk hs
  intro order hperm
  refine ⟨fun k hk i hs => (key order hperm i).1 k hk hs, ?_⟩
  funext i
  have h1 := key order hperm i
  have h2 := key _ (List.Perm.refl (upto 0 (update_no_of_disparities p u))) i
  unfold update_disparity_space
  by_cases hex : ∃ k ∈ order, in_slab u k i
  · obtain ⟨k, hk, hs⟩ := hex
    rw [h1.1 k hk hs, h2.1 k (hperm.mem_iff.mp hk) hs]
  · have hno : ∀ k ∈ order, ¬ in_slab u k i := fun k hk hs => hex ⟨k, hk, hs⟩
    rw [h1.2 hno, h2.2 (fun k hk => hno k (hperm.mem_iff.mpr hk))]

theorem disparity_space_slabs_witness :
    update_disparity_space_in slabImages slabParams (fun _ => 7) [1, 0] =
      update_disparity_space slabImages slabParams (fun _ => 7) :=
  ((disparity_space_slabs slabImages slabParams (by decide) (by decide) (fun _ => 7)).2 [1, 0]
    (by decide)).2

/-- The coarse part of `local_correlation` is the 3 x 3 sum around `coarse_index_read`
with the row stride `disparity_space_width / 2`. -/
theorem local_correlation_coarse (disparity_space : Int → Int)
    (disparity_space_width disparity_space_height disparity_index x y : Int) :
    ∃ inner : Int,
      local_correlation disparity_space disparity_space_width disparity_space_height
          disparity_index x y =
        u32 (inner * 4 + u32 (
          disparity_space (coarse_index_read disparity_space_width disparity_space_height
            disparity_index x y) +
          disparity_space (coarse_index_read disparity_space_width disparity_space_height
            disparity_index x y - 1) +
          disparity_space (coarse_index_read disparity_space_width disparity_space_height
            disparity_index x y + 1) +
          disparity_space (coarse_index_read disparity_space_width disparity_space_height
            disparity_index x y - cdiv disparity_space_width 2) +
          disparity_space (coarse_index_read disparity_space_width disparity_space_height
            disparity_index x y + cdiv disparity_space_width 2) +
          disparity_space (coarse_index_read disparity_space_width disparity_space_height
            disparity_index x y + cdiv disparity_space_width 2 - 1) +
          disparity_space (coarse_index_read disparity_space_width disparity_space_height
            disparity_index x y + cdiv disparity_space_width 2 + 1) +
          disparity_space (coarse_index_read disparity_space_width disparity_space_height
            disparity_index x y - cdiv disparity_space_width 2 - 1) +
          disparity_space (coarse_index_read disparity_space_width disparity_space_height
            disparity_index x y - cdiv disparity_space_width 2 + 1))) :=
  ⟨_, rfl⟩

/-- C29: for positive `img_width` and `smoothing_radius` the row stride
`img_width / (smoothing_radius * 2)` with which `update_disparity_space` writes the coarse
grid equals the row stride `(img_width / smoothing_radius) / 2` with which
`disparity_map_from_disparity_space` reads it, and for every map pixel `(x, y)` - the
interior ones in particular - and every hypothesis the coarse index read is the index
written for the coarse cell of the fine cell `(y, x)`. -/
theorem coarse_stride_consistent (p : DenseParams) (u : UpdateParams)
    (hpos : 0 < p.img_width ∧ 0 < p.smoothing_radius)
    (hw : u.disparity_space_width = cdiv p.img_width p.smoothing_radius) :
    cdiv p.img_width (p.smoothing_radius * 2) = cdiv (cdiv p.img_width p.smoothing_radius) 2 ∧
    ∀ disparity_index x y : Int,
      coarse_index_read u.disparity_space_width u.disparity_space_height disparity_index x y =
        coarse_index_written p u disparity_index y x := by
  have h := coarse_stride_eq p.img_width p.smoothing_radius (by omega) hpos.2
  refine ⟨h, ?_⟩
  intro disparity_index x y
  unfold coarse_index_read coarse_index_written
  simp only []
  rw [h, hw]
  ring

theorem coarse_stride_consistent_witness :
    coarse_index_read 6 6 1 3 2 = coarse_index_written slabImages slabParams 1 2 3 :=
  (coarse_stride_consistent slabImages slabParams (by decide) (by decide)).2 1 3 2

/-! ## The integer square root of make_map_int -/

/-- The square root loop keeps `r * r + v`, and with more fuel than `v` it stops with
the loop condition `v >= 2 * r + 1` false. -/
theorem isqrt_loop_spec : ∀ (fuel : Nat) (r v : Int), 0 ≤ r → 0 ≤ v → v < (fuel : Int) →
    (isqrt_loop fuel r v).1 * (isqrt_loop fuel r v).1 + (isqrt_loop fuel r v).2 = r * r + v ∧
    0 ≤ (isqrt_loop fuel r v).2 ∧
    (isqrt_loop fuel r v).2 < 2 * (isqrt_loop fuel r v).1 + 1 := by
  intro fuel
  induction fuel with
  | zero => intro r v _ hv hf; simp at hf; omega
  | succ fuel ih =>
    intro r v hr hv hf
    simp only [isqrt_loop]
    by_cases h : v ≥ 2 * r + 1
    · rw [if_pos h]
      have h1 := ih (r + 1) (v - (2 * r + 1)) (by omega) (by omega) (by push_cast at hf; omega)
      refine ⟨?_, h1.2⟩
      rw [h1.1]
      ring
    · rw [if_neg h]
      exact ⟨rfl, hv, by omega⟩

/-- C24: for every `v ≥ 0` the successive-subtraction loop of `make_map_int` ends - any
number of iterations above `v` gives the same result, with the loop condition false - and
leaves `radial_dist_rectified = r` with `r * r ≤ v < (r + 1) * (r + 1)`. -/
theorem int_sqrt_is_square_root (v : Int) (hv : 0 ≤ v) :
    (∀ fuel : Nat, v.toNat + 1 ≤ fuel →
      (isqrt_loop fuel 0 v).1 = int_sqrt v ∧
      ¬ ((isqrt_loop fuel 0 v).2 ≥ 2 * (isqrt_loop fuel 0 v).1 + 1)) ∧
    int_sqrt v * int_sqrt v ≤ v ∧ v < (int_sqrt v + 1) * (int_sqrt v + 1) := by
  have key : ∀ fuel : Nat, v.toNat + 1 ≤ fuel →
      ((isqrt_loop fuel 0 v).1 * (isqrt_loop fuel 0 v).1 ≤ v ∧
        v < ((isqrt_loop fuel 0 v).1 + 1) * ((isqrt_loop fuel 0 v).1 + 1)) ∧
      0 ≤ (isqrt_loop fuel 0 v).1 ∧
      ¬ ((isqrt_loop fuel 0 v).2 ≥ 2 * (isqrt_loop fuel 0 v).1 + 1) := by
    intro fuel hf
    have h := isqrt_loop_spec fuel 0 v (le_refl 0) hv (by omega)
    have h0 := isqrt_loop_ge fuel 0 v
    have e : ((isqrt_loop fuel 0 v).1 + 1) * ((isqrt_loop fuel 0 v).1 + 1) =
        (isqrt_loop fuel 0 v).1 * (isqrt_loop fuel 0 v).1 + 2 * (isqrt_loop fuel 0 v).1 + 1 := by
      ring
    rw [e]
    refine ⟨⟨by omega, by omega⟩, h0, by omega⟩
  have hs := key (v.toNat + 1) (le_refl _)
  refine ⟨?_, hs.1⟩
  intro fuel hf
  have hk := key fuel hf
  refine ⟨?_, hk.2.2⟩
  have a1 := hk.1
  have a2 := hs.1
  have a3 := hk.2.1
  have a4 := hs.2.1
  show (isqrt_loop fuel 0 v).1 = (isqrt_loop (v.toNat + 1) 0 v).1
  generalize (isqrt_loop fuel 0 v).1 = a at a1 a3
  generalize (isqrt_loop (v.toNat + 1) 0 v).1 = b at a2 a4
  rcases lt_trichotomy a b with h | h | h
  · exfalso
    have : (a + 1) * (a + 1) ≤ b * b := Int.mul_le_mul (by omega) (by omega) (by omega) (by omega)
    omega
  · exact h
  · exfalso
    have : (b + 1) * (b + 1) ≤ a * a := Int.mul_le_mul (by omega) (by omega) (by omega) (by omega)
    omega

theorem int_sqrt_is_square_root_witness :
    int_sqrt 17 * int_sqrt 17 ≤ 17 ∧ 17 < (int_sqrt 17 + 1) * (int_sqrt 17 + 1) :=
  (int_sqrt_is_square_root 17 (by decide)).2

/-! ## The sums of update_sums -/

/-- C25: on a row of ten pixels whose primary channel is 100 everywhere, `update_sums`
leaves `row_sum[0] = 100`, `row_sum[1] = 100` and `row_sum[9] = 900` - entry `x ≥ 1`
holds the sum of the pixels `0 .. x - 1`, not `0 .. x` - and returns
`row_sum[9] / (10 * 2) = 45`, not the mean 100 of the row. -/
theorem update_sums_lags_and_halves :
    (update_sums (blankSvs 10 1) 0 0 (fun _ => 100)).2.row_sum 0 = 100 ∧
    (update_sums (blankSvs 10 1) 0 0 (fun _ => 100)).2.row_sum 1 = 100 ∧
    (update_sums (blankSvs 10 1) 0 0 (fun _ => 100)).2.row_sum 9 = 900 ∧
    (update_sums (blankSvs 10 1) 0 0 (fun _ => 100)).1 = 45 := by
  with_unfolding_all decide

/-! ## The zones of filter -/

theorem filter_hemifield_zone (hdr : Header) (n maxd tol en : Int) (st : FilterState) (hf : Int) :
    (filter_hemifield hdr n maxd tol en st hf).z =
      filter_zone st.s.imgWidth st.s.imgHeight hf st.z := by
  unfold filter_hemifield
  simp only
  split_ifs <;> rfl

/-- The zones of the four hemifields of a call of `filter`. -/
theorem filter_after_zones (hdr : Header) (s : Svs) (n maxd tol en : Int) :
    (filter_after hdr s n maxd tol en 1).z = ⟨0, 0, s.imgWidth / 2, s.imgHeight⟩ ∧
    (filter_after hdr s n maxd tol en 2).z = ⟨s.imgWidth / 2, 0, s.imgWidth, s.imgHeight⟩ ∧
    (filter_after hdr s n maxd tol en 3).z = ⟨0, 0, s.imgWidth, s.imgHeight / 2⟩ ∧
    (filter_after hdr s n maxd tol en 4).z = ⟨0, s.imgHeight / 2, s.imgWidth, s.imgHeight⟩ := by
  have hs := fun k => (filter_after_same hdr s n maxd tol en k).1
  have h1 : (filter_after hdr s n maxd tol en 1).z = ⟨0, 0, s.imgWidth / 2, s.imgHeight⟩ := by
    rw [filter_after_succ, filter_hemifield_zone, (hs 0).1, (hs 0).2.1]
    rfl
  have h2 : (filter_after hdr s n maxd tol en 2).z =
      ⟨s.imgWidth / 2, 0, s.imgWidth, s.imgHeight⟩ := by
    rw [filter_after_succ, filter_hemifield_zone, (hs 1).1, (hs 1).2.1, h1]
    rfl
  have h3 : (filter_after hdr s n maxd tol en 3).z = ⟨0, 0, s.imgWidth, s.imgHeight / 2⟩ := by
    rw [filter_after_succ, filter_hemifield_zone, (hs 2).1, (hs 2).2.1, h2]
    rfl
  have h4 : (filter_after hdr s n maxd tol en 4).z =
      ⟨0, s.imgHeight / 2, s.imgWidth, s.imgHeight⟩ := by
    rw [filter_after_succ, filter_hemifield_zone, (hs 3).1, (hs 3).2.1, h3]
    rfl
  exact ⟨h1, h2, h3, h4⟩

/-- C26 (counterexample): in a 100 x 100 image the match at `(50, 50)` has
`0 < x < imgWidth` and `0 < y < imgHeight`, yet none of the four membership tests holds
for it, and `filter` sets its probability to 0 although its disparity is that of every
other match. -/
theorem filter_centre_in_no_zone :
    (0 < centreScenario.svs_matches (2 * 4 + 1) ∧
      centreScenario.svs_matches (2 * 4 + 1) < centreScenario.imgWidth) ∧
    (0 < centreScenario.svs_matches (2 * 4 + 2) ∧
      centreScenario.svs_matches (2 * 4 + 2) < centreScenario.imgHeight) ∧
    (∀ hf, hf < 4 → ¬ in_zone centreScenario.svs_matches
      (filter_after exampleHeader centreScenario 3 20 3 0 (hf + 1)).z 2) ∧
    centreScenario.svs_matches (2 * 4) = 500 ∧
    (filter exampleHeader centreScenario 3 20 3 0).svs_matches (2 * 4) = 0 := by
  with_unfolding_all decide

/-- C26 (amended): for every match `i` whose position `(x, y)` has `0 < x < imgWidth` and
`0 < y < imgHeight`, at least one of the four membership tests of `filter` holds unless
`x = imgWidth / 2` and `y = imgHeight / 2`; the tests are strict on both sides, so a
match at that position is in no zone, and `filter` sets its probability to 0 when
`i < no_of_possible_matches`. -/
theorem filter_zones_cover_off_centre (hdr : Header) (s : Svs)
    (no_of_possible_matches max_disparity_pixels tolerance enable_secondary : Int) (i : Int)
    (hx : 0 < s.svs_matches (i * 4 + 1) ∧ s.svs_matches (i * 4 + 1) < s.imgWidth)
    (hy : 0 < s.svs_matches (i * 4 + 2) ∧ s.svs_matches (i * 4 + 2) < s.imgHeight) :
    ((s.svs_matches (i * 4 + 1) ≠ s.imgWidth / 2 ∨ s.svs_matches (i * 4 + 2) ≠ s.imgHeight / 2) →
      ∃ hf, hf < 4 ∧ in_zone s.svs_matches
        (filter_after hdr s no_of_possible_matches max_disparity_pixels tolerance
          enable_secondary (hf + 1)).z i) ∧
    ((s.svs_matches (i * 4 + 1) = s.imgWidth / 2 ∧ s.svs_matches (i * 4 + 2) = s.imgHeight / 2) →
      (∀ hf, hf < 4 → ¬ in_zone s.svs_matches
        (filter_after hdr s no_of_possible_matches max_disparity_pixels tolerance
          enable_secondary (hf + 1)).z i) ∧
      ((0 ≤ i ∧ i < no_of_possible_matches) →
        (filter hdr s no_of_possible_matches max_disparity_pixels tolerance
          enable_secondary).svs_matches (i * 4) = 0)) := by
  obtain ⟨z1, z2, z3, z4⟩ := filter_after_zones hdr s no_of_possible_matches
    max_disparity_pixels tolerance enable_secondary
  constructor
  · intro hc
    by_cases h1 : s.svs_matches (i * 4 + 1) < s.imgWidth / 2
    · refine ⟨0, by omega, ?_⟩
      rw [z1]
      exact ⟨⟨hx.1, h1⟩, hy⟩
    by_cases h2 : s.svs_matches (i * 4 + 1) > s.imgWidth / 2
    · refine ⟨1, by omega, ?_⟩
      rw [z2]
      exact ⟨⟨h2, hx.2⟩, hy⟩
    by_cases h3 : s.svs_matches (i * 4 + 2) < s.imgHeight / 2
    · refine ⟨2, by omega, ?_⟩
      rw [z3]
      exact ⟨hx, ⟨hy.1, h3⟩⟩
    · refine ⟨3, by omega, ?_⟩
      rw [z4]
      exact ⟨hx, ⟨by show s.svs_matches (i * 4 + 2) > s.imgHeight / 2; omega, hy.2⟩⟩
  · intro hc
    have hno : ∀ hf, hf < 4 → ¬ in_zone s.svs_matches
        (filter_after hdr s no_of_possible_matches max_disparity_pixels tolerance
          enable_secondary (hf + 1)).z i := by
      intro hf hlt hin
      have h4 : hf = 0 ∨ hf = 1 ∨ hf = 2 ∨ hf = 3 := by omega
      unfold in_zone at hin
      rcases h4 with rfl | rfl | rfl | rfl
      · rw [z1] at hin
        have := hin.1.2
        simp only at this
        omega
      · rw [z2] at hin
        have := hin.1.1
        simp only at this
        omega
      · rw [z3] at hin
        have := hin.2.2
        simp only at this
        omega
      · rw [z4] at hin
        have := hin.2.1
        simp only at this
        omega
    refine ⟨hno, fun hi => ?_⟩
    refine (filter_probability hdr s _ _ _ _ i).1 ⟨hi, fun hf hlt hacc => hno hf hlt ?_⟩
    unfold filter_accepted_by filter_accepts at hacc
    exact hacc.1

theorem filter_zones_cover_off_centre_witness :
    ∃ hf, hf < 4 ∧ in_zone filterScenario.svs_matches
      (filter_after exampleHeader filterScenario 3 20 3 0 (hf + 1)).z 2 :=
  (filter_zones_cover_off_centre exampleHeader filterScenario 3 20 3 0 2 (by decide)
    (by decide)).1 (by decide)

/-! ## Non-maximal suppression -/

/-- The inner loop of `non_max` from `r = a`: it zeroes the cells `i + a .. i + t - 1`,
each below `v`, and either reaches `hi` with cell `i` kept or zeroes cell `i`; no other
cell changes. -/
theorem non_max_inner_spec (i v hi : Int) :
    ∀ (n : Nat) (a : Int), 1 ≤ a → (hi - a).toNat = n → ∀ rp : Int → Int,
      ∃ t, (a ≤ t ∧ t ≤ max a hi) ∧
        (∀ r, a ≤ r → r < t → non_max_inner i v (upto a hi) rp (i + r) = 0 ∧ rp (i + r) < v) ∧
        (∀ j, ¬ (i + a ≤ j ∧ j < i + t) → j ≠ i → non_max_inner i v (upto a hi) rp j = rp j) ∧
        ((non_max_inner i v (upto a hi) rp i = rp i ∧ hi ≤ t) ∨
          non_max_inner i v (upto a hi) rp i = 0) := by
  intro n
  induction n with
  | zero =>
    intro a _ hn rp
    rw [upto_nil a hi (by omega)]
    exact ⟨a, ⟨le_refl a, le_max_left a hi⟩, fun r h1 h2 => absurd h2 (by omega),
      fun j _ _ => rfl, Or.inl ⟨rfl, by omega⟩⟩
  | succ n ih =>
    intro a ha hn rp
    rw [upto_cons a hi (by omega)]
    simp only [non_max_inner]
    by_cases hlt : rp (i + a) < v
    · rw [if_pos hlt]
      obtain ⟨t, ht, h1, h2, h3⟩ := ih (a + 1) (by omega) (by omega)
        (Function.update rp (i + a) 0)
      refine ⟨t, ⟨by omega, by omega⟩, ?_, ?_, ?_⟩
      · intro r hr1 hr2
        by_cases hra : r = a
        · subst hra
          rw [h2 (i + r) (by omega) (by omega), Function.update_same]
          exact ⟨rfl, hlt⟩
        · have h := h1 r (by omega) hr2
          rw [Function.update_noteq (by omega)] at h
          exact h
      · intro j hj hji
        rw [h2 j (by omega) hji, Function.update_noteq (by omega)]
      · rw [Function.update_noteq (by omega)] at h3
        exact h3
    · rw [if_neg hlt]
      refine ⟨a, ⟨le_refl a, le_max_left a hi⟩, fun r h1 h2 => absurd h2 (by omega), ?_,
        Or.inr (Function.update_same _ _ _)⟩
      intro j _ hji
      exact Function.update_noteq hji _ _

/-- One iteration of the outer loop of `non_max` moves the invariant from `k` to `k + 1`. -/
theorem non_max_step_inv (rp : Int → Int) (hrp : ∀ j, 0 ≤ rp j) (av R : Int) (hR : 1 ≤ R)
    (k : Int) (hk : 4 ≤ k) (cur : Int → Int) (h : NonMaxInv rp av R k cur) :
    NonMaxInv rp av R (k + 1) (non_max_step R av cur k) := by
  obtain ⟨I1, I2, I3⟩ := h
  unfold non_max_step
  simp only []
  by_cases hv : (if cur k < av then Function.update cur k 0 else cur) k > 0
  · rw [if_pos hv]
    have hav : ¬ cur k < av := by
      intro hc
      rw [if_pos hc, Function.update_same] at hv
      omega
    rw [if_neg hav] at hv ⊢
    have hkk : cur k = rp k := by
      rcases I1 k with h0 | h0
      · omega
      · exact h0
    have hall : ∀ j, k ≤ j → cur j = rp j := by
      intro j hj
      rcases I3 j hj with h0 | h0
      · exact h0
      · have := h0 k (le_refl k) hj
        omega
    obtain ⟨t, ht, h1, h2, h3⟩ := non_max_inner_spec k (cur k) R (R - 1).toNat 1 (le_refl 1)
      rfl cur
    rw [max_eq_right hR] at ht
    refine ⟨?_, ?_, ?_⟩
    · intro j
      by_cases hjk : j = k
      · subst hjk
        rcases h3 with h3 | h3
        · right
          rw [h3.1, hkk]
        · left
          exact h3
      · by_cases hz : k + 1 ≤ j ∧ j < k + t
        · left
          have := (h1 (j - k) (by omega) (by omega)).1
          rw [show k + (j - k) = j by ring] at this
          exact this
        · rw [h2 j hz hjk]
          exact I1 j
    · intro i hi4 hik hne
      by_cases hik2 : i = k
      · subst hik2
        rcases h3 with h3 | h3
        · refine ⟨by omega, ?_⟩
          intro r hr1 hr2
          have := h1 r hr1 (by omega)
          rw [hall (i + r) (by omega)] at this
          exact ⟨by omega, this.1⟩
        · exact absurd h3 hne
      · rw [h2 i (by omega) hik2] at hne
        obtain ⟨ha, hb⟩ := I2 i hi4 (by omega) hne
        refine ⟨ha, ?_⟩
        intro r hr1 hr2
        refine ⟨(hb r hr1 hr2).1, ?_⟩
        have hc := (hb r hr1 hr2).2
        have hirk : i + r ≠ k := by
          intro e
          rw [e] at hc
          omega
        by_cases hz : k + 1 ≤ i + r ∧ i + r < k + t
        · have := (h1 (i + r - k) (by omega) (by omega)).1
          rw [show k + (i + r - k) = i + r by ring] at this
          exact this
        · rw [h2 (i + r) hz hirk]
          exact hc
    · intro j hj
      by_cases hz : j < k + t
      · right
        intro m hm1 hm2
        have := (h1 (m - k) (by omega) (by omega)).1
        rw [show k + (m - k) = m by ring] at this
        exact this
      · left
        rw [h2 j (by omega) (by omega)]
        exact hall j (by omega)
  · rw [if_neg hv]
    have hkz : (if cur k < av then Function.update cur k 0 else cur) k = 0 := by
      have h0 : 0 ≤ (if cur k < av then Function.update cur k 0 else cur) k := by
        split
        · rw [Function.update_same]
        · rcases I1 k with h0 | h0
          · omega
          · rw [h0]
            exact hrp k
      omega
    have hoth : ∀ j, j ≠ k → (if cur k < av then Function.update cur k 0 else cur) j = cur j := by
      intro j hj
      split
      · exact Function.update_noteq hj _ _
      · rfl
    refine ⟨?_, ?_, ?_⟩
    · intro j
      by_cases hjk : j = k
      · left
        rw [hjk]
        exact hkz
      · rw [hoth j hjk]
        exact I1 j
    · intro i hi4 hik hne
      by_cases hik2 : i = k
      · rw [hik2] at hne
        exact absurd hkz hne
      · rw [hoth i hik2] at hne
        obtain ⟨ha, hb⟩ := I2 i hi4 (by omega) hne
        refine ⟨ha, ?_⟩
        intro r hr1 hr2
        refine ⟨(hb r hr1 hr2).1, ?_⟩
        by_cases hirk : i + r = k
        · rw [hirk]
          exact hkz
        · rw [hoth (i + r) hirk]
          exact (hb r hr1 hr2).2
    · intro j hj
      rw [hoth j (by omega)]
      rcases I3 j (by omega) with h0 | h0
      · left
        exact h0
      · right
        intro m hm1 hm2
        rw [hoth m (by omega)]
        exact h0 m (by omega) hm2

/-- The invariant holds after the outer loop over `[4, hi)`. -/
theorem non_max_loop_inv (rp : Int → Int) (hrp : ∀ j, 0 ≤ rp j) (av R : Int) (hR : 1 ≤ R) :
    ∀ (n : Nat) (hi : Int), hi = 4 + (n : Int) →
      NonMaxInv rp av R hi ((upto 4 hi).foldl (non_max_step R av) rp) := by
  intro n
  induction n with
  | zero =>
    intro hi hhi
    rw [upto_nil 4 hi (by omega)]
    exact ⟨fun j => Or.inr rfl, fun i h1 h2 => absurd h2 (by omega), fun j _ => Or.inl rfl⟩
  | succ n ih =>
    intro hi hhi
    have e : hi = (hi - 1) + 1 := by ring
    rw [e, upto_snoc 4 (hi - 1) (by push_cast at hhi; omega), List.foldl_append]
    exact non_max_step_inv rp hrp av R hR (hi - 1) (by push_cast at hhi; omega) _
      (ih (hi - 1) (by push_cast at hhi; omega))

theorem arrayOf_nonneg (l : List Int) (h : ∀ x ∈ l, 0 ≤ x) (j : Int) : 0 ≤ arrayOf l j := by
  unfold arrayOf
  split
  · exact le_refl 0
  · rw [List.getD_eq_getElem?_getD]
    cases hg : l[j.toNat]? with
    | none => exact le_refl 0
    | some x => exact h x (List.getElem?_mem hg)

/-- C27: for a response array of `unsigned int` values, an inhibition radius `R ≥ 1` and
any `min_response`, with a row or column length other than 8 (the source divides by the
length minus 8), after `non_max` every entry is 0 or equal to its input value, and for
every index `i` in `[4, length - R)` whose output is non-zero: the outputs at
`i + 1 .. i + R - 1` are all zero, the input response at `i` was at least the adaptive
threshold, it was strictly greater than the input responses at `i + 1 .. i + R - 1`, and
every later non-zero output is at least `R` further. -/
theorem non_max_suppression (s : Svs) (cols inhibition_radius min_response : Int)
    (hrp : ∀ j, 0 ≤ s.row_peaks j) (hR : 1 ≤ inhibition_radius)
    (_hlen : (if cols ≠ 0 then s.imgHeight else s.imgWidth) ≠ 8) :
    (∀ j, (non_max s cols inhibition_radius min_response).row_peaks j = 0 ∨
      (non_max s cols inhibition_radius min_response).row_peaks j = s.row_peaks j) ∧
    (∀ i, 4 ≤ i → i < (if cols ≠ 0 then s.imgHeight else s.imgWidth) - inhibition_radius →
      (non_max s cols inhibition_radius min_response).row_peaks i ≠ 0 →
      (∀ r, 1 ≤ r → r < inhibition_radius →
        (non_max s cols inhibition_radius min_response).row_peaks (i + r) = 0) ∧
      non_max_threshold s.row_peaks (if cols ≠ 0 then s.imgHeight else s.imgWidth)
        min_response ≤ s.row_peaks i ∧
      (∀ r, 1 ≤ r → r < inhibition_radius → s.row_peaks (i + r) < s.row_peaks i) ∧
      (∀ j, i < j → (non_max s cols inhibition_radius min_response).row_peaks j ≠ 0 →
        i + inhibition_radius ≤ j)) := by
  show (∀ j, non_max_peaks s.row_peaks _ inhibition_radius min_response j = 0 ∨
      non_max_peaks s.row_peaks _ inhibition_radius min_response j = s.row_peaks j) ∧
    (∀ i, 4 ≤ i → i < (if cols ≠ 0 then s.imgHeight else s.imgWidth) - inhibition_radius →
      non_max_peaks s.row_peaks _ inhibition_radius min_response i ≠ 0 →
      (∀ r, 1 ≤ r → r < inhibition_radius →
        non_max_peaks s.row_peaks _ inhibition_radius min_response (i + r) = 0) ∧
      non_max_threshold s.row_peaks (if cols ≠ 0 then s.imgHeight else s.imgWidth)
        min_response ≤ s.row_peaks i ∧
      (∀ r, 1 ≤ r → r < inhibition_radius → s.row_peaks (i + r) < s.row_peaks i) ∧
      (∀ j, i < j → non_max_peaks s.row_peaks _ inhibition_radius min_response j ≠ 0 →
        i + inhibition_radius ≤ j))
  generalize (if cols ≠ 0 then s.imgHeight else s.imgWidth) = len
  unfold non_max_peaks
  by_cases hlen : 4 ≤ len - inhibition_radius
  · obtain ⟨I1, I2, _⟩ := non_max_loop_inv s.row_peaks hrp
      (non_max_threshold s.row_peaks len min_response) inhibition_radius hR
      (len - inhibition_radius - 4).toNat (len - inhibition_radius) (by omega)
    refine ⟨I1, ?_⟩
    intro i hi4 hil hne
    obtain ⟨ha, hb⟩ := I2 i hi4 hil hne
    refine ⟨fun r h1 h2 => (hb r h1 h2).2, ha, fun r h1 h2 => (hb r h1 h2).1, ?_⟩
    intro j hij hj
    by_contra hc
    exact hj (by
      have := (hb (j - i) (by omega) (by omega)).2
      rw [show i + (j - i) = j by ring] at this
      exact this)
  · rw [upto_nil 4 _ (by omega)]
    exact ⟨fun j => Or.inr rfl, fun i h1 h2 => absurd h2 (by omega)⟩

theorem non_max_suppression_witness :
    (non_max nonMaxScenario 0 2 0).row_peaks (6 + 1) = 0 :=
  ((non_max_suppression nonMaxScenario 0 2 0 (arrayOf_nonneg _ (by decide)) (by decide)
    (by decide)).2 6 (by decide) (by decide) (by decide)).1 1 (by decide) (by decide)

/-! ## Cells of the disparity map -/

/-- In `lateImages` the only candidate of hypothesis 1 that passes the cross-check at
pixel (2, 2) is the last one, `1 * 4 + 7 = 11`, which is stored although
`max_disparity_pixels` is 8. -/
theorem late_candidate_stored :
    flatSpace.no_of_disparities = 2 ∧ cdiv (25 * 32) 100 = 8 ∧
    update_pairs lateImages flatSpace 2 2 (upto 0 flatSpace.no_of_disparities) (0, 0) = (45, 11) := by
  with_unfolding_all decide

theorem first_cross_checked_some (p : DenseParams) (thr base x y : Int) (d : Int) :
    ∀ l : List Int, first_cross_checked p thr base x y l = some d → ∃ t ∈ l, d = base + t := by
  intro l
  induction l with
  | nil => intro h; simp [first_cross_checked] at h
  | cons t l ih =>
    intro h
    simp only [first_cross_checked] at h
    have hrest : first_cross_checked p thr base x y l = some d → ∃ t2 ∈ t :: l, d = base + t2 := by
      intro h2
      obtain ⟨t2, ht2, e⟩ := ih h2
      exact ⟨t2, List.mem_cons_of_mem _ ht2, e⟩
    split at h
    · split at h
      · split at h
        · exact ⟨t, List.mem_cons_self _ _, (Option.some.inj h).symm⟩
        · exact hrest h
      · exact hrest h
    · exact hrest h

theorem update_pair_from_hypothesis (p : DenseParams) (q : SpaceParams)
    (hstep : 0 ≤ q.disparity_step)
    (hfit : (q.no_of_disparities - 1) * q.disparity_step + 7 < 2147483648) (x y : Int)
    (cell : Int × Int) (k : Int) (hk : 0 ≤ k ∧ k < q.no_of_disparities)
    (h : PairFromHypothesis q x y cell) :
    PairFromHypothesis q x y (update_pair p q x y cell k) := by
  unfold update_pair
  simp only []
  split
  · rename_i hc
    cases hf : first_cross_checked p q.similarity_threshold (k * q.disparity_step) x y (upto 0 8) with
    | none => exact h
    | some d =>
      obtain ⟨t, ht, e⟩ := first_cross_checked_some p _ _ x y d _ hf
      rw [mem_upto] at ht
      have h1 : 0 ≤ k * q.disparity_step := Int.mul_nonneg hk.1 hstep
      have h2 : k * q.disparity_step ≤ (q.no_of_disparities - 1) * q.disparity_step :=
        Int.mul_le_mul_of_nonneg_right (by omega) hstep
      have h3 : u32 d = d := u32_small d ⟨by omega, by omega⟩
      right
      refine ⟨hc.1, k, hk, rfl, ?_, ?_⟩
      · show k * q.disparity_step ≤ u32 d
        omega
      · show u32 d ≤ k * q.disparity_step + 7
        omega
  · exact h

theorem update_pairs_from_hypothesis (p : DenseParams) (q : SpaceParams)
    (hstep : 0 ≤ q.disparity_step)
    (hfit : (q.no_of_disparities - 1) * q.disparity_step + 7 < 2147483648) (x y : Int) :
    PairFromHypothesis q x y (update_pairs p q x y (upto 0 q.no_of_disparities) (0, 0)) := by
  unfold update_pairs
  refine foldl_invariant (PairFromHypothesis q x y) _ _ _ (Or.inl rfl) ?_
  intro cell k hk hcell
  exact update_pair_from_hypothesis p q hstep hfit x y cell k ((mem_upto _ _ _).1 hk) hcell

/-- The pair of a pixel outside the interior is left as it was by every hypothesis. -/
theorem disparity_map_loop_border (p : DenseParams) (q : SpaceParams) (x y : Int)
    (hx : 0 ≤ x ∧ x < q.disparity_space_width)
    (hb : ¬ ((1 ≤ y ∧ y < q.disparity_space_height - 1) ∧
      (1 ≤ x ∧ x < q.disparity_space_width - 1))) :
    ∀ (ks : List Int) (dm : Int → Int),
      (disparity_map_loop p q ks dm ((y * q.disparity_space_width + x) * 2),
       disparity_map_loop p q ks dm ((y * q.disparity_space_width + x) * 2 + 1))
        = (dm ((y * q.disparity_space_width + x) * 2),
            dm ((y * q.disparity_space_width + x) * 2 + 1)) := by
  intro ks
  induction ks with
  | nil => intro dm; rfl
  | cons k ks ih =>
    intro dm
    have hrec : disparity_map_loop p q (k :: ks) dm
        = disparity_map_loop p q ks
            ((interior_pixels q.disparity_space_width q.disparity_space_height).foldl
              (disparity_map_step p q k) dm) := rfl
    rw [hrec, ih]
    have hl := disparity_map_layer p q k x y hx
      (interior_pixels q.disparity_space_width q.disparity_space_height)
      (nodup_interior_pixels _ _)
      (fun yx hyx => by
        have := (mem_interior_pixels _ _ yx).1 hyx
        exact ⟨by omega, by omega⟩) dm
    rw [if_neg (fun hm => hb ((mem_interior_pixels _ _ (y, x)).1 hm))] at hl
    exact hl

/-- C28: with a non-negative `disparity_step` and candidate disparities that fit an
`int`, after `disparity_map_from_disparity_space` the pair of every pixel `(x, y)` of the
map is (confidence 0, disparity 0) - as it is for every border pixel - or has a
confidence `c > 0` and a disparity `d` such that some hypothesis `k < no_of_disparities`
has combined score `c` at that pixel and `k * disparity_step ≤ d ≤ k * disparity_step + 7`;
so a stored disparity is at most `(no_of_disparities - 1) * disparity_step + 7`, and this
largest value is stored in `lateImages`, where it is 11 while `max_disparity_pixels` is 8. -/
theorem disparity_map_cells (p : DenseParams) (q : SpaceParams) (disparity_map : Int → Int)
    (hstep : 0 ≤ q.disparity_step)
    (hfit : (q.no_of_disparities - 1) * q.disparity_step + 7 < 2147483648) :
    (∀ x y : Int, (0 ≤ x ∧ x < q.disparity_space_width) →
      (0 ≤ y ∧ y < q.disparity_space_height) →
      PairFromHypothesis q x y
        (disparity_map_from_disparity_space p q disparity_map
          ((y * q.disparity_space_width + x) * 2),
         disparity_map_from_disparity_space p q disparity_map
          ((y * q.disparity_space_width + x) * 2 + 1)) ∧
      ((x = 0 ∨ x = q.disparity_space_width - 1 ∨ y = 0 ∨ y = q.disparity_space_height - 1) →
        disparity_map_from_disparity_space p q disparity_map
          ((y * q.disparity_space_width + x) * 2) = 0 ∧
        disparity_map_from_disparity_space p q disparity_map
          ((y * q.disparity_space_width + x) * 2 + 1) = 0) ∧
      (0 < disparity_map_from_disparity_space p q disparity_map
          ((y * q.disparity_space_width + x) * 2) →
        disparity_map_from_disparity_space p q disparity_map
            ((y * q.disparity_space_width + x) * 2 + 1) ≤
          (q.no_of_disparities - 1) * q.disparity_step + 7)) ∧
    (disparity_map_from_disparity_space lateImages flatSpace (fun _ => 0)
        ((2 * flatSpace.disparity_space_width + 2) * 2 + 1) =
      (flatSpace.no_of_disparities - 1) * flatSpace.disparity_step + 7 ∧
     cdiv (25 * 32) 100 <
      (flatSpace.no_of_disparities - 1) * flatSpace.disparity_step + 7) := by
  have hcell : ∀ x y : Int, (0 ≤ x ∧ x < q.disparity_space_width) →
      (0 ≤ y ∧ y < q.disparity_space_height) →
      PairFromHypothesis q x y
        (disparity_map_from_disparity_space p q disparity_map
          ((y * q.disparity_space_width + x) * 2),
         disparity_map_from_disparity_space p q disparity_map
          ((y * q.disparity_space_width + x) * 2 + 1)) ∧
      (¬ ((1 ≤ y ∧ y < q.disparity_space_height - 1) ∧
          (1 ≤ x ∧ x < q.disparity_space_width - 1)) →
        disparity_map_from_disparity_space p q disparity_map
          ((y * q.disparity_space_width + x) * 2) = 0 ∧
        disparity_map_from_disparity_space p q disparity_map
          ((y * q.disparity_space_width + x) * 2 + 1) = 0) := by
    intro x y hx hy
    by_cases hint : (1 ≤ y ∧ y < q.disparity_space_height - 1) ∧
        (1 ≤ x ∧ x < q.disparity_space_width - 1)
    · rw [disparity_map_pair p q disparity_map x y hint.1 hint.2]
      exact ⟨update_pairs_from_hypothesis p q hstep hfit x y, fun hb => absurd hint hb⟩
    · have hl := disparity_map_loop_border p q x y hx hint (upto 0 q.no_of_disparities)
        (memset0 disparity_map (q.disparity_space_width * q.disparity_space_height * 2))
      have h1 : 0 ≤ y * q.disparity_space_width + x := by nlinarith
      have h2 : y * q.disparity_space_width + x
          < q.disparity_space_width * q.disparity_space_height := by nlinarith
      have e1 : memset0 disparity_map (q.disparity_space_width * q.disparity_space_height * 2)
          ((y * q.disparity_space_width + x) * 2) = 0 := by
        unfold memset0; rw [if_pos ⟨by omega, by omega⟩]
      have e2 : memset0 disparity_map (q.disparity_space_width * q.disparity_space_height * 2)
          ((y * q.disparity_space_width + x) * 2 + 1) = 0 := by
        unfold memset0; rw [if_pos ⟨by omega, by omega⟩]
      rw [e1, e2] at hl
      have hl1 := congrArg Prod.fst hl
      have hl2 := congrArg Prod.snd hl
      simp only at hl1 hl2
      unfold disparity_map_from_disparity_space
      rw [hl1, hl2]
      exact ⟨Or.inl rfl, fun _ => ⟨rfl, rfl⟩⟩
  refine ⟨?_, ?_⟩
  · intro x y hx hy
    obtain ⟨ha, hb⟩ := hcell x y hx hy
    refine ⟨ha, fun hbord => hb (by omega), ?_⟩
    intro hpos
    rcases ha with h0 | ⟨_, k, hk, _, _, hle⟩
    · have h1 := congrArg Prod.fst h0
      simp only at h1
      omega
    · have h2 : k * q.disparity_step ≤ (q.no_of_disparities - 1) * q.disparity_step :=
        Int.mul_le_mul_of_nonneg_right (by omega) hstep
      simp only at hle
      omega
  · have h := late_candidate_stored
    have hp := disparity_map_pair lateImages flatSpace (fun _ => 0) 2 2 (by decide) (by decide)
    rw [h.2.2] at hp
    have hp2 := congrArg Prod.snd hp
    simp only at hp2
    rw [hp2, h.1]
    decide

theorem disparity_map_cells_witness :
    PairFromHypothesis flatSpace 2 2
      (disparity_map_from_disparity_space lateImages flatSpace (fun _ => 0)
        ((2 * flatSpace.disparity_space_width + 2) * 2),
       disparity_map_from_disparity_space lateImages flatSpace (fun _ => 0)
        ((2 * flatSpace.disparity_space_width + 2) * 2 + 1)) :=
  ((disparity_map_cells lateImages flatSpace (fun _ => 0) (by decide) (by decide)).1 2 2
    (by decide) (by decide)).1

/-! ## match with few candidates -/

theorem match_left_untouched (hdr : Header) (s other : Svs) (a : MatchParams) (y row fL fR : Int)
    (no_of_feats_right : Int) (meandescL meandescR : Nat) (st : Primary × Int) (L : Int)
    (h : PrimaryFrame s st.1.s) :
    PrimaryFrame s
      (match_left hdr other a y row fL fR no_of_feats_right meandescL meandescR st L).1.s := by
  unfold match_left
  simp only
  split_ifs <;> exact h

theorem match_row_untouched (hdr : Header) (s other : Svs) (a : MatchParams) (st : RowState)
    (y : Int) (h : PrimaryFrame s st.pr.s) :
    PrimaryFrame s (match_row hdr other a st y).pr.s := by
  unfold match_row
  simp only
  exact foldl_invariant (fun (q : Primary × Int) => PrimaryFrame s q.1.s) _ _ _ h
    (fun q L _ hq => match_left_untouched hdr s other a _ _ _ _ _ _ _ q L hq)

theorem match_primary_untouched (hdr : Header) (s other : Svs) (a : MatchParams) :
    PrimaryFrame s (match_primary hdr s other a).s := by
  unfold match_primary
  exact foldl_invariant (fun (q : RowState) => PrimaryFrame s q.pr.s) _ _ _
    ⟨rfl, rfl, rfl, rfl⟩ (fun q y _ hq => match_row_untouched hdr s other a q y hq)

/-- C30: if the primary stage of `match` produces at most 20 candidates, `match` returns
0 and the object is left as the primary stage left it - no filtering, selection or
propagation takes place: the prior grid, the peak history, its index, the enable flag
and the quadrant counts are those before the call. -/
theorem match_few_candidates (hdr : Header) (s other : Svs) (a : MatchParams)
    (h : (match_primary hdr s other a).no_of_possible_matches ≤ 20) :
    (svs_match hdr s other a).1 = 0 ∧
    (svs_match hdr s other a).2 = (match_primary hdr s other a).s ∧
    (svs_match hdr s other a).2.disparity_priors = s.disparity_priors ∧
    (svs_match hdr s other a).2.peaks_history = s.peaks_history ∧
    (svs_match hdr s other a).2.peaks_history_index = s.peaks_history_index ∧
    (svs_match hdr s other a).2.enable_peaks_filter = s.enable_peaks_filter ∧
    (svs_match hdr s other a).2.valid_quadrants = s.valid_quadrants := by
  have e : svs_match hdr s other a = (0, (match_primary hdr s other a).s) := by
    unfold svs_match
    simp only
    rw [if_neg (by omega)]
  have hi := match_primary_inv hdr s other a
  have hf := match_primary_untouched hdr s other a
  rw [e]
  exact ⟨rfl, rfl, hi.2.1, hi.2.2.1, hf.1, hf.2.1, hf.2.2.1⟩

/-- Instance of `match_few_candidates`: in a running session with the priors enabled the
primary stage records one candidate, `match` returns 0, and the priors, the peak
history, its index 3 and the enabled flag are those before the call. -/
theorem match_few_candidates_witness :
    ((match_primary exampleHeader usedSingleLeft singleRight heavyPriorParams).no_of_possible_matches = 1 ∧
      match_record (svs_match exampleHeader usedSingleLeft singleRight heavyPriorParams).2.svs_matches 0
        = (285, 20, 4, 5)) ∧
    (svs_match exampleHeader usedSingleLeft singleRight heavyPriorParams).1 = 0 ∧
    (svs_match exampleHeader usedSingleLeft singleRight heavyPriorParams).2
      = (match_primary exampleHeader usedSingleLeft singleRight heavyPriorParams).s ∧
    (svs_match exampleHeader usedSingleLeft singleRight heavyPriorParams).2.disparity_priors
      = usedSingleLeft.disparity_priors ∧
    (svs_match exampleHeader usedSingleLeft singleRight heavyPriorParams).2.peaks_history
      = usedSingleLeft.peaks_history ∧
    (svs_match exampleHeader usedSingleLeft singleRight heavyPriorParams).2.peaks_history_index
      = usedSingleLeft.peaks_history_index ∧
    (svs_match exampleHeader usedSingleLeft singleRight heavyPriorParams).2.enable_peaks_filter
      = usedSingleLeft.enable_peaks_filter ∧
    (svs_match exampleHeader usedSingleLeft singleRight heavyPriorParams).2.valid_quadrants
      = usedSingleLeft.valid_quadrants :=
  ⟨by with_unfolding_all decide,
    match_few_candidates exampleHeader usedSingleLeft singleRight heavyPriorParams
      (by with_unfolding_all decide)⟩

end Stereo
